import Mathlib

/-!
# vAmiga: TOD counter, audio state machine, interrupt controller, potentiometer scan,
ring buffers, event queue and file system

A shallow embedding of `TOD.cpp`, `StateMachine.cpp`, `Paula.cpp`, `Buffers.h` and
`FSDevice.cpp`.
Unsigned machine integers are natural numbers reduced modulo `2^w` where the
source truncates, signed ones are integers.  Functions guarded by `assert`
return `none` when the assertion fails.  Loops over linked blocks are given
`numBlocks + 1` iterations, which the theorems show to suffice.
-/

namespace VAmiga

/-! ## Machine-integer helpers -/

/-- Truncation to `uint8_t`. -/
def u8 (x : Nat) : Nat := x % 256

/-- Truncation to `uint16_t`. -/
def u16 (x : Nat) : Nat := x % 65536

/-- The cast `(int8_t)x` of an unsigned value: the low byte read as two's complement. -/
def toInt8 (x : Nat) : Int :=
  if x % 256 < 128 then ((x % 256 : Nat) : Int) else ((x % 256 : Nat) : Int) - 256

/-- The conversion of an `int` to `int16_t` (the return type of `StateMachine::execute`). -/
def toInt16 (x : Int) : Int :=
  (x + 32768) % 65536 - 32768

/-- `MIN(a,b)` as used in the source. -/
def MIN (a b : Nat) : Nat := if a < b then a else b

/-- Modelled from the spec: the macro `HI_BYTE` is not part of the available sources;
it yields the upper byte of a 16-bit word ("emit high byte"). -/
def HI_BYTE (x : Nat) : Nat := u8 (x >>> 8)

/-- Modelled from the spec: the macro `LO_BYTE` is not part of the available sources;
it yields the lower byte of a 16-bit word ("emit low byte"). -/
def LO_BYTE (x : Nat) : Nat := u8 (x &&& 0xFF)

/-- Modelled from the spec: the macro `GET_BIT` is not part of the available sources;
it tests bit `nr` of `x`. -/
def GET_BIT (x nr : Nat) : Bool := x &&& (1 <<< nr) != 0

/-- Modelled from the spec: the macro `SET_BIT` is not part of the available sources;
it ORs bit `nr` into `x` ("force-OR'd into fixed bit positions"). -/
def SET_BIT (x nr : Nat) : Nat := x ||| (1 <<< nr)

/-! ## TOD counter (`TOD.cpp`) -/

/-- Modelled from the spec: the declaration of `Counter24` is not part of the available
sources; the spec describes it as three base-256 digits (lo/mid/hi) forming a 24-bit
counter. -/
structure Counter24 where
  hi : Nat
  mid : Nat
  lo : Nat
deriving DecidableEq, Repr

/-- The 24-bit value `tod.value` formed by the three digits. -/
def Counter24.value (c : Counter24) : Nat := c.hi * 65536 + c.mid * 256 + c.lo

/-- Every digit is a byte. -/
def Counter24.wf (c : Counter24) : Prop := c.hi < 256 ∧ c.mid < 256 ∧ c.lo < 256

instance (c : Counter24) : Decidable c.wf := by
  unfold Counter24.wf; exact inferInstance

/-- The CIA owning the counter.  `todInterrupt` is not part of the available sources;
the model records how often it has been called. -/
structure CIA where
  todInterrupts : Nat
deriving DecidableEq, Repr

/-- `CIA::todInterrupt()`: one more call observed. -/
def CIA.todInterrupt (c : CIA) : CIA := { c with todInterrupts := c.todInterrupts + 1 }

/-- The state of a `TOD` object: the snapshot items of the constructor plus the CIA it
reports to. -/
structure TOD where
  tod : Counter24
  latch : Counter24
  alarm : Counter24
  frozen : Bool
  stopped : Bool
  matching : Bool
  cia : CIA
deriving DecidableEq, Repr

/-- `TOD::checkForInterrupt` (TOD.cpp 74-82). -/
def TOD.checkForInterrupt (t : TOD) : TOD :=
  let t1 :=
    if !t.matching && t.tod.value == t.alarm.value then
      { t with cia := t.cia.todInterrupt }
    else t
  { t1 with matching := t1.tod.value == t1.alarm.value }

/-- `TOD::increment` (TOD.cpp 59-72).  The three pre-increments act on `uint8_t`
digits. -/
def TOD.increment (t : TOD) : TOD :=
  if t.stopped then t
  else
    let lo := u8 (t.tod.lo + 1)
    let t1 := { t with tod := { t.tod with lo := lo } }
    let t2 :=
      if lo == 0 then
        let mid := u8 (t1.tod.mid + 1)
        let t1m := { t1 with tod := { t1.tod with mid := mid } }
        if mid == 0 then
          { t1m with tod := { t1m.tod with hi := u8 (t1m.tod.hi + 1) } }
        else t1m
      else t1
    t2.checkForInterrupt

/-! ## Event slots (`EventHandlerTypes.h`, Agnus) -/

/-- The enumeration `EventSlot` of `EventHandlerTypes.h` (lines 22-67), its 29 slots in
the order of the header.  Modelled from the spec: the slot identifiers `IRQ_SLOT` and
`IPL_SLOT` used by `Paula.cpp` are not declared in that header; the two names are added
after the entries of the header. -/
inductive EventSlot where
  | CIAA_SLOT | CIAB_SLOT | BPL_SLOT | DAS_SLOT | COP_SLOT | BLT_SLOT | SEC_SLOT
  | REG_COP_SLOT | REG_CPU_SLOT | DSK_SLOT
  | IRQ_TBE_SLOT | IRQ_DSKBLK_SLOT | IRQ_SOFT_SLOT | IRQ_PORTS_SLOT | IRQ_COPR_SLOT
  | IRQ_VERTB_SLOT | IRQ_BLIT_SLOT | IRQ_AUD0_SLOT | IRQ_AUD1_SLOT | IRQ_AUD2_SLOT
  | IRQ_AUD3_SLOT | IRQ_RBF_SLOT | IRQ_DSKSYN_SLOT | IRQ_EXTER_SLOT
  | TXD_SLOT | RXD_SLOT | POT_SLOT | SYNC_SLOT | INSPECTOR_SLOT
  | IRQ_SLOT | IPL_SLOT
deriving DecidableEq, Repr

/-- Modelled from the spec: the event identifiers `IRQ_CHECK` and `IPL_CHANGE` used by
`Paula.cpp` are not declared in the available `EventHandlerTypes.h`; only the identifiers
the modelled code schedules are listed. -/
inductive EventID where
  | EVENT_NONE | IRQ_CHECK | IPL_CHANGE | POT_DISCHARGE | POT_CHARGE
deriving DecidableEq, Repr

/-- The time stamp of events that never trigger: `INT64_MAX`. -/
def NEVER : Int := 9223372036854775807

/-- The `struct Event` of `EventHandlerTypes.h`. -/
structure Event where
  triggerCycle : Int
  id : EventID
  data : Int
deriving DecidableEq, Repr

/-- The part of Agnus the modelled code touches: the clock, the slot table and the audio
DMA pointers. -/
structure Agnus where
  clock : Int
  slot : EventSlot → Event
  audlc : Nat → Nat

/-- Modelled from the spec: `Agnus::scheduleAbs` is not part of the available sources;
scheduling into a slot unconditionally replaces the pending event there. -/
def Agnus.scheduleAbs (ag : Agnus) (s : EventSlot) (cycle : Int) (id : EventID)
    (data : Int) : Agnus :=
  { ag with slot := Function.update ag.slot s ⟨cycle, id, data⟩ }

/-- Modelled from the spec: `Agnus::scheduleRel` is not part of the available sources;
the event is scheduled `cycle` cycles after the current clock. -/
def Agnus.scheduleRel (ag : Agnus) (s : EventSlot) (cycle : Int) (id : EventID)
    (data : Int) : Agnus :=
  ag.scheduleAbs s (ag.clock + cycle) id data

/-- Modelled from the spec: `Agnus::cancel` is not part of the available sources;
it sets the trigger of the slot to "never". -/
def Agnus.cancel (ag : Agnus) (s : EventSlot) : Agnus :=
  { ag with slot := Function.update ag.slot s { ag.slot s with triggerCycle := NEVER } }

/-- The collaborators whose code is not part of the available sources, taken as
parameters: the audio DMA fetch of Agnus (returned word and new Agnus state), the audio
DMA enable test and the macro `DMA_CYCLES`. -/
structure External where
  doAudioDMA : Agnus → Nat → Nat × Agnus
  audDMA : Agnus → Nat → Bool
  DMA_CYCLES : Int → Int

/-! ## Interrupt controller (`Paula.cpp`) -/

/-- The interrupt state of Paula: request and enable registers and the pending set
times of the 16 sources. -/
structure Paula where
  intreq : Nat
  intena : Nat
  setIntreq : Nat → Int

/-- The components reachable from Paula and the audio channels: Agnus, Paula, the IRQ
pins of the two CIAs (the value returned by `irqPin()`) and the CPU's IPL input. -/
structure Amiga where
  agnus : Agnus
  paula : Paula
  ciaaIrqPin : Nat
  ciabIrqPin : Nat
  cpuIPL : Int

/-- `Paula::interruptLevel` (Paula.cpp 342-365) on the two registers. -/
def interruptLevel (intreq intena : Nat) : Int :=
  if intena &&& 0x4000 ≠ 0 then
    let mask := u16 (u16 intreq &&& intena)
    if mask &&& 0b0110000000000000 ≠ 0 then 6
    else if mask &&& 0b0001100000000000 ≠ 0 then 5
    else if mask &&& 0b0000011110000000 ≠ 0 then 4
    else if mask &&& 0b0000000001110000 ≠ 0 then 3
    else if mask &&& 0b0000000000001000 ≠ 0 then 2
    else if mask &&& 0b0000000000000111 ≠ 0 then 1
    else 0
  else 0

/-- The priority table in the words of the specification: six bit groups of the masked
pattern, tried from the highest level down; `hit i` says that bit `i` is set. -/
def levelByGroups (hit : Nat → Bool) : Int :=
  if hit 13 || hit 14 then 6
  else if hit 11 || hit 12 then 5
  else if hit 7 || hit 8 || hit 9 || hit 10 then 4
  else if hit 4 || hit 5 || hit 6 then 3
  else if hit 3 then 2
  else if hit 0 || hit 1 || hit 2 then 1
  else 0

/-- `Paula::interruptLevel` as a method of the machine state. -/
def Amiga.interruptLevel (a : Amiga) : Int :=
  VAmiga.interruptLevel a.paula.intreq a.paula.intena

/-- `Paula::checkInterrupt` (Paula.cpp 367-371). -/
def Amiga.checkInterrupt (x : External) (a : Amiga) : Amiga :=
  let level := a.interruptLevel
  { a with
    agnus := a.agnus.scheduleRel EventSlot.IPL_SLOT (x.DMA_CYCLES 4) EventID.IPL_CHANGE level }

/-- `Paula::setINTREQ(bool, uint16_t)` (Paula.cpp 126-143); `none` when the assertion on
bit 15 fails. -/
def Amiga.setINTREQ (x : External) (a : Amiga) (setclr : Bool) (value : Nat) :
    Option Amiga :=
  let value := u16 value
  if value &&& 0x8000 ≠ 0 then none
  else
    let r0 := if setclr then a.paula.intreq ||| value
              else a.paula.intreq &&& (0xFFFF ^^^ value)
    let r1 := if a.ciaaIrqPin = 0 then SET_BIT r0 3 else r0
    let r2 := if a.ciabIrqPin = 0 then SET_BIT r1 13 else r1
    some (Amiga.checkInterrupt x { a with paula := { a.paula with intreq := u16 r2 } })

/-- `Paula::setINTENA(bool, uint16_t)` (Paula.cpp 145-154); `none` when the assertion on
bit 15 fails. -/
def Amiga.setINTENA (x : External) (a : Amiga) (setclr : Bool) (value : Nat) :
    Option Amiga :=
  let value := u16 value
  if value &&& 0x8000 ≠ 0 then none
  else
    let e := if setclr then a.paula.intena ||| value
             else a.paula.intena &&& (0xFFFF ^^^ value)
    some (Amiga.checkInterrupt x { a with paula := { a.paula with intena := u16 e } })

/-- Modelled from the spec: the one-argument overload `Paula::setINTREQ(uint16_t)` called
by `pokeINTREQ` is not part of the available sources; bit 15 of the written word selects
set or clear and the remaining 15 bits are the mask (the convention `pokeADKCON` spells
out in the same file). -/
def Amiga.setINTREQ1 (x : External) (a : Amiga) (value : Nat) : Option Amiga :=
  a.setINTREQ x (u16 value &&& 0x8000 != 0) (u16 value &&& 0x7FFF)

/-- `Paula::pokeINTREQ` (Paula.cpp 93-100). -/
def Amiga.pokeINTREQ (x : External) (a : Amiga) (value : Nat) : Option Amiga :=
  a.setINTREQ1 x (u16 value)

/-- `Paula::serviceIplEvent` (Paula.cpp 212-219); `none` when the assertion on the slot
id fails. -/
def Amiga.serviceIplEvent (a : Amiga) : Option Amiga :=
  if (a.agnus.slot EventSlot.IPL_SLOT).id ≠ EventID.IPL_CHANGE then none
  else
    some { a with
      cpuIPL := (a.agnus.slot EventSlot.IPL_SLOT).data
      agnus := a.agnus.cancel EventSlot.IPL_SLOT }


/-! ## Audio channel state machine (`StateMachine.cpp`) -/

/-- The registers of one audio channel (the snapshot items of the constructor) and the
channel number.  The period counter is signed (the source tests `audper < 0`); the other
registers are unsigned. -/
structure StateMachine where
  nr : Nat
  state : Nat
  audlenLatch : Nat
  audlen : Nat
  audperLatch : Nat
  audper : Int
  audvolLatch : Nat
  audvol : Nat
  auddatLatch : Nat
  auddat : Nat
  audlcLatch : Nat
deriving DecidableEq, Repr

/-- `StateMachine::pokeAUDxLEN` (StateMachine.cpp 87-93). -/
def StateMachine.pokeAUDxLEN (sm : StateMachine) (value : Nat) : StateMachine :=
  { sm with audlenLatch := u16 value }

/-- `StateMachine::pokeAUDxPER` (StateMachine.cpp 95-101). -/
def StateMachine.pokeAUDxPER (sm : StateMachine) (value : Nat) : StateMachine :=
  { sm with audperLatch := u16 value }

/-- `StateMachine::pokeAUDxVOL` (StateMachine.cpp 103-112). -/
def StateMachine.pokeAUDxVOL (sm : StateMachine) (value : Nat) : StateMachine :=
  { sm with audvolLatch := MIN (u16 value &&& 0x7F) 64 }

/-- `StateMachine::dmaMode` (StateMachine.cpp 133-137). -/
def StateMachine.dmaMode (x : External) (a : Amiga) (sm : StateMachine) : Bool :=
  x.audDMA a.agnus sm.nr

/-- `StateMachine::irqIsPending` (StateMachine.cpp 139-143). -/
def StateMachine.irqIsPending (a : Amiga) (sm : StateMachine) : Bool :=
  GET_BIT a.paula.intreq (7 + sm.nr)

/-- The word `0x8000 | (0x80 << nr)` the channel writes to INTREQ to request its
interrupt. -/
def StateMachine.irqWord (sm : StateMachine) : Nat :=
  0x8000 ||| (0x80 <<< sm.nr)

/-- `StateMachine::pokeAUDxDAT` (StateMachine.cpp 114-131). -/
def StateMachine.pokeAUDxDAT (x : External) (a : Amiga) (sm : StateMachine)
    (value : Nat) : Option (Amiga × StateMachine) :=
  let sm1 := { sm with auddatLatch := u16 value }
  if !sm1.dmaMode x a && !sm1.irqIsPending a then
    let sm2 := { sm1 with audvol := sm1.audvolLatch }
    let sm3 := { sm2 with audper := sm2.audper + sm2.audperLatch }
    (a.pokeINTREQ x sm3.irqWord).map fun a1 => (a1, sm3)
  else some (a, sm1)

/-- `StateMachine::execute` (StateMachine.cpp 145-265): the new machine state, the new
channel state and the returned sample; `none` when the `default` branch asserts. -/
def StateMachine.execute (x : External) (a : Amiga) (sm : StateMachine) (cycles : Int) :
    Option (Amiga × StateMachine × Int) :=
  let r : Option (Amiga × StateMachine) :=
    match sm.state with
    | 0 =>
      let sm1 := { sm with audlen := sm.audlenLatch }
      let a1 := { a with
        agnus := { a.agnus with audlc := Function.update a.agnus.audlc sm.nr sm.audlcLatch } }
      some (a1, { sm1 with audper := 0, state := 1 })
    | 1 =>
      let sm1 := if sm.audlen > 1 then { sm with audlen := sm.audlen - 1 } else sm
      (a.pokeINTREQ x sm1.irqWord).map fun a1 => (a1, { sm1 with state := 5 })
    | 2 =>
      let sm1 := { sm with audper := sm.audper - cycles }
      if sm1.audper < 0 then
        let sm2 := { sm1 with audper := sm1.audper + sm1.audperLatch }
        let sm3 := { sm2 with audvol := sm2.audvolLatch }
        let sm4 := { sm3 with auddat := HI_BYTE sm3.auddatLatch }
        some (a, { sm4 with state := 3 })
      else some (a, sm1)
    | 3 =>
      let sm1 := { sm with audper := sm.audper - cycles }
      if sm1.audper > 1 then some (a, sm1)
      else
        let sm2 := { sm1 with audper := sm1.audper + sm1.audperLatch }
        let sm3 := { sm2 with audvol := sm2.audvolLatch }
        let sm4 := { sm3 with auddat := LO_BYTE sm3.auddatLatch }
        let fetch := x.doAudioDMA a.agnus sm4.nr
        let a1 := { a with agnus := fetch.2 }
        let sm5 := { sm4 with auddatLatch := u16 fetch.1 }
        let sm6 := { sm5 with state := 2 }
        if sm6.dmaMode x a1 then
          if sm6.audlen > 1 then
            some (a1, { sm6 with audlen := sm6.audlen - 1 })
          else
            let sm7 := { sm6 with audlen := sm6.audlenLatch }
            let a2 := { a1 with
              agnus := { a1.agnus with
                audlc := Function.update a1.agnus.audlc sm7.nr sm7.audlcLatch } }
            (a2.pokeINTREQ x sm7.irqWord).map fun a3 => (a3, sm7)
        else
          (a1.pokeINTREQ x sm6.irqWord).map fun a2 =>
            (a2, if sm6.irqIsPending a2 then { sm6 with state := 0 } else sm6)
    | 5 =>
      let sm1 := { sm with audvol := sm.audvolLatch }
      let sm2 := { sm1 with audper := 0 }
      let fetch := x.doAudioDMA a.agnus sm2.nr
      let a1 := { a with agnus := fetch.2 }
      let sm3 := { sm2 with auddatLatch := u16 fetch.1 }
      if sm3.audlen > 1 then
        some (a1, { sm3 with audlen := sm3.audlen - 1, state := 2 })
      else
        let sm4 := { sm3 with audlen := sm3.audlenLatch }
        let a2 := { a1 with
          agnus := { a1.agnus with
            audlc := Function.update a1.agnus.audlc sm4.nr sm4.audlcLatch } }
        (a2.pokeINTREQ x sm4.irqWord).map fun a3 => (a3, { sm4 with state := 2 })
    | _ => none
  r.map fun p => (p.1, p.2, toInt16 (toInt8 p.2.auddat * (p.2.audvolLatch : Int)))

/-- The branch of `execute` that puts out the low byte (StateMachine.cpp 185-200) is
taken: the channel is in state 3 and the decremented period counter is not above 1. -/
def StateMachine.lowByteExpiry (sm : StateMachine) (cycles : Int) : Bool :=
  sm.state == 3 && !(sm.audper - cycles > 1)

/-- One of the two branches of `execute` that reload the length counter from its latch
(StateMachine.cpp 214-216 and 246-248) is taken: a state-3 expiry in DMA mode or a
state-5 step, with the length counter not above 1. -/
def StateMachine.lengthReload (x : External) (a : Amiga) (sm : StateMachine)
    (cycles : Int) : Bool :=
  (sm.state == 5 && !(sm.audlen > 1)) ||
  (sm.lowByteExpiry cycles &&
    sm.dmaMode x { a with agnus := (x.doAudioDMA a.agnus sm.nr).2 } && !(sm.audlen > 1))

/-- Repeated `execute` steps, one per entry of the list of cycle counts, up to and
including the first step that reloads the length counter: the number of low-byte
emissions made by these steps.  `none` when the list ends before a reload. -/
def StateMachine.emissionsUntilReload (x : External) :
    List Int → Amiga → StateMachine → Option Nat
  | [], _, _ => none
  | c :: cs, a, sm =>
    match sm.execute x a c with
    | none => none
    | some (a1, sm1, _) =>
      let e := if sm.lowByteExpiry c then 1 else 0
      if sm.lengthReload x a c then some e
      else (StateMachine.emissionsUntilReload x cs a1 sm1).map fun k => k + e


/-! ## Concrete machine states used to instantiate the theorems -/

/-- A running counter (not stopped, not frozen, matching flag clear, no interrupt seen)
with the given counter and alarm values. -/
def runningTOD (tod alarm : Counter24) : TOD :=
  ⟨tod, ⟨0, 0, 0⟩, alarm, false, false, false, ⟨0⟩⟩

/-- Collaborators for the examples: the DMA fetch returns the word 0 and leaves Agnus
alone, audio DMA is enabled for every channel, a DMA cycle lasts 8 master cycles. -/
def exampleExternal : External :=
  ⟨fun ag _ => (0, ag), fun _ _ => true, fun c => 8 * c⟩

/-- A machine at clock 0 with empty slots, cleared interrupt registers and both CIA IRQ
pins high. -/
def exampleAmiga : Amiga :=
  ⟨⟨0, fun _ => ⟨NEVER, EventID.EVENT_NONE, 0⟩, fun _ => 0⟩, ⟨0, 0, fun _ => NEVER⟩, 1, 1, 0⟩

/-- The machine `exampleAmiga` with the IRQ pins of both CIAs low. -/
def exampleAmigaPinsLow : Amiga :=
  { exampleAmiga with ciaaIrqPin := 0, ciabIrqPin := 0 }

/-- Channel 0 in state 0 (Idle) with length latch `N` and all other registers zero. -/
def idleChannel (N : Nat) : StateMachine :=
  ⟨0, 0, N, 0, 0, 0, 0, 0, 0, 0, 0⟩

/-- Channel 0 in state 2 with data register `0x80` (-128 as a signed byte), data latch
`0x7F80` and the given volume latch. -/
def playingChannel (vol : Nat) : StateMachine :=
  ⟨0, 2, 4, 4, 100, 50, vol, 0, 0x7F80, 0x80, 0⟩

/-! ## Delayed interrupt requests (`Paula.cpp`) -/

/-- `MIN(a,b)` on cycle counts. -/
def MINCycle (a b : Int) : Int := if a < b then a else b

/-- Modelled from the spec: the two-argument overload of `Agnus::scheduleAbs` is not part
of the available sources; the spec gives the data value the default 0. -/
def Agnus.scheduleAbs0 (ag : Agnus) (s : EventSlot) (cycle : Int) (id : EventID) : Agnus :=
  ag.scheduleAbs s cycle id 0

/-- The loop of `Paula::serviceIrqEvent` (Paula.cpp 197-206) over the listed sources:
the machine and the running minimum `next`; `none` when the assertion of `setINTREQ`
fails. -/
def Amiga.serviceIrqLoop (x : External) (clock : Int) :
    List Nat → Amiga → Int → Option (Amiga × Int)
  | [], a, next => some (a, next)
  | src :: rest, a, next =>
    if clock ≥ a.paula.setIntreq src then
      match a.setINTREQ x true (1 <<< src) with
      | none => none
      | some a1 =>
        Amiga.serviceIrqLoop x clock rest
          { a1 with paula := { a1.paula with
              setIntreq := Function.update a1.paula.setIntreq src NEVER } } next
    else
      Amiga.serviceIrqLoop x clock rest a (MINCycle next (a.paula.setIntreq src))

/-- `Paula::serviceIrqEvent` (Paula.cpp 188-210); `none` when an assertion fails. -/
def Amiga.serviceIrqEvent (x : External) (a : Amiga) : Option Amiga :=
  if (a.agnus.slot EventSlot.IRQ_SLOT).id ≠ EventID.IRQ_CHECK then none
  else
    match Amiga.serviceIrqLoop x a.agnus.clock (List.range 16) a NEVER with
    | none => none
    | some (a1, next) =>
      some { a1 with agnus := a1.agnus.scheduleAbs0 EventSlot.IRQ_SLOT next EventID.IRQ_CHECK }

/-! ## Virtual file system (`FSDevice.cpp`) -/

/-- Modelled from the spec: the enumeration `FSBlockType` is not part of the available
sources; these are the block variants the spec lists and `FSDevice.cpp` names. -/
inductive FSBlockType where
  | FS_UNKNOWN_BLOCK | FS_EMPTY_BLOCK | FS_BOOT_BLOCK | FS_ROOT_BLOCK | FS_BITMAP_BLOCK
  | FS_BITMAP_EXT_BLOCK | FS_USERDIR_BLOCK | FS_FILEHEADER_BLOCK | FS_FILELIST_BLOCK
  | FS_DATA_BLOCK_OFS | FS_DATA_BLOCK_FFS
deriving DecidableEq, Repr

/-- Modelled from the spec: the enumeration `FSVolumeType` is not part of the available
sources; `FS_NODOS` marks a partition without a file system, the other two are the
OFS/FFS dialects of the spec. -/
inductive FSVolumeType where
  | FS_NODOS | FS_OFS | FS_FFS
deriving DecidableEq, Repr

/-- Modelled from the spec: the enumeration `ErrorCode` is not part of the available
sources; these are the error codes `FSDevice.cpp` returns. -/
inductive ErrorCode where
  | ERROR_OK
  | ERROR_FS_UNSUPPORTED | ERROR_FS_WRONG_BSIZE | ERROR_FS_WRONG_CAPACITY
  | ERROR_FS_HAS_CYCLES | ERROR_FS_DIRECTORY_NOT_EMPTY
  | ERROR_FS_PTR_TO_UNKNOWN_BLOCK | ERROR_FS_PTR_TO_EMPTY_BLOCK
  | ERROR_FS_PTR_TO_BOOT_BLOCK | ERROR_FS_PTR_TO_ROOT_BLOCK
  | ERROR_FS_PTR_TO_BITMAP_BLOCK | ERROR_FS_PTR_TO_BITMAP_EXT_BLOCK
  | ERROR_FS_PTR_TO_USERDIR_BLOCK | ERROR_FS_PTR_TO_FILEHEADER_BLOCK
  | ERROR_FS_PTR_TO_FILELIST_BLOCK | ERROR_FS_PTR_TO_DATA_BLOCK
deriving DecidableEq, Repr

/-- Modelled from the spec: the class `FSName` is not part of the available sources; a
name is represented by `key`, its class under the comparison `isNamed` uses, and by the
value `hashValue()` returns. -/
structure FSName where
  key : Nat
  hashValue : Nat
deriving DecidableEq, Repr

/-- Modelled from the spec: the class `FSBlock` is not part of the available sources; a
block carries its number, its type, the index of the partition owning it, the hash table
of a directory block (its size and the value `getHashRef` returns for every index), the
next-hash reference chaining the blocks of one bucket, its name, the corruption marker
and its raw byte payload. -/
structure FSBlock where
  nr : Nat
  type : FSBlockType
  partition : Nat
  hashTableSize : Nat
  getHashRef : Nat → Nat
  nextHashRef : Nat
  name : FSName
  corrupted : Nat
  data : List Nat

/-- Modelled from the spec: `FSBlock::setHashRef` is not part of the available sources;
it stores a block reference in one bucket of the hash table. -/
def FSBlock.setHashRef (b : FSBlock) (nr ref : Nat) : FSBlock :=
  { b with getHashRef := Function.update b.getHashRef nr ref }

/-- Modelled from the spec: `FSBlock::setNextHashRef` is not part of the available
sources; it stores the reference to the next block of the bucket chain. -/
def FSBlock.setNextHashRef (b : FSBlock) (ref : Nat) : FSBlock :=
  { b with nextHashRef := ref }

/-- Modelled from the spec: `FSBlock::isNamed` is not part of the available sources; it
compares the name of the block with the given name. -/
def FSBlock.isNamed (b : FSBlock) (name : FSName) : Bool :=
  b.name.key == name.key

/-- Modelled from the spec: `FSBlock::hashValue` is not part of the available sources;
it is the hash value of the name of the block. -/
def FSBlock.hashValue (b : FSBlock) : Nat :=
  b.name.hashValue

/-- Modelled from the spec: `FSBlock::exportBlock(dst, size)` is not part of the
available sources, and the spec says no more than that a block carries a raw byte
payload; here it writes that payload (`size` bytes, a missing payload leaving the zeros
of the wiped buffer).  No theorem depends on which bytes are written. -/
def FSBlock.exportBlock (b : FSBlock) (size : Nat) : List Nat :=
  (b.data ++ List.replicate size 0).take size

/-- Modelled from the spec: `FSBlock::importBlock(src, size)` is not part of the
available sources, and the spec says no more than that a block carries a raw byte
payload; here it replaces that payload by `size` bytes read at `src`.  No theorem
depends on which bytes are stored. -/
def FSBlock.importBlock (b : FSBlock) (src : List Nat) (size : Nat) : FSBlock :=
  { b with data := src.take size }

/-- Modelled from the spec: the class `FSPartition` is not part of the available
sources; a partition is a contiguous range of blocks with a root block reference and a
file system dialect. -/
structure FSPartition where
  firstBlock : Nat
  lastBlock : Nat
  rootBlock : Nat
  dos : FSVolumeType
deriving DecidableEq, Repr

/-- The report `FSErrorReport` returned by `FSDevice::check`. -/
structure FSErrorReport where
  bitmapErrors : Int
  corruptedBlocks : Int
  firstErrorBlock : Int
  lastErrorBlock : Int
deriving DecidableEq, Repr

/-- The collaborators of `FSDevice` whose code is not part of the available sources,
taken as parameters: the per-block check `FSBlock::check(strict)` (number of errors),
the partition check `FSPartition::check(strict, report)`, the block type prediction
`FSPartition::predictBlockType(nr, data)` and the factory `FSBlock::makeWithType`
(`none` is the null pointer). -/
structure FSExternal where
  blockCheck : FSBlock → Bool → Nat
  partitionCheck : FSPartition → Bool → FSErrorReport → FSErrorReport
  predictBlockType : Nat → Nat → List Nat → FSBlockType
  makeWithType : Nat → Nat → FSBlockType → Option FSBlock

/-- The state of an `FSDevice`: the block storage, the partitions, the block size, the
current partition and the current directory.  `numBlocks` is the size of the block
storage (the constructor sizes `blocks` to the capacity the layout gives `numBlocks`),
and every block pointer is non-null (asserted at the end of `makeWithFormat`). -/
structure FSDevice where
  blocks : List FSBlock
  partitions : List FSPartition
  bsize : Nat
  cp : Nat
  cd : Nat

/-- The number of blocks of the device. -/
def FSDevice.numBlocks (d : FSDevice) : Nat := d.blocks.length

/-- `SSIZE_MAX`. -/
def SSIZE_MAX : Int := 9223372036854775807

/-- `FSDevice::blockPtr` (FSDevice.cpp 203-207); `none` is the null pointer. -/
def FSDevice.blockPtr (d : FSDevice) (nr : Nat) : Option FSBlock :=
  if nr < d.blocks.length then d.blocks[nr]? else none

/-- `FSDevice::blockType` (FSDevice.cpp 191-195). -/
def FSDevice.blockType (d : FSDevice) (nr : Nat) : FSBlockType :=
  match d.blockPtr nr with
  | some b => b.type
  | none => FSBlockType.FS_UNKNOWN_BLOCK

/-- `FSDevice::userDirBlockPtr` (FSDevice.cpp 245-252). -/
def FSDevice.userDirBlockPtr (d : FSDevice) (nr : Nat) : Option FSBlock :=
  match d.blockPtr nr with
  | some b => if b.type = FSBlockType.FS_USERDIR_BLOCK then some b else none
  | none => none

/-- `FSDevice::hashableBlockPtr` (FSDevice.cpp 283-292). -/
def FSDevice.hashableBlockPtr (d : FSDevice) (nr : Nat) : Option FSBlock :=
  match d.blockPtr nr with
  | some b =>
    if b.type = FSBlockType.FS_USERDIR_BLOCK ∨ b.type = FSBlockType.FS_FILEHEADER_BLOCK
    then some b else none
  | none => none

/-- Modelled from the spec: `FSBlock::getNextHashBlock` is not part of the available
sources; it is the hashable block the next-hash reference points to, the reference 0
being the null reference.  The result is the number of that block in the block storage. -/
def FSDevice.getNextHashBlock (d : FSDevice) (b : FSBlock) : Option Nat :=
  if b.nextHashRef = 0 then none
  else (d.hashableBlockPtr b.nextHashRef).map fun _ => b.nextHashRef

/-- `FSDevice::currentDirBlock` (FSDevice.cpp 302-316): the device with the possibly
healed current directory and the returned block pointer; the outer `none` stands for
the out-of-range access `partitions[cp]`. -/
def FSDevice.currentDirBlock (d : FSDevice) : Option (FSDevice × Option FSBlock) :=
  let valid : Bool :=
    match d.blockPtr d.cd with
    | some cdb =>
      cdb.type = FSBlockType.FS_ROOT_BLOCK ∨ cdb.type = FSBlockType.FS_USERDIR_BLOCK
    | none => false
  if valid then some (d, d.blockPtr d.cd)
  else
    match d.partitions[d.cp]? with
    | none => none
    | some p =>
      let d1 := { d with cd := p.rootBlock }
      some (d1, d1.blockPtr d1.cd)

/-- `FSDevice::checkBlockType(nr, type, altType)` (FSDevice.cpp 650-674). -/
def FSDevice.checkBlockType (d : FSDevice) (nr : Nat) (type altType : FSBlockType) :
    ErrorCode :=
  let t := d.blockType nr
  if t ≠ type ∧ t ≠ altType then
    match t with
    | FSBlockType.FS_EMPTY_BLOCK => ErrorCode.ERROR_FS_PTR_TO_EMPTY_BLOCK
    | FSBlockType.FS_BOOT_BLOCK => ErrorCode.ERROR_FS_PTR_TO_BOOT_BLOCK
    | FSBlockType.FS_ROOT_BLOCK => ErrorCode.ERROR_FS_PTR_TO_ROOT_BLOCK
    | FSBlockType.FS_BITMAP_BLOCK => ErrorCode.ERROR_FS_PTR_TO_BITMAP_BLOCK
    | FSBlockType.FS_BITMAP_EXT_BLOCK => ErrorCode.ERROR_FS_PTR_TO_BITMAP_EXT_BLOCK
    | FSBlockType.FS_USERDIR_BLOCK => ErrorCode.ERROR_FS_PTR_TO_USERDIR_BLOCK
    | FSBlockType.FS_FILEHEADER_BLOCK => ErrorCode.ERROR_FS_PTR_TO_FILEHEADER_BLOCK
    | FSBlockType.FS_FILELIST_BLOCK => ErrorCode.ERROR_FS_PTR_TO_FILELIST_BLOCK
    | FSBlockType.FS_DATA_BLOCK_OFS => ErrorCode.ERROR_FS_PTR_TO_DATA_BLOCK
    | FSBlockType.FS_DATA_BLOCK_FFS => ErrorCode.ERROR_FS_PTR_TO_DATA_BLOCK
    | _ => ErrorCode.ERROR_FS_PTR_TO_UNKNOWN_BLOCK
  else ErrorCode.ERROR_OK

/-- `FSDevice::checkBlockType(nr, type)` (FSDevice.cpp 644-648). -/
def FSDevice.checkBlockType1 (d : FSDevice) (nr : Nat) (type : FSBlockType) : ErrorCode :=
  d.checkBlockType nr type type

/-- The `while` loop of `FSDevice::seekRef` (FSDevice.cpp 439-451) with the set
`visited` as a list; the outer `none` means that the `fuel` iterations did not suffice. -/
def FSDevice.seekLoop (d : FSDevice) (name : FSName) :
    Nat → Nat → List Nat → Option Nat
  | 0, _, _ => none
  | fuel + 1, ref, visited =>
    if ref ≠ 0 ∧ ref ∉ visited then
      match d.hashableBlockPtr ref with
      | none => some 0
      | some item =>
        if item.isNamed name then some item.nr
        else FSDevice.seekLoop d name fuel item.nextHashRef (ref :: visited)
    else some 0

/-- `FSDevice::seekRef` (FSDevice.cpp 426-452): the device (whose current directory
`currentDirBlock` may have healed) and the returned block number.  The loop gets
`numBlocks + 1` iterations. -/
def FSDevice.seekRef (d : FSDevice) (name : FSName) : Option (FSDevice × Nat) :=
  match d.currentDirBlock with
  | none => none
  | some (d1, none) => some (d1, 0)
  | some (d1, some cdb) =>
    if cdb.hashTableSize = 0 then some (d1, 0)
    else
      let hash := name.hashValue % cdb.hashTableSize
      let ref := cdb.getHashRef hash
      (FSDevice.seekLoop d1 name (d1.numBlocks + 1) ref []).map fun r => (d1, r)

/-- The `while` loop of `FSDevice::lastHashBlockInChain(FSBlock *)` (FSDevice.cpp
501-515); block pointers are block numbers, the inner `none` is the null pointer and
the outer `none` means that the `fuel` iterations did not suffice. -/
def FSDevice.lastHashLoop (d : FSDevice) :
    Nat → Option Nat → List Nat → Option (Option Nat)
  | 0, _, _ => none
  | _ + 1, none, _ => some none
  | fuel + 1, some p, visited =>
    match d.blocks[p]? with
    | none => some none
    | some block =>
      if block.nr ∉ visited then
        match d.getNextHashBlock block with
        | none => some (some p)
        | some next => FSDevice.lastHashLoop d fuel (some next) (block.nr :: visited)
      else some none

/-- `FSDevice::lastHashBlockInChain(Block)` (FSDevice.cpp 494-499), the loop getting
`numBlocks + 1` iterations. -/
def FSDevice.lastHashBlockInChain (d : FSDevice) (start : Nat) : Option (Option Nat) :=
  match d.hashableBlockPtr start with
  | some _ => FSDevice.lastHashLoop d (d.numBlocks + 1) (some start) []
  | none => some none

/-- Writes `b` to position `nr` of the block storage: the effect of a mutation made
through the pointer `blocks[nr]`. -/
def FSDevice.setBlock (d : FSDevice) (nr : Nat) (b : FSBlock) : FSDevice :=
  { d with blocks := d.blocks.set nr b }

/-- `FSDevice::addHashRef(FSBlock *)` (FSDevice.cpp 462-479); `none` when
`partitions[cp]` is out of range or a loop ran out of iterations. -/
def FSDevice.addHashRefBlock (d : FSDevice) (newBlock : FSBlock) : Option FSDevice :=
  match d.currentDirBlock with
  | none => none
  | some (d1, none) => some d1
  | some (d1, some cdb) =>
    if cdb.hashTableSize = 0 then some d1
    else
      let hash := newBlock.hashValue % cdb.hashTableSize
      let ref := cdb.getHashRef hash
      if ref = 0 then some (d1.setBlock d1.cd (cdb.setHashRef hash newBlock.nr))
      else
        match d1.lastHashBlockInChain ref with
        | none => none
        | some none => some d1
        | some (some last) =>
          match d1.blocks[last]? with
          | none => some d1
          | some lastBlock => some (d1.setBlock last (lastBlock.setNextHashRef newBlock.nr))

/-- `FSDevice::addHashRef(Block)` (FSDevice.cpp 454-460). -/
def FSDevice.addHashRef (d : FSDevice) (nr : Nat) : Option FSDevice :=
  match d.hashableBlockPtr nr with
  | some block => d.addHashRefBlock block
  | none => some d

/-- The `for` loop of `FSDevice::collectRefsWithSameHashValue` (FSDevice.cpp 587-594):
the error code when a visited block is met, otherwise the local stack `refs` (top first)
and the set `visited`; the outer `none` means that the `fuel` iterations did not
suffice. -/
def FSDevice.collectChainLoop (d : FSDevice) :
    Nat → Option Nat → List Nat → List Nat → Option (ErrorCode × List Nat × List Nat)
  | 0, _, _, _ => none
  | _ + 1, none, refs, visited => some (ErrorCode.ERROR_OK, refs, visited)
  | fuel + 1, some p, refs, visited =>
    match d.blocks[p]? with
    | none => some (ErrorCode.ERROR_OK, refs, visited)
    | some b =>
      if b.nr ∈ visited then some (ErrorCode.ERROR_FS_HAS_CYCLES, refs, visited)
      else
        FSDevice.collectChainLoop d fuel (d.getNextHashBlock b) (b.nr :: refs)
          (b.nr :: visited)

/-- `FSDevice::collectRefsWithSameHashValue` (FSDevice.cpp 580-600): the error code, the
stack `result` (top first) and the set `visited`. -/
def FSDevice.collectRefsWithSameHashValue (d : FSDevice) (nr : Nat)
    (result visited : List Nat) : Option (ErrorCode × List Nat × List Nat) :=
  let start := (d.hashableBlockPtr nr).map fun _ => nr
  match FSDevice.collectChainLoop d (d.numBlocks + 1) start [] visited with
  | none => none
  | some (ErrorCode.ERROR_OK, refs, visited1) =>
    some (ErrorCode.ERROR_OK, refs.reverse ++ result, visited1)
  | some (e, _, visited1) => some (e, result, visited1)

/-- The `for` loop of `FSDevice::collectHashedRefs` (FSDevice.cpp 572-574) over the
listed hash table indices; the error codes returned by the calls are dropped. -/
def FSDevice.collectBuckets (d : FSDevice) (b : FSBlock) :
    List Nat → List Nat → List Nat → Option (List Nat × List Nat)
  | [], result, visited => some (result, visited)
  | i :: rest, result, visited =>
    match d.collectRefsWithSameHashValue (b.getHashRef i) result visited with
    | none => none
    | some (_, result1, visited1) => FSDevice.collectBuckets d b rest result1 visited1

/-- `FSDevice::collectHashedRefs` (FSDevice.cpp 565-578): the returned error code, the
stack `result` and the set `visited`.  The index runs from `hashTableSize()` down to 0. -/
def FSDevice.collectHashedRefs (d : FSDevice) (nr : Nat) (result visited : List Nat) :
    Option (ErrorCode × List Nat × List Nat) :=
  match d.blockPtr nr with
  | some b =>
    (FSDevice.collectBuckets d b (List.range (b.hashTableSize + 1)).reverse result
      visited).map fun r => (ErrorCode.ERROR_OK, r.1, r.2)
  | none => some (ErrorCode.ERROR_OK, result, visited)

/-- The `while` loop of `FSDevice::collect` (FSDevice.cpp 550-560): the vector `result`
in order; `none` means that the `fuel` iterations did not suffice. -/
def FSDevice.collectLoop (d : FSDevice) (recursive : Bool) :
    Nat → List Nat → List Nat → List Nat → Option (List Nat)
  | 0, _, _, _ => none
  | _ + 1, [], _, result => some result
  | fuel + 1, item :: remainingItems, visited, result =>
    if (d.userDirBlockPtr item).isSome ∧ recursive then
      match d.collectHashedRefs item remainingItems visited with
      | none => none
      | some (_, remaining1, visited1) =>
        FSDevice.collectLoop d recursive fuel remaining1 visited1 (result ++ [item])
    else FSDevice.collectLoop d recursive fuel remainingItems visited (result ++ [item])

/-- `FSDevice::collect` (FSDevice.cpp 540-563): the returned error code and the vector
`result` after the call.  The loop gets `numBlocks + 1` iterations. -/
def FSDevice.collect (d : FSDevice) (nr : Nat) (result : List Nat) (recursive : Bool) :
    Option (ErrorCode × List Nat) :=
  match d.collectHashedRefs nr [] [] with
  | none => none
  | some (_, remainingItems, visited) =>
    (FSDevice.collectLoop d recursive (d.numBlocks + 1) remainingItems visited result).map
      fun r => (ErrorCode.ERROR_OK, r)

/-- The loop of `FSDevice::check` over the blocks (FSDevice.cpp 613-622), from block
number `i` on: the blocks with their new corruption markers and the final values of
`total`, `min` and `max`. -/
def FSDevice.checkLoop (x : FSExternal) (strict : Bool) :
    List FSBlock → Nat → Nat → Int → Int → List FSBlock × Nat × Int × Int
  | [], _, total, mn, mx => ([], total, mn, mx)
  | b :: rest, i, total, mn, mx =>
    if x.blockCheck b strict > 0 then
      let r := FSDevice.checkLoop x strict rest (i + 1) (total + 1) (min mn (i : Int))
        (max mx (i : Int))
      ({ b with corrupted := total + 1 } :: r.1, r.2)
    else
      let r := FSDevice.checkLoop x strict rest (i + 1) total mn mx
      ({ b with corrupted := 0 } :: r.1, r.2)

/-- `FSDevice::check(bool strict)` (FSDevice.cpp 602-636): the report and the device
with the corruption markers the call has written. -/
def FSDevice.check (x : FSExternal) (d : FSDevice) (strict : Bool) :
    FSErrorReport × FSDevice :=
  let result0 : FSErrorReport := ⟨0, 0, 0, 0⟩
  let result1 := d.partitions.foldl (fun r p => x.partitionCheck p strict r) result0
  let r := FSDevice.checkLoop x strict d.blocks 0 0 SSIZE_MAX 0
  let total := r.2.1
  let result2 : FSErrorReport :=
    if total ≠ 0 then
      { result1 with corruptedBlocks := total, firstErrorBlock := r.2.2.1,
                     lastErrorBlock := r.2.2.2 }
    else
      { result1 with corruptedBlocks := 0, firstErrorBlock := r.2.2.1,
                     lastErrorBlock := r.2.2.2 }
  (result2, { d with blocks := r.1 })

/-- The import loop of `FSDevice::importVolume` (FSDevice.cpp 785-806), from block number
`i` on: `false` when `makeWithType` returns the null pointer (the blocks before it are
already replaced), and the block storage. -/
def FSDevice.importLoop (x : FSExternal) (bsize : Nat) (src : List Nat) :
    List FSBlock → Nat → Bool × List FSBlock
  | [], _ => (true, [])
  | old :: rest, i =>
    let data := src.drop (i * bsize)
    let type := x.predictBlockType old.partition i data
    match x.makeWithType old.partition i type with
    | none => (false, old :: rest)
    | some newBlock =>
      let r := FSDevice.importLoop x bsize src rest (i + 1)
      (r.1, newBlock.importBlock data bsize :: r.2)

/-- `FSDevice::importVolume(src, size, err)` (FSDevice.cpp 759-815) with a non-null
`err`: the returned flag, the value written to `*err` (`none` when nothing is written)
and the device. -/
def FSDevice.importVolume (x : FSExternal) (d : FSDevice) (src : List Nat) (size : Nat) :
    Bool × Option ErrorCode × FSDevice :=
  if size % d.bsize ≠ 0 then (false, some ErrorCode.ERROR_FS_WRONG_BSIZE, d)
  else if d.numBlocks * d.bsize ≠ size then (false, some ErrorCode.ERROR_FS_WRONG_CAPACITY, d)
  else if d.partitions.any (fun it => it.dos = FSVolumeType.FS_NODOS) then
    (false, some ErrorCode.ERROR_FS_UNSUPPORTED, d)
  else
    let r := FSDevice.importLoop x d.bsize src d.blocks 0
    if r.1 then (true, some ErrorCode.ERROR_OK, { d with blocks := r.2 })
    else (false, none, { d with blocks := r.2 })

/-- The export loop of `FSDevice::exportBlocks` (FSDevice.cpp 878-881): the bytes the
listed blocks write, one after the other. -/
def FSDevice.exportLoop (bsize : Nat) : List FSBlock → List Nat
  | [] => []
  | b :: rest => b.exportBlock bsize ++ FSDevice.exportLoop bsize rest

/-- `FSDevice::exportBlocks(first, last, dst, size, err)` (FSDevice.cpp 851-887) with a
non-null `err`: the returned flag, the value written to `*err` and the buffer `dst`
after the call; the outer `none` when an assertion fails.  `first` and `last` are 32-bit
block numbers; the first assertion compares with `(Block)numBlocks`, the block count
reduced to 32 bits, and `last - first + 1` is computed in 32 bits. -/
def FSDevice.exportBlocks (d : FSDevice) (first last : Nat) (dst : List Nat) (size : Nat) :
    Option (Bool × Option ErrorCode × List Nat) :=
  if ¬ (last < d.numBlocks % 4294967296) ∨ ¬ (first ≤ last) then none
  else
    let count := (last - first + 1) % 4294967296
    if size % d.bsize ≠ 0 then some (false, some ErrorCode.ERROR_FS_WRONG_BSIZE, dst)
    else if count * d.bsize ≠ size then
      some (false, some ErrorCode.ERROR_FS_WRONG_CAPACITY, dst)
    else
      let written := FSDevice.exportLoop d.bsize ((d.blocks.drop first).take count)
      some (true, some ErrorCode.ERROR_OK, written ++ dst.drop size)

/-- `FSDevice::exportVolume(dst, size, err)` (FSDevice.cpp 823-827); the block number
`numBlocks - 1` is computed in 32 bits. -/
def FSDevice.exportVolume (d : FSDevice) (dst : List Nat) (size : Nat) :
    Option (Bool × Option ErrorCode × List Nat) :=
  d.exportBlocks 0 ((d.numBlocks + 4294967296 - 1) % 4294967296) dst size

/-- The error naming a block type, in the words of the specification: the closed
taxonomy pointer-to-empty/boot/root/bitmap/bitmap-extension/user-dir/file-header/
file-list/data/unknown. -/
def ptrErrorOf : FSBlockType → ErrorCode
  | FSBlockType.FS_EMPTY_BLOCK => ErrorCode.ERROR_FS_PTR_TO_EMPTY_BLOCK
  | FSBlockType.FS_BOOT_BLOCK => ErrorCode.ERROR_FS_PTR_TO_BOOT_BLOCK
  | FSBlockType.FS_ROOT_BLOCK => ErrorCode.ERROR_FS_PTR_TO_ROOT_BLOCK
  | FSBlockType.FS_BITMAP_BLOCK => ErrorCode.ERROR_FS_PTR_TO_BITMAP_BLOCK
  | FSBlockType.FS_BITMAP_EXT_BLOCK => ErrorCode.ERROR_FS_PTR_TO_BITMAP_EXT_BLOCK
  | FSBlockType.FS_USERDIR_BLOCK => ErrorCode.ERROR_FS_PTR_TO_USERDIR_BLOCK
  | FSBlockType.FS_FILEHEADER_BLOCK => ErrorCode.ERROR_FS_PTR_TO_FILEHEADER_BLOCK
  | FSBlockType.FS_FILELIST_BLOCK => ErrorCode.ERROR_FS_PTR_TO_FILELIST_BLOCK
  | FSBlockType.FS_DATA_BLOCK_OFS => ErrorCode.ERROR_FS_PTR_TO_DATA_BLOCK
  | FSBlockType.FS_DATA_BLOCK_FFS => ErrorCode.ERROR_FS_PTR_TO_DATA_BLOCK
  | FSBlockType.FS_UNKNOWN_BLOCK => ErrorCode.ERROR_FS_PTR_TO_UNKNOWN_BLOCK

/-- The `k`-th reference of the bucket chain that starts at `start`: each step follows
the next-hash reference of the hashable block the reference points to (0 when it points
to none). -/
def FSDevice.chainRef (d : FSDevice) (start : Nat) : Nat → Nat
  | 0 => start
  | k + 1 =>
    match d.hashableBlockPtr (FSDevice.chainRef d start k) with
    | some b => b.nextHashRef
    | none => 0

/-- The traversal of `seekRef` passes position `i` of the chain: the reference is not
null, was not met before, and points to a hashable block with a different name. -/
def FSDevice.SeekPasses (d : FSDevice) (name : FSName) (start i : Nat) : Prop :=
  d.chainRef start i ≠ 0 ∧ (∀ j, j < i → d.chainRef start j ≠ d.chainRef start i) ∧
  ∃ b, d.hashableBlockPtr (d.chainRef start i) = some b ∧ b.isNamed name = false

/-- The traversal of `seekRef` ends at position `k` of the chain with result `r`: either
the reference is not null, was not met before and points to a hashable block with the
name sought, `r` being the number of that block; or `r` is 0 and the reference is null,
was met before, or points to no hashable block. -/
def FSDevice.SeekStops (d : FSDevice) (name : FSName) (start k r : Nat) : Prop :=
  (d.chainRef start k ≠ 0 ∧ (∀ j, j < k → d.chainRef start j ≠ d.chainRef start k) ∧
    ∃ b, d.hashableBlockPtr (d.chainRef start k) = some b ∧ b.isNamed name = true ∧
      r = b.nr) ∨
  (r = 0 ∧ (d.chainRef start k = 0 ∨ (∃ j, j < k ∧ d.chainRef start j = d.chainRef start k) ∨
    d.hashableBlockPtr (d.chainRef start k) = none))

/-- The blocks met by following `getNextHashBlock` from a block pointer, as a list of
block numbers from head to tail: the bucket chain that starts at that pointer. -/
inductive FSDevice.IsChain (d : FSDevice) : Option Nat → List Nat → Prop where
  | nil : FSDevice.IsChain d none []
  | cons (p : Nat) (b : FSBlock) (l : List Nat) :
      d.blocks[p]? = some b → FSDevice.IsChain d (d.getNextHashBlock b) l →
      FSDevice.IsChain d (some p) (p :: l)

/-- The pointer `hashableBlockPtr(nr)` as a block number. -/
def FSDevice.hashablePtr (d : FSDevice) (nr : Nat) : Option Nat :=
  (d.hashableBlockPtr nr).map fun _ => nr

/-- Every block sits at the position its number names (`blocks[i]->nr == i`). -/
def FSDevice.NumbersOK (d : FSDevice) : Prop :=
  ∀ (i : Nat) (b : FSBlock), d.blocks[i]? = some b → b.nr = i

/-! ## Concrete file system states -/

/-- A block with no hash table entries, no successor in a bucket chain and no payload. -/
def plainBlock (nr : Nat) (type : FSBlockType) (key hash : Nat) : FSBlock :=
  FSBlock.mk nr type 0 0 (fun _ => 0) 0 (FSName.mk key hash) 0 []

/-- A root block with a hash table of three empty buckets. -/
def emptyRoot (nr : Nat) : FSBlock :=
  FSBlock.mk nr FSBlockType.FS_ROOT_BLOCK 0 3 (fun _ => 0) 0 (FSName.mk 0 0) 0 []

/-- A device of five blocks: boot block, root block with three empty buckets, and three
file header blocks whose names all hash to bucket 1; the current directory is the root. -/
def collidingDevice : FSDevice :=
  FSDevice.mk
    [plainBlock 0 FSBlockType.FS_BOOT_BLOCK 0 0, emptyRoot 1,
     plainBlock 2 FSBlockType.FS_FILEHEADER_BLOCK 10 1,
     plainBlock 3 FSBlockType.FS_FILEHEADER_BLOCK 11 4,
     plainBlock 4 FSBlockType.FS_FILEHEADER_BLOCK 12 7]
    [FSPartition.mk 0 4 1 FSVolumeType.FS_OFS] 512 0 1

/-- A block with the given payload and no directory data. -/
def dataBlock (nr : Nat) (type : FSBlockType) (data : List Nat) : FSBlock :=
  FSBlock.mk nr type 0 0 (fun _ => 0) 0 (FSName.mk 0 0) 0 data

/-- Collaborators for the examples: a block is reported faulty iff its payload is not
empty, the partition check leaves the report alone, every imported block is predicted
to be a boot block, and the factory always yields a block. -/
def exampleFS : FSExternal :=
  FSExternal.mk (fun b _ => b.data.length) (fun _ _ r => r)
    (fun _ _ _ => FSBlockType.FS_BOOT_BLOCK) (fun _ nr t => some (dataBlock nr t []))

/-- A device of two blocks of two bytes each in one OFS partition. -/
def twoBlockDevice (first second : List Nat) : FSDevice :=
  FSDevice.mk
    [dataBlock 0 FSBlockType.FS_BOOT_BLOCK first, dataBlock 1 FSBlockType.FS_ROOT_BLOCK second]
    [FSPartition.mk 0 1 1 FSVolumeType.FS_OFS] 2 0 1

/-- A file header block with the given next-hash reference. -/
def chainedBlock (nr next : Nat) : FSBlock :=
  FSBlock.mk nr FSBlockType.FS_FILEHEADER_BLOCK 0 0 (fun _ => 0) next (FSName.mk nr 0) 0 []

/-- A root block with a hash table of three buckets holding the given references (0
outside the table). -/
def rootWith (nr r0 r1 r2 : Nat) : FSBlock :=
  FSBlock.mk nr FSBlockType.FS_ROOT_BLOCK 0 3
    (fun i => if i = 0 then r0 else if i = 1 then r1 else if i = 2 then r2 else 0)
    0 (FSName.mk 0 0) 0 []

/-- A directory whose bucket 0 holds the chain 2 → 4 and whose bucket 2 holds the chain
of the single block 3. -/
def chainedDevice : FSDevice :=
  FSDevice.mk
    [plainBlock 0 FSBlockType.FS_BOOT_BLOCK 0 0, rootWith 1 2 0 3, chainedBlock 2 4,
     chainedBlock 3 0, chainedBlock 4 0]
    [FSPartition.mk 0 4 1 FSVolumeType.FS_OFS] 512 0 1

/-- A directory whose bucket 0 holds a chain with a cycle: block 2 refers to block 3 and
block 3 back to block 2. -/
def cyclicDevice : FSDevice :=
  FSDevice.mk
    [plainBlock 0 FSBlockType.FS_BOOT_BLOCK 0 0, rootWith 1 2 0 0, chainedBlock 2 3,
     chainedBlock 3 2]
    [FSPartition.mk 0 3 1 FSVolumeType.FS_OFS] 512 0 1

/-! ## Concrete machine state with a pending interrupt -/

/-- A machine at clock 10 whose IRQ slot holds an `IRQ_CHECK` event, with source 0 due
since cycle 5, no other source pending, a cleared request register and the IRQ pin of
CIA A low. -/
def irqPendingAmiga : Amiga :=
  Amiga.mk (Agnus.mk 10 (fun _ => Event.mk 10 EventID.IRQ_CHECK 0) (fun _ => 0))
    (Paula.mk 0 0 (fun s => if s = 0 then 5 else NEVER)) 0 1 0

/-! ## Concrete audio channel in state 5 -/

/-- Channel 0 in state 5 with data register 0, data latch `0x7F80` and volume latch
64. -/
def fetchingChannel : StateMachine :=
  ⟨0, 5, 4, 4, 100, 50, 64, 0, 0x7F80, 0, 0⟩

/-- Channel 0 in state 1 with length counter 4, data register 0 and volume latch 64. -/
def armedChannel : StateMachine :=
  ⟨0, 1, 4, 4, 100, 50, 64, 0, 0x7F80, 0, 0⟩

/-! ## Ring buffers (`Buffers.h`) -/

/-- `RingBuffer<T, capacity>` (Buffers.h 20-26): the template constant `capacity`, the
array `elements` (the cell at each index) and the read and write indices, which are
non-negative `int`s. -/
structure RingBuffer (T : Type) where
  capacity : Nat
  elements : Nat → T
  r : Nat
  w : Nat

/-- `RingBuffer::clear` (Buffers.h 33). -/
def RingBuffer.clear {T : Type} (b : RingBuffer T) : RingBuffer T :=
  { b with r := 0, w := 0 }

/-- `RingBuffer::count` (Buffers.h 49). -/
def RingBuffer.count {T : Type} (b : RingBuffer T) : Nat :=
  (b.capacity + b.w - b.r) % b.capacity

/-- `RingBuffer::isEmpty` (Buffers.h 50). -/
def RingBuffer.isEmpty {T : Type} (b : RingBuffer T) : Bool :=
  b.r == b.w

/-- `RingBuffer::isFull` (Buffers.h 51). -/
def RingBuffer.isFull {T : Type} (b : RingBuffer T) : Bool :=
  b.count == b.capacity - 1

/-- `RingBuffer::next` (Buffers.h 59). -/
def RingBuffer.next (capacity i : Nat) : Nat :=
  (capacity + i + 1) % capacity

/-- `RingBuffer::prev` (Buffers.h 60). -/
def RingBuffer.prev (capacity i : Nat) : Nat :=
  (capacity + i - 1) % capacity

/-- `RingBuffer::read` (Buffers.h 72-79): the element read and the buffer afterwards;
`none` when the assertion `!isEmpty()` fails. -/
def RingBuffer.read {T : Type} (b : RingBuffer T) : Option (T × RingBuffer T) :=
  if b.isEmpty then none
  else
    let oldr := b.r
    some (b.elements oldr, { b with r := RingBuffer.next b.capacity b.r })

/-- `RingBuffer::write` (Buffers.h 81-88); `none` when the assertion `!isFull()`
fails. -/
def RingBuffer.write {T : Type} (b : RingBuffer T) (element : T) : Option (RingBuffer T) :=
  if b.isFull then none
  else
    let oldw := b.w
    some { b with w := RingBuffer.next b.capacity b.w,
                  elements := Function.update b.elements oldw element }

/-- The indices of a buffer are inside the array: `0 <= r, w < capacity`. -/
def RingBuffer.InRange {T : Type} (b : RingBuffer T) : Prop :=
  b.r < b.capacity ∧ b.w < b.capacity

/-- The elements a buffer holds, oldest first: the cells from the read index up to the
write index. -/
def RingBuffer.contents {T : Type} (b : RingBuffer T) : List T :=
  (List.range b.count).map fun k => b.elements ((b.r + k) % b.capacity)

/-- One queue operation: a write of an element, or a read. -/
inductive RingOp (T : Type) where
  | write (element : T)
  | read

/-- The number of writes in a sequence of operations. -/
def RingOp.writes {T : Type} : List (RingOp T) → Nat
  | [] => 0
  | RingOp.write _ :: ops => RingOp.writes ops + 1
  | RingOp.read :: ops => RingOp.writes ops

/-- The number of reads in a sequence of operations. -/
def RingOp.reads {T : Type} : List (RingOp T) → Nat
  | [] => 0
  | RingOp.write _ :: ops => RingOp.reads ops
  | RingOp.read :: ops => RingOp.reads ops + 1

/-- Runs a sequence of operations on a buffer: the elements the reads return, in order,
and the final buffer; `none` when an assertion of `read` or `write` fails. -/
def RingBuffer.run {T : Type} : List (RingOp T) → RingBuffer T → Option (List T × RingBuffer T)
  | [], b => some ([], b)
  | RingOp.write e :: ops, b =>
    match b.write e with
    | none => none
    | some b1 => RingBuffer.run ops b1
  | RingOp.read :: ops, b =>
    match b.read with
    | none => none
    | some (e, b1) => (RingBuffer.run ops b1).map fun p => (e :: p.1, p.2)

/-- The queue of the claim, in its words: a first-in first-out queue of at most `bound`
elements; a write is allowed while fewer than `bound` elements are stored and appends
at the back, a read is allowed on a non-empty queue and removes the oldest element.
The result is the list of the elements read and the final queue, `none` when an
operation is not allowed. -/
def fifoRun {T : Type} (bound : Nat) : List (RingOp T) → List T → Option (List T × List T)
  | [], q => some ([], q)
  | RingOp.write e :: ops, q =>
    if q.length < bound then fifoRun bound ops (q ++ [e]) else none
  | RingOp.read :: ops, q =>
    match q with
    | [] => none
    | e :: rest => (fifoRun bound ops rest).map fun p => (e :: p.1, p.2)

/-- `SortedRingBuffer<T, capacity>` (Buffers.h 105-109): a ring buffer with the key
storage `keys`. -/
structure SortedRingBuffer (T : Type) extends RingBuffer T where
  keys : Nat → Int

/-- The `while` loop of `SortedRingBuffer::insert` (Buffers.h 122-137) from position
`oldw`: the arrays `elements` and `keys` afterwards; `none` when the `fuel` iterations
do not suffice. -/
def SortedRingBuffer.insertLoop {T : Type} (capacity r : Nat) (key : Int) :
    Nat → Nat → (Nat → T) → (Nat → Int) → Option ((Nat → T) × (Nat → Int))
  | 0, _, _, _ => none
  | fuel + 1, oldw, elements, keys =>
    if oldw ≠ r then
      let p := RingBuffer.prev capacity oldw
      if key ≥ keys p then some (elements, keys)
      else
        let elements1 :=
          Function.update (Function.update elements oldw (elements p)) p (elements oldw)
        let keys1 := Function.update (Function.update keys oldw (keys p)) p (keys oldw)
        SortedRingBuffer.insertLoop capacity r key fuel p elements1 keys1
    else some (elements, keys)

/-- `SortedRingBuffer::insert` (Buffers.h 112-138); `none` when the assertion
`!isFull()` fails.  The loop gets `capacity + 1` iterations. -/
def SortedRingBuffer.insert {T : Type} (b : SortedRingBuffer T) (key : Int) (element : T) :
    Option (SortedRingBuffer T) :=
  if b.isFull then none
  else
    let oldw := b.w
    match b.toRingBuffer.write element with
    | none => none
    | some rb =>
      let keys0 := Function.update b.keys oldw key
      (SortedRingBuffer.insertLoop b.capacity rb.r key (b.capacity + 1) oldw rb.elements
        keys0).map fun p => SortedRingBuffer.mk (RingBuffer.mk rb.capacity p.1 rb.r rb.w) p.2

/-- The (key, element) pairs a sorted buffer holds, from the read index up to the write
index. -/
def SortedRingBuffer.entries {T : Type} (b : SortedRingBuffer T) : List (Int × T) :=
  (List.range b.count).map fun k =>
    (b.keys ((b.r + k) % b.capacity), b.elements ((b.r + k) % b.capacity))

/-- An empty buffer of the given capacity holding zeros. -/
def emptyRing (capacity : Nat) : RingBuffer Nat :=
  RingBuffer.mk capacity (fun _ => 0) 0 0

/-- A sorted buffer of capacity 4 with read index 3 and write index 1, holding the
pairs (10, 100) and (30, 300); the run of entries wraps around the end of the array. -/
def wrappedSorted : SortedRingBuffer Nat :=
  SortedRingBuffer.mk
    (RingBuffer.mk 4 (fun i => if i = 3 then 100 else if i = 0 then 300 else 0) 3 1)
    (fun i => if i = 3 then 10 else if i = 0 then 30 else 0)

/-! ## Potentiometer scan (`Paula.cpp`, `ControlPort.h`) -/

/-- The potentiometer registers of Paula: `potgo`, the four 8-bit scan counters and the
four charge levels.  The charges are `double`s that only ever hold integers: they are
set to 0.0 or 1.0 and grow by the deltas `getChargeDX/DY` return as `int16_t`; such
integers are exact in a `double`, so the charges are integers here. -/
structure PotState where
  potgo : Nat
  potCntX0 : Nat
  potCntY0 : Nat
  potCntX1 : Nat
  potCntY1 : Nat
  chargeX0 : Int
  chargeY0 : Int
  chargeX1 : Int
  chargeY1 : Int
deriving DecidableEq, Repr

/-- The part of `ControlPort` the scan reads (ControlPort.h 88-90): the values the
getters `getChargeDX()` and `getChargeDY()` return, which are `int16_t`. -/
structure ControlPort where
  getChargeDX : Int
  getChargeDY : Int
deriving DecidableEq, Repr

/-- The collaborators of the potentiometer code that are not part of the available
sources, taken as parameters: the constant `HPOS_CNT`, the trigger cycle
`schedulePos(agnus.pos.v, HPOS_MAX, ..)` computes, and the data value a slot holds after
the two-argument `scheduleRel`, which is passed no data value, as a function of the
value the slot held before the call. -/
structure PotExternal where
  HPOS_CNT : Int
  posTrigger : Agnus → Int
  dataAfter : Int → Int

/-- The two-argument `Agnus::scheduleRel<s>(cycle, id)` the potentiometer handler calls:
trigger and identifier as in the three-argument form, the data value as the parameter
`dataAfter` says. -/
def Agnus.scheduleRel2 (p : PotExternal) (ag : Agnus) (s : EventSlot) (cycle : Int)
    (id : EventID) : Agnus :=
  ag.scheduleRel s cycle id (p.dataAfter (ag.slot s).data)

/-- Modelled from the spec: the tests `OUTLX()`, `OUTLY()`, `OUTRX()` and `OUTRY()` are
not part of the available sources; a pin is output-overridden when its output-enable
bit of `potgo` is set, the bit `pokePOTGO` tests for that pin (9 for X0). -/
def PotState.OUTLX (s : PotState) : Bool := GET_BIT s.potgo 9

/-- Modelled from the spec: see `OUTLX`; bit 11 is the output-enable bit of Y0. -/
def PotState.OUTLY (s : PotState) : Bool := GET_BIT s.potgo 11

/-- Modelled from the spec: see `OUTLX`; bit 13 is the output-enable bit of X1. -/
def PotState.OUTRX (s : PotState) : Bool := GET_BIT s.potgo 13

/-- Modelled from the spec: see `OUTLX`; bit 15 is the output-enable bit of Y1. -/
def PotState.OUTRY (s : PotState) : Bool := GET_BIT s.potgo 15

/-- `Paula::pokePOTGO` (Paula.cpp 250-277). -/
def PotState.pokePOTGO (p : PotExternal) (ag : Agnus) (s : PotState) (value : Nat) :
    Agnus × PotState :=
  let value := u16 value
  let s1 := { s with potgo := value }
  let s2 := if GET_BIT value 9 then
    { s1 with chargeX0 := if GET_BIT value 8 then 1 else 0 } else s1
  let s3 := if GET_BIT value 11 then
    { s2 with chargeY0 := if GET_BIT value 10 then 1 else 0 } else s2
  let s4 := if GET_BIT value 13 then
    { s3 with chargeX1 := if GET_BIT value 12 then 1 else 0 } else s3
  let s5 := if GET_BIT value 15 then
    { s4 with chargeY1 := if GET_BIT value 14 then 1 else 0 } else s4
  if GET_BIT value 0 then
    (ag.scheduleAbs EventSlot.POT_SLOT (p.posTrigger ag) EventID.POT_DISCHARGE 8,
     { s5 with potCntX0 := 0, potCntY0 := 0, potCntX1 := 0, potCntY1 := 0 })
  else (ag, s5)

/-- The discharge of the capacitors in the `POT_DISCHARGE` branch (Paula.cpp 290-294). -/
def PotState.discharge (s : PotState) : PotState :=
  let s1 := if !s.OUTLY then { s with chargeY0 := 0 } else s
  let s2 := if !s1.OUTLX then { s1 with chargeX0 := 0 } else s1
  let s3 := if !s2.OUTRY then { s2 with chargeY1 := 0 } else s2
  if !s3.OUTRX then { s3 with chargeX1 := 0 } else s3

/-- The reset of the scan counters in the `POT_DISCHARGE` branch (Paula.cpp 300-306);
the counters are 8 bits wide, so -1 is stored as 255. -/
def PotState.resetCounters (s : PotState) : PotState :=
  let s1 := { s with potCntY0 := if s.OUTLY then 0 else 255 }
  let s2 := { s1 with potCntX0 := if s1.OUTLX then 0 else 255 }
  let s3 := { s2 with potCntY1 := if s2.OUTRY then 0 else 255 }
  { s3 with potCntX1 := if s3.OUTRX then 0 else 255 }

/-- The charging of the capacitors in the `POT_CHARGE` branch (Paula.cpp 315-327): the
new registers and the flag `cont`. -/
def PotState.charge (port1 port2 : ControlPort) (s : PotState) : PotState × Bool :=
  let dy0 := port1.getChargeDY
  let dx0 := port1.getChargeDX
  let dy1 := port2.getChargeDY
  let dx1 := port2.getChargeDX
  let r1 : PotState × Bool :=
    if dy0 ≠ 0 ∧ s.chargeY0 < 1 ∧ !s.OUTLY then
      ({ s with chargeX0 := s.chargeX0 + dy0 }, true) else (s, false)
  let r2 : PotState × Bool :=
    if dx0 ≠ 0 ∧ r1.1.chargeX0 < 1 ∧ !r1.1.OUTLX then
      ({ r1.1 with chargeX0 := r1.1.chargeX0 + dx0 }, true) else r1
  let r3 : PotState × Bool :=
    if dy1 ≠ 0 ∧ r2.1.chargeY1 < 1 ∧ !r2.1.OUTRY then
      ({ r2.1 with chargeX0 := r2.1.chargeX0 + dy1 }, true) else r2
  if dx1 ≠ 0 ∧ r3.1.chargeX1 < 1 ∧ !r3.1.OUTRX then
    ({ r3.1 with chargeX0 := r3.1.chargeX0 + dx1 }, true) else r3

/-- `Paula::servicePotEvent` (Paula.cpp 279-340); `none` when the `default` branch
asserts. -/
def PotState.servicePotEvent (x : External) (p : PotExternal) (port1 port2 : ControlPort)
    (ag : Agnus) (s : PotState) (id : EventID) : Option (Agnus × PotState) :=
  match id with
  | EventID.POT_DISCHARGE =>
    let data := (ag.slot EventSlot.POT_SLOT).data - 1
    let ag1 := Agnus.mk ag.clock
      (Function.update ag.slot EventSlot.POT_SLOT
        (Event.mk (ag.slot EventSlot.POT_SLOT).triggerCycle (ag.slot EventSlot.POT_SLOT).id
          data))
      ag.audlc
    if data ≠ 0 then
      some (ag1.scheduleRel2 p EventSlot.POT_SLOT (x.DMA_CYCLES p.HPOS_CNT)
        EventID.POT_DISCHARGE, s.discharge)
    else
      some (ag1.scheduleRel2 p EventSlot.POT_SLOT (x.DMA_CYCLES p.HPOS_CNT)
        EventID.POT_CHARGE, s.resetCounters)
  | EventID.POT_CHARGE =>
    let r := s.charge port1 port2
    if r.2 then
      some (ag.scheduleRel2 p EventSlot.POT_SLOT (x.DMA_CYCLES p.HPOS_CNT)
        EventID.POT_CHARGE, r.1)
    else some (ag.cancel EventSlot.POT_SLOT, r.1)
  | _ => none

/-- The scan as the event queue drives it: `n` times, the clock advances to the trigger
cycle of the POT slot and `servicePotEvent` is called with the identifier the slot
holds. -/
def PotState.potRun (x : External) (p : PotExternal) (port1 port2 : ControlPort) :
    Nat → Agnus → PotState → Option (Agnus × PotState)
  | 0, ag, s => some (ag, s)
  | n + 1, ag, s =>
    let ag0 := Agnus.mk (ag.slot EventSlot.POT_SLOT).triggerCycle ag.slot ag.audlc
    match PotState.servicePotEvent x p port1 port2 ag0 s (ag.slot EventSlot.POT_SLOT).id with
    | none => none
    | some (ag1, s1) => PotState.potRun x p port1 port2 n ag1 s1

/-! ## Concrete potentiometer states -/

/-- Collaborators for the examples: a line has 227 DMA cycles, `schedulePos` triggers at
cycle 1000 and the two-argument `scheduleRel` keeps the data value of the slot. -/
def examplePot : PotExternal :=
  PotExternal.mk 227 (fun _ => 1000) (fun v => v)

/-- Potentiometer registers with all counters and charges 0 and the given `potgo`. -/
def idlePot (potgo : Nat) : PotState :=
  PotState.mk potgo 0 0 0 0 0 0 0 0

/-- Agnus at clock 0 with empty slots. -/
def idleAgnus : Agnus :=
  Agnus.mk 0 (fun _ => Event.mk NEVER EventID.EVENT_NONE 0) (fun _ => 0)

/-- Agnus at clock 0 whose POT slot holds a `POT_CHARGE` event due at cycle 100. -/
def chargingAgnus : Agnus :=
  Agnus.mk 0 (fun s => if s = EventSlot.POT_SLOT then Event.mk 100 EventID.POT_CHARGE 0
    else Event.mk NEVER EventID.EVENT_NONE 0) (fun _ => 0)

/-! ## Event queue (`EventHandlerTypes.h`, scheduler) -/

/-- The value of a slot in the enumeration of `EventHandlerTypes.h`: `CIAA_SLOT = 0`
and each further entry one more than its predecessor, up to `INSPECTOR_SLOT = 28`.  The
two slots of `Paula.cpp` that the header does not declare follow with 29 and 30. -/
def EventSlot.index : EventSlot → Nat
  | EventSlot.CIAA_SLOT => 0
  | EventSlot.CIAB_SLOT => 1
  | EventSlot.BPL_SLOT => 2
  | EventSlot.DAS_SLOT => 3
  | EventSlot.COP_SLOT => 4
  | EventSlot.BLT_SLOT => 5
  | EventSlot.SEC_SLOT => 6
  | EventSlot.REG_COP_SLOT => 7
  | EventSlot.REG_CPU_SLOT => 8
  | EventSlot.DSK_SLOT => 9
  | EventSlot.IRQ_TBE_SLOT => 10
  | EventSlot.IRQ_DSKBLK_SLOT => 11
  | EventSlot.IRQ_SOFT_SLOT => 12
  | EventSlot.IRQ_PORTS_SLOT => 13
  | EventSlot.IRQ_COPR_SLOT => 14
  | EventSlot.IRQ_VERTB_SLOT => 15
  | EventSlot.IRQ_BLIT_SLOT => 16
  | EventSlot.IRQ_AUD0_SLOT => 17
  | EventSlot.IRQ_AUD1_SLOT => 18
  | EventSlot.IRQ_AUD2_SLOT => 19
  | EventSlot.IRQ_AUD3_SLOT => 20
  | EventSlot.IRQ_RBF_SLOT => 21
  | EventSlot.IRQ_DSKSYN_SLOT => 22
  | EventSlot.IRQ_EXTER_SLOT => 23
  | EventSlot.TXD_SLOT => 24
  | EventSlot.RXD_SLOT => 25
  | EventSlot.POT_SLOT => 26
  | EventSlot.SYNC_SLOT => 27
  | EventSlot.INSPECTOR_SLOT => 28
  | EventSlot.IRQ_SLOT => 29
  | EventSlot.IPL_SLOT => 30

/-- All slots, in the order of the enumeration. -/
def EventSlot.all : List EventSlot :=
  [EventSlot.CIAA_SLOT, EventSlot.CIAB_SLOT, EventSlot.BPL_SLOT, EventSlot.DAS_SLOT,
   EventSlot.COP_SLOT, EventSlot.BLT_SLOT, EventSlot.SEC_SLOT, EventSlot.REG_COP_SLOT,
   EventSlot.REG_CPU_SLOT, EventSlot.DSK_SLOT, EventSlot.IRQ_TBE_SLOT,
   EventSlot.IRQ_DSKBLK_SLOT, EventSlot.IRQ_SOFT_SLOT, EventSlot.IRQ_PORTS_SLOT,
   EventSlot.IRQ_COPR_SLOT, EventSlot.IRQ_VERTB_SLOT, EventSlot.IRQ_BLIT_SLOT,
   EventSlot.IRQ_AUD0_SLOT, EventSlot.IRQ_AUD1_SLOT, EventSlot.IRQ_AUD2_SLOT,
   EventSlot.IRQ_AUD3_SLOT, EventSlot.IRQ_RBF_SLOT, EventSlot.IRQ_DSKSYN_SLOT,
   EventSlot.IRQ_EXTER_SLOT, EventSlot.TXD_SLOT, EventSlot.RXD_SLOT, EventSlot.POT_SLOT,
   EventSlot.SYNC_SLOT, EventSlot.INSPECTOR_SLOT, EventSlot.IRQ_SLOT, EventSlot.IPL_SLOT]

/-- One call of the scheduling interface of the spec: `scheduleAbsolute`,
`scheduleRelative` or `cancel`. -/
inductive SchedOp where
  | scheduleAbs (s : EventSlot) (cycle : Int) (id : EventID) (data : Int)
  | scheduleRel (s : EventSlot) (delta : Int) (id : EventID) (data : Int)
  | cancel (s : EventSlot)
deriving DecidableEq, Repr

/-- The slot a call addresses. -/
def SchedOp.slot : SchedOp → EventSlot
  | SchedOp.scheduleAbs s _ _ _ => s
  | SchedOp.scheduleRel s _ _ _ => s
  | SchedOp.cancel s => s

/-- The effect of one call on the slot table. -/
def Agnus.applyOp (ag : Agnus) : SchedOp → Agnus
  | SchedOp.scheduleAbs s cycle id data => ag.scheduleAbs s cycle id data
  | SchedOp.scheduleRel s delta id data => ag.scheduleRel s delta id data
  | SchedOp.cancel s => ag.cancel s

/-- The effect of a sequence of calls. -/
def Agnus.applyOps (ag : Agnus) (ops : List SchedOp) : Agnus :=
  ops.foldl Agnus.applyOp ag

/-- The pending events of the queue: the slots whose trigger is not `NEVER`, each with
the event it holds. -/
def Agnus.pendingEvents (ag : Agnus) : List (EventSlot × Event) :=
  (EventSlot.all.filter fun s => decide ((ag.slot s).triggerCycle ≠ NEVER)).map
    fun s => (s, ag.slot s)

/-- Modelled from the spec: the dispatch order of two slots, ascending trigger cycle
with ties broken by slot index. -/
def Agnus.dispatchedBefore (ag : Agnus) (s1 s2 : EventSlot) : Prop :=
  (ag.slot s1).triggerCycle < (ag.slot s2).triggerCycle ∨
  ((ag.slot s1).triggerCycle = (ag.slot s2).triggerCycle ∧ s1.index < s2.index)

instance (ag : Agnus) (s1 s2 : EventSlot) : Decidable (ag.dispatchedBefore s1 s2) := by
  unfold Agnus.dispatchedBefore
  exact inferInstance

/-- Modelled from the spec: the selection step of `serviceDueEvents` is not part of the
available sources; among the listed slots whose trigger is at most `t`, the slot that
comes first in the dispatch order of the spec (`none` when no slot is due). -/
def Agnus.nextDue (ag : Agnus) (t : Int) : List EventSlot → Option EventSlot
  | [] => none
  | s :: rest =>
    match Agnus.nextDue ag t rest with
    | none => if (ag.slot s).triggerCycle ≤ t then some s else none
    | some s1 =>
      if (ag.slot s).triggerCycle ≤ t ∧ ag.dispatchedBefore s s1 then some s else some s1

/-- Modelled from the spec: `serviceDueEvents(t)` is not part of the available sources;
it processes every slot whose trigger is at most `t`: as long as one of the listed slots
is due, the handler of the next due slot runs (it may reschedule or cancel slots), the
dispatch `(cycle, slot, eventId)` being recorded.  The result is the list of dispatches
and the queue afterwards; `none` when the `fuel` rounds do not suffice. -/
def Agnus.serviceDueLoop (handler : EventSlot → Agnus → Agnus) (t : Int)
    (slots : List EventSlot) :
    Nat → Agnus → Option (List (Int × EventSlot × EventID) × Agnus)
  | 0, _ => none
  | fuel + 1, ag =>
    match ag.nextDue t slots with
    | none => some ([], ag)
    | some s =>
      (Agnus.serviceDueLoop handler t slots fuel (handler s ag)).map fun r =>
        (((ag.slot s).triggerCycle, s, (ag.slot s).id) :: r.1, r.2)

/-- Modelled from the spec: `serviceDueEvents(t)` over all slots of the queue, with one
round more than there are slots. -/
def Agnus.serviceDueEvents (handler : EventSlot → Agnus → Agnus) (t : Int) (ag : Agnus) :
    Option (List (Int × EventSlot × EventID) × Agnus) :=
  Agnus.serviceDueLoop handler t EventSlot.all (EventSlot.all.length + 1) ag

/-- A condition on the handlers that run during `serviceDueEvents(t)`, stronger than
what the spec asks of them: the handler of a due slot reschedules its own slot strictly
after `t` or cancels it (this much is the contract of the spec), and besides it neither
touches another slot that is due nor schedules another slot at or before `t` (the spec
lets a handler reschedule any other slot). -/
def Agnus.HandlerContract (handler : EventSlot → Agnus → Agnus) (t : Int) : Prop :=
  ∀ (s : EventSlot) (ag : Agnus), (ag.slot s).triggerCycle ≤ t →
    t < ((handler s ag).slot s).triggerCycle ∧
    ∀ s1, s1 ≠ s →
      (handler s ag).slot s1 = ag.slot s1 ∨
      (t < (ag.slot s1).triggerCycle ∧ t < ((handler s ag).slot s1).triggerCycle)

/-- A handler that cancels its own slot and touches nothing else. -/
def cancellingHandler (s : EventSlot) (ag : Agnus) : Agnus := ag.cancel s

/-- A queue at clock 50 with three events: CIA B at cycle 20, the Copper at cycle 10 and
the POT slot at cycle 20; a fourth, in the IRQ slot, is due at cycle 90. -/
def busyAgnus : Agnus :=
  Agnus.mk 50
    (fun s =>
      if s = EventSlot.CIAB_SLOT then Event.mk 20 EventID.EVENT_NONE 0
      else if s = EventSlot.COP_SLOT then Event.mk 10 EventID.EVENT_NONE 0
      else if s = EventSlot.POT_SLOT then Event.mk 20 EventID.POT_CHARGE 0
      else if s = EventSlot.IRQ_SLOT then Event.mk 90 EventID.IRQ_CHECK 0
      else Event.mk NEVER EventID.EVENT_NONE 0)
    (fun _ => 0)

/-- The event a slot holds after a call addressed to it, in the words of the spec: a
scheduling call replaces the pending event (the last write wins), a relative trigger
counting from the current clock, and `cancel` sets the trigger to `NEVER`. -/
def SchedOp.event (clock : Int) (old : Event) : SchedOp → Event
  | SchedOp.scheduleAbs _ cycle id data => Event.mk cycle id data
  | SchedOp.scheduleRel _ delta id data => Event.mk (clock + delta) id data
  | SchedOp.cancel _ => Event.mk NEVER old.id old.data

/-! ## Concrete audio states for the state-3 and data-write steps -/

/-- Collaborators with audio DMA disabled for every channel: the DMA fetch returns the
word 0 and leaves Agnus alone, a DMA cycle lasts 8 master cycles. -/
def quietExternal : External :=
  ⟨fun ag _ => (0, ag), fun _ _ => false, fun c => 8 * c⟩

/-- Channel 0 in state 3 with period counter 1 (so that one more cycle makes it expire),
data register `0x7F`, data latch `0x7F80`, length counter 4 and volume 64. -/
def lowByteChannel : StateMachine :=
  ⟨0, 3, 4, 4, 100, 1, 64, 64, 0x7F80, 0x7F, 0⟩

/-! ## Interrupt scheduling (`Paula.cpp`) -/

/-- `Paula::raiseIrq` (Paula.cpp 156-160). -/
def Amiga.raiseIrq (x : External) (a : Amiga) (src : Nat) : Option Amiga :=
  a.setINTREQ x true (1 <<< src)

/-- `Paula::_reset` (Paula.cpp 24-30).  The macro `RESET_SNAPSHOT_ITEMS` is not part of
the available sources; its effect on Paula is the parameter `resetItems`.  The loop then
sets the 16 pending times to `NEVER`. -/
def Paula._reset (resetItems : Paula → Paula) (p : Paula) : Paula :=
  (List.range 16).foldl
    (fun q i => { q with setIntreq := Function.update q.setIntreq i NEVER }) (resetItems p)

/-- `Paula::scheduleIrqAbs` (Paula.cpp 162-179); `none` when one of the three assertions
fails.  The predicate `isIrqSource` is not part of the available sources and is taken as
a parameter. -/
def Amiga.scheduleIrqAbs (isIrqSource : Nat → Bool) (a : Amiga) (src : Nat) (trigger : Int) :
    Option Amiga :=
  if !isIrqSource src then none
  else if trigger = 0 then none
  else if (a.agnus.slot EventSlot.IRQ_SLOT).id ≠ EventID.IRQ_CHECK then none
  else
    let a1 := if trigger < a.paula.setIntreq src then
        { a with paula := { a.paula with
            setIntreq := Function.update a.paula.setIntreq src trigger } }
      else a
    let a2 := if trigger < (a1.agnus.slot EventSlot.IRQ_SLOT).triggerCycle then
        { a1 with agnus := a1.agnus.scheduleAbs0 EventSlot.IRQ_SLOT trigger EventID.IRQ_CHECK }
      else a1
    some a2

/-- `Paula::scheduleIrqRel` (Paula.cpp 181-186); `none` when an assertion fails. -/
def Amiga.scheduleIrqRel (isIrqSource : Nat → Bool) (a : Amiga) (src : Nat) (trigger : Int) :
    Option Amiga :=
  if trigger = 0 then none
  else a.scheduleIrqAbs isIrqSource src (a.agnus.clock + trigger)

/-- The trigger cycle of the IRQ slot is the minimum of `NEVER` and the 16 pending times
`setIntreq[0..15]`: it is below or equal to each of them and equal to one of them. -/
def Amiga.IrqSlotMin (a : Amiga) : Prop :=
  (a.agnus.slot EventSlot.IRQ_SLOT).triggerCycle ≤ NEVER ∧
  (∀ s, s < 16 → (a.agnus.slot EventSlot.IRQ_SLOT).triggerCycle ≤ a.paula.setIntreq s) ∧
  ((a.agnus.slot EventSlot.IRQ_SLOT).triggerCycle = NEVER ∨
    ∃ s, s < 16 ∧ (a.agnus.slot EventSlot.IRQ_SLOT).triggerCycle = a.paula.setIntreq s)

/-- The calls that change the interrupt registers: the two register writes, `raiseIrq`
and the service routine of the IRQ slot. -/
inductive IrqOp where
  | setINTREQ (setclr : Bool) (value : Nat)
  | setINTENA (setclr : Bool) (value : Nat)
  | raiseIrq (src : Nat)
  | serviceIrqEvent
deriving DecidableEq, Repr

/-- One call on the machine; `none` when an assertion fails. -/
def Amiga.applyIrqOp (x : External) (a : Amiga) : IrqOp → Option Amiga
  | IrqOp.setINTREQ setclr value => a.setINTREQ x setclr value
  | IrqOp.setINTENA setclr value => a.setINTENA x setclr value
  | IrqOp.raiseIrq src => a.raiseIrq x src
  | IrqOp.serviceIrqEvent => a.serviceIrqEvent x

/-- A sequence of calls, first to last; `none` when an assertion fails on the way. -/
def Amiga.applyIrqOps (x : External) : List IrqOp → Amiga → Option Amiga
  | [], a => some a
  | op :: rest, a =>
    match a.applyIrqOp x op with
    | none => none
    | some a1 => Amiga.applyIrqOps x rest a1

/-- The precondition of a call: the mask of a register write has bit 15 clear, the
source of `raiseIrq` is at most 14. -/
def IrqOp.Admissible : IrqOp → Prop
  | IrqOp.setINTREQ _ value => u16 value &&& 0x8000 = 0
  | IrqOp.setINTENA _ value => u16 value &&& 0x8000 = 0
  | IrqOp.raiseIrq src => src ≤ 14
  | IrqOp.serviceIrqEvent => True

instance (op : IrqOp) : Decidable op.Admissible := by
  cases op <;> unfold IrqOp.Admissible <;> exact inferInstance

/-- The call is a write to one of the two interrupt registers. -/
def IrqOp.isRegisterWrite : IrqOp → Bool
  | IrqOp.setINTREQ _ _ => true
  | IrqOp.setINTENA _ _ => true
  | _ => false

/-- A machine at clock 100 whose IRQ slot holds an `IRQ_CHECK` event for cycle 50, the
pending time of source 5; source 7 is pending for cycle 200, the other sources are not
pending. -/
def irqScheduledAmiga : Amiga :=
  ⟨⟨100, fun s => if s = EventSlot.IRQ_SLOT then ⟨50, EventID.IRQ_CHECK, 0⟩
      else ⟨NEVER, EventID.EVENT_NONE, 0⟩, fun _ => 0⟩,
   ⟨0, 0x4000, fun s => if s = 5 then 50 else if s = 7 then 200 else NEVER⟩, 1, 1, 0⟩

/-- The interrupt sources of the examples: the numbers 0 to 13. -/
def exampleIsIrqSource (src : Nat) : Bool := decide (src ≤ 13)

/-! ## Corrupted blocks and traversal bookkeeping (`FSDevice.cpp`) -/

/-- The conversion `(Block)i` of a signed index to the unsigned 32-bit block number. -/
def toBlock (i : Int) : Nat := (i % 4294967296).toNat

/-- `FSDevice::getCorrupted` (FSDevice.cpp 676-680). -/
def FSDevice.getCorrupted (d : FSDevice) (nr : Nat) : Nat :=
  match d.blockPtr nr with
  | some b => b.corrupted
  | none => 0

/-- Modelled from the spec: the one-argument `FSDevice::isCorrupted(Block)` is declared
in a header that is not part of the available sources; a block is corrupted when its
corruption marker, the value `getCorrupted` returns, is not zero. -/
def FSDevice.isCorrupted (d : FSDevice) (nr : Nat) : Bool :=
  d.getCorrupted nr != 0

/-- The `while` loop of `FSDevice::nextCorrupted` (FSDevice.cpp 699) once the index has
been incremented to `i`, with `k` indices left below `numBlocks`; `none` when the loop
ends without a `return`. -/
def FSDevice.nextCorruptedLoop (d : FSDevice) : Nat → Nat → Option Nat
  | 0, _ => none
  | k + 1, i => if d.isCorrupted i then some i else FSDevice.nextCorruptedLoop d k (i + 1)

/-- `FSDevice::nextCorrupted` (FSDevice.cpp 695-701). -/
def FSDevice.nextCorrupted (d : FSDevice) (nr : Nat) : Nat :=
  match FSDevice.nextCorruptedLoop d (d.numBlocks - (nr + 1)) (nr + 1) with
  | some i => i
  | none => nr

/-- The `while` loop of `FSDevice::prevCorrupted` (FSDevice.cpp 707) at index `i`: the
test `i-- >= 0` compares the old value and decrements, the body then looks at the
decremented index.  The inner option is the value returned from inside the loop (`none`
when the loop ends); the outer `none` means that the `fuel` iterations did not suffice. -/
def FSDevice.prevCorruptedLoop (d : FSDevice) : Nat → Int → Option (Option Nat)
  | 0, _ => none
  | fuel + 1, i =>
    if i ≥ 0 then
      if d.isCorrupted (toBlock (i - 1)) then some (some (toBlock (i - 1)))
      else FSDevice.prevCorruptedLoop d fuel (i - 1)
    else some none

/-- `FSDevice::prevCorrupted` (FSDevice.cpp 703-709); the loop gets `nr + 1`
iterations. -/
def FSDevice.prevCorrupted (d : FSDevice) (nr : Nat) : Option Nat :=
  (FSDevice.prevCorruptedLoop d (nr + 1) ((nr : Int) - 1)).map fun r =>
    match r with
    | some i => i
    | none => nr

/-- The values the loop variable `i` of `FSDevice::collectHashedRefs` takes
(FSDevice.cpp 572), in the order of the iterations: the indices passed to
`getHashRef`. -/
def FSDevice.hashIndices (b : FSBlock) : List Nat :=
  (List.range (b.hashTableSize + 1)).reverse

/-- The number of blocks whose number is not in the set `visited`. -/
def FSDevice.unvisited (d : FSDevice) (visited : List Nat) : Nat :=
  d.blocks.countP fun b => decide (b.nr ∉ visited)

/-- The number `v` is the number of a hashable block (user directory or file header) of
the device. -/
def FSDevice.IsHashable (d : FSDevice) (v : Nat) : Prop :=
  ∃ p b, d.hashableBlockPtr p = some b ∧ b.nr = v

/-- The effect of a collecting call on the stack `result` and the set `visited`: the
pushed numbers `new` are pairwise distinct numbers of hashable blocks that had not been
visited, all of them are visited afterwards, nothing leaves the set, and the count of
unvisited blocks drops by at least the number of pushed entries. -/
def FSDevice.Pushed (d : FSDevice) (result visited result1 visited1 : List Nat) : Prop :=
  ∃ new, result1 = new ++ result ∧ new.Nodup ∧ (∀ v ∈ new, v ∉ visited) ∧
    (∀ v ∈ new, v ∈ visited1) ∧ (∀ v ∈ visited, v ∈ visited1) ∧
    (∀ v ∈ new, d.IsHashable v) ∧ d.unvisited visited1 + new.length ≤ d.unvisited visited

/-- A device of four blocks in which only block 1 is marked corrupted. -/
def corruptedDevice : FSDevice :=
  FSDevice.mk
    [plainBlock 0 FSBlockType.FS_BOOT_BLOCK 0 0,
     FSBlock.mk 1 FSBlockType.FS_ROOT_BLOCK 0 3 (fun _ => 0) 0 (FSName.mk 0 0) 1 [],
     plainBlock 2 FSBlockType.FS_FILEHEADER_BLOCK 0 0,
     plainBlock 3 FSBlockType.FS_FILEHEADER_BLOCK 0 0]
    [FSPartition.mk 0 3 1 FSVolumeType.FS_OFS] 512 0 1

/-- A directory with three empty buckets whose `getHashRef` yields the reference 2 for
the index 3, one past the table; block 2 is a file header. -/
def overrunDevice : FSDevice :=
  FSDevice.mk
    [plainBlock 0 FSBlockType.FS_BOOT_BLOCK 0 0,
     FSBlock.mk 1 FSBlockType.FS_ROOT_BLOCK 0 3 (fun i => if i = 3 then 2 else 0) 0
       (FSName.mk 0 0) 0 [],
     chainedBlock 2 0]
    [FSPartition.mk 0 2 1 FSVolumeType.FS_OFS] 512 0 1

/-- Two user directories that list each other: bucket 0 of the root holds directory 2,
bucket 0 of directory 2 holds directory 3, and bucket 0 of directory 3 holds directory 2
again. -/
def mutualDevice : FSDevice :=
  FSDevice.mk
    [plainBlock 0 FSBlockType.FS_BOOT_BLOCK 0 0, rootWith 1 2 0 0,
     FSBlock.mk 2 FSBlockType.FS_USERDIR_BLOCK 0 3 (fun i => if i = 0 then 3 else 0) 0
       (FSName.mk 2 0) 0 [],
     FSBlock.mk 3 FSBlockType.FS_USERDIR_BLOCK 0 3 (fun i => if i = 0 then 2 else 0) 0
       (FSName.mk 3 0) 0 []]
    [FSPartition.mk 0 3 1 FSVolumeType.FS_OFS] 512 0 1

/-! ## Further concrete states -/

/-- Collaborators of the potentiometer code in which the two-argument `scheduleRel`
gives the data value of the slot the default 0 of the spec's contract
`scheduleRelative(slot, id, deltaCycles, data=0)`; a line has 227 DMA cycles and
`schedulePos` triggers at cycle 1000. -/
def specPot : PotExternal :=
  PotExternal.mk 227 (fun _ => 1000) (fun _ => 0)

/-- The directory of `chainedDevice` (bucket 0 holds the chain 2 → 4, bucket 1 is empty,
bucket 2 holds block 3) whose `getHashRef` yields the reference `r` for the index 3, one
past the table; block 5 is a further file header that no bucket refers to. -/
def overrunChained (r : Nat) : FSDevice :=
  FSDevice.mk
    [plainBlock 0 FSBlockType.FS_BOOT_BLOCK 0 0,
     FSBlock.mk 1 FSBlockType.FS_ROOT_BLOCK 0 3
       (fun i => if i = 0 then 2 else if i = 2 then 3 else if i = 3 then r else 0) 0
       (FSName.mk 0 0) 0 [],
     chainedBlock 2 4, chainedBlock 3 0, chainedBlock 4 0, chainedBlock 5 0]
    [FSPartition.mk 0 5 1 FSVolumeType.FS_OFS] 512 0 1

/-- A handler with the scheduling calls of `Paula::serviceIrqEvent` (Paula.cpp 201, 142,
370 and 209): run in the IRQ slot it reschedules the IPL slot 32 cycles after the clock,
as `checkInterrupt` does, and then sets its own slot to `NEVER`; run in another slot it
cancels that slot. -/
def irqStyleHandler (s : EventSlot) (ag : Agnus) : Agnus :=
  if s = EventSlot.IRQ_SLOT then
    (ag.scheduleRel EventSlot.IPL_SLOT 32 EventID.IPL_CHANGE 0).scheduleAbs0
      EventSlot.IRQ_SLOT NEVER EventID.IRQ_CHECK
  else ag.cancel s

/-- A handler that cancels its own slot and, run in the slot of CIA A, schedules the
slot of CIA B at the current clock. -/
def wakingHandler (s : EventSlot) (ag : Agnus) : Agnus :=
  if s = EventSlot.CIAA_SLOT then
    (ag.cancel s).scheduleAbs EventSlot.CIAB_SLOT ag.clock EventID.EVENT_NONE 0
  else ag.cancel s

/-- A queue at clock 50 with two due events: `IRQ_CHECK` in the IRQ slot at cycle 10 and
`IPL_CHANGE` (level 3) in the IPL slot at cycle 20. -/
def irqIplAgnus : Agnus :=
  Agnus.mk 50
    (fun s =>
      if s = EventSlot.IRQ_SLOT then Event.mk 10 EventID.IRQ_CHECK 0
      else if s = EventSlot.IPL_SLOT then Event.mk 20 EventID.IPL_CHANGE 3
      else Event.mk NEVER EventID.EVENT_NONE 0)
    (fun _ => 0)

/-- A queue at clock 50 whose only event is due in the slot of CIA A at cycle 10. -/
def ciaAgnus : Agnus :=
  Agnus.mk 50
    (fun s =>
      if s = EventSlot.CIAA_SLOT then Event.mk 10 EventID.EVENT_NONE 0
      else Event.mk NEVER EventID.EVENT_NONE 0)
    (fun _ => 0)

/-! # Theorems -/

/-! ## Bitwise helper lemmas -/

theorem and_ne_zero_iff (m c : Nat) :
    m &&& c ≠ 0 ↔ ∃ i, m.testBit i = true ∧ c.testBit i = true := by
  constructor
  · intro h
    obtain ⟨i, hi⟩ := Nat.ne_zero_implies_bit_true h
    rw [Nat.testBit_and] at hi
    exact ⟨i, by simpa using hi⟩
  · rintro ⟨i, h1, h2⟩ h0
    have : (m &&& c).testBit i = true := by rw [Nat.testBit_and, h1, h2]; rfl
    rw [h0] at this
    simp at this

theorem testBit_const_high (c i : Nat) (hc : c < 65536) (hi : ¬ i < 16) :
    c.testBit i = false := by
  apply Nat.testBit_lt_two_pow
  have h16 : (2 : Nat) ^ 16 ≤ 2 ^ i := Nat.pow_le_pow_right (by norm_num) (not_lt.mp hi)
  have e : (2 : Nat) ^ 16 = 65536 := by norm_num
  omega

theorem and_007F (v : Nat) : u16 v &&& 0x7F = v % 128 := by
  have h := Nat.and_pow_two_sub_one_eq_mod (u16 v) 7
  have e : (2 : Nat) ^ 7 - 1 = 0x7F := by norm_num
  rw [e] at h
  rw [h]
  unfold u16
  omega

/-- Claim C1: for every written value `v`, `pokeAUDxVOL` stores
`audvolLatch = min (v & 0x7F) 64` and changes no other channel field; `0xFFFF` yields 64,
`0x0020` yields 32, `0x0041` yields 64, and the stored latch is always in `0..64`. -/
theorem pokeAUDxVOL_clamps (sm : StateMachine) (v : Nat) :
    sm.pokeAUDxVOL v = { sm with audvolLatch := min (v &&& 0x7F) 64 } ∧
    (sm.pokeAUDxVOL v).audvolLatch ≤ 64 ∧
    (sm.pokeAUDxVOL 0xFFFF).audvolLatch = 64 ∧
    (sm.pokeAUDxVOL 0x0020).audvolLatch = 32 ∧
    (sm.pokeAUDxVOL 0x0041).audvolLatch = 64 := by
  have hv : v &&& 0x7F = v % 128 := by
    have h := Nat.and_pow_two_sub_one_eq_mod v 7
    have e : (2 : Nat) ^ 7 - 1 = 0x7F := by norm_num
    rw [e] at h
    exact h
  have key : ∀ w : Nat, MIN (u16 w &&& 0x7F) 64 = min (w % 128) 64 := by
    intro w
    rw [and_007F]
    unfold MIN
    split <;> omega
  refine ⟨?_, ?_, ?_, ?_, ?_⟩
  · simp only [StateMachine.pokeAUDxVOL, key, hv]
  · simp only [StateMachine.pokeAUDxVOL, key]
    omega
  · simp only [StateMachine.pokeAUDxVOL, key]; norm_num
  · simp only [StateMachine.pokeAUDxVOL, key]; norm_num
  · simp only [StateMachine.pokeAUDxVOL, key]; norm_num

theorem and_mask_iff (m c : Nat) (hc : c < 65536) :
    m &&& c ≠ 0 ↔ ∃ i, i < 16 ∧ m.testBit i = true ∧ c.testBit i = true := by
  rw [and_ne_zero_iff]
  constructor
  · rintro ⟨i, h1, h2⟩
    by_cases hi : i < 16
    · exact ⟨i, hi, h1, h2⟩
    · rw [testBit_const_high c i hc hi] at h2
      cases h2
  · rintro ⟨i, _, h1, h2⟩
    exact ⟨i, h1, h2⟩

theorem and_group6 (m : Nat) :
    m &&& 0b0110000000000000 ≠ 0 ↔ (m.testBit 13 || m.testBit 14) = true := by
  rw [and_mask_iff _ _ (by norm_num)]
  constructor
  · rintro ⟨i, hi, h1, h2⟩
    interval_cases i <;> simp_all +decide
  · intro h
    rcases Bool.or_eq_true _ _ ▸ h with h | h
    · exact ⟨13, by norm_num, h, by decide⟩
    · exact ⟨14, by norm_num, h, by decide⟩

theorem and_group5 (m : Nat) :
    m &&& 0b0001100000000000 ≠ 0 ↔ (m.testBit 11 || m.testBit 12) = true := by
  rw [and_mask_iff _ _ (by norm_num)]
  constructor
  · rintro ⟨i, hi, h1, h2⟩
    interval_cases i <;> simp_all +decide
  · intro h
    simp only [Bool.or_eq_true] at h
    rcases h with h | h
    · exact ⟨11, by norm_num, h, by decide⟩
    · exact ⟨12, by norm_num, h, by decide⟩

theorem and_group4 (m : Nat) :
    m &&& 0b0000011110000000 ≠ 0 ↔
      (m.testBit 7 || m.testBit 8 || m.testBit 9 || m.testBit 10) = true := by
  rw [and_mask_iff _ _ (by norm_num)]
  constructor
  · rintro ⟨i, hi, h1, h2⟩
    interval_cases i <;> simp_all +decide
  · intro h
    simp only [Bool.or_eq_true] at h
    rcases h with ((h | h) | h) | h
    · exact ⟨7, by norm_num, h, by decide⟩
    · exact ⟨8, by norm_num, h, by decide⟩
    · exact ⟨9, by norm_num, h, by decide⟩
    · exact ⟨10, by norm_num, h, by decide⟩

theorem and_group3 (m : Nat) :
    m &&& 0b0000000001110000 ≠ 0 ↔
      (m.testBit 4 || m.testBit 5 || m.testBit 6) = true := by
  rw [and_mask_iff _ _ (by norm_num)]
  constructor
  · rintro ⟨i, hi, h1, h2⟩
    interval_cases i <;> simp_all +decide
  · intro h
    simp only [Bool.or_eq_true] at h
    rcases h with (h | h) | h
    · exact ⟨4, by norm_num, h, by decide⟩
    · exact ⟨5, by norm_num, h, by decide⟩
    · exact ⟨6, by norm_num, h, by decide⟩

theorem and_group2 (m : Nat) :
    m &&& 0b0000000000001000 ≠ 0 ↔ m.testBit 3 = true := by
  rw [and_mask_iff _ _ (by norm_num)]
  constructor
  · rintro ⟨i, hi, h1, h2⟩
    interval_cases i <;> simp_all +decide
  · intro h
    exact ⟨3, by norm_num, h, by decide⟩

theorem and_group1 (m : Nat) :
    m &&& 0b0000000000000111 ≠ 0 ↔
      (m.testBit 0 || m.testBit 1 || m.testBit 2) = true := by
  rw [and_mask_iff _ _ (by norm_num)]
  constructor
  · rintro ⟨i, hi, h1, h2⟩
    interval_cases i <;> simp_all +decide
  · intro h
    simp only [Bool.or_eq_true] at h
    rcases h with (h | h) | h
    · exact ⟨0, by norm_num, h, by decide⟩
    · exact ⟨1, by norm_num, h, by decide⟩
    · exact ⟨2, by norm_num, h, by decide⟩

theorem and_master (m : Nat) : m &&& 0x4000 ≠ 0 ↔ m.testBit 14 = true := by
  rw [and_mask_iff _ _ (by norm_num)]
  constructor
  · rintro ⟨i, hi, h1, h2⟩
    interval_cases i <;> simp_all +decide
  · intro h
    exact ⟨14, by norm_num, h, by decide⟩

theorem testBit_u16 (x i : Nat) (hi : i < 16) : (u16 x).testBit i = x.testBit i := by
  have e : (65536 : Nat) = 2 ^ 16 := by norm_num
  unfold u16
  rw [e, Nat.testBit_mod_two_pow]
  simp [hi]

theorem testBit_mask (q e i : Nat) (hi : i < 16) :
    (u16 (u16 q &&& e)).testBit i = (q.testBit i && e.testBit i) := by
  rw [testBit_u16 _ _ hi, Nat.testBit_and, testBit_u16 _ _ hi]

theorem interruptLevel_eq (intreq intena : Nat) :
    interruptLevel intreq intena =
      if intena.testBit 14 = true then
        levelByGroups (fun i => intreq.testBit i && intena.testBit i)
      else 0 := by
  unfold interruptLevel levelByGroups
  simp only [and_master, and_group6, and_group5, and_group4, and_group3, and_group2,
    and_group1]
  simp only [testBit_mask _ _ _ (by norm_num : (0:Nat) < 16),
    testBit_mask _ _ _ (by norm_num : (1:Nat) < 16),
    testBit_mask _ _ _ (by norm_num : (2:Nat) < 16),
    testBit_mask _ _ _ (by norm_num : (3:Nat) < 16),
    testBit_mask _ _ _ (by norm_num : (4:Nat) < 16),
    testBit_mask _ _ _ (by norm_num : (5:Nat) < 16),
    testBit_mask _ _ _ (by norm_num : (6:Nat) < 16),
    testBit_mask _ _ _ (by norm_num : (7:Nat) < 16),
    testBit_mask _ _ _ (by norm_num : (8:Nat) < 16),
    testBit_mask _ _ _ (by norm_num : (9:Nat) < 16),
    testBit_mask _ _ _ (by norm_num : (10:Nat) < 16),
    testBit_mask _ _ _ (by norm_num : (11:Nat) < 16),
    testBit_mask _ _ _ (by norm_num : (12:Nat) < 16),
    testBit_mask _ _ _ (by norm_num : (13:Nat) < 16),
    testBit_mask _ _ _ (by norm_num : (14:Nat) < 16)]

theorem levelByGroups_range (hit : Nat → Bool) :
    0 ≤ levelByGroups hit ∧ levelByGroups hit ≤ 6 := by
  unfold levelByGroups
  repeat' split
  all_goals omega

/-- Claim C2: `interruptLevel` is 0 when bit 14 of `intena` is clear; otherwise it is the
level of the highest bit group that meets `intreq & intena`, tried in the order
6:{13,14}, 5:{11,12}, 4:{7..10}, 3:{4..6}, 2:{3}, 1:{0..2}, and 0 if none does.  With
the master enable set an enabled request bit 2 alone gives level 1 and an enabled request
bit 13 gives level 6; the result always lies in `0..6`. -/
theorem interruptLevel_priority (intreq intena : Nat) :
    (intena.testBit 14 = false → interruptLevel intreq intena = 0) ∧
    (intena.testBit 14 = true → interruptLevel intreq intena =
      levelByGroups (fun i => intreq.testBit i && intena.testBit i)) ∧
    (0 ≤ interruptLevel intreq intena ∧ interruptLevel intreq intena ≤ 6) ∧
    (intena.testBit 14 = true → intena.testBit 2 = true →
      interruptLevel 0b0000000000000100 intena = 1) ∧
    (intena.testBit 14 = true → intena.testBit 13 = true → intreq.testBit 13 = true →
      interruptLevel intreq intena = 6) := by
  refine ⟨?_, ?_, ?_, ?_, ?_⟩
  · intro h
    rw [interruptLevel_eq]; simp [h]
  · intro h
    rw [interruptLevel_eq]; simp [h]
  · rw [interruptLevel_eq]
    split
    · exact levelByGroups_range _
    · omega
  · intro h14 h2
    rw [interruptLevel_eq]
    have t : ∀ i, i < 16 → i ≠ 2 → (0b0000000000000100 : Nat).testBit i = false := by
      intro i hi h
      interval_cases i <;> first | decide | exact absurd rfl h
    have t2 : (0b0000000000000100 : Nat).testBit 2 = true := by decide
    simp only [levelByGroups, h14, h2, t2, t 0 (by norm_num) (by norm_num),
      t 1 (by norm_num) (by norm_num), t 3 (by norm_num) (by norm_num),
      t 4 (by norm_num) (by norm_num), t 5 (by norm_num) (by norm_num),
      t 6 (by norm_num) (by norm_num), t 7 (by norm_num) (by norm_num),
      t 8 (by norm_num) (by norm_num), t 9 (by norm_num) (by norm_num),
      t 10 (by norm_num) (by norm_num), t 11 (by norm_num) (by norm_num),
      t 12 (by norm_num) (by norm_num), t 13 (by norm_num) (by norm_num),
      t 14 (by norm_num) (by norm_num)]
    simp
  · intro h14 h13 hq
    rw [interruptLevel_eq]
    simp [h14, levelByGroups, h13, hq]

/-! ## TOD counter -/

theorem TOD.increment_stopped (t : TOD) (h : t.stopped = true) : t.increment = t := by
  simp [TOD.increment, h]

theorem TOD.increment_other (t : TOD) :
    t.increment.latch = t.latch ∧ t.increment.alarm = t.alarm ∧
    t.increment.frozen = t.frozen ∧ t.increment.stopped = t.stopped := by
  unfold TOD.increment TOD.checkForInterrupt
  by_cases hs : t.stopped = true
  · simp [hs]
  · simp only [hs]
    refine ⟨?_, ?_, ?_, ?_⟩ <;> (repeat' split) <;> simp_all

theorem TOD.increment_digits (t : TOD) (h : t.stopped = false) :
    t.increment.tod.lo = (t.tod.lo + 1) % 256 ∧
    t.increment.tod.mid =
      (if (t.tod.lo + 1) % 256 = 0 then (t.tod.mid + 1) % 256 else t.tod.mid) ∧
    t.increment.tod.hi =
      (if (t.tod.lo + 1) % 256 = 0 ∧ (t.tod.mid + 1) % 256 = 0 then (t.tod.hi + 1) % 256
       else t.tod.hi) := by
  unfold TOD.increment TOD.checkForInterrupt u8
  simp only [h]
  refine ⟨?_, ?_, ?_⟩ <;> (repeat' split) <;> simp_all

theorem TOD.increment_value (t : TOD) (h : t.stopped = false) (hw : t.tod.wf) :
    t.increment.tod.value = (t.tod.value + 1) % 2 ^ 24 ∧ t.increment.tod.wf := by
  obtain ⟨h1, h2, h3⟩ := TOD.increment_digits t h
  obtain ⟨w1, w2, w3⟩ := hw
  unfold Counter24.wf Counter24.value
  rw [h1, h2, h3]
  norm_num
  refine ⟨?_, ?_, ?_, ?_⟩ <;> (repeat' split) <;> omega

theorem TOD.increment_matching (t : TOD) (h : t.stopped = false) :
    t.increment.matching = (t.increment.tod.value == t.increment.alarm.value) := by
  unfold TOD.increment TOD.checkForInterrupt
  simp only [h]
  (repeat' split) <;> simp_all

theorem TOD.increment_cia (t : TOD) (h : t.stopped = false) :
    t.increment.cia.todInterrupts =
      t.cia.todInterrupts +
        (if t.matching = false ∧ t.increment.tod.value = t.alarm.value then 1 else 0) := by
  unfold TOD.increment TOD.checkForInterrupt CIA.todInterrupt
  simp only [h]
  (repeat' split) <;> simp_all

theorem TOD.iterate_running (t : TOD) (h : t.stopped = false) (hw : t.tod.wf) (n : Nat) :
    (TOD.increment^[n] t).stopped = false ∧ (TOD.increment^[n] t).tod.wf ∧
    (TOD.increment^[n] t).tod.value = (t.tod.value + n) % 2 ^ 24 ∧
    (TOD.increment^[n] t).alarm = t.alarm := by
  induction n with
  | zero =>
    obtain ⟨w1, w2, w3⟩ := hw
    refine ⟨h, ⟨w1, w2, w3⟩, ?_, rfl⟩
    simp only [Function.iterate_zero, id_eq, Counter24.value]
    omega
  | succ k ih =>
    obtain ⟨s, w, v, al⟩ := ih
    rw [Function.iterate_succ_apply']
    obtain ⟨hv, hw2⟩ := TOD.increment_value _ s w
    obtain ⟨_, ha, _, hs⟩ := TOD.increment_other (TOD.increment^[k] t)
    refine ⟨by rw [hs, s], hw2, ?_, by rw [ha, al]⟩
    rw [hv, v]
    omega

theorem Counter24.eq_zero_iff (c : Counter24) (hw : c.wf) :
    c = ⟨0, 0, 0⟩ ↔ c.value = 0 := by
  obtain ⟨w1, w2, w3⟩ := hw
  constructor
  · intro h; rw [h]; rfl
  · intro h
    unfold Counter24.value at h
    cases c
    simp only [Counter24.mk.injEq] at *
    omega

/-- Claim C3: `increment` is a no-op when the counter is stopped (counter, matching flag
and CIA unchanged); otherwise the 24-bit value `hi*65536 + mid*256 + lo` becomes
`(v + 1) mod 2^24`, `lo` wrapping 255->0 with a carry into `mid` and `mid` wrapping
255->0 with a carry into `hi`; latch, alarm, frozen and stopped never change. -/
theorem TOD_increment_ripple (t : TOD) (hw : t.tod.wf) :
    (t.stopped = true → t.increment = t) ∧
    (t.stopped = false →
      t.increment.tod.value = (t.tod.value + 1) % 2 ^ 24 ∧
      t.increment.tod.lo = (t.tod.lo + 1) % 256 ∧
      t.increment.tod.mid = (if t.tod.lo = 255 then (t.tod.mid + 1) % 256 else t.tod.mid) ∧
      t.increment.tod.hi =
        (if t.tod.lo = 255 ∧ t.tod.mid = 255 then (t.tod.hi + 1) % 256 else t.tod.hi)) ∧
    t.increment.latch = t.latch ∧ t.increment.alarm = t.alarm ∧
    t.increment.frozen = t.frozen ∧ t.increment.stopped = t.stopped := by
  refine ⟨TOD.increment_stopped t, ?_, TOD.increment_other t⟩
  intro h
  obtain ⟨h1, h2, h3⟩ := TOD.increment_digits t h
  obtain ⟨w1, w2, w3⟩ := hw
  refine ⟨(TOD.increment_value t h ⟨w1, w2, w3⟩).1, h1, ?_, ?_⟩
  · rw [h2]; (repeat' split) <;> omega
  · rw [h3]; (repeat' split) <;> omega

/-- Claim C4: a running counter holding (0,0,0) is back at (0,0,0) after exactly
`256*256*256` increments, and after no smaller positive number of increments. -/
theorem TOD_increment_period (t : TOD) (hs : t.stopped = false)
    (h0 : t.tod = ⟨0, 0, 0⟩) :
    (TOD.increment^[256 * 256 * 256] t).tod = ⟨0, 0, 0⟩ ∧
    ∀ n, 0 < n → n < 256 * 256 * 256 → (TOD.increment^[n] t).tod ≠ ⟨0, 0, 0⟩ := by
  have hw : t.tod.wf := by rw [h0]; decide
  have hv : t.tod.value = 0 := by rw [h0]; rfl
  constructor
  · obtain ⟨_, w, v, _⟩ := TOD.iterate_running t hs hw (256 * 256 * 256)
    rw [Counter24.eq_zero_iff _ w, v, hv]
    norm_num
  · intro n hn hlt
    obtain ⟨_, w, v, _⟩ := TOD.iterate_running t hs hw n
    rw [Ne, Counter24.eq_zero_iff _ w, v, hv]
    omega

theorem Counter24.value_lt (c : Counter24) (hw : c.wf) : c.value < 2 ^ 24 := by
  obtain ⟨w1, w2, w3⟩ := hw
  unfold Counter24.value
  norm_num
  omega

theorem TOD.iterate_interrupts (t : TOD) (hs : t.stopped = false) (hw : t.tod.wf)
    (ha : t.alarm.wf) (hm : t.matching = (t.tod.value == t.alarm.value)) (n : Nat)
    (hn : n ≤ 2 ^ 24) :
    (TOD.increment^[n] t).cia.todInterrupts =
      t.cia.todInterrupts +
        (if (t.alarm.value + 2 ^ 24 - t.tod.value - 1) % 2 ^ 24 + 1 ≤ n then 1 else 0) ∧
    ((TOD.increment^[n] t).matching = true ↔
      (t.tod.value + n) % 2 ^ 24 = t.alarm.value) := by
  have hv := Counter24.value_lt _ hw
  have hav := Counter24.value_lt _ ha
  induction n with
  | zero =>
    simp only [Function.iterate_zero, id_eq, hm]
    norm_num at hv hav ⊢
    omega
  | succ k ih =>
    obtain ⟨ic, im⟩ := ih (by omega)
    obtain ⟨s, w, v, al⟩ := TOD.iterate_running t hs hw k
    obtain ⟨_, _, v1, _⟩ := TOD.iterate_running t hs hw (k + 1)
    rw [Function.iterate_succ_apply'] at v1 ⊢
    have hc := TOD.increment_cia _ s
    have hmm := TOD.increment_matching _ s
    have hal := (TOD.increment_other (TOD.increment^[k] t)).2.1
    rw [hc, hmm, hal, al, v1, ic]
    simp only [Nat.reducePow, beq_iff_eq] at hv hav hn im ⊢
    cases hb : (TOD.increment^[k] t).matching
    · rw [hb] at im
      simp only [Bool.false_eq_true, false_iff] at im
      simp only [true_and]
      constructor
      · split_ifs <;> omega
      · trivial
    · rw [hb] at im
      simp only [true_iff] at im
      simp only [Bool.true_eq_false, false_and, if_false]
      constructor
      · split_ifs <;> omega
      · trivial

/-- Claim C5: on a running counter `increment` calls `todInterrupt` iff the matching flag
was false before the call and the incremented value equals the alarm; no interrupt is
raised while matching already holds; and with `matching` initially equal to
`tod == alarm`, a run of `2^24` consecutive increments raises exactly one interrupt. -/
theorem TOD_alarm_edge_triggered (t : TOD) (hs : t.stopped = false) :
    (t.increment.cia.todInterrupts =
      t.cia.todInterrupts +
        (if t.matching = false ∧ t.increment.tod.value = t.alarm.value then 1 else 0)) ∧
    (t.matching = true → t.increment.cia = t.cia) ∧
    (t.tod.wf → t.alarm.wf → t.matching = (t.tod.value == t.alarm.value) →
      (TOD.increment^[2 ^ 24] t).cia.todInterrupts = t.cia.todInterrupts + 1) := by
  refine ⟨TOD.increment_cia t hs, ?_, ?_⟩
  · intro hm
    have h := TOD.increment_cia t hs
    rw [hm] at h
    simp at h
    cases hc : t.increment.cia
    cases hc2 : t.cia
    rw [hc, hc2] at h
    simp_all
  · intro hw ha hm
    have h := (TOD.iterate_interrupts t hs hw ha hm (2 ^ 24) le_rfl).1
    rw [h]
    have hv := Counter24.value_lt _ hw
    have hav := Counter24.value_lt _ ha
    norm_num at hv hav ⊢
    omega

/-- Claim C6 (amended): after every call of `increment` on a counter that is not stopped,
`matching == (tod.value == alarm.value)`, whether or not an interrupt fired. -/
theorem TOD_matching_updated_when_running (t : TOD) (hs : t.stopped = false) :
    t.increment.matching = (t.increment.tod.value == t.increment.alarm.value) :=
  TOD.increment_matching t hs

/-- Claim C6 (counterexample): on a stopped counter with `tod = alarm = (0,0,0)` and
`matching = false`, `increment` returns early and the flag stays false although the two
values are equal. -/
theorem TOD_matching_stale_when_stopped :
    (TOD.increment ⟨⟨0, 0, 0⟩, ⟨0, 0, 0⟩, ⟨0, 0, 0⟩, false, true, false, ⟨0⟩⟩).matching ≠
      ((TOD.increment ⟨⟨0, 0, 0⟩, ⟨0, 0, 0⟩, ⟨0, 0, 0⟩, false, true, false, ⟨0⟩⟩).tod.value ==
       (TOD.increment ⟨⟨0, 0, 0⟩, ⟨0, 0, 0⟩, ⟨0, 0, 0⟩, false, true, false, ⟨0⟩⟩).alarm.value) := by
  decide

/-! ## Interrupt controller -/

theorem u16_of_lt (v : Nat) (h : v < 65536) : u16 v = v := by
  unfold u16; omega

theorem and_7FFF_bit15 (v : Nat) : u16 (v &&& 0x7FFF) &&& 0x8000 = 0 := by
  have h1 : v &&& 0x7FFF ≤ 0x7FFF := Nat.and_le_right
  rw [u16_of_lt _ (by omega), Nat.and_assoc]
  have : (0x7FFF : Nat) &&& 0x8000 = 0 := by decide
  rw [this, Nat.and_zero]

theorem Amiga.setINTREQ_some (x : External) (a : Amiga) (setclr : Bool) (value : Nat)
    (h : u16 value &&& 0x8000 = 0) :
    ∃ a1, a.setINTREQ x setclr value = some a1 ∧
      a1.paula.intreq =
        u16 ((if a.ciabIrqPin = 0 then fun r => SET_BIT r 13 else id)
          ((if a.ciaaIrqPin = 0 then fun r => SET_BIT r 3 else id)
            (if setclr then a.paula.intreq ||| u16 value
             else a.paula.intreq &&& (0xFFFF ^^^ u16 value)))) ∧
      a1.paula.intena = a.paula.intena ∧
      a1.paula.setIntreq = a.paula.setIntreq ∧
      a1.agnus = a.agnus.scheduleRel EventSlot.IPL_SLOT (x.DMA_CYCLES 4) EventID.IPL_CHANGE
          a1.interruptLevel ∧
      a1.ciaaIrqPin = a.ciaaIrqPin ∧ a1.ciabIrqPin = a.ciabIrqPin ∧
      a1.cpuIPL = a.cpuIPL := by
  unfold Amiga.setINTREQ
  simp only [h, ne_eq, not_true_eq_false, if_false]
  refine ⟨_, rfl, ?_, rfl, rfl, rfl, rfl, rfl, rfl⟩
  by_cases h1 : a.ciaaIrqPin = 0 <;> by_cases h2 : a.ciabIrqPin = 0 <;>
    simp [Amiga.checkInterrupt, h1, h2]

theorem Amiga.setINTENA_some (x : External) (a : Amiga) (setclr : Bool) (value : Nat)
    (h : u16 value &&& 0x8000 = 0) :
    ∃ a1, a.setINTENA x setclr value = some a1 ∧
      a1.paula.intena =
        u16 (if setclr then a.paula.intena ||| u16 value
             else a.paula.intena &&& (0xFFFF ^^^ u16 value)) ∧
      a1.paula.intreq = a.paula.intreq ∧
      a1.paula.setIntreq = a.paula.setIntreq ∧
      a1.agnus = a.agnus.scheduleRel EventSlot.IPL_SLOT (x.DMA_CYCLES 4) EventID.IPL_CHANGE
          a1.interruptLevel ∧
      a1.ciaaIrqPin = a.ciaaIrqPin ∧ a1.ciabIrqPin = a.ciabIrqPin ∧
      a1.cpuIPL = a.cpuIPL := by
  unfold Amiga.setINTENA
  simp only [h, ne_eq, not_true_eq_false, if_false]
  exact ⟨_, rfl, rfl, rfl, rfl, rfl, rfl, rfl, rfl⟩

theorem Amiga.pokeINTREQ_some (x : External) (a : Amiga) (value : Nat) :
    ∃ a1, a.pokeINTREQ x value = some a1 ∧ a1.paula.intena = a.paula.intena ∧
      a1.cpuIPL = a.cpuIPL ∧ a1.agnus.audlc = a.agnus.audlc ∧
      a1.agnus.clock = a.agnus.clock := by
  unfold Amiga.pokeINTREQ Amiga.setINTREQ1
  obtain ⟨a1, h1, _, h3, _, h5, _, _, h8⟩ :=
    Amiga.setINTREQ_some x a (u16 (u16 value) &&& 0x8000 != 0) (u16 (u16 value) &&& 0x7FFF)
      (and_7FFF_bit15 _)
  refine ⟨a1, h1, h3, h8, ?_, ?_⟩ <;> rw [h5] <;> rfl

theorem lt16_or (p q : Nat) (hp : p < 65536) (hq : q < 65536) : p ||| q < 65536 := by
  have e : (65536 : Nat) = 2 ^ 16 := by norm_num
  rw [e] at hp hq ⊢
  exact Nat.or_lt_two_pow hp hq

theorem pinned_eq (r : Nat) (pa pb : Nat) :
    (if pb = 0 then fun r => SET_BIT r 13 else id)
        ((if pa = 0 then fun r => SET_BIT r 3 else id) r) =
      r ||| ((if pa = 0 then 0b1000 else 0) ||| (if pb = 0 then 0b0010000000000000 else 0)) := by
  have e3 : (1 : Nat) <<< 3 = 0b1000 := by decide
  have e13 : (1 : Nat) <<< 13 = 0b0010000000000000 := by decide
  by_cases h1 : pa = 0 <;> by_cases h2 : pb = 0 <;>
    simp only [h1, h2, if_true, if_false, SET_BIT, id, e3, e13, Nat.or_zero, Nat.zero_or,
      Nat.or_assoc]

/-- Claim C9: for every mask with bit 15 clear, `setINTREQ(set, mask)` makes `intreq`
equal to `(set ? old | mask : old & ~mask) | pins`, where `pins` has bit 3 set iff CIA A's
IRQ pin is 0 and bit 13 set iff CIA B's IRQ pin is 0; `intena` is unchanged and the
priority check is re-run (the IPL slot is rescheduled with the new level).  A request to
clear bit 3 or 13 leaves that bit set while the corresponding pin is low. -/
theorem setINTREQ_forces_pins (x : External) (a : Amiga) (setclr : Bool) (mask : Nat)
    (hm : mask < 65536) (h15 : mask &&& 0x8000 = 0) (hq : a.paula.intreq < 65536) :
    ∃ a1, a.setINTREQ x setclr mask = some a1 ∧
      a1.paula.intreq =
        ((if setclr then a.paula.intreq ||| mask
          else a.paula.intreq &&& (0xFFFF ^^^ mask)) |||
         ((if a.ciaaIrqPin = 0 then 0b1000 else 0) |||
          (if a.ciabIrqPin = 0 then 0b0010000000000000 else 0))) ∧
      (∀ i, i < 16 → a1.paula.intreq.testBit i =
        ((if setclr then a.paula.intreq.testBit i || mask.testBit i
          else a.paula.intreq.testBit i && !mask.testBit i) ||
         (decide (i = 3 ∧ a.ciaaIrqPin = 0) || decide (i = 13 ∧ a.ciabIrqPin = 0)))) ∧
      a1.paula.intena = a.paula.intena ∧
      a1.agnus = a.agnus.scheduleRel EventSlot.IPL_SLOT (x.DMA_CYCLES 4) EventID.IPL_CHANGE
          a1.interruptLevel ∧
      (a.ciaaIrqPin = 0 → a1.paula.intreq.testBit 3 = true) ∧
      (a.ciabIrqPin = 0 → a1.paula.intreq.testBit 13 = true) := by
  have hu : u16 mask = mask := u16_of_lt _ hm
  obtain ⟨a1, h1, h2, h3, _, h5, _, _, _⟩ :=
    Amiga.setINTREQ_some x a setclr mask (by rw [hu]; exact h15)
  rw [pinned_eq, hu] at h2
  have hb : (if setclr then a.paula.intreq ||| mask
      else a.paula.intreq &&& (0xFFFF ^^^ mask)) < 65536 := by
    split
    · exact lt16_or _ _ hq hm
    · exact lt_of_le_of_lt Nat.and_le_left hq
  have hp : ((if a.ciaaIrqPin = 0 then 0b1000 else 0) |||
      (if a.ciabIrqPin = 0 then 0b0010000000000000 else 0) : Nat) < 65536 := by
    apply lt16_or <;> split <;> norm_num
  rw [u16_of_lt _ (lt16_or _ _ hb hp)] at h2
  have bits : ∀ i, i < 16 → a1.paula.intreq.testBit i =
        ((if setclr then a.paula.intreq.testBit i || mask.testBit i
          else a.paula.intreq.testBit i && !mask.testBit i) ||
         (decide (i = 3 ∧ a.ciaaIrqPin = 0) || decide (i = 13 ∧ a.ciabIrqPin = 0))) := by
    intro i hi
    rw [h2, Nat.testBit_or, Nat.testBit_or]
    congr 1
    · cases setclr
      · simp only [Bool.false_eq_true, if_false, Nat.testBit_and, Nat.testBit_xor]
        have : (0xFFFF : Nat).testBit i = true := by
          interval_cases i <;> decide
        rw [this]
        simp
      · simp only [if_true, Nat.testBit_or]
    · congr 1
      · by_cases hpa : a.ciaaIrqPin = 0
        · simp only [hpa, if_true, and_true]
          interval_cases i <;> decide
        · simp [hpa]
      · by_cases hpb : a.ciabIrqPin = 0
        · simp only [hpb, if_true, and_true]
          interval_cases i <;> decide
        · simp [hpb]
  refine ⟨a1, h1, h2, bits, h3, h5, ?_, ?_⟩
  · intro hpa
    rw [bits 3 (by norm_num)]
    simp [hpa]
  · intro hpb
    rw [bits 13 (by norm_num)]
    simp [hpb]

theorem Agnus.scheduleRel_slot (ag : Agnus) (s : EventSlot) (cycle : Int) (id : EventID)
    (data : Int) :
    (ag.scheduleRel s cycle id data).slot s = ⟨ag.clock + cycle, id, data⟩ ∧
    (ag.scheduleRel s cycle id data).clock = ag.clock ∧
    (ag.scheduleRel s cycle id data).audlc = ag.audlc ∧
    ∀ s1, s1 ≠ s → (ag.scheduleRel s cycle id data).slot s1 = ag.slot s1 := by
  unfold Agnus.scheduleRel Agnus.scheduleAbs
  refine ⟨by simp, rfl, rfl, ?_⟩
  intro s1 h
  simp [Function.update, h]

/-- Claim C10: a call of `setINTREQ` or `setINTENA` made at clock `c` (mask with bit 15
clear) leaves the IPL slot holding the event with trigger `c + DMA_CYCLES(4)`, id
`IPL_CHANGE` and data `interruptLevel()` evaluated on the updated registers; the clock
and the CPU's IPL input are not changed by the call. -/
theorem setINT_schedules_IPL_change (x : External) (a : Amiga) (setclr : Bool) (mask : Nat)
    (h15 : u16 mask &&& 0x8000 = 0) :
    (∃ a1, a.setINTREQ x setclr mask = some a1 ∧
      a1.agnus.slot EventSlot.IPL_SLOT =
        ⟨a.agnus.clock + x.DMA_CYCLES 4, EventID.IPL_CHANGE,
          interruptLevel a1.paula.intreq a1.paula.intena⟩ ∧
      a1.agnus.clock = a.agnus.clock ∧ a1.cpuIPL = a.cpuIPL) ∧
    (∃ a1, a.setINTENA x setclr mask = some a1 ∧
      a1.agnus.slot EventSlot.IPL_SLOT =
        ⟨a.agnus.clock + x.DMA_CYCLES 4, EventID.IPL_CHANGE,
          interruptLevel a1.paula.intreq a1.paula.intena⟩ ∧
      a1.agnus.clock = a.agnus.clock ∧ a1.cpuIPL = a.cpuIPL) := by
  constructor
  · obtain ⟨a1, h1, _, _, _, h5, _, _, h8⟩ := Amiga.setINTREQ_some x a setclr mask h15
    obtain ⟨s1, s2, _, _⟩ := Agnus.scheduleRel_slot a.agnus EventSlot.IPL_SLOT
      (x.DMA_CYCLES 4) EventID.IPL_CHANGE a1.interruptLevel
    refine ⟨a1, h1, ?_, ?_, h8⟩
    · rw [h5, s1]; rfl
    · rw [h5, s2]
  · obtain ⟨a1, h1, _, _, _, h5, _, _, h8⟩ := Amiga.setINTENA_some x a setclr mask h15
    obtain ⟨s1, s2, _, _⟩ := Agnus.scheduleRel_slot a.agnus EventSlot.IPL_SLOT
      (x.DMA_CYCLES 4) EventID.IPL_CHANGE a1.interruptLevel
    refine ⟨a1, h1, ?_, ?_, h8⟩
    · rw [h5, s1]; rfl
    · rw [h5, s2]

/-! ## Audio channel state machine -/

theorem Amiga.pokeINTREQ_eq (x : External) (a : Amiga) (value : Nat) (o : Option Amiga)
    (h : a.pokeINTREQ x value = o) :
    ∃ a1, o = some a1 ∧ a1.paula.intena = a.paula.intena ∧
      a1.cpuIPL = a.cpuIPL ∧ a1.agnus.audlc = a.agnus.audlc ∧
      a1.agnus.clock = a.agnus.clock := by
  obtain ⟨a1, h1, h2⟩ := Amiga.pokeINTREQ_some x a value
  exact ⟨a1, by rw [← h, h1], h2⟩

theorem StateMachine.execute_state0 (x : External) (a : Amiga) (sm : StateMachine)
    (c : Int) (h : sm.state = 0) :
    ∃ a1 sm1 r, sm.execute x a c = some (a1, sm1, r) ∧
      sm1 = { sm with audlen := sm.audlenLatch, audper := 0, state := 1 } := by
  unfold StateMachine.execute
  simp only [h]
  exact ⟨_, _, _, rfl, rfl⟩

theorem StateMachine.execute_state1 (x : External) (a : Amiga) (sm : StateMachine)
    (c : Int) (h : sm.state = 1) :
    ∃ a1 sm1 r, sm.execute x a c = some (a1, sm1, r) ∧
      sm1 = { sm with audlen := (if sm.audlen > 1 then sm.audlen - 1 else sm.audlen),
                      state := 5 } := by
  unfold StateMachine.execute
  simp only [h]
  generalize hp : Amiga.pokeINTREQ x _ _ = o
  obtain ⟨a1, rfl, _⟩ := Amiga.pokeINTREQ_eq _ _ _ _ hp
  refine ⟨_, _, _, rfl, ?_⟩
  split <;> simp_all

theorem StateMachine.execute_state2 (x : External) (a : Amiga) (sm : StateMachine)
    (c : Int) (h : sm.state = 2) :
    ∃ r, sm.execute x a c = some (a,
      (if sm.audper - c < 0 then
        { sm with audper := sm.audper - c + sm.audperLatch, audvol := sm.audvolLatch,
                  auddat := HI_BYTE sm.auddatLatch, state := 3 }
       else { sm with audper := sm.audper - c }), r) := by
  unfold StateMachine.execute
  simp only [h]
  split <;> exact ⟨_, rfl⟩

theorem StateMachine.execute_state3_wait (x : External) (a : Amiga) (sm : StateMachine)
    (c : Int) (h : sm.state = 3) (hw : sm.audper - c > 1) :
    ∃ r, sm.execute x a c = some (a, { sm with audper := sm.audper - c }, r) := by
  unfold StateMachine.execute
  simp only [h, hw, if_true]
  exact ⟨_, rfl⟩

theorem StateMachine.execute_state3_dma (x : External) (a : Amiga) (sm : StateMachine)
    (c : Int) (h : sm.state = 3) (hw : ¬ sm.audper - c > 1)
    (hd : x.audDMA (x.doAudioDMA a.agnus sm.nr).2 sm.nr = true) :
    ∃ a1 sm1 r, sm.execute x a c = some (a1, sm1, r) ∧
      sm1 = { sm with audper := sm.audper - c + sm.audperLatch, audvol := sm.audvolLatch,
                      auddat := LO_BYTE sm.auddatLatch,
                      auddatLatch := u16 (x.doAudioDMA a.agnus sm.nr).1,
                      state := 2,
                      audlen := (if sm.audlen > 1 then sm.audlen - 1 else sm.audlenLatch) } := by
  unfold StateMachine.execute
  simp only [h, hw, if_false, StateMachine.dmaMode, hd, if_true]
  split
  · refine ⟨_, _, _, rfl, ?_⟩
    simp_all
  · generalize hp : Amiga.pokeINTREQ x _ _ = o
    obtain ⟨a1, rfl, _⟩ := Amiga.pokeINTREQ_eq _ _ _ _ hp
    refine ⟨_, _, _, rfl, ?_⟩
    simp_all

theorem StateMachine.execute_state5 (x : External) (a : Amiga) (sm : StateMachine)
    (c : Int) (h : sm.state = 5) :
    ∃ a1 sm1 r, sm.execute x a c = some (a1, sm1, r) ∧
      sm1 = { sm with audvol := sm.audvolLatch, audper := 0,
                      auddatLatch := u16 (x.doAudioDMA a.agnus sm.nr).1,
                      state := 2,
                      audlen := (if sm.audlen > 1 then sm.audlen - 1 else sm.audlenLatch) } := by
  unfold StateMachine.execute
  simp only [h]
  split
  · refine ⟨_, _, _, rfl, ?_⟩
    simp_all
  · generalize hp : Amiga.pokeINTREQ x _ _ = o
    obtain ⟨a1, rfl, _⟩ := Amiga.pokeINTREQ_eq _ _ _ _ hp
    refine ⟨_, _, _, rfl, ?_⟩
    simp_all

theorem StateMachine.execute_sample (x : External) (a : Amiga) (sm : StateMachine)
    (c : Int) (a1 : Amiga) (sm1 : StateMachine) (r : Int)
    (h : sm.execute x a c = some (a1, sm1, r)) :
    r = toInt16 (toInt8 sm1.auddat * (sm1.audvolLatch : Int)) := by
  unfold StateMachine.execute at h
  simp only [Option.map_eq_some'] at h
  obtain ⟨p, _, hp⟩ := h
  simp only [Prod.mk.injEq] at hp
  obtain ⟨_, h2, h3⟩ := hp
  rw [← h3, ← h2]

theorem StateMachine.execute_total (x : External) (a : Amiga) (sm : StateMachine)
    (c : Int)
    (hst : sm.state = 0 ∨ sm.state = 1 ∨ sm.state = 2 ∨ sm.state = 3 ∨ sm.state = 5) :
    ∃ a1 sm1 r, sm.execute x a c = some (a1, sm1, r) ∧
      sm1.audvolLatch = sm.audvolLatch ∧ sm1.audlenLatch = sm.audlenLatch ∧
      sm1.audperLatch = sm.audperLatch ∧ sm1.audlcLatch = sm.audlcLatch ∧
      sm1.nr = sm.nr := by
  rcases hst with h | h | h | h | h
  · obtain ⟨a1, sm1, r, h1, h2⟩ := StateMachine.execute_state0 x a sm c h
    exact ⟨a1, sm1, r, h1, by rw [h2], by rw [h2], by rw [h2], by rw [h2], by rw [h2]⟩
  · obtain ⟨a1, sm1, r, h1, h2⟩ := StateMachine.execute_state1 x a sm c h
    exact ⟨a1, sm1, r, h1, by rw [h2], by rw [h2], by rw [h2], by rw [h2], by rw [h2]⟩
  · obtain ⟨r, h1⟩ := StateMachine.execute_state2 x a sm c h
    refine ⟨_, _, r, h1, ?_, ?_, ?_, ?_, ?_⟩ <;> split <;> rfl
  · unfold StateMachine.execute
    simp only [h]
    split
    · exact ⟨_, _, _, rfl, rfl, rfl, rfl, rfl, rfl⟩
    · split
      · split
        · exact ⟨_, _, _, rfl, rfl, rfl, rfl, rfl, rfl⟩
        · generalize hp : Amiga.pokeINTREQ x _ _ = o
          obtain ⟨a1, rfl, _⟩ := Amiga.pokeINTREQ_eq _ _ _ _ hp
          exact ⟨_, _, _, rfl, rfl, rfl, rfl, rfl, rfl⟩
      · generalize hp : Amiga.pokeINTREQ x _ _ = o
        obtain ⟨a1, rfl, _⟩ := Amiga.pokeINTREQ_eq _ _ _ _ hp
        refine ⟨_, _, _, rfl, ?_, ?_, ?_, ?_, ?_⟩ <;> simp only <;> split <;> rfl
  · obtain ⟨a1, sm1, r, h1, h2⟩ := StateMachine.execute_state5 x a sm c h
    exact ⟨a1, sm1, r, h1, by rw [h2], by rw [h2], by rw [h2], by rw [h2], by rw [h2]⟩

theorem toInt8_range (v : Nat) : -128 ≤ toInt8 v ∧ toInt8 v ≤ 127 := by
  unfold toInt8
  split <;> omega

theorem toInt16_of_range (z : Int) (h1 : -32768 ≤ z) (h2 : z ≤ 32767) : toInt16 z = z := by
  unfold toInt16
  omega

theorem sample_exact (d : Nat) (v : Nat) (hv : v ≤ 256) :
    toInt16 (toInt8 d * (v : Int)) = toInt8 d * (v : Int) ∧
    (v ≤ 64 → -8192 ≤ toInt8 d * (v : Int) ∧ toInt8 d * (v : Int) ≤ 8128) := by
  obtain ⟨l, u⟩ := toInt8_range d
  have hv0 : (0 : Int) ≤ v := Int.ofNat_nonneg v
  have hv1 : (v : Int) ≤ 256 := by exact_mod_cast hv
  have lo : -128 * (v : Int) ≤ toInt8 d * (v : Int) := by nlinarith
  have hi : toInt8 d * (v : Int) ≤ 127 * (v : Int) := by nlinarith
  constructor
  · apply toInt16_of_range <;> omega
  · intro h64
    have : (v : Int) ≤ 64 := by exact_mod_cast h64
    constructor <;> omega

theorem StateMachine.pokeAUDxVOL_le (sm : StateMachine) (v : Nat) :
    (sm.pokeAUDxVOL v).audvolLatch ≤ 64 := by
  simp only [StateMachine.pokeAUDxVOL, MIN]
  split <;> omega

/-- Claim C7 (amended): in every state 0, 1, 2, 3, 5 and for every cycle count `execute`
returns the data register as left by the step, read as a signed 8-bit integer, times the
volume latch `audvolLatch` (not `audvol`), converted to the `int16_t` return type; the
step does not change the latch and applies no clamp, so for every latch value up to 256
the result is the exact product, and for a latch written by `pokeAUDxVOL` it lies in
`[-8192, 8128]`. -/
theorem execute_returns_data_times_volume_latch (x : External) (a : Amiga)
    (sm : StateMachine) (cycles : Int)
    (hst : sm.state = 0 ∨ sm.state = 1 ∨ sm.state = 2 ∨ sm.state = 3 ∨ sm.state = 5) :
    ∃ a1 sm1 r, sm.execute x a cycles = some (a1, sm1, r) ∧
      sm1.audvolLatch = sm.audvolLatch ∧
      r = toInt16 (toInt8 sm1.auddat * (sm.audvolLatch : Int)) ∧
      (sm.audvolLatch ≤ 256 → r = toInt8 sm1.auddat * (sm.audvolLatch : Int)) ∧
      ((∃ sm0 v, sm.audvolLatch = (StateMachine.pokeAUDxVOL sm0 v).audvolLatch) →
        r = toInt8 sm1.auddat * (sm.audvolLatch : Int) ∧ -8192 ≤ r ∧ r ≤ 8128) := by
  obtain ⟨a1, sm1, r, h, hv, _⟩ := StateMachine.execute_total x a sm cycles hst
  have hr := StateMachine.execute_sample x a sm cycles a1 sm1 r h
  rw [hv] at hr
  refine ⟨a1, sm1, r, h, hv, hr, ?_, ?_⟩
  · intro h256
    rw [hr]
    exact (sample_exact _ _ h256).1
  · rintro ⟨sm0, v, hp⟩
    have h64 : sm.audvolLatch ≤ 64 := by
      rw [hp]
      exact StateMachine.pokeAUDxVOL_le sm0 v
    obtain ⟨e, rg⟩ := sample_exact sm1.auddat sm.audvolLatch (by omega)
    rw [hr, e]
    exact ⟨rfl, rg h64⟩

/-- Claim C7, counterexample: a channel in state 2 whose data register holds `0x80`
(-128 as a signed byte) and whose volume latch holds 300; `execute` returns 27136, not
the product -38400, which does not fit the `int16_t` return type.  With the byte `0x7F`
and latch 300 it returns -27436 instead of 38100, with `0x80` and latch `0xFFFF` it
returns 128 instead of -8388480. -/
theorem execute_sample_wraps_beyond_int16 :
    ((playingChannel 300).execute exampleExternal exampleAmiga 1).map
      (fun p => (p.2.1.auddat, p.2.1.audvolLatch, p.2.2)) = some (0x80, 300, 27136) ∧
    toInt8 0x80 * (300 : Int) = -38400 ∧
    ((StateMachine.mk 0 2 4 4 100 50 300 0 0x7F80 0x7F 0).execute exampleExternal
      exampleAmiga 1).map (fun p => (p.2.1.auddat, p.2.1.audvolLatch, p.2.2)) =
      some (0x7F, 300, -27436) ∧
    toInt8 0x7F * (300 : Int) = 38100 ∧
    ((playingChannel 0xFFFF).execute exampleExternal exampleAmiga 1).map
      (fun p => (p.2.1.auddat, p.2.1.audvolLatch, p.2.2)) = some (0x80, 0xFFFF, 128) ∧
    toInt8 0x80 * (0xFFFF : Int) = -8388480 := by
  decide

theorem StateMachine.emissions_loop (x : External) (hd : ∀ ag n, x.audDMA ag n = true)
    (cs : List Int) :
    ∀ (a : Amiga) (sm : StateMachine) (k : Nat),
      (sm.state = 2 ∨ sm.state = 3) → 1 ≤ sm.audlen →
      StateMachine.emissionsUntilReload x cs a sm = some k → k = sm.audlen := by
  induction cs with
  | nil =>
    intro a sm k _ _ h
    simp [StateMachine.emissionsUntilReload] at h
  | cons c cs ih =>
    intro a sm k hst hl h
    unfold StateMachine.emissionsUntilReload at h
    rcases hst with h2 | h3
    · obtain ⟨r, h1⟩ := StateMachine.execute_state2 x a sm c h2
      rw [h1] at h
      simp only [StateMachine.lowByteExpiry, StateMachine.lengthReload, h2] at h
      simp at h
      have := ih _ _ _ (by split <;> simp) (by split <;> simpa using hl) h
      rw [this]
      split <;> rfl
    · by_cases hw : sm.audper - c > 1
      · obtain ⟨r, h1⟩ := StateMachine.execute_state3_wait x a sm c h3 hw
        rw [h1] at h
        simp only [StateMachine.lowByteExpiry, StateMachine.lengthReload, h3, hw] at h
        simp at h
        refine ih a { sm with audper := sm.audper - c, state := 3 } k ?_ ?_ h
        · exact Or.inr rfl
        · exact hl
      · obtain ⟨a1, sm1, r, h1, hs⟩ :=
          StateMachine.execute_state3_dma x a sm c h3 hw (hd _ _)
        rw [h1] at h
        simp only [StateMachine.lowByteExpiry, StateMachine.lengthReload, h3, hw,
          StateMachine.dmaMode, hd] at h
        by_cases h1' : sm.audlen > 1
        · simp [h1'] at h
          obtain ⟨k1, hk, rfl⟩ := h
          have := ih a1 sm1 k1 (by rw [hs]; exact Or.inl rfl)
            (by rw [hs]; simp only [h1', if_true]; omega) hk
          rw [this, hs]
          simp only [h1', if_true]
          omega
        · simp [h1'] at h
          omega

theorem StateMachine.emissions_prefix (x : External) (a : Amiga) (sm : StateMachine)
    (h0 : sm.state = 0) (c0 c1 c2 : Int) (rest : List Int) :
    (sm.audlenLatch ≤ 2 →
      StateMachine.emissionsUntilReload x (c0 :: c1 :: c2 :: rest) a sm = some 0) ∧
    (2 < sm.audlenLatch → ∃ a3 sm3,
      StateMachine.emissionsUntilReload x (c0 :: c1 :: c2 :: rest) a sm =
        StateMachine.emissionsUntilReload x rest a3 sm3 ∧
      sm3.state = 2 ∧ sm3.audlen = sm.audlenLatch - 2 ∧ sm3.audper = 0 ∧
      sm3.audperLatch = sm.audperLatch) := by
  obtain ⟨a1, sm1, r1, e1, s1⟩ := StateMachine.execute_state0 x a sm c0 h0
  have st1 : sm1.state = 1 := by rw [s1]
  obtain ⟨a2, sm2, r2, e2, s2⟩ := StateMachine.execute_state1 x a1 sm1 c1 st1
  have st2 : sm2.state = 5 := by rw [s2]
  obtain ⟨a3, sm3, r3, e3, s3⟩ := StateMachine.execute_state5 x a2 sm2 c2 st2
  have l1 : sm1.audlen = sm.audlenLatch := by rw [s1]
  have l2 : sm2.audlen = if sm.audlenLatch > 1 then sm.audlenLatch - 1 else sm.audlenLatch := by
    rw [s2]; simp only [l1]
  have ll1 : sm1.audlenLatch = sm.audlenLatch := by rw [s1]
  have ll2 : sm2.audlenLatch = sm.audlenLatch := by rw [s2]; exact ll1
  have pp2 : sm2.audperLatch = sm.audperLatch := by rw [s2, s1]
  have step :
      StateMachine.emissionsUntilReload x (c0 :: c1 :: c2 :: rest) a sm =
        if sm2.audlen > 1 then StateMachine.emissionsUntilReload x rest a3 sm3
        else some 0 := by
    rw [StateMachine.emissionsUntilReload, e1]
    simp only [StateMachine.lowByteExpiry, StateMachine.lengthReload, h0]
    simp only [Nat.reduceBEq, Bool.false_and, Bool.or_false, Bool.false_eq_true, if_false]
    rw [StateMachine.emissionsUntilReload, e2]
    simp only [StateMachine.lowByteExpiry, StateMachine.lengthReload, st1]
    simp only [Nat.reduceBEq, Bool.false_and, Bool.or_false, Bool.false_eq_true, if_false]
    rw [StateMachine.emissionsUntilReload, e3]
    simp only [StateMachine.lowByteExpiry, StateMachine.lengthReload, st2]
    by_cases hl : sm2.audlen > 1
    · simp [hl]
    · simp [hl]
  constructor
  · intro hN
    rw [step, l2]
    split_ifs <;> first | rfl | omega
  · intro hN
    refine ⟨a3, sm3, ?_, by rw [s3], ?_, by rw [s3], by rw [s3]; exact pp2⟩
    · rw [step, l2]
      split_ifs <;> first | rfl | omega
    · rw [s3]
      simp only [l2, ll2]
      split_ifs <;> omega

theorem StateMachine.execute_state2_under (x : External) (a : Amiga) (sm : StateMachine)
    (c : Int) (h : sm.state = 2) (hu : sm.audper - c < 0) :
    ∃ sm1 r, sm.execute x a c = some (a, sm1, r) ∧ sm1.state = 3 ∧
      sm1.audper = sm.audper - c + sm.audperLatch ∧ sm1.audlen = sm.audlen ∧
      sm1.audperLatch = sm.audperLatch ∧ sm1.audlenLatch = sm.audlenLatch := by
  obtain ⟨r, e1⟩ := StateMachine.execute_state2 x a sm c h
  rw [if_pos hu] at e1
  exact ⟨_, r, e1, rfl, rfl, rfl, rfl, rfl⟩

theorem StateMachine.emissions_short (x : External) (a : Amiga) (sm : StateMachine)
    (h0 : sm.state = 0) (cs : List Int) (hlen : cs.length < 3) :
    StateMachine.emissionsUntilReload x cs a sm = none := by
  match cs, hlen with
  | [], _ => rfl
  | [c0], _ =>
    obtain ⟨a1, sm1, r1, e1, s1⟩ := StateMachine.execute_state0 x a sm c0 h0
    rw [StateMachine.emissionsUntilReload, e1]
    simp [StateMachine.lowByteExpiry, StateMachine.lengthReload, h0,
      StateMachine.emissionsUntilReload]
  | [c0, c1], _ =>
    obtain ⟨a1, sm1, r1, e1, s1⟩ := StateMachine.execute_state0 x a sm c0 h0
    have st1 : sm1.state = 1 := by rw [s1]
    obtain ⟨a2, sm2, r2, e2, s2⟩ := StateMachine.execute_state1 x a1 sm1 c1 st1
    rw [StateMachine.emissionsUntilReload, e1]
    simp only [StateMachine.lowByteExpiry, StateMachine.lengthReload, h0]
    simp only [Nat.reduceBEq, Bool.false_and, Bool.or_false, Bool.false_eq_true, if_false]
    rw [StateMachine.emissionsUntilReload, e2]
    simp [StateMachine.lowByteExpiry, StateMachine.lengthReload, st1,
      StateMachine.emissionsUntilReload]
  | _ :: _ :: _ :: _, h =>
    simp only [List.length_cons] at h
    omega

theorem StateMachine.emissions_live (x : External) (hd : ∀ ag n, x.audDMA ag n = true)
    (L : Nat) (m : Nat) :
    ∀ (a : Amiga) (sm : StateMachine),
      sm.state = 2 → sm.audlen = m + 1 → sm.audperLatch = L → sm.audper ≤ (L : Int) →
      StateMachine.emissionsUntilReload x (List.replicate (2 * (m + 1)) ((L : Int) + 1)) a sm
        = some (m + 1) := by
  induction m with
  | zero =>
    intro a sm h2 hl hL hp
    show StateMachine.emissionsUntilReload x [(L : Int) + 1, (L : Int) + 1] a sm = some 1
    have hneg : sm.audper - ((L : Int) + 1) < 0 := by omega
    obtain ⟨sm1, r, e1, t1, p1, l1, pl1, _⟩ :=
      StateMachine.execute_state2_under x a sm ((L : Int) + 1) h2 hneg
    rw [StateMachine.emissionsUntilReload, e1]
    simp only [StateMachine.lowByteExpiry, StateMachine.lengthReload, h2]
    simp only [Nat.reduceBEq, Bool.false_and, Bool.or_false, Bool.false_eq_true, if_false]
    have hw : ¬ sm1.audper - ((L : Int) + 1) > 1 := by
      rw [p1, hL]; omega
    obtain ⟨a2, sm2, r2, e2, s2⟩ := StateMachine.execute_state3_dma x a sm1 ((L : Int) + 1)
      t1 hw (hd _ _)
    rw [StateMachine.emissionsUntilReload, e2]
    simp [StateMachine.lowByteExpiry, StateMachine.lengthReload, StateMachine.dmaMode, hd, hw,
      hl, t1, l1]
  | succ m ih =>
    intro a sm h2 hl hL hp
    have e : List.replicate (2 * (m + 1 + 1)) ((L : Int) + 1) =
        ((L : Int) + 1) :: ((L : Int) + 1) :: List.replicate (2 * (m + 1)) ((L : Int) + 1) := by
      have : 2 * (m + 1 + 1) = 2 * (m + 1) + 1 + 1 := by omega
      rw [this, List.replicate_succ, List.replicate_succ]
    rw [e]
    have hneg : sm.audper - ((L : Int) + 1) < 0 := by omega
    obtain ⟨sm1, r, e1, t1, p1, l1, pl1, _⟩ :=
      StateMachine.execute_state2_under x a sm ((L : Int) + 1) h2 hneg
    rw [StateMachine.emissionsUntilReload, e1]
    simp only [StateMachine.lowByteExpiry, StateMachine.lengthReload, h2]
    simp only [Nat.reduceBEq, Bool.false_and, Bool.or_false, Bool.false_eq_true, if_false]
    have hw : ¬ sm1.audper - ((L : Int) + 1) > 1 := by
      rw [p1, hL]; omega
    obtain ⟨a2, sm2, r2, e2, s2⟩ := StateMachine.execute_state3_dma x a sm1 ((L : Int) + 1)
      t1 hw (hd _ _)
    rw [StateMachine.emissionsUntilReload, e2]
    have r := ih a2 sm2 (by rw [s2]) (by rw [s2]; simp [hl, l1])
      (by rw [s2]; simp only [pl1, hL]) (by rw [s2]; simp only [pl1, hL]; omega)
    simp only [r]
    simp [StateMachine.lowByteExpiry, StateMachine.lengthReload, StateMachine.dmaMode, hd, hw,
      hl, t1, l1]

/-- Claim C8 (amended): starting a channel in state 0 with audio DMA enabled throughout
and `audlenLatch = N` held fixed, the repeated `execute` steps up to and including the
first step that reloads the length counter make exactly `N - 2` low-byte emissions
(none for `N ≤ 2`, where the reload happens in state 5, at the first exhaustion check,
in the third step); with cycle counts above the period latch the reload is reached
after `3 + 2 * (N - 2)` steps. -/
theorem emissions_before_first_reload (x : External)
    (hd : ∀ ag n, x.audDMA ag n = true) (a : Amiga) (sm : StateMachine)
    (h0 : sm.state = 0) :
    (∀ cs k, StateMachine.emissionsUntilReload x cs a sm = some k →
      k = sm.audlenLatch - 2) ∧
    (sm.audlenLatch ≤ 2 → ∀ c0 c1 c2 rest,
      StateMachine.emissionsUntilReload x (c0 :: c1 :: c2 :: rest) a sm = some 0) ∧
    StateMachine.emissionsUntilReload x
      (List.replicate (3 + 2 * (sm.audlenLatch - 2)) ((sm.audperLatch : Int) + 1)) a sm
        = some (sm.audlenLatch - 2) := by
  refine ⟨?_, ?_, ?_⟩
  · intro cs k hk
    match cs with
    | [] => simp [StateMachine.emissionsUntilReload] at hk
    | [c0] =>
      rw [StateMachine.emissions_short x a sm h0 [c0] (by simp)] at hk
      cases hk
    | [c0, c1] =>
      rw [StateMachine.emissions_short x a sm h0 [c0, c1] (by simp)] at hk
      cases hk
    | c0 :: c1 :: c2 :: rest =>
      obtain ⟨p1, p2⟩ := StateMachine.emissions_prefix x a sm h0 c0 c1 c2 rest
      by_cases hN : sm.audlenLatch ≤ 2
      · rw [p1 hN] at hk
        simp only [Option.some.injEq] at hk
        omega
      · obtain ⟨a3, sm3, e, st, l, _, _⟩ := p2 (by omega)
        rw [e] at hk
        have := StateMachine.emissions_loop x hd rest a3 sm3 k (Or.inl st) (by omega) hk
        rw [this, l]
  · intro hN c0 c1 c2 rest
    exact (StateMachine.emissions_prefix x a sm h0 c0 c1 c2 rest).1 hN
  · have e : List.replicate (3 + 2 * (sm.audlenLatch - 2)) ((sm.audperLatch : Int) + 1) =
        ((sm.audperLatch : Int) + 1) :: ((sm.audperLatch : Int) + 1) ::
          ((sm.audperLatch : Int) + 1) ::
            List.replicate (2 * (sm.audlenLatch - 2)) ((sm.audperLatch : Int) + 1) := by
      have : 3 + 2 * (sm.audlenLatch - 2) = 2 * (sm.audlenLatch - 2) + 1 + 1 + 1 := by omega
      rw [this, List.replicate_succ, List.replicate_succ, List.replicate_succ]
    rw [e]
    obtain ⟨p1, p2⟩ := StateMachine.emissions_prefix x a sm h0 ((sm.audperLatch : Int) + 1)
      ((sm.audperLatch : Int) + 1) ((sm.audperLatch : Int) + 1)
      (List.replicate (2 * (sm.audlenLatch - 2)) ((sm.audperLatch : Int) + 1))
    by_cases hN : sm.audlenLatch ≤ 2
    · rw [p1 hN]
      congr 1
      omega
    · obtain ⟨a3, sm3, e3, st, l, p, pl⟩ := p2 (by omega)
      rw [e3]
      obtain ⟨m, hm⟩ : ∃ m, sm.audlenLatch - 2 = m + 1 := ⟨sm.audlenLatch - 3, by omega⟩
      rw [hm]
      exact StateMachine.emissions_live x hd sm.audperLatch m a3 sm3 st (by rw [l, hm]) pl
        (by rw [p]; omega)

/-- Claim C8 (counterexample): with audio DMA enabled and `audlenLatch = 3`, a channel
started in state 0 reloads its length counter in the fifth step after a single low-byte
emission, not after three; with `audlenLatch = 1` it reloads in the third step (state 5)
before any low byte is emitted. -/
theorem emissions_not_N :
    StateMachine.emissionsUntilReload exampleExternal [1, 1, 1, 1, 1] exampleAmiga
      (idleChannel 3) = some 1 ∧
    StateMachine.emissionsUntilReload exampleExternal [1, 1, 1, 1, 1] exampleAmiga
      (idleChannel 3) ≠ some 3 ∧
    StateMachine.emissionsUntilReload exampleExternal [1, 1, 1] exampleAmiga
      (idleChannel 1) = some 0 := by
  decide

/-! ## Delayed interrupt requests -/

theorem shift_bit15 (src : Nat) (h : src < 15) : u16 (1 <<< src) &&& 0x8000 = 0 := by
  interval_cases src <;> decide

theorem testBit_one_shiftLeft (src i : Nat) : (1 <<< src).testBit i = decide (src = i) := by
  rw [Nat.one_shiftLeft, Nat.testBit_two_pow]

theorem Amiga.setINTREQ_set_bit (x : External) (a : Amiga) (src : Nat) (h : src < 15) :
    ∃ a1, a.setINTREQ x true (1 <<< src) = some a1 ∧
      (∀ i, i < 16 → (a1.paula.intreq.testBit i = true ↔
        (a.paula.intreq.testBit i = true ∨ i = src ∨ (i = 3 ∧ a.ciaaIrqPin = 0) ∨
          (i = 13 ∧ a.ciabIrqPin = 0)))) ∧
      a1.paula.setIntreq = a.paula.setIntreq ∧ a1.paula.intena = a.paula.intena ∧
      a1.ciaaIrqPin = a.ciaaIrqPin ∧ a1.ciabIrqPin = a.ciabIrqPin ∧
      a1.agnus.clock = a.agnus.clock ∧
      a1.agnus.slot EventSlot.IRQ_SLOT = a.agnus.slot EventSlot.IRQ_SLOT ∧
      a1.cpuIPL = a.cpuIPL := by
  obtain ⟨a1, h1, h2, h3, h4, h5, h6, h7, h8⟩ :=
    Amiga.setINTREQ_some x a true (1 <<< src) (shift_bit15 src h)
  obtain ⟨_, s2, _, s4⟩ := Agnus.scheduleRel_slot a.agnus EventSlot.IPL_SLOT
    (x.DMA_CYCLES 4) EventID.IPL_CHANGE a1.interruptLevel
  refine ⟨a1, h1, ?_, h4, h3, h6, h7, by rw [h5, s2], ?_, h8⟩
  · intro i hi
    rw [h2, pinned_eq, testBit_u16 _ _ hi]
    simp only [if_true, Nat.testBit_or, testBit_u16 _ _ hi, testBit_one_shiftLeft,
      Bool.or_eq_true, decide_eq_true_eq]
    have p3 : ∀ (p : Nat), (if p = 0 then (0b1000 : Nat) else 0).testBit i = true ↔
        (i = 3 ∧ p = 0) := by
      intro p
      by_cases hp : p = 0
      · simp only [hp, if_true, and_true]
        interval_cases i <;> decide
      · simp [hp]
    have p13 : ∀ (p : Nat), (if p = 0 then (0b0010000000000000 : Nat) else 0).testBit i = true ↔
        (i = 13 ∧ p = 0) := by
      intro p
      by_cases hp : p = 0
      · simp only [hp, if_true, and_true]
        interval_cases i <;> decide
      · simp [hp]
    rw [p3, p13]
    constructor
    · rintro ((h | h) | h | h)
      · exact Or.inl h
      · exact Or.inr (Or.inl h.symm)
      · exact Or.inr (Or.inr (Or.inl h))
      · exact Or.inr (Or.inr (Or.inr h))
    · rintro (h | h | h | h)
      · exact Or.inl (Or.inl h)
      · exact Or.inl (Or.inr h.symm)
      · exact Or.inr (Or.inl h)
      · exact Or.inr (Or.inr h)
  · rw [h5]
    exact s4 _ (by decide)

theorem Amiga.serviceIrqLoop_spec (x : External) (c : Int) (srcs : List Nat) :
    ∀ (a : Amiga) (next : Int), srcs.Nodup → (∀ s ∈ srcs, s < 16) →
      (∀ s ∈ srcs, c ≥ a.paula.setIntreq s → s < 15) →
      ∃ a1 next1, Amiga.serviceIrqLoop x c srcs a next = some (a1, next1) ∧
        (∀ s, a1.paula.setIntreq s =
          if s ∈ srcs ∧ c ≥ a.paula.setIntreq s then NEVER else a.paula.setIntreq s) ∧
        (∀ i, i < 16 → (a1.paula.intreq.testBit i = true ↔
          (a.paula.intreq.testBit i = true ∨ (i ∈ srcs ∧ c ≥ a.paula.setIntreq i) ∨
            ((∃ s ∈ srcs, c ≥ a.paula.setIntreq s) ∧
              ((i = 3 ∧ a.ciaaIrqPin = 0) ∨ (i = 13 ∧ a.ciabIrqPin = 0)))))) ∧
        next1 = (srcs.filter (fun s => decide (c < a.paula.setIntreq s))).foldl
          (fun m s => MINCycle m (a.paula.setIntreq s)) next ∧
        a1.ciaaIrqPin = a.ciaaIrqPin ∧ a1.ciabIrqPin = a.ciabIrqPin ∧
        a1.agnus.clock = a.agnus.clock ∧
        a1.agnus.slot EventSlot.IRQ_SLOT = a.agnus.slot EventSlot.IRQ_SLOT ∧
        a1.paula.intena = a.paula.intena ∧ a1.cpuIPL = a.cpuIPL := by
  induction srcs with
  | nil =>
    intro a next _ _ _
    refine ⟨a, next, rfl, ?_, ?_, rfl, rfl, rfl, rfl, rfl, rfl, rfl⟩
    · intro s; simp
    · intro i _; simp
  | cons src rest ih =>
    intro a next hnd hlt h15
    have hsrc : src ∉ rest := (List.nodup_cons.mp hnd).1
    have hnd2 : rest.Nodup := (List.nodup_cons.mp hnd).2
    have hlt2 : ∀ s ∈ rest, s < 16 := fun s hs => hlt s (List.mem_cons_of_mem _ hs)
    by_cases hdue : c ≥ a.paula.setIntreq src
    · obtain ⟨a1, e1, b1, s1, n1, pa1, pb1, c1, q1, i1⟩ :=
        Amiga.setINTREQ_set_bit x a src (h15 src (List.mem_cons_self _ _) hdue)
      have hupd : ∀ s, s ≠ src →
          Function.update a1.paula.setIntreq src NEVER s = a.paula.setIntreq s := by
        intro s hs
        rw [Function.update_noteq hs, s1]
      obtain ⟨a3, next3, e3, s3, b3, n3, pa3, pb3, c3, q3, i3, l3⟩ :=
        ih { a1 with paula := { a1.paula with
              setIntreq := Function.update a1.paula.setIntreq src NEVER } } next hnd2 hlt2
          (by
            intro s hs hd
            have hne : s ≠ src := fun e => hsrc (e ▸ hs)
            simp only [hupd s hne] at hd
            exact h15 s (List.mem_cons_of_mem _ hs) hd)
      refine ⟨a3, next3, ?_, ?_, ?_, ?_, by rw [pa3]; exact pa1, by rw [pb3]; exact pb1,
        by rw [c3]; exact c1, by rw [q3]; exact q1, by rw [i3]; exact n1,
        by rw [l3]; exact i1⟩
      · simp only [Amiga.serviceIrqLoop, hdue, if_true, e1]
        exact e3
      · intro s
        rw [s3]
        by_cases hs : s = src
        · subst hs
          simp [hsrc, hdue]
        · simp only [hupd s hs, List.mem_cons, hs, false_or]
      · intro i hi
        rw [b3 i hi]
        simp only [b1 i hi, pa1, pb1]
        have hrest : ∀ s ∈ rest,
            Function.update a1.paula.setIntreq src NEVER s = a.paula.setIntreq s :=
          fun s hs => hupd s (fun e => hsrc (e ▸ hs))
        constructor
        · rintro ((h | h | h | h) | ⟨hm, hd⟩ | ⟨⟨s, hs, hd⟩, hp⟩)
          · exact Or.inl h
          · exact Or.inr (Or.inl ⟨h ▸ List.mem_cons_self _ _, h ▸ hdue⟩)
          · exact Or.inr (Or.inr ⟨⟨src, List.mem_cons_self _ _, hdue⟩, Or.inl h⟩)
          · exact Or.inr (Or.inr ⟨⟨src, List.mem_cons_self _ _, hdue⟩, Or.inr h⟩)
          · rw [hrest i hm] at hd
            exact Or.inr (Or.inl ⟨List.mem_cons_of_mem _ hm, hd⟩)
          · exact Or.inr (Or.inr ⟨⟨src, List.mem_cons_self _ _, hdue⟩, hp⟩)
        · rintro (h | ⟨hm, hd⟩ | ⟨_, hp⟩)
          · exact Or.inl (Or.inl h)
          · rcases List.mem_cons.mp hm with e | hm
            · exact Or.inl (Or.inr (Or.inl e))
            · exact Or.inr (Or.inl ⟨hm, by rw [hrest i hm]; exact hd⟩)
          · rcases hp with hp | hp
            · exact Or.inl (Or.inr (Or.inr (Or.inl hp)))
            · exact Or.inl (Or.inr (Or.inr (Or.inr hp)))
      · rw [n3]
        have hf : decide (c < a.paula.setIntreq src) = false := by
          simp only [decide_eq_false_iff_not, not_lt]; exact hdue
        rw [List.filter_cons, hf]
        simp only [Bool.false_eq_true, if_false]
        have e : List.filter (fun s => decide (c < Function.update a1.paula.setIntreq src NEVER s))
            rest = List.filter (fun s => decide (c < a.paula.setIntreq s)) rest := by
          apply List.filter_congr
          intro s hs
          rw [hupd s (fun e => hsrc (e ▸ hs))]
        rw [e]
        apply List.foldl_ext
        intro m s hs
        have hs2 : s ∈ rest := (List.mem_filter.mp hs).1
        rw [hupd s (fun e => hsrc (e ▸ hs2))]
    · obtain ⟨a3, next3, e3, s3, b3, n3, pa3, pb3, c3, q3, i3, l3⟩ :=
        ih a (MINCycle next (a.paula.setIntreq src)) hnd2 hlt2
          (fun s hs hd => h15 s (List.mem_cons_of_mem _ hs) hd)
      refine ⟨a3, next3, ?_, ?_, ?_, ?_, pa3, pb3, c3, q3, i3, l3⟩
      · simp only [Amiga.serviceIrqLoop, hdue, if_false]
        exact e3
      · intro s
        rw [s3]
        by_cases hs : s = src
        · subst hs
          simp [hsrc, hdue]
        · simp only [List.mem_cons, hs, false_or]
      · intro i hi
        rw [b3 i hi]
        constructor
        · rintro (h | ⟨hm, hd⟩ | ⟨⟨s, hs, hd⟩, hp⟩)
          · exact Or.inl h
          · exact Or.inr (Or.inl ⟨List.mem_cons_of_mem _ hm, hd⟩)
          · exact Or.inr (Or.inr ⟨⟨s, List.mem_cons_of_mem _ hs, hd⟩, hp⟩)
        · rintro (h | ⟨hm, hd⟩ | ⟨⟨s, hs, hd⟩, hp⟩)
          · exact Or.inl h
          · rcases List.mem_cons.mp hm with e | hm
            · exact absurd (e ▸ hd) hdue
            · exact Or.inr (Or.inl ⟨hm, hd⟩)
          · rcases List.mem_cons.mp hs with e | hs
            · exact absurd (e ▸ hd) hdue
            · exact Or.inr (Or.inr ⟨⟨s, hs, hd⟩, hp⟩)
      · rw [n3]
        have hf : decide (c < a.paula.setIntreq src) = true := by
          simp only [decide_eq_true_eq]; omega
        rw [List.filter_cons, hf]
        simp only [if_true, List.foldl_cons]

theorem foldl_MINCycle (f : Nat → Int) (l : List Nat) :
    ∀ init : Int,
      l.foldl (fun m s => MINCycle m (f s)) init ≤ init ∧
      (∀ s ∈ l, l.foldl (fun m s => MINCycle m (f s)) init ≤ f s) ∧
      (l.foldl (fun m s => MINCycle m (f s)) init = init ∨
        ∃ s ∈ l, l.foldl (fun m s => MINCycle m (f s)) init = f s) := by
  induction l with
  | nil => intro init; simp
  | cons t rest ih =>
    intro init
    obtain ⟨h1, h2, h3⟩ := ih (MINCycle init (f t))
    have hm1 : MINCycle init (f t) ≤ init := by unfold MINCycle; split <;> omega
    have hm2 : MINCycle init (f t) ≤ f t := by unfold MINCycle; split <;> omega
    have hm3 : MINCycle init (f t) = init ∨ MINCycle init (f t) = f t := by
      unfold MINCycle; split <;> simp
    simp only [List.foldl_cons, List.mem_cons]
    refine ⟨le_trans h1 hm1, ?_, ?_⟩
    · rintro s (rfl | hs)
      · exact le_trans h1 hm2
      · exact h2 s hs
    · rcases h3 with h | ⟨s, hs, h⟩
      · rcases hm3 with e | e
        · exact Or.inl (h.trans e)
        · exact Or.inr ⟨t, Or.inl rfl, h.trans e⟩
      · exact Or.inr ⟨s, Or.inr hs, h⟩

/-- Claim C11 (amended): `serviceIrqEvent` at clock `c`, entered with slot id `IRQ_CHECK`
and source 15 not due: every source with `setIntreq[src] <= c` has bit `src` set in
`intreq` afterwards and `setIntreq[src]` reset to `NEVER`; every source with
`setIntreq[src] > c` keeps its pending time, and its `intreq` bit is unchanged except
that, when some source is due, bit 3 is set if CIA A's IRQ pin is low and bit 13 if CIA
B's is; the IRQ slot is rescheduled (id `IRQ_CHECK`) to the minimum of the remaining
pending times, which is `NEVER` when none remains. -/
theorem serviceIrqEvent_dispatch (x : External) (a : Amiga)
    (hid : (a.agnus.slot EventSlot.IRQ_SLOT).id = EventID.IRQ_CHECK)
    (h15 : a.agnus.clock < a.paula.setIntreq 15) :
    ∃ a1, a.serviceIrqEvent x = some a1 ∧
      (∀ src, src < 16 → a.paula.setIntreq src ≤ a.agnus.clock →
        a1.paula.intreq.testBit src = true ∧ a1.paula.setIntreq src = NEVER) ∧
      (∀ src, src < 16 → a.agnus.clock < a.paula.setIntreq src →
        a1.paula.setIntreq src = a.paula.setIntreq src ∧
        (a1.paula.intreq.testBit src = true ↔
          (a.paula.intreq.testBit src = true ∨
            ((∃ s, s < 16 ∧ a.paula.setIntreq s ≤ a.agnus.clock) ∧
              ((src = 3 ∧ a.ciaaIrqPin = 0) ∨ (src = 13 ∧ a.ciabIrqPin = 0)))))) ∧
      (a1.agnus.slot EventSlot.IRQ_SLOT).id = EventID.IRQ_CHECK ∧
      (a1.agnus.slot EventSlot.IRQ_SLOT).triggerCycle ≤ NEVER ∧
      (∀ src, src < 16 → a.agnus.clock < a.paula.setIntreq src →
        (a1.agnus.slot EventSlot.IRQ_SLOT).triggerCycle ≤ a.paula.setIntreq src) ∧
      ((a1.agnus.slot EventSlot.IRQ_SLOT).triggerCycle = NEVER ∨
        ∃ src, src < 16 ∧ a.agnus.clock < a.paula.setIntreq src ∧
          (a1.agnus.slot EventSlot.IRQ_SLOT).triggerCycle = a.paula.setIntreq src) ∧
      ((∀ src, src < 16 → a.agnus.clock < a.paula.setIntreq src →
          a.paula.setIntreq src = NEVER) →
        (a1.agnus.slot EventSlot.IRQ_SLOT).triggerCycle = NEVER) := by
  have hnd : (List.range 16).Nodup := List.nodup_range 16
  have hlt : ∀ s ∈ List.range 16, s < 16 := fun s hs => List.mem_range.mp hs
  obtain ⟨a1, next1, e1, s1, b1, n1, _, _, _, _, _, _⟩ :=
    Amiga.serviceIrqLoop_spec x a.agnus.clock (List.range 16) a NEVER hnd hlt
      (by
        intro s hs hd
        have := hlt s hs
        by_contra hc
        have e : s = 15 := by omega
        subst e
        omega)
  obtain ⟨m1, m2, m3⟩ := foldl_MINCycle (fun s => a.paula.setIntreq s)
    ((List.range 16).filter (fun s => decide (a.agnus.clock < a.paula.setIntreq s))) NEVER
  rw [← n1] at m1 m2 m3
  have e2 : a.serviceIrqEvent x = some (Amiga.mk
      (a1.agnus.scheduleAbs0 EventSlot.IRQ_SLOT next1 EventID.IRQ_CHECK)
      a1.paula a1.ciaaIrqPin a1.ciabIrqPin a1.cpuIPL) := by
    simp only [Amiga.serviceIrqEvent, hid, ne_eq, not_true_eq_false, if_false, e1]
  have hev : ∃ a2, a.serviceIrqEvent x = some a2 ∧ a2.paula = a1.paula ∧
      a2.agnus.slot EventSlot.IRQ_SLOT = ⟨next1, EventID.IRQ_CHECK, 0⟩ :=
    ⟨_, e2, rfl, by simp [Agnus.scheduleAbs0, Agnus.scheduleAbs]⟩
  clear e2
  obtain ⟨a2, e2, hp2, hslot⟩ := hev
  refine ⟨a2, e2, ?_, ?_, ?_, ?_, ?_, ?_, ?_⟩
  · intro src hs hd
    constructor
    · rw [hp2]
      exact (b1 src hs).mpr (Or.inr (Or.inl ⟨List.mem_range.mpr hs, hd⟩))
    · rw [hp2, s1]
      simp [hs, hd]
  · intro src hs hd
    constructor
    · rw [hp2, s1]
      have : ¬ a.agnus.clock ≥ a.paula.setIntreq src := by omega
      simp [this]
    · rw [hp2, b1 src hs]
      constructor
      · rintro (h | ⟨_, hd2⟩ | ⟨⟨s, hm, hd2⟩, hp⟩)
        · exact Or.inl h
        · omega
        · exact Or.inr ⟨⟨s, List.mem_range.mp hm, hd2⟩, hp⟩
      · rintro (h | ⟨⟨s, hm, hd2⟩, hp⟩)
        · exact Or.inl h
        · exact Or.inr (Or.inr ⟨⟨s, List.mem_range.mpr hm, hd2⟩, hp⟩)
  · rw [hslot]
  · rw [hslot]; exact m1
  · intro src hs hd
    rw [hslot]
    exact m2 src (List.mem_filter.mpr ⟨List.mem_range.mpr hs, by simpa using hd⟩)
  · rw [hslot]
    rcases m3 with h | ⟨s, hs, h⟩
    · exact Or.inl h
    · obtain ⟨hm, hd⟩ := List.mem_filter.mp hs
      exact Or.inr ⟨s, List.mem_range.mp hm, by simpa using hd, h⟩
  · intro hall
    rw [hslot]
    rcases m3 with h | ⟨s, hs, h⟩
    · exact h
    · obtain ⟨hm, hd⟩ := List.mem_filter.mp hs
      rw [h]
      exact hall s (List.mem_range.mp hm) (by simpa using hd)

/-! ## Virtual file system -/

theorem FSDevice.blockPtr_eq (d : FSDevice) (nr : Nat) : d.blockPtr nr = d.blocks[nr]? := by
  unfold FSDevice.blockPtr
  split
  · rfl
  · rename_i h
    exact (List.getElem?_eq_none (by omega)).symm

theorem FSDevice.blockType_outside (d : FSDevice) (nr : Nat) (h : d.numBlocks ≤ nr) :
    d.blockType nr = FSBlockType.FS_UNKNOWN_BLOCK := by
  unfold FSDevice.blockType
  rw [FSDevice.blockPtr_eq, List.getElem?_eq_none h]

theorem ptrErrorOf_ne_ok (t : FSBlockType) : ptrErrorOf t ≠ ErrorCode.ERROR_OK := by
  cases t <;> decide

theorem FSDevice.checkBlockType_eq (d : FSDevice) (nr : Nat) (type altType : FSBlockType) :
    d.checkBlockType nr type altType =
      if d.blockType nr = type ∨ d.blockType nr = altType then ErrorCode.ERROR_OK
      else ptrErrorOf (d.blockType nr) := by
  unfold FSDevice.checkBlockType
  by_cases h1 : d.blockType nr = type
  · simp [h1]
  · by_cases h2 : d.blockType nr = altType
    · simp [h2]
    · simp only [ne_eq, h1, not_false_eq_true, h2, and_self, if_true, or_self, if_false]
      cases d.blockType nr <;> rfl

/-- Claim C12: `checkBlockType(nr, type, altType)` returns `ERROR_OK` iff the actual
type of block `nr` (`FS_UNKNOWN_BLOCK` when `nr` is outside the device) equals `type` or
`altType`; otherwise it returns the error naming the actual type (EMPTY, BOOT, ROOT,
BITMAP, BITMAP_EXT, USERDIR, FILEHEADER, FILELIST each their own code, both data block
types `PTR_TO_DATA_BLOCK`, anything else `PTR_TO_UNKNOWN_BLOCK`), which does not depend
on the expected types. -/
theorem checkBlockType_names_actual_type (d : FSDevice) (nr : Nat)
    (type altType : FSBlockType) :
    (d.checkBlockType nr type altType = ErrorCode.ERROR_OK ↔
      (d.blockType nr = type ∨ d.blockType nr = altType)) ∧
    (¬ (d.blockType nr = type ∨ d.blockType nr = altType) →
      d.checkBlockType nr type altType = ptrErrorOf (d.blockType nr)) ∧
    (d.numBlocks ≤ nr → d.blockType nr = FSBlockType.FS_UNKNOWN_BLOCK) ∧
    (∀ type1 altType1, d.checkBlockType nr type altType ≠ ErrorCode.ERROR_OK →
      d.checkBlockType nr type1 altType1 ≠ ErrorCode.ERROR_OK →
      d.checkBlockType nr type1 altType1 = d.checkBlockType nr type altType) ∧
    d.checkBlockType1 nr type = d.checkBlockType nr type type := by
  refine ⟨?_, ?_, FSDevice.blockType_outside d nr, ?_, rfl⟩
  · rw [FSDevice.checkBlockType_eq]
    constructor
    · intro h
      by_contra hc
      rw [if_neg hc] at h
      exact ptrErrorOf_ne_ok _ h
    · intro h
      rw [if_pos h]
  · intro h
    rw [FSDevice.checkBlockType_eq, if_neg h]
  · intro type1 altType1 h1 h2
    rw [FSDevice.checkBlockType_eq] at h1 h2 ⊢
    rw [FSDevice.checkBlockType_eq]
    split at h1
    · exact absurd rfl h1
    · split at h2
      · exact absurd rfl h2
      · rename_i ha hb
        rw [if_neg ha, if_neg hb]

theorem FSDevice.currentDirBlock_valid (d : FSDevice) (b : FSBlock)
    (hb : d.blockPtr d.cd = some b)
    (ht : b.type = FSBlockType.FS_ROOT_BLOCK ∨ b.type = FSBlockType.FS_USERDIR_BLOCK) :
    d.currentDirBlock = some (d, some b) := by
  unfold FSDevice.currentDirBlock
  simp only [hb]
  simp [ht]

theorem FSDevice.currentDirBlock_invalid (d : FSDevice) (p : FSPartition)
    (hinv : ∀ b, d.blockPtr d.cd = some b →
      ¬ (b.type = FSBlockType.FS_ROOT_BLOCK ∨ b.type = FSBlockType.FS_USERDIR_BLOCK))
    (hp : d.partitions[d.cp]? = some p) :
    d.currentDirBlock = some (FSDevice.mk d.blocks d.partitions d.bsize d.cp p.rootBlock,
      (FSDevice.mk d.blocks d.partitions d.bsize d.cp p.rootBlock).blockPtr p.rootBlock) := by
  unfold FSDevice.currentDirBlock
  cases hb : d.blockPtr d.cd with
  | none => simp [hp]
  | some b =>
    have := hinv b hb
    simp only [hp]
    simp [this]

theorem FSDevice.currentDirBlock_cases (d : FSDevice) (d1 : FSDevice) (r : Option FSBlock)
    (h : d.currentDirBlock = some (d1, r)) :
    r = d1.blockPtr d1.cd ∧ d1.blocks = d.blocks ∧ d1.partitions = d.partitions ∧
    d1.bsize = d.bsize ∧ d1.cp = d.cp ∧
    ((d1 = d ∧ ∃ b, d.blockPtr d.cd = some b ∧
        (b.type = FSBlockType.FS_ROOT_BLOCK ∨ b.type = FSBlockType.FS_USERDIR_BLOCK)) ∨
     ((∀ b, d.blockPtr d.cd = some b →
        ¬ (b.type = FSBlockType.FS_ROOT_BLOCK ∨ b.type = FSBlockType.FS_USERDIR_BLOCK)) ∧
      ∃ p, d.partitions[d.cp]? = some p ∧ d1.cd = p.rootBlock)) := by
  by_cases hv : ∃ b, d.blockPtr d.cd = some b ∧
      (b.type = FSBlockType.FS_ROOT_BLOCK ∨ b.type = FSBlockType.FS_USERDIR_BLOCK)
  · obtain ⟨b, hb, ht⟩ := hv
    rw [FSDevice.currentDirBlock_valid d b hb ht] at h
    simp only [Option.some.injEq, Prod.mk.injEq] at h
    obtain ⟨rfl, rfl⟩ := h
    exact ⟨hb.symm, rfl, rfl, rfl, rfl, Or.inl ⟨rfl, b, hb, ht⟩⟩
  · have hinv : ∀ b, d.blockPtr d.cd = some b →
        ¬ (b.type = FSBlockType.FS_ROOT_BLOCK ∨ b.type = FSBlockType.FS_USERDIR_BLOCK) :=
      fun b hb ht => hv ⟨b, hb, ht⟩
    cases hp : d.partitions[d.cp]? with
    | none =>
      unfold FSDevice.currentDirBlock at h
      cases hb : d.blockPtr d.cd with
      | none => simp [hb, hp] at h
      | some b =>
        have := hinv b hb
        simp only [hb, hp] at h
        simp [this] at h
    | some p =>
      rw [FSDevice.currentDirBlock_invalid d p hinv hp] at h
      simp only [Option.some.injEq, Prod.mk.injEq] at h
      obtain ⟨rfl, rfl⟩ := h
      exact ⟨rfl, rfl, rfl, rfl, rfl, Or.inr ⟨hinv, p, rfl, rfl⟩⟩

/-- Claim C20: `currentDirBlock()` returns the block `cd` refers to and leaves `cd`
unchanged when that block is in range and of type root or user-directory; otherwise it
sets `cd` to the root block of the current partition and returns that block, no error
being reported; a second call returns the same block and changes nothing. -/
theorem currentDirBlock_self_heals (d : FSDevice) :
    (∀ b, d.blockPtr d.cd = some b →
      (b.type = FSBlockType.FS_ROOT_BLOCK ∨ b.type = FSBlockType.FS_USERDIR_BLOCK) →
      d.currentDirBlock = some (d, some b)) ∧
    (∀ p, d.partitions[d.cp]? = some p →
      (∀ b, d.blockPtr d.cd = some b →
        ¬ (b.type = FSBlockType.FS_ROOT_BLOCK ∨ b.type = FSBlockType.FS_USERDIR_BLOCK)) →
      ∃ d1, d.currentDirBlock = some (d1, d1.blockPtr p.rootBlock) ∧
        d1.cd = p.rootBlock ∧ d1.blocks = d.blocks ∧ d1.partitions = d.partitions ∧
        d1.bsize = d.bsize ∧ d1.cp = d.cp) ∧
    (∀ d1 r, d.currentDirBlock = some (d1, r) → d1.currentDirBlock = some (d1, r)) := by
  refine ⟨FSDevice.currentDirBlock_valid d, ?_, ?_⟩
  · intro p hp hinv
    exact ⟨_, FSDevice.currentDirBlock_invalid d p hinv hp, rfl, rfl, rfl, rfl, rfl⟩
  · intro d1 r h
    obtain ⟨hr, hb, hpp, _, hcp, hc⟩ := FSDevice.currentDirBlock_cases d d1 r h
    rcases hc with ⟨rfl, _⟩ | ⟨_, p, hp, hcd⟩
    · exact h
    · by_cases hv : ∃ b, d1.blockPtr d1.cd = some b ∧
          (b.type = FSBlockType.FS_ROOT_BLOCK ∨ b.type = FSBlockType.FS_USERDIR_BLOCK)
      · obtain ⟨b, hb1, ht⟩ := hv
        rw [FSDevice.currentDirBlock_valid d1 b hb1 ht, hr, hb1]
      · have hinv : ∀ b, d1.blockPtr d1.cd = some b →
            ¬ (b.type = FSBlockType.FS_ROOT_BLOCK ∨ b.type = FSBlockType.FS_USERDIR_BLOCK) :=
          fun b hb ht => hv ⟨b, hb, ht⟩
        have hp1 : d1.partitions[d1.cp]? = some p := by rw [hpp, hcp]; exact hp
        rw [FSDevice.currentDirBlock_invalid d1 p hinv hp1, hr]
        have e : FSDevice.mk d1.blocks d1.partitions d1.bsize d1.cp p.rootBlock = d1 := by
          cases d1
          simp only [FSDevice.mk.injEq, true_and]
          exact hcd.symm
        rw [e, hcd]

/-- Claim C18: `importVolume(src, size, err)` validates before mutating: a size that is
not a multiple of `bsize` fails with `ERROR_FS_WRONG_BSIZE`, else a size other than
`numBlocks * bsize` fails with `ERROR_FS_WRONG_CAPACITY`, else a partition of dialect
`FS_NODOS` fails with `ERROR_FS_UNSUPPORTED`; in these cases the call returns false and
the device is unchanged.  It returns true only with `ERROR_OK` written and
`size == numBlocks * bsize`. -/
theorem importVolume_validates_first (x : FSExternal) (d : FSDevice) (src : List Nat)
    (size : Nat) (_hb : 0 < d.bsize) :
    (size % d.bsize ≠ 0 →
      d.importVolume x src size = (false, some ErrorCode.ERROR_FS_WRONG_BSIZE, d)) ∧
    (size % d.bsize = 0 → size ≠ d.numBlocks * d.bsize →
      d.importVolume x src size = (false, some ErrorCode.ERROR_FS_WRONG_CAPACITY, d)) ∧
    (size % d.bsize = 0 → size = d.numBlocks * d.bsize →
      (∃ p ∈ d.partitions, p.dos = FSVolumeType.FS_NODOS) →
      d.importVolume x src size = (false, some ErrorCode.ERROR_FS_UNSUPPORTED, d)) ∧
    ((d.importVolume x src size).1 = true →
      (d.importVolume x src size).2.1 = some ErrorCode.ERROR_OK ∧
      size = d.numBlocks * d.bsize ∧
      ∀ p ∈ d.partitions, p.dos ≠ FSVolumeType.FS_NODOS) := by
  have hany : (d.partitions.any fun it => decide (it.dos = FSVolumeType.FS_NODOS)) = true ↔
      ∃ p ∈ d.partitions, p.dos = FSVolumeType.FS_NODOS := by
    simp [List.any_eq_true]
  refine ⟨?_, ?_, ?_, ?_⟩
  · intro h
    simp [FSDevice.importVolume, h]
  · intro h1 h2
    have h3 : d.numBlocks * d.bsize ≠ size := fun e => h2 e.symm
    simp [FSDevice.importVolume, h1, h3]
  · intro h1 h2 h3
    have h4 := hany.mpr h3
    have h5 : d.numBlocks * d.bsize = size := h2.symm
    simp only [FSDevice.importVolume, h1, ne_eq, not_true_eq_false, if_false, h5, h4, if_true]
  · intro h
    unfold FSDevice.importVolume at h ⊢
    by_cases h1 : size % d.bsize ≠ 0
    · simp [h1] at h
    · by_cases h2 : d.numBlocks * d.bsize ≠ size
      · simp [h1, h2] at h
      · by_cases h3 : (d.partitions.any fun it => decide (it.dos = FSVolumeType.FS_NODOS)) = true
        · simp only [h1, h2, h3, if_true, if_false] at h
          cases h
        · push_neg at h2
          refine ⟨?_, h2.symm, ?_⟩
          · by_cases hr : (FSDevice.importLoop x d.bsize src d.blocks 0).1 = true
            · simp [h1, h2, h3, hr]
            · simp [h1, h2, h3, hr] at h
          · intro p hp hd
            exact h3 (hany.mpr ⟨p, hp, hd⟩)

theorem FSDevice.checkLoop_spec (x : FSExternal) (strict : Bool) (bs : List FSBlock) :
    ∀ (i total : Nat) (mn mx : Int),
      (FSDevice.checkLoop x strict bs i total mn mx).2.1 =
        total + (bs.filter (fun b => decide (x.blockCheck b strict > 0))).length ∧
      (FSDevice.checkLoop x strict bs i total mn mx).1.length = bs.length ∧
      (∀ (k : Nat) (b1 : FSBlock), (FSDevice.checkLoop x strict bs i total mn mx).1[k]? = some b1 →
        ∃ b, bs[k]? = some b ∧ b1 = { b with corrupted := b1.corrupted } ∧
          (b1.corrupted = 0 ↔ ¬ x.blockCheck b strict > 0)) ∧
      (FSDevice.checkLoop x strict bs i total mn mx).2.2.1 ≤ mn ∧
      (∀ (k : Nat) (b : FSBlock), bs[k]? = some b → x.blockCheck b strict > 0 →
        (FSDevice.checkLoop x strict bs i total mn mx).2.2.1 ≤ ((i + k : Nat) : Int)) ∧
      ((FSDevice.checkLoop x strict bs i total mn mx).2.2.1 = mn ∨
        ∃ (k : Nat) (b : FSBlock), bs[k]? = some b ∧ x.blockCheck b strict > 0 ∧
          (FSDevice.checkLoop x strict bs i total mn mx).2.2.1 = ((i + k : Nat) : Int)) ∧
      mx ≤ (FSDevice.checkLoop x strict bs i total mn mx).2.2.2 ∧
      (∀ (k : Nat) (b : FSBlock), bs[k]? = some b → x.blockCheck b strict > 0 →
        ((i + k : Nat) : Int) ≤ (FSDevice.checkLoop x strict bs i total mn mx).2.2.2) ∧
      ((FSDevice.checkLoop x strict bs i total mn mx).2.2.2 = mx ∨
        ∃ (k : Nat) (b : FSBlock), bs[k]? = some b ∧ x.blockCheck b strict > 0 ∧
          (FSDevice.checkLoop x strict bs i total mn mx).2.2.2 = ((i + k : Nat) : Int)) := by
  induction bs with
  | nil =>
    intro i total mn mx
    simp [FSDevice.checkLoop]
  | cons b rest ih =>
    intro i total mn mx
    by_cases hbad : x.blockCheck b strict > 0
    · obtain ⟨h1, h2, h3, h4, h5, h6, h7, h8, h9⟩ :=
        ih (i + 1) (total + 1) (min mn (i : Int)) (max mx (i : Int))
      simp only [FSDevice.checkLoop, hbad, if_true]
      refine ⟨?_, ?_, ?_, ?_, ?_, ?_, ?_, ?_, ?_⟩
      · rw [h1, List.filter_cons]
        simp only [hbad, decide_True, if_true, List.length_cons]
        omega
      · simp only [List.length_cons, h2]
      · intro k b1 hk
        cases k with
        | zero =>
          simp only [List.getElem?_cons_zero, Option.some.injEq] at hk
          subst hk
          exact ⟨b, List.getElem?_cons_zero, rfl, by simp [hbad]⟩
        | succ k =>
          simp only [List.getElem?_cons_succ] at hk ⊢
          exact h3 k b1 hk
      · exact le_trans h4 (min_le_left _ _)
      · intro k b2 hk hb2
        cases k with
        | zero =>
          exact le_trans h4 (by simp)
        | succ k =>
          simp only [List.getElem?_cons_succ] at hk
          have := h5 k b2 hk hb2
          have e : i + 1 + k = i + (k + 1) := by omega
          rw [e] at this
          exact this
      · rcases h6 with h | ⟨k, b2, hk, hb2, h⟩
        · rcases min_choice mn (i : Int) with e | e
          · exact Or.inl (h.trans e)
          · exact Or.inr ⟨0, b, List.getElem?_cons_zero, hbad, by rw [h, e]; simp⟩
        · refine Or.inr ⟨k + 1, b2, by simp [hk], hb2, ?_⟩
          rw [h]
          congr 1
          omega
      · exact le_trans (le_max_left _ _) h7
      · intro k b2 hk hb2
        cases k with
        | zero =>
          exact le_trans (by simp) h7
        | succ k =>
          simp only [List.getElem?_cons_succ] at hk
          have := h8 k b2 hk hb2
          have e : i + 1 + k = i + (k + 1) := by omega
          rw [e] at this
          exact this
      · rcases h9 with h | ⟨k, b2, hk, hb2, h⟩
        · rcases max_choice mx (i : Int) with e | e
          · exact Or.inl (h.trans e)
          · exact Or.inr ⟨0, b, List.getElem?_cons_zero, hbad, by rw [h, e]; simp⟩
        · refine Or.inr ⟨k + 1, b2, by simp [hk], hb2, ?_⟩
          rw [h]
          congr 1
          omega
    · obtain ⟨h1, h2, h3, h4, h5, h6, h7, h8, h9⟩ := ih (i + 1) total mn mx
      simp only [FSDevice.checkLoop, hbad, if_false]
      refine ⟨?_, ?_, ?_, h4, ?_, ?_, h7, ?_, ?_⟩
      · rw [h1, List.filter_cons]
        simp only [hbad, decide_False, Bool.false_eq_true, if_false]
      · simp only [List.length_cons, h2]
      · intro k b1 hk
        cases k with
        | zero =>
          simp only [List.getElem?_cons_zero, Option.some.injEq] at hk
          subst hk
          exact ⟨b, List.getElem?_cons_zero, rfl, by simp [hbad]⟩
        | succ k =>
          simp only [List.getElem?_cons_succ] at hk ⊢
          exact h3 k b1 hk
      · intro k b2 hk hb2
        cases k with
        | zero =>
          simp only [List.getElem?_cons_zero, Option.some.injEq] at hk
          subst hk
          exact absurd hb2 hbad
        | succ k =>
          simp only [List.getElem?_cons_succ] at hk
          have := h5 k b2 hk hb2
          have e : i + 1 + k = i + (k + 1) := by omega
          rw [e] at this
          exact this
      · rcases h6 with h | ⟨k, b2, hk, hb2, h⟩
        · exact Or.inl h
        · refine Or.inr ⟨k + 1, b2, by simp [hk], hb2, ?_⟩
          rw [h]
          congr 1
          omega
      · intro k b2 hk hb2
        cases k with
        | zero =>
          simp only [List.getElem?_cons_zero, Option.some.injEq] at hk
          subst hk
          exact absurd hb2 hbad
        | succ k =>
          simp only [List.getElem?_cons_succ] at hk
          have := h8 k b2 hk hb2
          have e : i + 1 + k = i + (k + 1) := by omega
          rw [e] at this
          exact this
      · rcases h9 with h | ⟨k, b2, hk, hb2, h⟩
        · exact Or.inl h
        · refine Or.inr ⟨k + 1, b2, by simp [hk], hb2, ?_⟩
          rw [h]
          congr 1
          omega

/-- Claim C17: `check(strict)` runs the check of every block `0..numBlocks-1` and returns
a report whose `corruptedBlocks` is the number of blocks whose own check reports at least
one error; when that number is positive, `firstErrorBlock` and `lastErrorBlock` are the
smallest and the largest number of such a block.  Apart from the corruption markers no
block changes. -/
theorem check_counts_corrupted_blocks (x : FSExternal) (d : FSDevice) (strict : Bool)
    (hN : (d.numBlocks : Int) ≤ SSIZE_MAX) :
    (d.check x strict).1.corruptedBlocks =
      ((d.blocks.filter (fun b => decide (x.blockCheck b strict > 0))).length : Int) ∧
    (0 < (d.blocks.filter (fun b => decide (x.blockCheck b strict > 0))).length →
      (∃ (i : Nat) (b : FSBlock), d.blocks[i]? = some b ∧ x.blockCheck b strict > 0 ∧
        (d.check x strict).1.firstErrorBlock = (i : Int) ∧
        ∀ (j : Nat) (b1 : FSBlock), j < i → d.blocks[j]? = some b1 →
          ¬ x.blockCheck b1 strict > 0) ∧
      (∃ (i : Nat) (b : FSBlock), d.blocks[i]? = some b ∧ x.blockCheck b strict > 0 ∧
        (d.check x strict).1.lastErrorBlock = (i : Int) ∧
        ∀ (j : Nat) (b1 : FSBlock), i < j → d.blocks[j]? = some b1 →
          ¬ x.blockCheck b1 strict > 0)) ∧
    (d.check x strict).2.blocks.length = d.blocks.length ∧
    (∀ (k : Nat) (b1 : FSBlock), (d.check x strict).2.blocks[k]? = some b1 →
      ∃ b, d.blocks[k]? = some b ∧ b1 = { b with corrupted := b1.corrupted } ∧
        (b1.corrupted = 0 ↔ ¬ x.blockCheck b strict > 0)) ∧
    (d.check x strict).2.partitions = d.partitions ∧
    (d.check x strict).2.bsize = d.bsize ∧
    (d.check x strict).2.cp = d.cp ∧ (d.check x strict).2.cd = d.cd := by
  obtain ⟨h1, h2, h3, h4, h5, h6, h7, h8, h9⟩ :=
    FSDevice.checkLoop_spec x strict d.blocks 0 0 SSIZE_MAX 0
  simp only [Nat.zero_add] at h1 h5 h6 h8 h9
  refine ⟨?_, ?_, h2, h3, rfl, rfl, rfl, rfl⟩
  · simp only [FSDevice.check, h1]
    split
    · rfl
    · rename_i hz
      simp only [ne_eq, Decidable.not_not] at hz
      simp [hz]
  · intro hpos
    have hne : ∃ (k : Nat) (b : FSBlock), d.blocks[k]? = some b ∧ x.blockCheck b strict > 0 := by
      obtain ⟨b, hb⟩ := List.exists_mem_of_length_pos hpos
      obtain ⟨hm, hbad⟩ := List.mem_filter.mp hb
      obtain ⟨k, hk⟩ := List.getElem?_of_mem hm
      exact ⟨k, b, hk, by simpa using hbad⟩
    have hfirst : (d.check x strict).1.firstErrorBlock =
        (FSDevice.checkLoop x strict d.blocks 0 0 SSIZE_MAX 0).2.2.1 := by
      simp only [FSDevice.check]
      split <;> rfl
    have hlast : (d.check x strict).1.lastErrorBlock =
        (FSDevice.checkLoop x strict d.blocks 0 0 SSIZE_MAX 0).2.2.2 := by
      simp only [FSDevice.check]
      split <;> rfl
    have hlen : ∀ (k : Nat) (b : FSBlock), d.blocks[k]? = some b → k < d.blocks.length := by
      intro k b hk
      by_contra hc
      rw [List.getElem?_eq_none (by omega)] at hk
      cases hk
    constructor
    · rcases h6 with h | ⟨k, b, hk, hb, h⟩
      · obtain ⟨k0, b0, hk0, hb0⟩ := hne
        have := h5 k0 b0 hk0 hb0
        have := hlen k0 b0 hk0
        unfold FSDevice.numBlocks at hN
        omega
      · refine ⟨k, b, hk, hb, by rw [hfirst, h], ?_⟩
        intro j b1 hj hjb hbad
        have := h5 j b1 hjb hbad
        omega
    · rcases h9 with h | ⟨k, b, hk, hb, h⟩
      · obtain ⟨k0, b0, hk0, hb0⟩ := hne
        have hle := h8 k0 b0 hk0 hb0
        have e0 : k0 = 0 := by omega
        subst e0
        refine ⟨0, b0, hk0, hb0, by rw [hlast, h]; rfl, ?_⟩
        intro j b1 hj hjb hbad
        have := h8 j b1 hjb hbad
        omega
      · refine ⟨k, b, hk, hb, by rw [hlast, h], ?_⟩
        intro j b1 hj hjb hbad
        have := h8 j b1 hjb hbad
        omega

theorem pigeonhole_refs (f : Nat → Nat) (k n : Nat)
    (hinj : ∀ i, i < k → ∀ j, j < i → f j ≠ f i) (hlt : ∀ i, i < k → f i < n) : k ≤ n := by
  have hnd : ((List.range k).map f).Nodup := by
    apply List.Nodup.map_on _ (List.nodup_range k)
    intro a ha b hb hab
    have ha2 := List.mem_range.mp ha
    have hb2 := List.mem_range.mp hb
    by_contra hne
    rcases Nat.lt_or_gt_of_ne hne with h | h
    · exact hinj b hb2 a h hab
    · exact hinj a ha2 b h hab.symm
  have hsub : (List.range k).map f ⊆ List.range n := by
    intro v hv
    obtain ⟨i, hi, rfl⟩ := List.mem_map.mp hv
    exact List.mem_range.mpr (hlt i (List.mem_range.mp hi))
  have := (List.subperm_of_subset hnd hsub).length_le
  simpa using this

theorem FSDevice.hashableBlockPtr_lt (d : FSDevice) (nr : Nat) (b : FSBlock)
    (h : d.hashableBlockPtr nr = some b) :
    nr < d.numBlocks ∧ d.blocks[nr]? = some b ∧
    (b.type = FSBlockType.FS_USERDIR_BLOCK ∨ b.type = FSBlockType.FS_FILEHEADER_BLOCK) := by
  unfold FSDevice.hashableBlockPtr at h
  rw [FSDevice.blockPtr_eq] at h
  cases hb : d.blocks[nr]? with
  | none => simp [hb] at h
  | some b1 =>
    simp only [hb] at h
    split at h
    · rename_i ht
      simp only [Option.some.injEq] at h
      subst h
      have : nr < d.blocks.length := by
        by_contra hc
        rw [List.getElem?_eq_none (by omega)] at hb
        cases hb
      exact ⟨this, rfl, ht⟩
    · cases h

theorem FSDevice.seekLoop_spec (d : FSDevice) (name : FSName) (start : Nat) :
    ∀ (fuel k : Nat) (visited : List Nat),
      (∀ v, v ∈ visited ↔ ∃ j, j < k ∧ d.chainRef start j = v) →
      (∀ i, i < k → d.SeekPasses name start i) →
      d.numBlocks + 1 ≤ fuel + k →
      ∃ r, FSDevice.seekLoop d name fuel (d.chainRef start k) visited = some r ∧
        ∃ k1, k1 ≤ d.numBlocks ∧ (∀ i, i < k1 → d.SeekPasses name start i) ∧
          d.SeekStops name start k1 r := by
  intro fuel
  induction fuel with
  | zero =>
    intro k visited _ hp hf
    exfalso
    have : k ≤ d.numBlocks := by
      apply pigeonhole_refs (d.chainRef start) k d.numBlocks
      · intro i hi j hj
        exact (hp i hi).2.1 j hj
      · intro i hi
        obtain ⟨b, hb, _⟩ := (hp i hi).2.2
        exact (FSDevice.hashableBlockPtr_lt d _ b hb).1
    omega
  | succ fuel ih =>
    intro k visited hv hp hf
    have hk : k ≤ d.numBlocks := by
      apply pigeonhole_refs (d.chainRef start) k d.numBlocks
      · intro i hi j hj
        exact (hp i hi).2.1 j hj
      · intro i hi
        obtain ⟨b, hb, _⟩ := (hp i hi).2.2
        exact (FSDevice.hashableBlockPtr_lt d _ b hb).1
    unfold FSDevice.seekLoop
    by_cases hc : d.chainRef start k ≠ 0 ∧ d.chainRef start k ∉ visited
    · simp only [hc, ne_eq, not_false_eq_true, and_self, if_true]
      have hnew : ∀ j, j < k → d.chainRef start j ≠ d.chainRef start k := by
        intro j hj e
        exact hc.2 ((hv _).mpr ⟨j, hj, e⟩)
      cases hb : d.hashableBlockPtr (d.chainRef start k) with
      | none =>
        exact ⟨0, rfl, k, hk, hp, Or.inr ⟨rfl, Or.inr (Or.inr hb)⟩⟩
      | some item =>
        by_cases hn : item.isNamed name = true
        · simp only [hn, if_true]
          exact ⟨item.nr, rfl, k, hk, hp, Or.inl ⟨hc.1, hnew, item, hb, hn, rfl⟩⟩
        · simp only [hn, Bool.false_eq_true, if_false]
          have hnext : d.chainRef start (k + 1) = item.nextHashRef := by
            simp only [FSDevice.chainRef, hb]
          rw [← hnext]
          apply ih (k + 1) (d.chainRef start k :: visited)
          · intro v
            simp only [List.mem_cons, hv]
            constructor
            · rintro (e | ⟨j, hj, e⟩)
              · exact ⟨k, by omega, e.symm⟩
              · exact ⟨j, by omega, e⟩
            · rintro ⟨j, hj, e⟩
              by_cases hjk : j = k
              · subst hjk
                exact Or.inl e.symm
              · exact Or.inr ⟨j, by omega, e⟩
          · intro i hi
            by_cases hik : i = k
            · subst hik
              exact ⟨hc.1, hnew, item, hb, by simpa using hn⟩
            · exact hp i (by omega)
          · omega
    · simp only [hc, if_false]
      refine ⟨0, rfl, k, hk, hp, Or.inr ⟨rfl, ?_⟩⟩
      by_cases h0 : d.chainRef start k = 0
      · exact Or.inl h0
      · have : d.chainRef start k ∈ visited := by
          by_contra hn
          exact hc ⟨h0, hn⟩
        exact Or.inr (Or.inl ((hv _).mp this))

/-- Claim C14: whenever `currentDirBlock` is defined, `seekRef(name)` returns (it
terminates for every device content, cyclic or dangling chains included).  Without a
current directory block or hash table it returns 0; otherwise it walks the chain of
bucket `hash(name) mod tableSize` and returns the number of the first block whose name
matches, or 0 when it first reaches a null reference, a non-hashable block or a
reference already visited. -/
theorem seekRef_finds_first_match (d : FSDevice) (name : FSName) (d1 : FSDevice)
    (cdb : Option FSBlock) (hcd : d.currentDirBlock = some (d1, cdb)) :
    ∃ r, d.seekRef name = some (d1, r) ∧
      (cdb = none → r = 0) ∧
      (∀ b, cdb = some b → b.hashTableSize = 0 → r = 0) ∧
      (∀ b, cdb = some b → b.hashTableSize ≠ 0 →
        ∃ k, k ≤ d1.numBlocks ∧
          (∀ i, i < k →
            d1.SeekPasses name (b.getHashRef (name.hashValue % b.hashTableSize)) i) ∧
          d1.SeekStops name (b.getHashRef (name.hashValue % b.hashTableSize)) k r) := by
  unfold FSDevice.seekRef
  rw [hcd]
  cases cdb with
  | none =>
    refine ⟨0, rfl, fun _ => rfl, ?_, ?_⟩
    · intro b hb; cases hb
    · intro b hb; cases hb
  | some b =>
    by_cases hz : b.hashTableSize = 0
    · simp only [hz, if_true]
      refine ⟨0, rfl, ?_, fun _ _ _ => rfl, ?_⟩
      · intro h; cases h
      · intro b1 hb1 hne
        simp only [Option.some.injEq] at hb1
        subst hb1
        exact absurd hz hne
    · simp only [hz, if_false]
      obtain ⟨r, hr, k, hk, hp, hs⟩ :=
        FSDevice.seekLoop_spec d1 name (b.getHashRef (name.hashValue % b.hashTableSize))
          (d1.numBlocks + 1) 0 [] (by intro v; simp) (by intro i hi; omega) (by omega)
      have e0 : d1.chainRef (b.getHashRef (name.hashValue % b.hashTableSize)) 0 =
          b.getHashRef (name.hashValue % b.hashTableSize) := rfl
      rw [e0] at hr
      refine ⟨r, by rw [hr]; rfl, ?_, ?_, ?_⟩
      · intro h; cases h
      · intro b1 hb1 hz1
        simp only [Option.some.injEq] at hb1
        subst hb1
        exact absurd hz1 hz
      · intro b1 hb1 _
        simp only [Option.some.injEq] at hb1
        subst hb1
        exact ⟨k, hk, hp, hs⟩

theorem FSDevice.hashableBlockPtr_some (d : FSDevice) (nr : Nat) (b : FSBlock)
    (hb : d.blocks[nr]? = some b)
    (ht : b.type = FSBlockType.FS_USERDIR_BLOCK ∨ b.type = FSBlockType.FS_FILEHEADER_BLOCK) :
    d.hashableBlockPtr nr = some b := by
  unfold FSDevice.hashableBlockPtr
  rw [FSDevice.blockPtr_eq, hb]
  simp [ht]

theorem FSDevice.IsChain_lt (d : FSDevice) (p : Option Nat) (l : List Nat)
    (h : d.IsChain p l) : ∀ q ∈ l, q < d.numBlocks := by
  induction h with
  | nil => intro q hq; cases hq
  | cons p b l hb _ ih =>
    intro q hq
    rcases List.mem_cons.mp hq with e | hq
    · subst e
      by_contra hc
      rw [List.getElem?_eq_none (by unfold FSDevice.numBlocks at hc; omega)] at hb
      cases hb
    · exact ih q hq

theorem FSDevice.IsChain_length (d : FSDevice) (p : Option Nat) (l : List Nat)
    (h : d.IsChain p l) (hnd : l.Nodup) : l.length ≤ d.numBlocks := by
  have hsub : l ⊆ List.range d.numBlocks := fun q hq =>
    List.mem_range.mpr (FSDevice.IsChain_lt d p l h q hq)
  have := (List.subperm_of_subset hnd hsub).length_le
  simpa using this

theorem FSDevice.lastHashLoop_chain (d : FSDevice) (hwf : d.NumbersOK) (p : Option Nat)
    (l : List Nat) (h : d.IsChain p l) :
    ∀ (fuel : Nat) (visited : List Nat), l.Nodup → (∀ v ∈ visited, v ∉ l) →
      l.length < fuel →
      FSDevice.lastHashLoop d fuel p visited = some l.getLast? := by
  induction h with
  | nil =>
    intro fuel visited _ _ hf
    cases fuel with
    | zero => omega
    | succ fuel => rfl
  | cons p b l hb hrest ih =>
    intro fuel visited hnd hv hf
    cases fuel with
    | zero => omega
    | succ fuel =>
      have hnr : b.nr = p := hwf p b hb
      have hnv : b.nr ∉ visited := by
        intro hin
        exact hv _ hin (by rw [hnr]; exact List.mem_cons_self _ _)
      simp only [FSDevice.lastHashLoop, hb, hnv, not_false_eq_true, if_true]
      cases hn : d.getNextHashBlock b with
      | none =>
        rw [hn] at hrest
        cases hrest
        rfl
      | some next =>
        rw [hn] at hrest ih
        simp only
        rw [ih fuel (b.nr :: visited) (List.nodup_cons.mp hnd).2 ?_ ?_]
        · cases hrest with
          | cons q b2 l2 _ _ => simp [List.getLast?_cons_cons]
        · intro v hvm hvl
          rcases List.mem_cons.mp hvm with e | hvm
          · subst e
            rw [hnr] at hvl
            exact (List.nodup_cons.mp hnd).1 hvl
          · exact hv v hvm (List.mem_cons_of_mem _ hvl)
        · simp only [List.length_cons] at hf
          omega

theorem FSDevice.lastHashBlockInChain_chain (d : FSDevice) (hwf : d.NumbersOK) (ref : Nat)
    (l : List Nat) (h : d.IsChain (d.hashablePtr ref) l) (hnd : l.Nodup) :
    d.lastHashBlockInChain ref = some l.getLast? := by
  unfold FSDevice.lastHashBlockInChain
  unfold FSDevice.hashablePtr at h
  cases hb : d.hashableBlockPtr ref with
  | none =>
    rw [hb] at h
    cases h
    rfl
  | some b =>
    rw [hb] at h
    simp only [Option.map_some'] at h
    simp only
    apply FSDevice.lastHashLoop_chain d hwf (some ref) l h _ _ hnd
    · intro v hv; cases hv
    · have := FSDevice.IsChain_length d (some ref) l h hnd
      omega

theorem FSDevice.setBlock_same (d : FSDevice) (i : Nat) (b : FSBlock)
    (h : i < d.numBlocks) : (d.setBlock i b).blocks[i]? = some b := by
  unfold FSDevice.setBlock
  unfold FSDevice.numBlocks at h
  simp [List.getElem?_set, h]

theorem FSDevice.setBlock_other (d : FSDevice) (i j : Nat) (b : FSBlock) (h : j ≠ i) :
    (d.setBlock i b).blocks[j]? = d.blocks[j]? := by
  unfold FSDevice.setBlock
  have : i ≠ j := fun e => h e.symm
  simp [List.getElem?_set, this]

theorem FSDevice.addHashRef_step (d : FSDevice) (hwf : d.NumbersOK) (nr : Nat)
    (nb : FSBlock) (d1 : FSDevice) (cdb : FSBlock)
    (hnb : d.hashableBlockPtr nr = some nb)
    (hcd : d.currentDirBlock = some (d1, some cdb)) (hsize : cdb.hashTableSize ≠ 0) :
    (cdb.getHashRef (nb.hashValue % cdb.hashTableSize) = 0 →
      d.addHashRef nr = some (d1.setBlock d1.cd
        (cdb.setHashRef (nb.hashValue % cdb.hashTableSize) nr))) ∧
    (cdb.getHashRef (nb.hashValue % cdb.hashTableSize) ≠ 0 →
      ∀ (l : List Nat) (last : Nat) (lastBlock : FSBlock),
        d1.IsChain (d1.hashablePtr (cdb.getHashRef (nb.hashValue % cdb.hashTableSize))) l →
        l.Nodup → l.getLast? = some last → d1.blocks[last]? = some lastBlock →
        d.addHashRef nr = some (d1.setBlock last (lastBlock.setNextHashRef nr))) := by
  have hnr : nb.nr = nr := hwf nr nb (FSDevice.hashableBlockPtr_lt d nr nb hnb).2.1
  obtain ⟨_, hblocks, _, _, _, _⟩ := FSDevice.currentDirBlock_cases d d1 (some cdb) hcd
  have hwf1 : d1.NumbersOK := by
    intro i b hb
    rw [hblocks] at hb
    exact hwf i b hb
  constructor
  · intro hz
    simp only [FSBlock.hashValue] at hz
    simp only [FSDevice.addHashRef, hnb, FSDevice.addHashRefBlock, hcd, hsize, if_false,
      FSBlock.hashValue, hz, if_true, hnr]
  · intro hnz l last lastBlock hchain hnd hlast hlb
    have := FSDevice.lastHashBlockInChain_chain d1 hwf1 _ l hchain hnd
    simp only [FSBlock.hashValue] at hnz this
    simp only [FSDevice.addHashRef, hnb, FSDevice.addHashRefBlock, hcd, hsize, if_false,
      FSBlock.hashValue, hnz, this, hlast, hlb, hnr]

theorem FSDevice.getNextHashBlock_eq (d : FSDevice) (b : FSBlock) :
    d.getNextHashBlock b = if b.nextHashRef = 0 then none else d.hashablePtr b.nextHashRef :=
  rfl

theorem FSDevice.setBlock_hashablePtr (d : FSDevice) (i : Nat) (old new : FSBlock)
    (hold : d.blocks[i]? = some old) (ht : new.type = old.type) (r : Nat) :
    (d.setBlock i new).hashablePtr r = d.hashablePtr r := by
  have hi : i < d.numBlocks := by
    by_contra hc
    rw [List.getElem?_eq_none (by unfold FSDevice.numBlocks at hc; omega)] at hold
    cases hold
  unfold FSDevice.hashablePtr FSDevice.hashableBlockPtr
  rw [FSDevice.blockPtr_eq, FSDevice.blockPtr_eq]
  by_cases hr : r = i
  · subst hr
    rw [FSDevice.setBlock_same d r new hi, hold]
    simp only [ht]
    split <;> rfl
  · rw [FSDevice.setBlock_other d i r new hr]

theorem FSDevice.setBlock_numbersOK (d : FSDevice) (hwf : d.NumbersOK) (i : Nat)
    (old new : FSBlock) (hold : d.blocks[i]? = some old) (hn : new.nr = old.nr) :
    (d.setBlock i new).NumbersOK := by
  have hi : i < d.numBlocks := by
    by_contra hc
    rw [List.getElem?_eq_none (by unfold FSDevice.numBlocks at hc; omega)] at hold
    cases hold
  intro j b hb
  by_cases hj : j = i
  · subst hj
    rw [FSDevice.setBlock_same d j new hi] at hb
    simp only [Option.some.injEq] at hb
    subst hb
    rw [hn]
    exact hwf j old hold
  · rw [FSDevice.setBlock_other d i j new hj] at hb
    exact hwf j b hb

theorem FSDevice.hashablePtr_some (d : FSDevice) (nr : Nat) (b : FSBlock)
    (h : d.hashableBlockPtr nr = some b) : d.hashablePtr nr = some nr := by
  unfold FSDevice.hashablePtr
  rw [h]
  rfl

/-- Appending to a chain: when the last block of an acyclic chain gets the next-hash
reference `nr`, `nr` being a hashable block outside the chain with a null next-hash
reference, the chain grows by `nr`. -/
theorem FSDevice.IsChain_append (d : FSDevice) (nr : Nat) (nb : FSBlock)
    (hnb : d.hashableBlockPtr nr = some nb) (hnext : nb.nextHashRef = 0) (hnr0 : nr ≠ 0)
    (last : Nat) (lastBlock : FSBlock) (hlb : d.blocks[last]? = some lastBlock)
    (p : Option Nat) (l : List Nat) (h : d.IsChain p l) :
    l.Nodup → nr ∉ l → l.getLast? = some last →
    (d.setBlock last (lastBlock.setNextHashRef nr)).IsChain p (l ++ [nr]) := by
  have hlast : last < d.numBlocks := by
    by_contra hc
    rw [List.getElem?_eq_none (by unfold FSDevice.numBlocks at hc; omega)] at hlb
    cases hlb
  have hptr : ∀ r, (d.setBlock last (lastBlock.setNextHashRef nr)).hashablePtr r =
      d.hashablePtr r :=
    FSDevice.setBlock_hashablePtr d last lastBlock _ hlb rfl
  induction h with
  | nil => intro _ _ hl; cases hl
  | cons p b l hb hrest ih =>
    intro hnd hnotin hl
    have hnp : nr ≠ p := fun e => hnotin (e ▸ List.mem_cons_self _ _)
    cases l with
    | nil =>
      simp only [List.getLast?_singleton, Option.some.injEq] at hl
      subst hl
      rw [hlb] at hb
      simp only [Option.some.injEq] at hb
      subst hb
      refine FSDevice.IsChain.cons p (lastBlock.setNextHashRef nr) [nr]
        (FSDevice.setBlock_same d p _ hlast) ?_
      rw [FSDevice.getNextHashBlock_eq, hptr]
      simp only [FSBlock.setNextHashRef, hnr0, if_false,
        FSDevice.hashablePtr_some d nr nb hnb]
      refine FSDevice.IsChain.cons nr nb []
        (by rw [FSDevice.setBlock_other d p nr _ hnp]
            exact (FSDevice.hashableBlockPtr_lt d nr nb hnb).2.1) ?_
      rw [FSDevice.getNextHashBlock_eq, hnext]
      exact FSDevice.IsChain.nil
    | cons q l2 =>
      have hpl : p ≠ last := by
        intro e
        subst e
        have : p ∈ q :: l2 := by
          rw [List.getLast?_cons_cons] at hl
          exact List.mem_of_getLast?_eq_some hl
        exact (List.nodup_cons.mp hnd).1 this
      refine FSDevice.IsChain.cons p b ((q :: l2) ++ [nr])
        (by rw [FSDevice.setBlock_other d last p _ hpl]; exact hb) ?_
      rw [FSDevice.getNextHashBlock_eq, hptr, ← FSDevice.getNextHashBlock_eq]
      apply ih (List.nodup_cons.mp hnd).2
      · intro hin
        exact hnotin (List.mem_cons_of_mem _ hin)
      · rw [List.getLast?_cons_cons] at hl
        exact hl

theorem FSDevice.blocks_lt (d : FSDevice) (i : Nat) (b : FSBlock)
    (h : d.blocks[i]? = some b) : i < d.numBlocks := by
  by_contra hc
  rw [List.getElem?_eq_none (by unfold FSDevice.numBlocks at hc; omega)] at h
  cases h

/-- Adding to an empty bucket of a valid current directory. -/
theorem FSDevice.addHashRef_empty (d : FSDevice) (hwf : d.NumbersOK) (cdb : FSBlock)
    (hcdb : d.blocks[d.cd]? = some cdb)
    (htype : cdb.type = FSBlockType.FS_ROOT_BLOCK ∨ cdb.type = FSBlockType.FS_USERDIR_BLOCK)
    (hsize : cdb.hashTableSize ≠ 0) (nr : Nat) (nb : FSBlock)
    (hnb : d.hashableBlockPtr nr = some nb)
    (hz : cdb.getHashRef (nb.hashValue % cdb.hashTableSize) = 0) :
    d.addHashRef nr =
      some (d.setBlock d.cd (cdb.setHashRef (nb.hashValue % cdb.hashTableSize) nr)) := by
  have hcd := FSDevice.currentDirBlock_valid d cdb (by rw [FSDevice.blockPtr_eq]; exact hcdb)
    htype
  exact (FSDevice.addHashRef_step d hwf nr nb d cdb hnb hcd hsize).1 hz

/-- Adding to a non-empty acyclic bucket chain of a valid current directory. -/
theorem FSDevice.addHashRef_extend (d : FSDevice) (hwf : d.NumbersOK) (cdb : FSBlock)
    (hcdb : d.blocks[d.cd]? = some cdb)
    (htype : cdb.type = FSBlockType.FS_ROOT_BLOCK ∨ cdb.type = FSBlockType.FS_USERDIR_BLOCK)
    (hsize : cdb.hashTableSize ≠ 0) (nr : Nat) (nb : FSBlock)
    (hnb : d.hashableBlockPtr nr = some nb)
    (hnz : cdb.getHashRef (nb.hashValue % cdb.hashTableSize) ≠ 0)
    (l : List Nat) (last : Nat) (lastBlock : FSBlock)
    (hchain : d.IsChain (d.hashablePtr (cdb.getHashRef (nb.hashValue % cdb.hashTableSize))) l)
    (hnd : l.Nodup) (hl : l.getLast? = some last) (hlb : d.blocks[last]? = some lastBlock) :
    d.addHashRef nr = some (d.setBlock last (lastBlock.setNextHashRef nr)) ∧
    (d.setBlock last (lastBlock.setNextHashRef nr)).NumbersOK ∧
    (∃ cdb2, (d.setBlock last (lastBlock.setNextHashRef nr)).blocks[d.cd]? = some cdb2 ∧
      cdb2.getHashRef = cdb.getHashRef ∧ cdb2.type = cdb.type ∧
      cdb2.hashTableSize = cdb.hashTableSize) ∧
    (nb.nextHashRef = 0 → nr ≠ 0 → nr ∉ l →
      (d.setBlock last (lastBlock.setNextHashRef nr)).IsChain
        ((d.setBlock last (lastBlock.setNextHashRef nr)).hashablePtr
          (cdb.getHashRef (nb.hashValue % cdb.hashTableSize))) (l ++ [nr])) := by
  have hcd := FSDevice.currentDirBlock_valid d cdb (by rw [FSDevice.blockPtr_eq]; exact hcdb)
    htype
  refine ⟨(FSDevice.addHashRef_step d hwf nr nb d cdb hnb hcd hsize).2 hnz l last lastBlock
    hchain hnd hl hlb, FSDevice.setBlock_numbersOK d hwf last lastBlock _ hlb rfl, ?_, ?_⟩
  · by_cases hc : d.cd = last
    · refine ⟨lastBlock.setNextHashRef nr, ?_, ?_, ?_, ?_⟩
      · rw [hc]
        exact FSDevice.setBlock_same d last _ (FSDevice.blocks_lt d last lastBlock hlb)
      all_goals
        rw [hc, hlb] at hcdb
        simp only [Option.some.injEq] at hcdb
        subst hcdb
        rfl
    · exact ⟨cdb, by rw [FSDevice.setBlock_other d last d.cd _ hc]; exact hcdb, rfl, rfl, rfl⟩
  · intro hnext hnr0 hnotin
    rw [FSDevice.setBlock_hashablePtr d last lastBlock (lastBlock.setNextHashRef nr) hlb rfl]
    exact FSDevice.IsChain_append d nr nb hnb hnext hnr0 last lastBlock hlb _ l hchain hnd
      hnotin hl

/-- A hashable block outside the rewritten position stays hashable. -/
theorem FSDevice.setBlock_hashable_other (d : FSDevice) (i : Nat) (new : FSBlock) (q : Nat)
    (B : FSBlock) (hq : d.hashableBlockPtr q = some B) (hne : q ≠ i) :
    (d.setBlock i new).hashableBlockPtr q = some B := by
  have h := FSDevice.hashableBlockPtr_lt d q B hq
  exact FSDevice.hashableBlockPtr_some _ q B
    (by rw [FSDevice.setBlock_other d i q new hne]; exact h.2.1) h.2.2

/-- Three colliding blocks added to an empty bucket form the chain `a → b → c`. -/
theorem FSDevice.addHashRef_three (d : FSDevice) (hwf : d.NumbersOK) (cdb : FSBlock)
    (hcdb : d.blocks[d.cd]? = some cdb)
    (htype : cdb.type = FSBlockType.FS_ROOT_BLOCK ∨ cdb.type = FSBlockType.FS_USERDIR_BLOCK)
    (hsize : cdb.hashTableSize ≠ 0) (a b c h : Nat) (A B C : FSBlock)
    (hA : d.hashableBlockPtr a = some A) (hB : d.hashableBlockPtr b = some B)
    (hC : d.hashableBlockPtr c = some C)
    (nA : A.nextHashRef = 0) (nB : B.nextHashRef = 0) (nC : C.nextHashRef = 0)
    (eA : A.hashValue % cdb.hashTableSize = h) (eB : B.hashValue % cdb.hashTableSize = h)
    (eC : C.hashValue % cdb.hashTableSize = h) (hz : cdb.getHashRef h = 0)
    (_a0 : a ≠ 0) (b0 : b ≠ 0) (c0 : c ≠ 0) (ab : a ≠ b) (ac : a ≠ c) (bc : b ≠ c)
    (acd : a ≠ d.cd) (bcd : b ≠ d.cd) (ccd : c ≠ d.cd) :
    ∃ d1 d2 d3 cdb3, d.addHashRef a = some d1 ∧ d1.addHashRef b = some d2 ∧
      d2.addHashRef c = some d3 ∧ d3.cd = d.cd ∧ d3.blocks[d.cd]? = some cdb3 ∧
      cdb3.getHashRef h = a ∧ d3.IsChain (d3.hashablePtr (cdb3.getHashRef h)) [a, b, c] := by
  have hcdlt := FSDevice.blocks_lt d d.cd cdb hcdb
  -- first step
  have s1 := FSDevice.addHashRef_empty d hwf cdb hcdb htype hsize a A hA (by rw [eA]; exact hz)
  rw [eA] at s1
  generalize hd1 : d.setBlock d.cd (cdb.setHashRef h a) = d1 at s1
  have cd1 : d1.cd = d.cd := by rw [← hd1]; rfl
  have hwf1 : d1.NumbersOK := by
    rw [← hd1]
    exact FSDevice.setBlock_numbersOK d hwf d.cd cdb _ hcdb rfl
  have hcdb1 : d1.blocks[d1.cd]? = some (cdb.setHashRef h a) := by
    rw [cd1, ← hd1]
    exact FSDevice.setBlock_same d d.cd _ hcdlt
  have hA1 : d1.hashableBlockPtr a = some A := by
    rw [← hd1]
    exact FSDevice.setBlock_hashable_other d d.cd _ a A hA acd
  have hB1 : d1.hashableBlockPtr b = some B := by
    rw [← hd1]
    exact FSDevice.setBlock_hashable_other d d.cd _ b B hB bcd
  have hC1 : d1.hashableBlockPtr c = some C := by
    rw [← hd1]
    exact FSDevice.setBlock_hashable_other d d.cd _ c C hC ccd
  have hh1 : (cdb.setHashRef h a).getHashRef h = a := by
    simp [FSBlock.setHashRef]
  have chain1 : d1.IsChain (d1.hashablePtr a) [a] := by
    rw [FSDevice.hashablePtr_some d1 a A hA1]
    refine FSDevice.IsChain.cons a A [] (FSDevice.hashableBlockPtr_lt d1 a A hA1).2.1 ?_
    rw [FSDevice.getNextHashBlock_eq, nA]
    exact FSDevice.IsChain.nil
  -- second step
  have eB1 : B.hashValue % (cdb.setHashRef h a).hashTableSize = h := eB
  have s2 := FSDevice.addHashRef_extend d1 hwf1 (cdb.setHashRef h a) hcdb1 htype hsize b B hB1
    (by rw [eB1, hh1]; exact _a0) [a] a A (by rw [eB1, hh1]; exact chain1)
    (List.nodup_singleton a) rfl (FSDevice.hashableBlockPtr_lt d1 a A hA1).2.1
  rw [eB1, hh1] at s2
  generalize hd2 : d1.setBlock a (A.setNextHashRef b) = d2 at s2
  obtain ⟨s2a, hwf2, ⟨cdb2, hcdb2, hg2, ht2, hs2⟩, s2c⟩ := s2
  have chain2 := s2c nB b0 (by simp [Ne.symm ab])
  have cd2 : d2.cd = d.cd := by rw [← hd2]; exact cd1
  rw [cd1, ← cd2] at hcdb2
  have hB2 : d2.hashableBlockPtr b = some B := by
    rw [← hd2]
    exact FSDevice.setBlock_hashable_other d1 a _ b B hB1 (Ne.symm ab)
  have hC2 : d2.hashableBlockPtr c = some C := by
    rw [← hd2]
    exact FSDevice.setBlock_hashable_other d1 a _ c C hC1 (Ne.symm ac)
  have hh2 : cdb2.getHashRef h = a := by rw [hg2]; exact hh1
  -- third step
  have eC2 : C.hashValue % cdb2.hashTableSize = h := by rw [hs2]; exact eC
  have s3 := FSDevice.addHashRef_extend d2 hwf2 cdb2 hcdb2 (by rw [ht2]; exact htype)
    (by rw [hs2]; exact hsize) c C hC2
    (by rw [eC2, hh2]; exact _a0) [a, b] b B (by rw [eC2, hh2]; exact chain2)
    (by simp [ab]) rfl (FSDevice.hashableBlockPtr_lt d2 b B hB2).2.1
  rw [eC2, hh2] at s3
  generalize hd3 : d2.setBlock b (B.setNextHashRef c) = d3 at s3
  obtain ⟨s3a, _, ⟨cdb3, hcdb3, hg3, _, _⟩, s3c⟩ := s3
  have chain3 := s3c nC c0 (by simp [Ne.symm ac, Ne.symm bc])
  have cd3 : d3.cd = d.cd := by rw [← hd3]; exact cd2
  have hh3 : cdb3.getHashRef h = a := by rw [hg3]; exact hh2
  rw [cd2] at hcdb3
  exact ⟨d1, d2, d3, cdb3, s1, s2a, s3a, cd3, hcdb3, hh3, by rw [hh3]; exact chain3⟩

theorem FSDevice.numbersOK_of_range (d : FSDevice)
    (h : ∀ i ∈ List.range d.blocks.length, (d.blocks[i]?).map FSBlock.nr = some i) :
    d.NumbersOK := by
  intro i b hb
  have hi := FSDevice.blocks_lt d i b hb
  have := h i (List.mem_range.mpr hi)
  rw [hb] at this
  simpa using this

/-- Claim C15: in a valid current directory with a hash table, `addHashRef(nr)` for a
hashable block `nr` writes `nr` into the table entry when the bucket is empty; when the
bucket holds an acyclic chain of hashable blocks, the table entry (head) stays as it is
and the last block of the chain gets the next-hash reference `nr`, so that the chain read
from the head is the old chain followed by `nr` (for a new block with a null next-hash
reference).  Adding three colliding blocks `a`, `b`, `c` in that order to an empty bucket
yields the chain `a → b → c` read from the head. -/
theorem addHashRef_appends_to_tail (d : FSDevice) (hwf : d.NumbersOK) (cdb : FSBlock)
    (hcdb : d.blocks[d.cd]? = some cdb)
    (htype : cdb.type = FSBlockType.FS_ROOT_BLOCK ∨ cdb.type = FSBlockType.FS_USERDIR_BLOCK)
    (hsize : cdb.hashTableSize ≠ 0) :
    (∀ (nr : Nat) (nb : FSBlock), d.hashableBlockPtr nr = some nb →
      (cdb.getHashRef (nb.hashValue % cdb.hashTableSize) = 0 →
        ∃ d2 cdb2, d.addHashRef nr = some d2 ∧ d2.blocks[d.cd]? = some cdb2 ∧
          cdb2.getHashRef (nb.hashValue % cdb.hashTableSize) = nr ∧
          (∀ i, i ≠ nb.hashValue % cdb.hashTableSize → cdb2.getHashRef i = cdb.getHashRef i) ∧
          (∀ q, q ≠ d.cd → d2.blocks[q]? = d.blocks[q]?)) ∧
      (cdb.getHashRef (nb.hashValue % cdb.hashTableSize) ≠ 0 →
        ∀ (l : List Nat) (last : Nat) (lastBlock : FSBlock),
          d.IsChain (d.hashablePtr (cdb.getHashRef (nb.hashValue % cdb.hashTableSize))) l →
          l.Nodup → l.getLast? = some last → d.blocks[last]? = some lastBlock →
          ∃ d2 cdb2 lastBlock2, d.addHashRef nr = some d2 ∧
            d2.blocks[d.cd]? = some cdb2 ∧ cdb2.getHashRef = cdb.getHashRef ∧
            d2.blocks[last]? = some lastBlock2 ∧ lastBlock2.nextHashRef = nr ∧
            (∀ q, q ≠ last → d2.blocks[q]? = d.blocks[q]?) ∧
            (nb.nextHashRef = 0 → nr ≠ 0 → nr ∉ l →
              d2.IsChain (d2.hashablePtr (cdb2.getHashRef (nb.hashValue % cdb.hashTableSize)))
                (l ++ [nr])))) ∧
    (∀ (a b c h : Nat) (A B C : FSBlock),
      d.hashableBlockPtr a = some A → d.hashableBlockPtr b = some B →
      d.hashableBlockPtr c = some C →
      A.nextHashRef = 0 → B.nextHashRef = 0 → C.nextHashRef = 0 →
      A.hashValue % cdb.hashTableSize = h → B.hashValue % cdb.hashTableSize = h →
      C.hashValue % cdb.hashTableSize = h → cdb.getHashRef h = 0 →
      a ≠ 0 → b ≠ 0 → c ≠ 0 → a ≠ b → a ≠ c → b ≠ c →
      a ≠ d.cd → b ≠ d.cd → c ≠ d.cd →
      ∃ d1 d2 d3 cdb3, d.addHashRef a = some d1 ∧ d1.addHashRef b = some d2 ∧
        d2.addHashRef c = some d3 ∧ d3.cd = d.cd ∧ d3.blocks[d.cd]? = some cdb3 ∧
        cdb3.getHashRef h = a ∧
        d3.IsChain (d3.hashablePtr (cdb3.getHashRef h)) [a, b, c]) := by
  refine ⟨?_, ?_⟩
  · intro nr nb hnb
    refine ⟨?_, ?_⟩
    · intro hz
      refine ⟨_, _, FSDevice.addHashRef_empty d hwf cdb hcdb htype hsize nr nb hnb hz,
        FSDevice.setBlock_same d d.cd _ (FSDevice.blocks_lt d d.cd cdb hcdb), ?_, ?_, ?_⟩
      · simp [FSBlock.setHashRef]
      · intro i hi
        simp [FSBlock.setHashRef, Function.update_noteq hi]
      · intro q hq
        exact FSDevice.setBlock_other d d.cd q _ hq
    · intro hnz l last lastBlock hchain hnd hl hlb
      obtain ⟨h1, _, ⟨cdb2, h2, h3, _, _⟩, h4⟩ :=
        FSDevice.addHashRef_extend d hwf cdb hcdb htype hsize nr nb hnb hnz l last lastBlock
          hchain hnd hl hlb
      refine ⟨_, cdb2, lastBlock.setNextHashRef nr, h1, h2, h3,
        FSDevice.setBlock_same d last _ (FSDevice.blocks_lt d last lastBlock hlb), rfl, ?_, ?_⟩
      · intro q hq
        exact FSDevice.setBlock_other d last q _ hq
      · rw [h3]
        exact h4
  · intro a b c h A B C hA hB hC nA nB nC eA eB eC hz a0 b0 c0 ab ac bc acd bcd ccd
    exact FSDevice.addHashRef_three d hwf cdb hcdb htype hsize a b c h A B C hA hB hC nA nB nC
      eA eB eC hz a0 b0 c0 ab ac bc acd bcd ccd

theorem FSDevice.IsChain_none (d : FSDevice) (l : List Nat) (h : d.IsChain none l) :
    l = [] := by
  cases h
  rfl

theorem FSDevice.collectChainLoop_chain (d : FSDevice) (hwf : d.NumbersOK) (p : Option Nat)
    (l : List Nat) (h : d.IsChain p l) :
    ∀ (fuel : Nat) (refs visited : List Nat), l.Nodup → (∀ q ∈ l, q ∉ visited) →
      l.length < fuel →
      FSDevice.collectChainLoop d fuel p refs visited =
        some (ErrorCode.ERROR_OK, l.reverse ++ refs, l.reverse ++ visited) := by
  induction h with
  | nil =>
    intro fuel refs visited _ _ hf
    cases fuel with
    | zero => simp at hf
    | succ fuel => rfl
  | cons p b l hb hrest ih =>
    intro fuel refs visited hnd hv hf
    cases fuel with
    | zero => simp at hf
    | succ fuel =>
      have hnr : b.nr = p := hwf p b hb
      have hp : p ∉ visited := hv p (List.mem_cons_self _ _)
      have hnd2 := List.nodup_cons.mp hnd
      simp only [FSDevice.collectChainLoop, hb, hnr, hp, if_false]
      rw [ih fuel (p :: refs) (p :: visited) hnd2.2 ?_ (by simp at hf; omega)]
      · simp
      · intro q hq hqv
        rcases List.mem_cons.mp hqv with e | hqv
        · subst e
          exact hnd2.1 hq
        · exact hv q (List.mem_cons_of_mem _ hq) hqv

theorem FSDevice.collectRefs_chain (d : FSDevice) (hwf : d.NumbersOK) (ref : Nat)
    (l : List Nat) (h : d.IsChain (d.hashablePtr ref) l) (result visited : List Nat)
    (hnd : l.Nodup) (hv : ∀ q ∈ l, q ∉ visited) :
    d.collectRefsWithSameHashValue ref result visited =
      some (ErrorCode.ERROR_OK, l ++ result, l.reverse ++ visited) := by
  have hlen := FSDevice.IsChain_length d _ l h hnd
  unfold FSDevice.collectRefsWithSameHashValue
  unfold FSDevice.hashablePtr at h
  simp only
  rw [FSDevice.collectChainLoop_chain d hwf _ l h (d.numBlocks + 1) [] visited hnd hv
    (by omega)]
  simp

theorem FSDevice.collectBuckets_chains (d : FSDevice) (hwf : d.NumbersOK) (b : FSBlock)
    (chain : Nat → List Nat) :
    ∀ (idx : List Nat) (result visited : List Nat),
      (∀ i ∈ idx, d.IsChain (d.hashablePtr (b.getHashRef i)) (chain i)) →
      ((idx.map chain).flatten).Nodup → (∀ q ∈ (idx.map chain).flatten, q ∉ visited) →
      ∃ v, FSDevice.collectBuckets d b idx result visited =
        some (((idx.reverse).map chain).flatten ++ result, v) := by
  intro idx
  induction idx with
  | nil =>
    intro result visited _ _ _
    exact ⟨visited, rfl⟩
  | cons i rest ih =>
    intro result visited hch hnd hv
    simp only [List.map_cons, List.flatten_cons] at hnd hv
    have hnd2 := List.nodup_append.mp hnd
    have h1 := FSDevice.collectRefs_chain d hwf (b.getHashRef i) (chain i)
      (hch i (List.mem_cons_self _ _)) result visited hnd2.1
      (fun q hq => hv q (List.mem_append_left _ hq))
    obtain ⟨v, hv2⟩ := ih (chain i ++ result) ((chain i).reverse ++ visited)
      (fun j hj => hch j (List.mem_cons_of_mem _ hj)) hnd2.2.1
      (by
        intro q hq hqv
        rcases List.mem_append.mp hqv with hqv | hqv
        · exact hnd2.2.2 (List.mem_reverse.mp hqv) hq
        · exact hv q (List.mem_append_right _ hq) hqv)
    refine ⟨v, ?_⟩
    simp only [FSDevice.collectBuckets, h1, hv2]
    simp

theorem FSDevice.collectLoop_flat (d : FSDevice) :
    ∀ (items : List Nat) (fuel : Nat) (visited result : List Nat), items.length < fuel →
      FSDevice.collectLoop d false fuel items visited result = some (result ++ items) := by
  intro items
  induction items with
  | nil =>
    intro fuel visited result hf
    cases fuel with
    | zero => simp at hf
    | succ fuel => simp [FSDevice.collectLoop]
  | cons item rest ih =>
    intro fuel visited result hf
    cases fuel with
    | zero => simp at hf
    | succ fuel =>
      simp only [FSDevice.collectLoop, Bool.false_eq_true, and_false, if_false]
      rw [ih fuel visited (result ++ [item]) (by simp at hf; omega)]
      simp

/-- The forward table order, when the read one past the table finds nothing: for a
block `nr` whose bucket chains are acyclic and pairwise disjoint and whose
`getHashRef(n)`, the read the loop of `collectHashedRefs` starts with, yields no
hashable block, `collect(nr, result, false)` returns and appends to `result` the blocks
of the hash chains of buckets 0, 1, ..., n-1 in this order, each chain from head to
tail. -/
theorem collect_forward_table_order (d : FSDevice) (hwf : d.NumbersOK) (nr : Nat)
    (b : FSBlock) (hb : d.blocks[nr]? = some b) (chain : Nat → List Nat)
    (hch : ∀ i, i < b.hashTableSize → d.IsChain (d.hashablePtr (b.getHashRef i)) (chain i))
    (hout : d.hashableBlockPtr (b.getHashRef b.hashTableSize) = none)
    (hnd : (((List.range b.hashTableSize).map chain).flatten).Nodup)
    (result : List Nat) :
    d.collect nr result false =
      some (ErrorCode.ERROR_OK,
        result ++ ((List.range b.hashTableSize).map chain).flatten) := by
  have hmap : (List.range b.hashTableSize).map
      (fun i => if i < b.hashTableSize then chain i else []) =
      (List.range b.hashTableSize).map chain := by
    apply List.map_congr_left
    intro i hi
    simp [List.mem_range.mp hi]
  have hflat : ((List.range (b.hashTableSize + 1)).map
      (fun i => if i < b.hashTableSize then chain i else [])).flatten =
      ((List.range b.hashTableSize).map chain).flatten := by
    rw [List.range_succ, List.map_append, hmap]
    simp
  have hch2 : ∀ i ∈ (List.range (b.hashTableSize + 1)).reverse,
      d.IsChain (d.hashablePtr (b.getHashRef i))
        ((fun i => if i < b.hashTableSize then chain i else []) i) := by
    intro i hi
    have hi2 : i < b.hashTableSize + 1 := List.mem_range.mp (List.mem_reverse.mp hi)
    by_cases hlt : i < b.hashTableSize
    · simp only [hlt, if_true]
      exact hch i hlt
    · have : i = b.hashTableSize := by omega
      subst this
      simp only [Nat.lt_irrefl, if_false]
      unfold FSDevice.hashablePtr
      rw [hout]
      exact FSDevice.IsChain.nil
  have hperm : (((List.range (b.hashTableSize + 1)).reverse.map
      (fun i => if i < b.hashTableSize then chain i else [])).flatten).Perm
      (((List.range b.hashTableSize).map chain).flatten) := by
    rw [← hflat]
    exact List.Perm.flatten ((List.reverse_perm _).map _)
  obtain ⟨v, hv⟩ := FSDevice.collectBuckets_chains d hwf b
    (fun i => if i < b.hashTableSize then chain i else [])
    (List.range (b.hashTableSize + 1)).reverse [] [] hch2 (hperm.nodup_iff.mpr hnd)
    (fun q _ hq => by cases hq)
  rw [List.reverse_reverse, hflat, List.append_nil] at hv
  have hlen : (((List.range b.hashTableSize).map chain).flatten).length ≤ d.numBlocks := by
    have hsub : ((List.range b.hashTableSize).map chain).flatten ⊆ List.range d.numBlocks := by
      intro q hq
      obtain ⟨l, hl, hql⟩ := List.mem_flatten.mp hq
      obtain ⟨i, hi, rfl⟩ := List.mem_map.mp hl
      exact List.mem_range.mpr
        (FSDevice.IsChain_lt d _ _ (hch i (List.mem_range.mp hi)) q hql)
    have := (List.subperm_of_subset hnd hsub).length_le
    simpa using this
  unfold FSDevice.collect FSDevice.collectHashedRefs
  rw [FSDevice.blockPtr_eq, hb]
  simp only [hv, Option.map_some']
  rw [FSDevice.collectLoop_flat d _ (d.numBlocks + 1) v result (by omega)]
  rfl

/-- Claim C13, evaluation at the failing input: in `cyclicDevice` the chain of bucket 0
of the directory block 1 has a cycle; `collectRefsWithSameHashValue` detects it and
returns `ERROR_FS_HAS_CYCLES`, yet `collect` returns `ERROR_OK`. -/
theorem collect_drops_cycle_error :
    cyclicDevice.collectRefsWithSameHashValue 2 [] [] =
      some (ErrorCode.ERROR_FS_HAS_CYCLES, [], [3, 2]) ∧
    cyclicDevice.collect 1 [] false = some (ErrorCode.ERROR_OK, []) ∧
    cyclicDevice.collect 1 [] true = some (ErrorCode.ERROR_OK, []) := by
  decide

/-- Claim C11, counterexample: at clock 10 only source 0 is due, source 3 is not pending
and bit 3 of `intreq` is clear, yet `serviceIrqEvent` leaves bit 3 set (the IRQ pin of
CIA A being low). -/
theorem serviceIrqEvent_sets_bit_of_idle_source :
    irqPendingAmiga.agnus.clock < irqPendingAmiga.paula.setIntreq 3 ∧
    irqPendingAmiga.paula.intreq.testBit 3 = false ∧
    (irqPendingAmiga.serviceIrqEvent exampleExternal).map
      (fun a1 => a1.paula.intreq.testBit 3) = some true := by
  decide

/-! ## Audio channel state machine: single steps -/

theorem irqWord_mask (nr : Nat) (h : nr < 4) :
    (u16 (u16 (0x8000 ||| (0x80 <<< nr))) &&& 0x8000 != 0) = true ∧
    u16 (u16 (0x8000 ||| (0x80 <<< nr))) &&& 0x7FFF = 1 <<< (7 + nr) := by
  interval_cases nr <;> decide

/-- Writing the interrupt word of channel `nr` to INTREQ sets bit `7 + nr`. -/
theorem Amiga.pokeINTREQ_irqWord (x : External) (a : Amiga) (sm : StateMachine)
    (h : sm.nr < 4) :
    ∃ a1, a.pokeINTREQ x sm.irqWord = some a1 ∧
      a1.paula.intreq.testBit (7 + sm.nr) = true ∧
      (∀ i, i < 16 → (a1.paula.intreq.testBit i = true ↔
        (a.paula.intreq.testBit i = true ∨ i = 7 + sm.nr ∨ (i = 3 ∧ a.ciaaIrqPin = 0) ∨
          (i = 13 ∧ a.ciabIrqPin = 0)))) ∧
      a1.paula.intena = a.paula.intena ∧ a1.agnus.audlc = a.agnus.audlc ∧
      a1.agnus.clock = a.agnus.clock ∧ a1.cpuIPL = a.cpuIPL := by
  obtain ⟨a1, h1, h2, _, h4, _, _, h7, _, h9⟩ :=
    Amiga.setINTREQ_set_bit x a (7 + sm.nr) (by omega)
  obtain ⟨b1, g1, _, _, g4, _⟩ := Amiga.pokeINTREQ_some x a sm.irqWord
  have e : a.pokeINTREQ x sm.irqWord = a.setINTREQ x true (1 <<< (7 + sm.nr)) := by
    unfold Amiga.pokeINTREQ Amiga.setINTREQ1 StateMachine.irqWord
    rw [(irqWord_mask sm.nr h).1, (irqWord_mask sm.nr h).2]
  rw [e, h1] at g1
  simp only [Option.some.injEq] at g1
  subst g1
  exact ⟨a1, by rw [e, h1], (h2 (7 + sm.nr) (by omega)).mpr (Or.inr (Or.inl rfl)), h2, h4,
    g4, h7, h9⟩

/-- Claim C27: from each of the states 0, 1, 2, 3, 5 `execute` returns (the `default`
branch with `assert(false)` is not taken) and the new state is again one of 0, 1, 2, 3,
5, never 4, for every cycle count and machine state; the `default` branch is taken
exactly from the other state values. -/
theorem execute_keeps_state_set (x : External) (a : Amiga) (sm : StateMachine) (c : Int) :
    ((sm.state = 0 ∨ sm.state = 1 ∨ sm.state = 2 ∨ sm.state = 3 ∨ sm.state = 5) →
      ∃ a1 sm1 r, sm.execute x a c = some (a1, sm1, r) ∧
        (sm1.state = 0 ∨ sm1.state = 1 ∨ sm1.state = 2 ∨ sm1.state = 3 ∨ sm1.state = 5) ∧
        sm1.state ≠ 4) ∧
    (¬ (sm.state = 0 ∨ sm.state = 1 ∨ sm.state = 2 ∨ sm.state = 3 ∨ sm.state = 5) →
      sm.execute x a c = none) := by
  constructor
  · intro hst
    have key : ∃ a1 sm1 r, sm.execute x a c = some (a1, sm1, r) ∧
        (sm1.state = 0 ∨ sm1.state = 1 ∨ sm1.state = 2 ∨ sm1.state = 3 ∨ sm1.state = 5) := by
      rcases hst with h | h | h | h | h
      · obtain ⟨a1, sm1, r, h1, h2⟩ := StateMachine.execute_state0 x a sm c h
        exact ⟨a1, sm1, r, h1, by rw [h2]; simp⟩
      · obtain ⟨a1, sm1, r, h1, h2⟩ := StateMachine.execute_state1 x a sm c h
        exact ⟨a1, sm1, r, h1, by rw [h2]; simp⟩
      · obtain ⟨r, h1⟩ := StateMachine.execute_state2 x a sm c h
        refine ⟨_, _, r, h1, ?_⟩
        split
        · simp
        · simp [h]
      · unfold StateMachine.execute
        simp only [h]
        split
        · exact ⟨_, _, _, rfl, by simp [h]⟩
        · split
          · split
            · exact ⟨_, _, _, rfl, by simp⟩
            · generalize hp : Amiga.pokeINTREQ x _ _ = o
              obtain ⟨a1, rfl, _⟩ := Amiga.pokeINTREQ_eq _ _ _ _ hp
              exact ⟨_, _, _, rfl, by simp⟩
          · generalize hp : Amiga.pokeINTREQ x _ _ = o
            obtain ⟨a1, rfl, _⟩ := Amiga.pokeINTREQ_eq _ _ _ _ hp
            refine ⟨_, _, _, rfl, ?_⟩
            simp only [Option.map_some']
            split <;> simp
      · obtain ⟨a1, sm1, r, h1, h2⟩ := StateMachine.execute_state5 x a sm c h
        exact ⟨a1, sm1, r, h1, by rw [h2]; simp⟩
    obtain ⟨a1, sm1, r, h1, h2⟩ := key
    exact ⟨a1, sm1, r, h1, h2, by omega⟩
  · intro hst
    unfold StateMachine.execute
    have h0 : sm.state ≠ 0 := fun e => hst (Or.inl e)
    have h1 : sm.state ≠ 1 := fun e => hst (Or.inr (Or.inl e))
    have h2 : sm.state ≠ 2 := fun e => hst (Or.inr (Or.inr (Or.inl e)))
    have h3 : sm.state ≠ 3 := fun e => hst (Or.inr (Or.inr (Or.inr (Or.inl e))))
    have h5 : sm.state ≠ 5 := fun e => hst (Or.inr (Or.inr (Or.inr (Or.inr e))))
    split <;> first | contradiction | rfl

/-- Claim C28: in state 1 `execute` decrements `audlen` by one if `audlen > 1` and leaves
it as it is otherwise (it never goes below 1 from a positive value), writes the
interrupt word of the channel to INTREQ, after which bit `7 + nr` of `intreq` is set,
and moves to state 5; period counter, volume, data register and all latches are
unchanged. -/
theorem execute_state1_step (x : External) (a : Amiga) (sm : StateMachine) (c : Int)
    (h : sm.state = 1) (hnr : sm.nr < 4) :
    ∃ a1 sm1 r, sm.execute x a c = some (a1, sm1, r) ∧
      (sm.audlen > 1 → sm1.audlen = sm.audlen - 1) ∧
      (sm.audlen ≤ 1 → sm1.audlen = sm.audlen) ∧
      (0 < sm.audlen → 0 < sm1.audlen) ∧
      a.pokeINTREQ x (0x8000 ||| (0x80 <<< sm.nr)) = some a1 ∧
      a1.paula.intreq.testBit (7 + sm.nr) = true ∧
      sm1.state = 5 ∧
      sm1.audper = sm.audper ∧ sm1.audvol = sm.audvol ∧ sm1.auddat = sm.auddat ∧
      sm1.audlenLatch = sm.audlenLatch ∧ sm1.audperLatch = sm.audperLatch ∧
      sm1.audvolLatch = sm.audvolLatch ∧ sm1.auddatLatch = sm.auddatLatch ∧
      sm1.audlcLatch = sm.audlcLatch ∧ sm1.nr = sm.nr ∧
      a1.agnus.audlc = a.agnus.audlc := by
  obtain ⟨a1, h1, h2, _, _, h5, _⟩ := Amiga.pokeINTREQ_irqWord x a sm hnr
  by_cases hl : sm.audlen > 1
  · have hex : sm.execute x a c = some (a1, { sm with audlen := sm.audlen - 1, state := 5 },
        toInt16 (toInt8 sm.auddat * (sm.audvolLatch : Int))) := by
      unfold StateMachine.execute
      simp only [h, hl, if_true]
      simp only [StateMachine.irqWord] at h1 ⊢
      rw [h1]
      rfl
    exact ⟨a1, _, _, hex, fun _ => rfl, fun h' => by omega,
      fun _ => by show 0 < sm.audlen - 1; omega, h1, h2, rfl, rfl, rfl,
      rfl, rfl, rfl, rfl, rfl, rfl, rfl, h5⟩
  · have hex : sm.execute x a c = some (a1, { sm with state := 5 },
        toInt16 (toInt8 sm.auddat * (sm.audvolLatch : Int))) := by
      unfold StateMachine.execute
      simp only [h, hl, if_false]
      simp only [StateMachine.irqWord] at h1 ⊢
      rw [h1]
      rfl
    exact ⟨a1, _, _, hex, fun h' => absurd h' hl, fun _ => rfl,
      fun h' => h', h1, h2, rfl, rfl, rfl, rfl, rfl, rfl, rfl, rfl, rfl, rfl, h5⟩

/-- Claim C29: in state 5 `execute` loads `audvol` from `audvolLatch`, sets `audper` to
0 (whatever the period latch holds), replaces the data latch by the word `doAudioDMA(nr)`
returns, and then either decrements `audlen` (if `audlen > 1`, no interrupt being
requested) or reloads `audlen` from `audlenLatch` and `audlc[nr]` from `audlcLatch` and
writes the interrupt word of the channel to INTREQ, which sets bit `7 + nr`; the new
state is 2 in both cases. -/
theorem execute_state5_step (x : External) (a : Amiga) (sm : StateMachine) (c : Int)
    (h : sm.state = 5) (hnr : sm.nr < 4) :
    ∃ a1 sm1 r, sm.execute x a c = some (a1, sm1, r) ∧
      sm1.audvol = sm.audvolLatch ∧ sm1.audper = 0 ∧
      sm1.auddatLatch = u16 (x.doAudioDMA a.agnus sm.nr).1 ∧
      sm1.state = 2 ∧
      (sm.audlen > 1 →
        sm1.audlen = sm.audlen - 1 ∧ a1.paula = a.paula ∧
        a1.agnus = (x.doAudioDMA a.agnus sm.nr).2) ∧
      (sm.audlen ≤ 1 →
        sm1.audlen = sm.audlenLatch ∧ a1.agnus.audlc sm.nr = sm.audlcLatch ∧
        (∀ n, n ≠ sm.nr → a1.agnus.audlc n = (x.doAudioDMA a.agnus sm.nr).2.audlc n) ∧
        a1.paula.intreq.testBit (7 + sm.nr) = true ∧
        (Amiga.mk (Agnus.mk (x.doAudioDMA a.agnus sm.nr).2.clock
            (x.doAudioDMA a.agnus sm.nr).2.slot
            (Function.update (x.doAudioDMA a.agnus sm.nr).2.audlc sm.nr sm.audlcLatch))
          a.paula a.ciaaIrqPin a.ciabIrqPin a.cpuIPL).pokeINTREQ x
            (0x8000 ||| (0x80 <<< sm.nr)) = some a1) ∧
      sm1.auddat = sm.auddat ∧
      sm1.audlenLatch = sm.audlenLatch ∧ sm1.audperLatch = sm.audperLatch ∧
      sm1.audvolLatch = sm.audvolLatch ∧ sm1.audlcLatch = sm.audlcLatch ∧
      sm1.nr = sm.nr := by
  by_cases hl : sm.audlen > 1
  · have hex : sm.execute x a c = some
        (Amiga.mk (x.doAudioDMA a.agnus sm.nr).2 a.paula a.ciaaIrqPin a.ciabIrqPin a.cpuIPL,
         { sm with audvol := sm.audvolLatch, audper := 0,
                   auddatLatch := u16 (x.doAudioDMA a.agnus sm.nr).1,
                   audlen := sm.audlen - 1, state := 2 },
         toInt16 (toInt8 sm.auddat * (sm.audvolLatch : Int))) := by
      unfold StateMachine.execute
      simp only [h, hl, if_true]
      rfl
    exact ⟨_, _, _, hex, rfl, rfl, rfl, rfl, fun _ => ⟨rfl, rfl, rfl⟩, fun h' => by omega,
      rfl, rfl, rfl, rfl, rfl, rfl⟩
  · obtain ⟨a1, h1, h2, _, _, h5, _⟩ := Amiga.pokeINTREQ_irqWord x
      (Amiga.mk (Agnus.mk (x.doAudioDMA a.agnus sm.nr).2.clock
            (x.doAudioDMA a.agnus sm.nr).2.slot
            (Function.update (x.doAudioDMA a.agnus sm.nr).2.audlc sm.nr sm.audlcLatch))
          a.paula a.ciaaIrqPin a.ciabIrqPin a.cpuIPL) sm hnr
    have hex : sm.execute x a c = some (a1,
         { sm with audvol := sm.audvolLatch, audper := 0,
                   auddatLatch := u16 (x.doAudioDMA a.agnus sm.nr).1,
                   audlen := sm.audlenLatch, state := 2 },
         toInt16 (toInt8 sm.auddat * (sm.audvolLatch : Int))) := by
      unfold StateMachine.execute
      simp only [h, hl, if_false]
      simp only [StateMachine.irqWord] at h1 ⊢
      rw [h1]
      rfl
    refine ⟨a1, _, _, hex, rfl, rfl, rfl, rfl, fun h' => absurd h' hl,
      fun _ => ⟨rfl, ?_, ?_, h2, h1⟩, rfl, rfl, rfl, rfl, rfl, rfl⟩
    · rw [h5]
      simp
    · intro n hn
      rw [h5]
      simp [Function.update_noteq hn]

/-- Claim C30 (amended): in state 5 `execute` leaves the data register `auddat` as it
is, and the returned sample is that byte (signed) times the volume latch; the high byte
is put out by the following step: from the resulting state 2, whose period counter is 0,
`execute` with a positive cycle count sets `auddat` to the high byte of the data latch,
which then holds the word fetched in state 5. -/
theorem execute_state5_keeps_auddat (x : External) (a : Amiga) (sm : StateMachine)
    (c : Int) (h : sm.state = 5) :
    ∃ a1 sm1 r, sm.execute x a c = some (a1, sm1, r) ∧
      sm1.auddat = sm.auddat ∧
      r = toInt16 (toInt8 sm.auddat * (sm.audvolLatch : Int)) ∧
      sm1.state = 2 ∧ sm1.audper = 0 ∧
      sm1.auddatLatch = u16 (x.doAudioDMA a.agnus sm.nr).1 ∧
      ∀ c2 : Int, 0 < c2 →
        ∃ sm2 r2, sm1.execute x a1 c2 = some (a1, sm2, r2) ∧
          sm2.auddat = HI_BYTE (u16 (x.doAudioDMA a.agnus sm.nr).1) ∧ sm2.state = 3 ∧
          r2 = toInt16 (toInt8 (HI_BYTE (u16 (x.doAudioDMA a.agnus sm.nr).1)) *
            (sm.audvolLatch : Int)) := by
  obtain ⟨a1, sm1, r, h1, h2⟩ := StateMachine.execute_state5 x a sm c h
  have hr := StateMachine.execute_sample x a sm c a1 sm1 r h1
  have hd : sm1.auddat = sm.auddat := by rw [h2]
  have hv : sm1.audvolLatch = sm.audvolLatch := by rw [h2]
  have hs : sm1.state = 2 := by rw [h2]
  have hp : sm1.audper = 0 := by rw [h2]
  have hl : sm1.auddatLatch = u16 (x.doAudioDMA a.agnus sm.nr).1 := by rw [h2]
  refine ⟨a1, sm1, r, h1, hd, by rw [hr, hd, hv], hs, hp, hl, ?_⟩
  intro c2 hc2
  obtain ⟨r2, g1⟩ := StateMachine.execute_state2 x a1 sm1 c2 hs
  have hneg : sm1.audper - c2 < 0 := by rw [hp]; omega
  rw [if_pos hneg] at g1
  have hr2 := StateMachine.execute_sample x a1 sm1 c2 _ _ r2 g1
  refine ⟨_, r2, g1, ?_, rfl, ?_⟩
  · show HI_BYTE sm1.auddatLatch = _
    rw [hl]
  · rw [hr2]
    show toInt16 (toInt8 (HI_BYTE sm1.auddatLatch) * (sm1.audvolLatch : Int)) = _
    rw [hl, hv]

/-- Claim C30, counterexample: a channel in state 5 with data register 0 and data latch
`0x7F80` (high byte `0x7F`); after `execute` the data register is still 0 and the
returned sample is 0, not `0x7F` times the volume latch 64. -/
theorem execute_state5_emits_no_high_byte :
    fetchingChannel.state = 5 ∧ HI_BYTE fetchingChannel.auddatLatch = 0x7F ∧
    (fetchingChannel.execute exampleExternal exampleAmiga 1).map
      (fun p => (p.2.1.auddat, p.2.2)) = some (0, 0) := by
  decide

/-! ## Ring buffers -/

theorem mod_wrap (a cap : Nat) (h : a < 2 * cap) :
    a % cap = if a < cap then a else a - cap := by
  split
  · rename_i h1
    exact Nat.mod_eq_of_lt h1
  · rename_i h1
    rw [Nat.mod_eq_sub_mod (by omega), Nat.mod_eq_of_lt (by omega)]

theorem RingBuffer.next_eq (cap i : Nat) (hi : i < cap) :
    RingBuffer.next cap i = if i + 1 < cap then i + 1 else 0 := by
  unfold RingBuffer.next
  rw [Nat.add_assoc, Nat.add_mod_left, mod_wrap (i + 1) cap (by omega)]
  split_ifs <;> omega

theorem RingBuffer.prev_eq (cap i : Nat) (hi : i < cap) :
    RingBuffer.prev cap i = if i = 0 then cap - 1 else i - 1 := by
  unfold RingBuffer.prev
  rw [mod_wrap (cap + i - 1) cap (by omega)]
  split_ifs <;> omega

theorem RingBuffer.count_eq {T : Type} (b : RingBuffer T) (h : b.InRange) :
    b.count = if b.r ≤ b.w then b.w - b.r else b.capacity + b.w - b.r := by
  obtain ⟨hr, hw⟩ := h
  unfold RingBuffer.count
  rw [mod_wrap (b.capacity + b.w - b.r) b.capacity (by omega)]
  split <;> split <;> omega

theorem RingBuffer.count_lt {T : Type} (b : RingBuffer T) (h : b.InRange) :
    b.count < b.capacity := by
  have := RingBuffer.count_eq b h
  obtain ⟨hr, hw⟩ := h
  split at this <;> omega

/-- The cell `k` places after the read index. -/
theorem RingBuffer.slot_eq (cap r k : Nat) (hr : r < cap) (hk : k < cap) :
    (r + k) % cap = if r + k < cap then r + k else r + k - cap :=
  mod_wrap (r + k) cap (by omega)

theorem RingBuffer.isEmpty_iff {T : Type} (b : RingBuffer T) (h : b.InRange) :
    b.isEmpty = true ↔ b.count = 0 := by
  have := RingBuffer.count_eq b h
  obtain ⟨hr, hw⟩ := h
  unfold RingBuffer.isEmpty
  simp only [beq_iff_eq]
  split at this <;> omega

theorem RingBuffer.write_spec {T : Type} (b : RingBuffer T) (e : T) (h : b.InRange)
    (hnf : b.count < b.capacity - 1) :
    ∃ b1, b.write e = some b1 ∧ b1.InRange ∧ b1.capacity = b.capacity ∧ b1.r = b.r ∧
      b1.count = b.count + 1 ∧ b1.contents = b.contents ++ [e] := by
  have hc := RingBuffer.count_eq b h
  have hw2 := RingBuffer.next_eq b.capacity b.w h.2
  obtain ⟨hr, hw⟩ := h
  have hfull : b.isFull = false := by
    unfold RingBuffer.isFull
    simp only [beq_eq_false_iff_ne, ne_eq]
    omega
  have hin : (RingBuffer.mk b.capacity (Function.update b.elements b.w e) b.r
      (RingBuffer.next b.capacity b.w)).InRange := by
    refine ⟨hr, ?_⟩
    show RingBuffer.next b.capacity b.w < b.capacity
    rw [hw2]
    split <;> omega
  have hcount : (RingBuffer.mk b.capacity (Function.update b.elements b.w e) b.r
      (RingBuffer.next b.capacity b.w)).count = b.count + 1 := by
    rw [RingBuffer.count_eq _ hin]
    show (if b.r ≤ RingBuffer.next b.capacity b.w then RingBuffer.next b.capacity b.w - b.r
      else b.capacity + RingBuffer.next b.capacity b.w - b.r) = b.count + 1
    rw [hw2]
    split at hc <;> split <;> split <;> omega
  refine ⟨_, by simp [RingBuffer.write, hfull], hin, rfl, rfl, hcount, ?_⟩
  unfold RingBuffer.contents
  rw [hcount, List.range_succ, List.map_append]
  congr 1
  · apply List.map_congr_left
    intro k hk
    have hk2 := List.mem_range.mp hk
    have hs := RingBuffer.slot_eq b.capacity b.r k hr (by omega)
    have hne : (b.r + k) % b.capacity ≠ b.w := by
      rw [hs]
      split at hc <;> split <;> omega
    show Function.update b.elements b.w e ((b.r + k) % b.capacity) = _
    rw [Function.update_noteq hne]
  · have hs := RingBuffer.slot_eq b.capacity b.r b.count hr (by omega)
    have he : (b.r + b.count) % b.capacity = b.w := by
      rw [hs]
      split at hc <;> split <;> omega
    show [Function.update b.elements b.w e ((b.r + b.count) % b.capacity)] = [e]
    rw [he, Function.update_same]

theorem RingBuffer.write_full {T : Type} (b : RingBuffer T) (e : T)
    (hf : ¬ b.count < b.capacity - 1) (h : b.InRange) : b.write e = none := by
  have := RingBuffer.count_lt b h
  have hfull : b.isFull = true := by
    unfold RingBuffer.isFull
    simp only [beq_iff_eq]
    omega
  simp [RingBuffer.write, hfull]

theorem RingBuffer.read_spec {T : Type} (b : RingBuffer T) (h : b.InRange)
    (hne : 0 < b.count) :
    ∃ e b1, b.read = some (e, b1) ∧ b1.InRange ∧ b1.capacity = b.capacity ∧ b1.w = b.w ∧
      b1.count + 1 = b.count ∧ b.contents = e :: b1.contents := by
  have hc := RingBuffer.count_eq b h
  have hr2 := RingBuffer.next_eq b.capacity b.r h.1
  have hemp : b.isEmpty = false := by
    cases hb : b.isEmpty with
    | false => rfl
    | true =>
      have := (RingBuffer.isEmpty_iff b h).mp hb
      omega
  obtain ⟨hr, hw⟩ := h
  have hin : (RingBuffer.mk b.capacity b.elements (RingBuffer.next b.capacity b.r)
      b.w).InRange := by
    refine ⟨?_, hw⟩
    show RingBuffer.next b.capacity b.r < b.capacity
    rw [hr2]
    split <;> omega
  have hcount : (RingBuffer.mk b.capacity b.elements (RingBuffer.next b.capacity b.r)
      b.w).count + 1 = b.count := by
    rw [RingBuffer.count_eq _ hin]
    show (if RingBuffer.next b.capacity b.r ≤ b.w then b.w - RingBuffer.next b.capacity b.r
      else b.capacity + b.w - RingBuffer.next b.capacity b.r) + 1 = b.count
    rw [hr2]
    split at hc <;> split <;> split <;> omega
  refine ⟨b.elements b.r, _, by simp [RingBuffer.read, hemp], hin, rfl, rfl, hcount, ?_⟩
  unfold RingBuffer.contents
  rw [← hcount, List.range_succ_eq_map, List.map_cons, List.map_map]
  congr 1
  · show b.elements ((b.r + 0) % b.capacity) = b.elements b.r
    rw [Nat.add_zero, Nat.mod_eq_of_lt hr]
  · apply List.map_congr_left
    intro k hk
    have hk2 := List.mem_range.mp hk
    have hlt := RingBuffer.count_lt _ ⟨hr, hw⟩
    show b.elements ((b.r + (k + 1)) % b.capacity) =
      b.elements ((RingBuffer.next b.capacity b.r + k) % b.capacity)
    congr 1
    unfold RingBuffer.next
    rw [Nat.mod_add_mod,
      show b.capacity + b.r + 1 + k = b.capacity + (b.r + (k + 1)) by omega, Nat.add_mod_left]

theorem RingBuffer.read_empty {T : Type} (b : RingBuffer T) (h : b.InRange)
    (he : b.count = 0) : b.read = none := by
  have := (RingBuffer.isEmpty_iff b h).mpr he
  simp [RingBuffer.read, this]

theorem RingBuffer.contents_length {T : Type} (b : RingBuffer T) :
    b.contents.length = b.count := by
  simp [RingBuffer.contents]

theorem RingBuffer.run_spec {T : Type} (ops : List (RingOp T)) :
    ∀ b : RingBuffer T, b.InRange →
      (b.run ops).map (fun p => (p.1, p.2.contents)) =
        fifoRun (b.capacity - 1) ops b.contents ∧
      ∀ out b1, b.run ops = some (out, b1) →
        b1.InRange ∧ b1.capacity = b.capacity ∧
        b1.count + RingOp.reads ops = b.count + RingOp.writes ops := by
  induction ops with
  | nil =>
    intro b h
    refine ⟨rfl, ?_⟩
    intro out b1 hrun
    simp only [RingBuffer.run, Option.some.injEq, Prod.mk.injEq] at hrun
    obtain ⟨_, rfl⟩ := hrun
    exact ⟨h, rfl, rfl⟩
  | cons op rest ih =>
    intro b h
    cases op with
    | write e =>
      by_cases hnf : b.count < b.capacity - 1
      · obtain ⟨b1, hw, hin, hcap, _, hcnt, hcont⟩ := RingBuffer.write_spec b e h hnf
        obtain ⟨ih1, ih2⟩ := ih b1 hin
        constructor
        · simp only [RingBuffer.run, hw, fifoRun, RingBuffer.contents_length, hnf, if_true]
          rw [ih1, hcap, hcont]
        · intro out b2 hrun
          simp only [RingBuffer.run, hw] at hrun
          obtain ⟨g1, g2, g3⟩ := ih2 out b2 hrun
          refine ⟨g1, g2.trans hcap, ?_⟩
          simp only [RingOp.reads, RingOp.writes]
          omega
      · have hw := RingBuffer.write_full b e hnf h
        constructor
        · simp [RingBuffer.run, hw, fifoRun, RingBuffer.contents_length, hnf]
        · intro out b2 hrun
          simp [RingBuffer.run, hw] at hrun
    | read =>
      by_cases hne : 0 < b.count
      · obtain ⟨e, b1, hr, hin, hcap, _, hcnt, hcont⟩ := RingBuffer.read_spec b h hne
        obtain ⟨ih1, ih2⟩ := ih b1 hin
        constructor
        · simp only [RingBuffer.run, hr, hcont, fifoRun]
          rw [← hcap, ← ih1]
          cases RingBuffer.run rest b1 <;> rfl
        · intro out b2 hrun
          simp only [RingBuffer.run, hr, Option.map_eq_some'] at hrun
          obtain ⟨p, hp, hpe⟩ := hrun
          simp only [Prod.mk.injEq] at hpe
          obtain ⟨_, rfl⟩ := hpe
          obtain ⟨g1, g2, g3⟩ := ih2 p.1 p.2 hp
          refine ⟨g1, g2.trans hcap, ?_⟩
          simp only [RingOp.reads, RingOp.writes]
          omega
      · have he : b.count = 0 := by omega
        have hr := RingBuffer.read_empty b h he
        have hnil : b.contents = [] := by
          apply List.eq_nil_of_length_eq_zero
          rw [RingBuffer.contents_length, he]
        constructor
        · simp [RingBuffer.run, hr, fifoRun, hnil]
        · intro out b2 hrun
          simp [RingBuffer.run, hr] at hrun

/-- Claim C25: a `RingBuffer` of capacity at least 1 is a first-in first-out queue of
at most `capacity - 1` elements.  Started from `clear()`, a sequence of writes and reads
passes the assertions `!isFull()` and `!isEmpty()` exactly when the bounded queue allows
it, and then every read returns what the queue returns, the oldest element not yet
read; afterwards `0 <= r, w < capacity`, `count()` is the number of writes minus the
number of reads and the number of stored elements, `isEmpty()` holds iff `count() == 0`
and `isFull()` iff `count() == capacity - 1`, which `count()` never exceeds. -/
theorem RingBuffer_is_bounded_fifo {T : Type} (b : RingBuffer T) (hcap : 0 < b.capacity)
    (ops : List (RingOp T)) :
    (b.clear.run ops).map (fun p => (p.1, p.2.contents)) = fifoRun (b.capacity - 1) ops [] ∧
    ∀ out b1, b.clear.run ops = some (out, b1) →
      b1.r < b.capacity ∧ b1.w < b.capacity ∧ b1.capacity = b.capacity ∧
      b1.count + RingOp.reads ops = RingOp.writes ops ∧
      b1.count = RingOp.writes ops - RingOp.reads ops ∧
      b1.contents.length = b1.count ∧
      (b1.isEmpty = true ↔ b1.count = 0) ∧
      (b1.isFull = true ↔ b1.count = b.capacity - 1) ∧
      b1.count ≤ b.capacity - 1 := by
  have hin : b.clear.InRange := ⟨hcap, hcap⟩
  have hc0 : b.clear.count = 0 := by
    show (b.capacity + 0 - 0) % b.capacity = 0
    simp
  have hnil : b.clear.contents = [] := by
    apply List.eq_nil_of_length_eq_zero
    rw [RingBuffer.contents_length, hc0]
  obtain ⟨h1, h2⟩ := RingBuffer.run_spec ops b.clear hin
  rw [hnil] at h1
  refine ⟨h1, ?_⟩
  intro out b1 hrun
  obtain ⟨g1, g2, g3⟩ := h2 out b1 hrun
  have g2b : b1.capacity = b.capacity := g2
  rw [hc0] at g3
  have hlt := RingBuffer.count_lt b1 g1
  refine ⟨g2b ▸ g1.1, g2b ▸ g1.2, g2b, by omega, by omega, RingBuffer.contents_length b1,
    RingBuffer.isEmpty_iff b1 g1, ?_, by omega⟩
  unfold RingBuffer.isFull
  rw [g2b]
  simp

theorem RingBuffer.slot_lt (cap r k : Nat) (hr : r < cap) : (r + k) % cap < cap :=
  Nat.mod_lt _ (by omega)

theorem RingBuffer.slot_inj (cap r k1 k2 : Nat) (hr : r < cap) (h1 : k1 < cap)
    (h2 : k2 < cap) (h : (r + k1) % cap = (r + k2) % cap) : k1 = k2 := by
  rw [RingBuffer.slot_eq cap r k1 hr h1, RingBuffer.slot_eq cap r k2 hr h2] at h
  split_ifs at h <;> omega

theorem RingBuffer.prev_slot (cap r j : Nat) (hr : r < cap) (hj : j < cap) (h0 : 0 < j) :
    RingBuffer.prev cap ((r + j) % cap) = (r + (j - 1)) % cap := by
  rw [RingBuffer.prev_eq cap _ (RingBuffer.slot_lt cap r j hr),
    RingBuffer.slot_eq cap r j hr hj, RingBuffer.slot_eq cap r (j - 1) hr (by omega)]
  split_ifs <;> omega

/-- The loop of `insert` started at the cell `j` places after the read index: it stops
at some place `j1 <= j`, the new pair moved there, the pairs of the places `j1 .. j-1`
moved up by one, and everything else untouched. -/
theorem SortedRingBuffer.insertLoop_spec {T : Type} (cap r : Nat) (key : Int)
    (hr : r < cap) :
    ∀ (fuel j : Nat) (E : Nat → T) (K : Nat → Int), j < cap → j < fuel →
      ∃ j1 E1 K1, j1 ≤ j ∧
        SortedRingBuffer.insertLoop cap r key fuel ((r + j) % cap) E K = some (E1, K1) ∧
        (j1 = 0 ∨ K ((r + (j1 - 1)) % cap) ≤ key) ∧
        (∀ i, j1 ≤ i → i < j → key < K ((r + i) % cap)) ∧
        (∀ m, (∀ k, k ≤ j → m ≠ (r + k) % cap) → E1 m = E m ∧ K1 m = K m) ∧
        (∀ k, k < j1 → E1 ((r + k) % cap) = E ((r + k) % cap) ∧
          K1 ((r + k) % cap) = K ((r + k) % cap)) ∧
        (E1 ((r + j1) % cap) = E ((r + j) % cap) ∧
          K1 ((r + j1) % cap) = K ((r + j) % cap)) ∧
        (∀ k, j1 < k → k ≤ j → E1 ((r + k) % cap) = E ((r + (k - 1)) % cap) ∧
          K1 ((r + k) % cap) = K ((r + (k - 1)) % cap)) := by
  intro fuel
  induction fuel with
  | zero => intro j E K _ hf; omega
  | succ fuel ih =>
    intro j E K hj hf
    by_cases h0 : j = 0
    · subst h0
      have e0 : (r + 0) % cap = r := by rw [Nat.add_zero, Nat.mod_eq_of_lt hr]
      refine ⟨0, E, K, le_refl _, ?_, Or.inl rfl, ?_, fun m _ => ⟨rfl, rfl⟩, ?_, ⟨rfl, rfl⟩, ?_⟩
      · rw [e0]
        simp [SortedRingBuffer.insertLoop]
      · intro i _ hi; omega
      · intro k hk; omega
      · intro k hk1 hk2; omega
    · have hne : (r + j) % cap ≠ r := by
        intro e
        have := RingBuffer.slot_inj cap r j 0 hr hj (by omega)
          (by rw [e, Nat.add_zero, Nat.mod_eq_of_lt hr])
        exact h0 this
      have hp := RingBuffer.prev_slot cap r j hr hj (by omega)
      have hpj : (r + (j - 1)) % cap ≠ (r + j) % cap := by
        intro e
        have := RingBuffer.slot_inj cap r (j - 1) j hr (by omega) hj e
        omega
      by_cases hk : key ≥ K ((r + (j - 1)) % cap)
      · refine ⟨j, E, K, le_refl _, ?_, Or.inr hk, ?_, fun m _ => ⟨rfl, rfl⟩,
          fun k _ => ⟨rfl, rfl⟩, ⟨rfl, rfl⟩, ?_⟩
        · simp [SortedRingBuffer.insertLoop, hne, hp, hk]
        · intro i h1 h2; omega
        · intro k h1 h2; omega
      · obtain ⟨j1, E1, K1, hle, hrun, hstop, hpass, hout, hlow, hat, hup⟩ :=
          ih (j - 1)
            (Function.update (Function.update E ((r + j) % cap) (E ((r + (j - 1)) % cap)))
              ((r + (j - 1)) % cap) (E ((r + j) % cap)))
            (Function.update (Function.update K ((r + j) % cap) (K ((r + (j - 1)) % cap)))
              ((r + (j - 1)) % cap) (K ((r + j) % cap)))
            (by omega) (by omega)
        have hother : ∀ k, k < j - 1 → (r + k) % cap ≠ (r + (j - 1)) % cap ∧
            (r + k) % cap ≠ (r + j) % cap := by
          intro k hk1
          constructor
          · intro e
            have := RingBuffer.slot_inj cap r k (j - 1) hr (by omega) (by omega) e
            omega
          · intro e
            have := RingBuffer.slot_inj cap r k j hr (by omega) hj e
            omega
        refine ⟨j1, E1, K1, by omega, ?_, ?_, ?_, ?_, ?_, ?_, ?_⟩
        · simp only [SortedRingBuffer.insertLoop, hne, ne_eq, not_false_eq_true, if_true, hp,
            hk, if_false]
          exact hrun
        · rcases hstop with h | h
          · exact Or.inl h
          · by_cases hj1 : j1 = 0
            · exact Or.inl hj1
            · right
              obtain ⟨n1, n2⟩ := hother (j1 - 1) (by omega)
              rw [Function.update_noteq n1, Function.update_noteq n2] at h
              exact h
        · intro i hi1 hi2
          by_cases hij : i = j - 1
          · subst hij
            omega
          · have := hpass i hi1 (by omega)
            obtain ⟨n1, n2⟩ := hother i (by omega)
            rw [Function.update_noteq n1, Function.update_noteq n2] at this
            exact this
        · intro m hm
          obtain ⟨o1, o2⟩ := hout m (fun k hk1 => hm k (by omega))
          have n1 : m ≠ (r + (j - 1)) % cap := hm (j - 1) (by omega)
          have n2 : m ≠ (r + j) % cap := hm j (le_refl _)
          rw [o1, o2, Function.update_noteq n1, Function.update_noteq n2,
            Function.update_noteq n1, Function.update_noteq n2]
          exact ⟨rfl, rfl⟩
        · intro k hk1
          obtain ⟨o1, o2⟩ := hlow k hk1
          obtain ⟨n1, n2⟩ := hother k (by omega)
          rw [o1, o2, Function.update_noteq n1, Function.update_noteq n2,
            Function.update_noteq n1, Function.update_noteq n2]
          exact ⟨rfl, rfl⟩
        · rw [hat.1, hat.2, Function.update_same, Function.update_same]
          exact ⟨rfl, rfl⟩
        · intro k hk1 hk2
          by_cases hkj : k = j
          · subst hkj
            obtain ⟨o1, o2⟩ := hout ((r + k) % cap) (by
              intro k2 hk3 e
              have := RingBuffer.slot_inj cap r k k2 hr hj (by omega) e
              omega)
            rw [o1, o2, Function.update_noteq hpj.symm, Function.update_noteq hpj.symm,
              Function.update_same, Function.update_same]
            exact ⟨rfl, rfl⟩
          · obtain ⟨o1, o2⟩ := hup k hk1 (by omega)
            obtain ⟨n1, n2⟩ := hother (k - 1) (by omega)
            rw [o1, o2, Function.update_noteq n1, Function.update_noteq n2,
              Function.update_noteq n1, Function.update_noteq n2]
            exact ⟨rfl, rfl⟩

/-- Inserting one value into a list given by its places: the places below `j` keep their
values, place `j` gets the new value, and the places above hold the old values moved up
by one. -/
theorem range_map_insert {α : Type} (g g1 : Nat → α) (new : α) (j m : Nat)
    (hlow : ∀ k, k < j → g1 k = g k) (hat : g1 j = new)
    (hup : ∀ k, j < k → k ≤ j + m → g1 k = g (k - 1)) :
    (List.range (j + m)).map g =
      (List.range j).map g ++ (List.range m).map (fun i => g (j + i)) ∧
    (List.range (j + m + 1)).map g1 =
      (List.range j).map g ++ new :: (List.range m).map (fun i => g (j + i)) := by
  constructor
  · rw [List.range_add, List.map_append, List.map_map]
    rfl
  · rw [Nat.add_assoc, List.range_add, List.map_append, List.map_map,
      List.range_succ_eq_map, List.map_cons, List.map_map]
    congr 1
    · apply List.map_congr_left
      intro k hk
      exact hlow k (List.mem_range.mp hk)
    · have h0 : (g1 ∘ fun x => j + x) 0 = new := hat
      rw [h0]
      congr 1
      apply List.map_congr_left
      intro i hi
      have := List.mem_range.mp hi
      show g1 (j + (i + 1)) = g (j + i)
      rw [hup (j + (i + 1)) (by omega) (by omega)]
      congr 1

/-- Claim C24: for a sorted buffer with indices in range that is not full and whose
keys are non-decreasing from `r` to `w`, `insert(key, element)` returns (its loop ends
within `capacity + 1` iterations); `r` is unchanged, `w` advances by one and `count()`
grows by one; the stored (key, element) pairs are the previous ones, in their order and
each key with its own element, with the new pair put in after the pairs whose key is at
most `key` and before those whose key is greater; so the keys are again non-decreasing
from `r` to the new `w`. -/
theorem SortedRingBuffer_insert_keeps_sorted {T : Type} (b : SortedRingBuffer T)
    (key : Int) (e : T) (hin : b.toRingBuffer.InRange) (hnf : b.isFull = false)
    (hsorted : (b.entries.map Prod.fst).Pairwise (fun x y => x ≤ y)) :
    ∃ b1 l1 l2, b.insert key e = some b1 ∧ b1.r = b.r ∧ b1.capacity = b.capacity ∧
      b1.w = RingBuffer.next b.capacity b.w ∧ b1.toRingBuffer.InRange ∧
      b1.count = b.count + 1 ∧
      b.entries = l1 ++ l2 ∧ b1.entries = l1 ++ (key, e) :: l2 ∧
      (∀ p ∈ l1, p.1 ≤ key) ∧ (∀ p ∈ l2, key < p.1) ∧
      (b1.entries.map Prod.fst).Pairwise (fun x y => x ≤ y) ∧
      List.Perm b1.entries ((key, e) :: b.entries) := by
  have hlt := RingBuffer.count_lt b.toRingBuffer hin
  have hn : b.count < b.capacity - 1 := by
    have : b.count ≠ b.capacity - 1 := by
      intro e1
      have : b.isFull = true := by
        unfold RingBuffer.isFull
        simp only [beq_iff_eq]
        exact e1
      rw [hnf] at this
      cases this
    omega
  obtain ⟨rb, hw, hin1, hcap1, hr1, hcnt1, _⟩ := RingBuffer.write_spec b.toRingBuffer e hin hn
  have hrb : rb = RingBuffer.mk b.capacity (Function.update b.elements b.w e) b.r
      (RingBuffer.next b.capacity b.w) := by
    have : b.toRingBuffer.write e = some (RingBuffer.mk b.capacity
        (Function.update b.elements b.w e) b.r (RingBuffer.next b.capacity b.w)) := by
      simp [RingBuffer.write, hnf]
    rw [hw] at this
    exact Option.some.inj this
  subst hrb
  obtain ⟨hr, hw2⟩ := hin
  have hc := RingBuffer.count_eq b.toRingBuffer ⟨hr, hw2⟩
  have hwn : (b.r + b.count) % b.capacity = b.w := by
    rw [RingBuffer.slot_eq b.capacity b.r b.count hr (by omega)]
    split at hc <;> split <;> omega
  have hnw : ∀ k, k < b.count → (b.r + k) % b.capacity ≠ b.w := by
    intro k hk e1
    rw [← hwn] at e1
    have := RingBuffer.slot_inj b.capacity b.r k b.count hr (by omega) (by omega) e1
    omega
  obtain ⟨j1, E1, K1, hle, hrun, hstop, hpass, _, hlow, hat, hup⟩ :=
    SortedRingBuffer.insertLoop_spec b.capacity b.r key hr (b.capacity + 1) b.count
      (Function.update b.elements b.w e) (Function.update b.keys b.w key) (by omega)
      (by omega)
  rw [hwn] at hrun hat
  rw [Function.update_same, Function.update_same] at hat
  have hins : b.insert key e = some (SortedRingBuffer.mk (RingBuffer.mk b.capacity E1 b.r
      (RingBuffer.next b.capacity b.w)) K1) := by
    simp only [SortedRingBuffer.insert, hnf, hw, hrun, Option.map_some']
    rfl
  have hold : ∀ k, k < b.count →
      Function.update b.elements b.w e ((b.r + k) % b.capacity) =
        b.elements ((b.r + k) % b.capacity) ∧
      Function.update b.keys b.w key ((b.r + k) % b.capacity) =
        b.keys ((b.r + k) % b.capacity) := by
    intro k hk
    rw [Function.update_noteq (hnw k hk), Function.update_noteq (hnw k hk)]
    exact ⟨rfl, rfl⟩
  obtain ⟨m, hm⟩ : ∃ m, b.count = j1 + m := ⟨b.count - j1, by omega⟩
  obtain ⟨hsplit, hnew⟩ := range_map_insert
    (fun k => (b.keys ((b.r + k) % b.capacity), b.elements ((b.r + k) % b.capacity)))
    (fun k => (K1 ((b.r + k) % b.capacity), E1 ((b.r + k) % b.capacity))) (key, e) j1 m
    (by
      intro k hk
      obtain ⟨o1, o2⟩ := hlow k hk
      obtain ⟨p1, p2⟩ := hold k (by omega)
      show (K1 _, E1 _) = (_, _)
      rw [o1, o2, p1, p2])
    (by
      show (K1 _, E1 _) = (_, _)
      rw [hat.1, hat.2])
    (by
      intro k hk1 hk2
      obtain ⟨o1, o2⟩ := hup k hk1 (by omega)
      obtain ⟨p1, p2⟩ := hold (k - 1) (by omega)
      show (K1 _, E1 _) = (_, _)
      rw [o1, o2, p1, p2])
  have hent : b.entries = (List.range j1).map
      (fun k => (b.keys ((b.r + k) % b.capacity), b.elements ((b.r + k) % b.capacity))) ++
      (List.range m).map (fun i => (b.keys ((b.r + (j1 + i)) % b.capacity),
        b.elements ((b.r + (j1 + i)) % b.capacity))) := by
    unfold SortedRingBuffer.entries
    rw [hm]
    exact hsplit
  have hent1 : (SortedRingBuffer.mk (RingBuffer.mk b.capacity E1 b.r
      (RingBuffer.next b.capacity b.w)) K1).entries = (List.range j1).map
      (fun k => (b.keys ((b.r + k) % b.capacity), b.elements ((b.r + k) % b.capacity))) ++
      (key, e) :: (List.range m).map (fun i => (b.keys ((b.r + (j1 + i)) % b.capacity),
        b.elements ((b.r + (j1 + i)) % b.capacity))) := by
    unfold SortedRingBuffer.entries
    have : (RingBuffer.mk b.capacity E1 b.r (RingBuffer.next b.capacity b.w)).count =
        j1 + m + 1 := by
      rw [← hm]
      exact hcnt1
    rw [this]
    exact hnew
  have hl1 : ∀ p ∈ (List.range j1).map
      (fun k => (b.keys ((b.r + k) % b.capacity), b.elements ((b.r + k) % b.capacity))),
      p.1 ≤ key := by
    intro p hp
    obtain ⟨k, hk, rfl⟩ := List.mem_map.mp hp
    have hk2 := List.mem_range.mp hk
    rcases hstop with h0 | hs
    · omega
    · rw [(hold (j1 - 1) (by omega)).2] at hs
      by_cases hkj : k = j1 - 1
      · subst hkj
        exact hs
      · refine le_trans ?_ hs
        rw [hent] at hsorted
        simp only [List.map_append, List.map_map] at hsorted
        have hp1 := (List.pairwise_append.mp hsorted).1
        rw [List.pairwise_map] at hp1
        have hp2 := (List.pairwise_iff_getElem.mp hp1) k (j1 - 1) (by simp; omega)
          (by simp; omega) (by omega)
        simpa using hp2
  have hl2 : ∀ p ∈ (List.range m).map (fun i => (b.keys ((b.r + (j1 + i)) % b.capacity),
      b.elements ((b.r + (j1 + i)) % b.capacity))), key < p.1 := by
    intro p hp
    obtain ⟨i, hi, rfl⟩ := List.mem_map.mp hp
    have hi2 := List.mem_range.mp hi
    have := hpass (j1 + i) (by omega) (by omega)
    rw [(hold (j1 + i) (by omega)).2] at this
    exact this
  refine ⟨_, _, _, hins, rfl, rfl, rfl, hin1, hcnt1, hent, hent1, hl1, hl2, ?_, ?_⟩
  · rw [hent1]
    rw [hent] at hsorted
    simp only [List.map_append, List.map_cons] at hsorted ⊢
    obtain ⟨s1, s2, s3⟩ := List.pairwise_append.mp hsorted
    refine List.pairwise_append.mpr ⟨s1, List.pairwise_cons.mpr ⟨?_, s2⟩, ?_⟩
    · intro y hy
      obtain ⟨p, hp, rfl⟩ := List.mem_map.mp hy
      exact le_of_lt (hl2 p hp)
    · intro x hx y hy
      rcases List.mem_cons.mp hy with rfl | hy
      · obtain ⟨p, hp, rfl⟩ := List.mem_map.mp hx
        exact hl1 p hp
      · exact s3 x hx y hy
  · rw [hent1, hent]
    exact List.perm_middle

/-! ## Potentiometer scan -/

theorem Agnus.scheduleRel2_slot (p : PotExternal) (ag : Agnus) (s : EventSlot) (cycle : Int)
    (id : EventID) :
    (ag.scheduleRel2 p s cycle id).slot s =
      Event.mk (ag.clock + cycle) id (p.dataAfter (ag.slot s).data) ∧
    (ag.scheduleRel2 p s cycle id).clock = ag.clock := by
  simp [Agnus.scheduleRel2, Agnus.scheduleRel, Agnus.scheduleAbs]

/-- One `POT_DISCHARGE` event on a slot whose counter is `d`. -/
theorem PotState.servicePotEvent_discharge (x : External) (p : PotExternal)
    (port1 port2 : ControlPort) (ag : Agnus) (s : PotState) :
    ∃ ag1 s1, s.servicePotEvent x p port1 port2 ag EventID.POT_DISCHARGE = some (ag1, s1) ∧
      ag1.clock = ag.clock ∧ s1.potgo = s.potgo ∧
      ((ag.slot EventSlot.POT_SLOT).data - 1 ≠ 0 →
        ag1.slot EventSlot.POT_SLOT = Event.mk (ag.clock + x.DMA_CYCLES p.HPOS_CNT)
          EventID.POT_DISCHARGE (p.dataAfter ((ag.slot EventSlot.POT_SLOT).data - 1)) ∧
        s1 = s.discharge) ∧
      ((ag.slot EventSlot.POT_SLOT).data - 1 = 0 →
        ag1.slot EventSlot.POT_SLOT = Event.mk (ag.clock + x.DMA_CYCLES p.HPOS_CNT)
          EventID.POT_CHARGE (p.dataAfter 0) ∧
        s1 = s.resetCounters) := by
  by_cases hd : (ag.slot EventSlot.POT_SLOT).data - 1 = 0
  · simp only [PotState.servicePotEvent, hd, ne_eq, not_true_eq_false, if_false]
    refine ⟨_, _, rfl, (Agnus.scheduleRel2_slot p _ _ _ _).2, ?_, ?_, ?_⟩
    · simp [PotState.resetCounters]
    · intro h
      exact absurd h (by simp)
    · intro _
      rw [(Agnus.scheduleRel2_slot p _ _ _ _).1]
      simp
  · simp only [PotState.servicePotEvent, hd, ne_eq, not_false_eq_true, if_true]
    refine ⟨_, _, rfl, (Agnus.scheduleRel2_slot p _ _ _ _).2, ?_, ?_, ?_⟩
    · simp only [PotState.discharge]
      split_ifs <;> rfl
    · intro _
      rw [(Agnus.scheduleRel2_slot p _ _ _ _).1]
      simp
    · intro h
      exact absurd h (by simp)

theorem PotState.discharge_spec (s : PotState) :
    s.discharge.potgo = s.potgo ∧
    s.discharge.chargeX0 = (if s.OUTLX then s.chargeX0 else 0) ∧
    s.discharge.chargeY0 = (if s.OUTLY then s.chargeY0 else 0) ∧
    s.discharge.chargeX1 = (if s.OUTRX then s.chargeX1 else 0) ∧
    s.discharge.chargeY1 = (if s.OUTRY then s.chargeY1 else 0) ∧
    s.discharge.potCntX0 = s.potCntX0 ∧ s.discharge.potCntY0 = s.potCntY0 ∧
    s.discharge.potCntX1 = s.potCntX1 ∧ s.discharge.potCntY1 = s.potCntY1 := by
  simp only [PotState.discharge, PotState.OUTLX, PotState.OUTLY, PotState.OUTRX,
    PotState.OUTRY]
  split_ifs <;> simp_all

theorem PotState.resetCounters_spec (s : PotState) :
    s.resetCounters.potgo = s.potgo ∧
    s.resetCounters.potCntX0 = (if s.OUTLX then 0 else 255) ∧
    s.resetCounters.potCntY0 = (if s.OUTLY then 0 else 255) ∧
    s.resetCounters.potCntX1 = (if s.OUTRX then 0 else 255) ∧
    s.resetCounters.potCntY1 = (if s.OUTRY then 0 else 255) ∧
    s.resetCounters.chargeX0 = s.chargeX0 ∧ s.resetCounters.chargeY0 = s.chargeY0 ∧
    s.resetCounters.chargeX1 = s.chargeX1 ∧ s.resetCounters.chargeY1 = s.chargeY1 := by
  simp [PotState.resetCounters, PotState.OUTLX, PotState.OUTLY, PotState.OUTRX,
    PotState.OUTRY]

theorem PotState.discharge_idem (s : PotState) : s.discharge.discharge = s.discharge := by
  obtain ⟨h0, h1, h2, h3, h4, h5, h6, h7, h8⟩ := PotState.discharge_spec s
  obtain ⟨g0, g1, g2, g3, g4, g5, g6, g7, g8⟩ := PotState.discharge_spec s.discharge
  have e : ∀ a b : PotState, a.potgo = b.potgo → a.potCntX0 = b.potCntX0 →
      a.potCntY0 = b.potCntY0 → a.potCntX1 = b.potCntX1 → a.potCntY1 = b.potCntY1 →
      a.chargeX0 = b.chargeX0 → a.chargeY0 = b.chargeY0 → a.chargeX1 = b.chargeX1 →
      a.chargeY1 = b.chargeY1 → a = b := by
    intro a b
    cases a
    cases b
    simp only [PotState.mk.injEq]
    intro e1 e2 e3 e4 e5 e6 e7 e8 e9
    exact ⟨e1, e2, e3, e4, e5, e6, e7, e8, e9⟩
  apply e
  · exact g0
  · exact g5
  · exact g6
  · exact g7
  · exact g8
  · rw [g1, h1]
    simp only [PotState.OUTLX, h0]
    split <;> rfl
  · rw [g2, h2]
    simp only [PotState.OUTLY, h0]
    split <;> rfl
  · rw [g3, h3]
    simp only [PotState.OUTRX, h0]
    split <;> rfl
  · rw [g4, h4]
    simp only [PotState.OUTRY, h0]
    split <;> rfl

theorem PotState.potRun_add (x : External) (p : PotExternal) (port1 port2 : ControlPort)
    (m n : Nat) :
    ∀ (ag : Agnus) (s : PotState),
      PotState.potRun x p port1 port2 (m + n) ag s =
        (PotState.potRun x p port1 port2 m ag s).bind
          (fun r => PotState.potRun x p port1 port2 n r.1 r.2) := by
  induction m with
  | zero =>
    intro ag s
    simp [PotState.potRun]
  | succ m ih =>
    intro ag s
    rw [Nat.succ_add]
    simp only [PotState.potRun]
    cases PotState.servicePotEvent x p port1 port2
        (Agnus.mk (ag.slot EventSlot.POT_SLOT).triggerCycle ag.slot ag.audlc) s
        (ag.slot EventSlot.POT_SLOT).id with
    | none => rfl
    | some r => exact ih r.1 r.2

/-- One step of the scan on a slot holding `POT_DISCHARGE` with counter `d`. -/
theorem PotState.potRun_one_discharge (x : External) (p : PotExternal)
    (port1 port2 : ControlPort) (ag : Agnus) (s : PotState) (t d : Int)
    (hslot : ag.slot EventSlot.POT_SLOT = Event.mk t EventID.POT_DISCHARGE d) :
    ∃ ag1 s1, PotState.potRun x p port1 port2 1 ag s = some (ag1, s1) ∧
      (d - 1 ≠ 0 →
        ag1.slot EventSlot.POT_SLOT = Event.mk (t + x.DMA_CYCLES p.HPOS_CNT)
          EventID.POT_DISCHARGE (p.dataAfter (d - 1)) ∧ s1 = s.discharge) ∧
      (d - 1 = 0 →
        ag1.slot EventSlot.POT_SLOT = Event.mk (t + x.DMA_CYCLES p.HPOS_CNT)
          EventID.POT_CHARGE (p.dataAfter 0) ∧ s1 = s.resetCounters) := by
  obtain ⟨ag1, s1, h1, _, _, h4, h5⟩ := PotState.servicePotEvent_discharge x p port1 port2
    (Agnus.mk (ag.slot EventSlot.POT_SLOT).triggerCycle ag.slot ag.audlc) s
  simp only [hslot] at h4 h5
  refine ⟨ag1, s1, ?_, h4, h5⟩
  simp only [PotState.potRun, hslot]
  simp only [hslot] at h1
  rw [h1]

/-- The discharge phase: while the counter stays positive, `n` events leave the slot
holding `POT_DISCHARGE` with the counter lowered by `n`, one line later each, and the
charges discharged. -/
theorem PotState.potRun_discharge (x : External) (p : PotExternal)
    (port1 port2 : ControlPort) (hkeep : ∀ v, p.dataAfter v = v) :
    ∀ (n : Nat) (ag : Agnus) (s : PotState) (t d : Int),
      ag.slot EventSlot.POT_SLOT = Event.mk t EventID.POT_DISCHARGE d → (n : Int) < d →
      ∃ agn, PotState.potRun x p port1 port2 n ag s =
          some (agn, if n = 0 then s else s.discharge) ∧
        agn.slot EventSlot.POT_SLOT =
          Event.mk (t + n * x.DMA_CYCLES p.HPOS_CNT) EventID.POT_DISCHARGE (d - n) := by
  intro n
  induction n with
  | zero =>
    intro ag s t d hslot _
    exact ⟨ag, rfl, by rw [hslot]; simp⟩
  | succ n ih =>
    intro ag s t d hslot hd
    obtain ⟨ag1, s1, h1, h2, _⟩ := PotState.potRun_one_discharge x p port1 port2 ag s t d hslot
    have hd1 : d - 1 ≠ 0 := by push_cast at hd; omega
    obtain ⟨hs1, hs2⟩ := h2 hd1
    rw [hkeep] at hs1
    subst hs2
    obtain ⟨agn, g1, g2⟩ := ih ag1 s.discharge _ _ hs1 (by push_cast at hd; omega)
    refine ⟨agn, ?_, ?_⟩
    · rw [Nat.add_comm n 1, PotState.potRun_add, h1]
      show PotState.potRun x p port1 port2 n ag1 s.discharge = _
      rw [g1]
      by_cases hn : n = 0
      · simp [hn]
      · simp [hn, PotState.discharge_idem]
    · rw [g2]
      push_cast
      congr 1
      · ring
      · ring

theorem PotState.pokePOTGO_start (p : PotExternal) (ag : Agnus) (s : PotState) (value : Nat)
    (hstart : GET_BIT (u16 value) 0 = true) :
    (s.pokePOTGO p ag value).2.potgo = u16 value ∧
    (s.pokePOTGO p ag value).2.potCntX0 = 0 ∧ (s.pokePOTGO p ag value).2.potCntY0 = 0 ∧
    (s.pokePOTGO p ag value).2.potCntX1 = 0 ∧ (s.pokePOTGO p ag value).2.potCntY1 = 0 ∧
    (s.pokePOTGO p ag value).1.slot EventSlot.POT_SLOT =
      Event.mk (p.posTrigger ag) EventID.POT_DISCHARGE 8 := by
  unfold PotState.pokePOTGO
  rw [if_pos hstart]
  refine ⟨?_, rfl, rfl, rfl, rfl, by simp [Agnus.scheduleAbs]⟩
  show PotState.potgo _ = u16 value
  split_ifs <;> rfl

/-- The charging step writes no register but `chargeX0`. -/
theorem PotState.charge_frame (port1 port2 : ControlPort) (s : PotState) :
    (s.charge port1 port2).1.chargeY0 = s.chargeY0 ∧
    (s.charge port1 port2).1.chargeX1 = s.chargeX1 ∧
    (s.charge port1 port2).1.chargeY1 = s.chargeY1 ∧
    (s.charge port1 port2).1.potgo = s.potgo ∧
    (s.charge port1 port2).1.potCntX0 = s.potCntX0 ∧
    (s.charge port1 port2).1.potCntY0 = s.potCntY0 ∧
    (s.charge port1 port2).1.potCntX1 = s.potCntX1 ∧
    (s.charge port1 port2).1.potCntY1 = s.potCntY1 := by
  simp only [PotState.charge]
  split_ifs <;> exact ⟨rfl, rfl, rfl, rfl, rfl, rfl, rfl, rfl⟩

/-- With a non-zero delta on Y0, Y0 below full charge and not output-overridden, the
charging step sets `cont`. -/
theorem PotState.charge_cont (port1 port2 : ControlPort) (s : PotState)
    (hdy : port1.getChargeDY ≠ 0) (hY : s.chargeY0 < 1) (hout : s.OUTLY = false) :
    (s.charge port1 port2).2 = true := by
  simp only [PotState.charge, hdy, hY, hout, ne_eq, not_false_eq_true, Bool.not_false,
    and_self, if_true]
  split_ifs <;> rfl

/-- The charge phase does not end while Y0 has a non-zero delta: `chargeY0` is never
written, so every `POT_CHARGE` event finds it below full charge and reschedules. -/
theorem PotState.potRun_charge_stuck (x : External) (p : PotExternal)
    (port1 port2 : ControlPort) (hdy : port1.getChargeDY ≠ 0) :
    ∀ (n : Nat) (ag : Agnus) (s : PotState) (t d : Int),
      ag.slot EventSlot.POT_SLOT = Event.mk t EventID.POT_CHARGE d →
      s.chargeY0 < 1 → s.OUTLY = false →
      ∃ agn sn, PotState.potRun x p port1 port2 n ag s = some (agn, sn) ∧
        (agn.slot EventSlot.POT_SLOT).id = EventID.POT_CHARGE ∧
        (agn.slot EventSlot.POT_SLOT).triggerCycle = t + n * x.DMA_CYCLES p.HPOS_CNT ∧
        sn.chargeY0 = s.chargeY0 ∧ sn.chargeX1 = s.chargeX1 ∧ sn.chargeY1 = s.chargeY1 := by
  intro n
  induction n with
  | zero =>
    intro ag s t d hslot _ _
    exact ⟨ag, s, rfl, by rw [hslot], by rw [hslot]; simp, rfl, rfl, rfl⟩
  | succ n ih =>
    intro ag s t d hslot hY hout
    have hc := PotState.charge_cont port1 port2 s hdy hY hout
    obtain ⟨f1, f2, f3, f4, _⟩ := PotState.charge_frame port1 port2 s
    have hstep : PotState.servicePotEvent x p port1 port2
        (Agnus.mk (ag.slot EventSlot.POT_SLOT).triggerCycle ag.slot ag.audlc) s
        (ag.slot EventSlot.POT_SLOT).id =
        some ((Agnus.mk t ag.slot ag.audlc).scheduleRel2 p EventSlot.POT_SLOT
          (x.DMA_CYCLES p.HPOS_CNT) EventID.POT_CHARGE, (s.charge port1 port2).1) := by
      rw [hslot]
      simp only [PotState.servicePotEvent, hc, if_true]
    obtain ⟨agn, sn, g1, g2, g3, g4, g5, g6⟩ := ih _ (s.charge port1 port2).1 _ _
      (Agnus.scheduleRel2_slot p (Agnus.mk t ag.slot ag.audlc) EventSlot.POT_SLOT
        (x.DMA_CYCLES p.HPOS_CNT) EventID.POT_CHARGE).1
      (by rw [f1]; exact hY) (by unfold PotState.OUTLY at hout ⊢; rw [f4]; exact hout)
    refine ⟨agn, sn, ?_, g2, ?_, by rw [g4, f1], by rw [g5, f2], by rw [g6, f3]⟩
    · simp only [PotState.potRun, hstep]
      exact g1
    · rw [g3]
      push_cast
      ring

/-- The eight events after a scan start, for a two-argument `scheduleRel` that keeps the
data value of the slot. -/
theorem PotState.potRun_scan_start (x : External) (p : PotExternal)
    (port1 port2 : ControlPort) (ag : Agnus) (s : PotState) (value : Nat)
    (hstart : GET_BIT (u16 value) 0 = true) (hkeep : ∀ v, p.dataAfter v = v) :
    ∃ ag8, PotState.potRun x p port1 port2 8 (s.pokePOTGO p ag value).1
        (s.pokePOTGO p ag value).2 =
          some (ag8, (s.pokePOTGO p ag value).2.discharge.resetCounters) ∧
      ag8.slot EventSlot.POT_SLOT = Event.mk
        (p.posTrigger ag + 8 * x.DMA_CYCLES p.HPOS_CNT) EventID.POT_CHARGE 0 := by
  have hslot := (PotState.pokePOTGO_start p ag s value hstart).2.2.2.2.2
  obtain ⟨ag7, g1, g2⟩ := PotState.potRun_discharge x p port1 port2 hkeep 7
    (s.pokePOTGO p ag value).1 (s.pokePOTGO p ag value).2 _ _ hslot (by norm_num)
  rw [if_neg (by decide)] at g1
  obtain ⟨ag8, s8, h1, _, h3⟩ := PotState.potRun_one_discharge x p port1 port2 ag7
    (s.pokePOTGO p ag value).2.discharge _ _ g2
  obtain ⟨k1, k2⟩ := h3 (by norm_num)
  rw [hkeep] at k1
  subst k2
  refine ⟨ag8, ?_, ?_⟩
  · rw [show (8 : Nat) = 7 + 1 from rfl, PotState.potRun_add, g1]
    exact h1
  · rw [k1]
    congr 1
    push_cast
    ring

/-- Claim C22, evaluation at the failing input: with all charges 0, no pin
output-overridden, delta 1 on Y0 (port 1, DY) and delta 0 on the other three pins, a
`POT_CHARGE` event leaves `chargeY0` at 0 and raises `chargeX0` to 1; for every input
the event writes no charge but `chargeX0`. -/
theorem potCharge_accumulates_into_chargeX0 :
    ((idlePot 0).servicePotEvent exampleExternal examplePot (ControlPort.mk 0 1)
      (ControlPort.mk 0 0) chargingAgnus EventID.POT_CHARGE).map (fun r => r.2) =
      some (PotState.mk 0 0 0 0 0 1 0 0 0) ∧
    ∀ (port1 port2 : ControlPort) (s : PotState),
      (s.charge port1 port2).1.chargeY0 = s.chargeY0 ∧
      (s.charge port1 port2).1.chargeX1 = s.chargeX1 ∧
      (s.charge port1 port2).1.chargeY1 = s.chargeY1 := by
  refine ⟨by decide, ?_⟩
  intro port1 port2 s
  obtain ⟨f1, f2, f3, _⟩ := PotState.charge_frame port1 port2 s
  exact ⟨f1, f2, f3⟩

/-- Claim C23, evaluation at the failing input: a scan started by `pokePOTGO(1)` (no pin
output-overridden) with delta 1 on all four pins; after the eight discharge events every
further event is a `POT_CHARGE` event that reschedules `POT_CHARGE` one line later,
`chargeY0` staying 0: the POT slot is never cancelled. -/
theorem potScan_charge_phase_never_ends (n : Nat) :
    ∃ agn sn, PotState.potRun exampleExternal examplePot (ControlPort.mk 1 1)
        (ControlPort.mk 1 1) (8 + n) ((idlePot 0).pokePOTGO examplePot idleAgnus 1).1
        ((idlePot 0).pokePOTGO examplePot idleAgnus 1).2 = some (agn, sn) ∧
      (agn.slot EventSlot.POT_SLOT).id = EventID.POT_CHARGE ∧
      (agn.slot EventSlot.POT_SLOT).triggerCycle = 1000 + (8 + n) * 1816 ∧
      (agn.slot EventSlot.POT_SLOT).triggerCycle ≠ NEVER ∧
      sn.chargeY0 = 0 ∧ sn.chargeX1 = 0 ∧ sn.chargeY1 = 0 := by
  obtain ⟨ag8, h1, h2⟩ := PotState.potRun_scan_start exampleExternal examplePot
    (ControlPort.mk 1 1) (ControlPort.mk 1 1) idleAgnus (idlePot 0) 1 (by decide)
    (fun _ => rfl)
  have hs : ((idlePot 0).pokePOTGO examplePot idleAgnus 1).2.discharge.resetCounters =
      PotState.mk 1 255 255 255 255 0 0 0 0 := by decide
  rw [hs] at h1
  obtain ⟨agn, sn, g1, g2, g3, g4, g5, g6⟩ := PotState.potRun_charge_stuck exampleExternal
    examplePot (ControlPort.mk 1 1) (ControlPort.mk 1 1) (by decide) n ag8
    (PotState.mk 1 255 255 255 255 0 0 0 0) _ _ h2 (by decide) (by decide)
  have ht : (agn.slot EventSlot.POT_SLOT).triggerCycle = 1000 + (8 + (n : Int)) * 1816 := by
    rw [g3]
    show (1000 : Int) + 8 * (8 * 227) + n * (8 * 227) = 1000 + (8 + (n : Int)) * 1816
    ring
  refine ⟨agn, sn, ?_, g2, ht, ?_, g4, g5, g6⟩
  · rw [PotState.potRun_add, h1]
    exact g1
  · rw [ht]
    unfold NEVER
    omega

/-- The discharge phase when the two-argument `scheduleRel` resets the data value of the
slot to 0: every event after the first finds the counter 0, decrements it to -1 and
reschedules `POT_DISCHARGE`. -/
theorem PotState.potRun_discharge_default (x : External) (p : PotExternal)
    (port1 port2 : ControlPort) (hzero : ∀ v, p.dataAfter v = 0) :
    ∀ (n : Nat) (ag : Agnus) (s : PotState) (t d : Int),
      ag.slot EventSlot.POT_SLOT = Event.mk t EventID.POT_DISCHARGE d → d ≠ 1 →
      ∃ agn, PotState.potRun x p port1 port2 n ag s =
          some (agn, if n = 0 then s else s.discharge) ∧
        agn.slot EventSlot.POT_SLOT =
          Event.mk (t + n * x.DMA_CYCLES p.HPOS_CNT) EventID.POT_DISCHARGE
            (if n = 0 then d else 0) := by
  intro n
  induction n with
  | zero =>
    intro ag s t d hslot _
    exact ⟨ag, rfl, by rw [hslot]; simp⟩
  | succ n ih =>
    intro ag s t d hslot hd
    obtain ⟨ag1, s1, h1, h2, _⟩ := PotState.potRun_one_discharge x p port1 port2 ag s t d hslot
    have hd1 : d - 1 ≠ 0 := by omega
    obtain ⟨hs1, hs2⟩ := h2 hd1
    rw [hzero] at hs1
    subst hs2
    obtain ⟨agn, g1, g2⟩ := ih ag1 s.discharge _ _ hs1 (by norm_num)
    refine ⟨agn, ?_, ?_⟩
    · rw [Nat.add_comm n 1, PotState.potRun_add, h1]
      show PotState.potRun x p port1 port2 n ag1 s.discharge = _
      rw [g1]
      by_cases hn : n = 0
      · simp [hn]
      · simp [hn, PotState.discharge_idem]
    · rw [g2]
      have e : (if n = 0 then (0 : Int) else 0) = 0 := by split <;> rfl
      rw [e, if_neg (Nat.succ_ne_zero n)]
      congr 1
      push_cast
      ring

theorem EventSlot.index_inj (s1 s2 : EventSlot) (h : s1.index = s2.index) : s1 = s2 := by
  cases s1 <;> cases s2 <;> first | rfl | (simp [EventSlot.index] at h)

theorem EventSlot.mem_all (s : EventSlot) : s ∈ EventSlot.all := by
  cases s <;> decide

theorem EventSlot.all_nodup : EventSlot.all.Nodup := by
  decide

theorem Agnus.dispatchedBefore_total (ag : Agnus) (s1 s2 : EventSlot) (h : s1 ≠ s2) :
    ag.dispatchedBefore s1 s2 ∨ ag.dispatchedBefore s2 s1 := by
  unfold Agnus.dispatchedBefore
  have : s1.index ≠ s2.index := fun e => h (EventSlot.index_inj s1 s2 e)
  omega

theorem Agnus.dispatchedBefore_trans (ag : Agnus) (s1 s2 s3 : EventSlot)
    (h1 : ag.dispatchedBefore s1 s2) (h2 : ag.dispatchedBefore s2 s3) :
    ag.dispatchedBefore s1 s3 := by
  unfold Agnus.dispatchedBefore at *
  omega

/-- The selection step finds the due slot that comes first in the dispatch order. -/
theorem Agnus.nextDue_spec (ag : Agnus) (t : Int) (l : List EventSlot) :
    (ag.nextDue t l = none → ∀ s ∈ l, ¬ (ag.slot s).triggerCycle ≤ t) ∧
    (∀ m, ag.nextDue t l = some m →
      m ∈ l ∧ (ag.slot m).triggerCycle ≤ t ∧
      ∀ s ∈ l, (ag.slot s).triggerCycle ≤ t → s ≠ m → ag.dispatchedBefore m s) := by
  induction l with
  | nil =>
    refine ⟨(fun _ s hs => nomatch hs), fun m hm => ?_⟩
    simp [Agnus.nextDue] at hm
  | cons s rest ih =>
    obtain ⟨ih1, ih2⟩ := ih
    cases hrest : ag.nextDue t rest with
    | none =>
      have hnone := ih1 hrest
      by_cases hd : (ag.slot s).triggerCycle ≤ t
      · have e : ag.nextDue t (s :: rest) = some s := by
          simp [Agnus.nextDue, hrest, hd]
        rw [e]
        refine ⟨(fun h => nomatch h), ?_⟩
        intro m hm
        simp only [Option.some.injEq] at hm
        subst hm
        refine ⟨List.mem_cons_self _ _, hd, ?_⟩
        intro s1 hs1 hd1 hne
        rcases List.mem_cons.mp hs1 with e1 | h1
        · exact absurd e1 hne
        · exact absurd hd1 (hnone s1 h1)
      · have e : ag.nextDue t (s :: rest) = none := by
          simp [Agnus.nextDue, hrest, hd]
        rw [e]
        refine ⟨?_, (fun m hm => nomatch hm)⟩
        intro _ s1 hs1
        rcases List.mem_cons.mp hs1 with e1 | h1
        · rw [e1]; exact hd
        · exact hnone s1 h1
    | some m1 =>
      obtain ⟨hm1, hd1, hmin⟩ := ih2 m1 hrest
      by_cases hc : (ag.slot s).triggerCycle ≤ t ∧ ag.dispatchedBefore s m1
      · have e : ag.nextDue t (s :: rest) = some s := by
          simp only [Agnus.nextDue, hrest]
          rw [if_pos hc]
        rw [e]
        refine ⟨(fun h => nomatch h), ?_⟩
        intro m hm
        simp only [Option.some.injEq] at hm
        subst hm
        refine ⟨List.mem_cons_self _ _, hc.1, ?_⟩
        intro s1 hs1 hds1 hne
        rcases List.mem_cons.mp hs1 with e1 | h1
        · exact absurd e1 hne
        · by_cases e2 : s1 = m1
          · rw [e2]; exact hc.2
          · exact Agnus.dispatchedBefore_trans ag _ m1 s1 hc.2 (hmin s1 h1 hds1 e2)
      · have e : ag.nextDue t (s :: rest) = some m1 := by
          simp only [Agnus.nextDue, hrest]
          rw [if_neg hc]
        rw [e]
        refine ⟨(fun h => nomatch h), ?_⟩
        intro m hm
        simp only [Option.some.injEq] at hm
        subst hm
        refine ⟨List.mem_cons_of_mem _ hm1, hd1, ?_⟩
        intro s1 hs1 hds1 hne
        rcases List.mem_cons.mp hs1 with e1 | h1
        · subst e1
          rcases Agnus.dispatchedBefore_total ag s1 m1 hne with hb | hb
          · exact absurd ⟨hds1, hb⟩ hc
          · exact hb
        · exact hmin s1 h1 hds1 hne

/-- Removing one element that satisfies the predicate from a duplicate-free list lowers
the number of elements satisfying it by one. -/
theorem filter_length_remove {α : Type} [DecidableEq α] (p q : α → Bool) (m : α) :
    ∀ l : List α, l.Nodup → m ∈ l → p m = true →
      (∀ s, q s = true ↔ (p s = true ∧ s ≠ m)) →
      (l.filter q).length + 1 = (l.filter p).length := by
  intro l
  induction l with
  | nil => intro _ hm; cases hm
  | cons a rest ih =>
    intro hnd hm hp hq
    obtain ⟨hna, hnd2⟩ := List.nodup_cons.mp hnd
    by_cases ham : a = m
    · subst ham
      have hqa : q a = false := by
        cases h : q a with
        | false => rfl
        | true => exact absurd rfl ((hq a).mp h).2
      have hfil : rest.filter q = rest.filter p := by
        apply List.filter_congr
        intro s hs
        have hsa : s ≠ a := fun e => hna (e ▸ hs)
        cases hps : p s with
        | false =>
          cases hqs : q s with
          | false => rfl
          | true => rw [((hq s).mp hqs).1] at hps; cases hps
        | true => exact (hq s).mpr ⟨hps, hsa⟩
      simp [List.filter_cons, hqa, hp, hfil]
    · have hm2 : m ∈ rest := by
        rcases List.mem_cons.mp hm with e | h
        · exact absurd e.symm ham
        · exact h
      have := ih hnd2 hm2 hp hq
      cases hpa : p a with
      | false =>
        have hqa : q a = false := by
          cases h : q a with
          | false => rfl
          | true => rw [((hq a).mp h).1] at hpa; cases hpa
        simp [List.filter_cons, hqa, hpa, this]
      | true =>
        have hqa : q a = true := (hq a).mpr ⟨hpa, ham⟩
        simp [List.filter_cons, hqa, hpa, this]

theorem Agnus.applyOp_slot (ag : Agnus) (op : SchedOp) (s : EventSlot) :
    (ag.applyOp op).slot s =
      (if s = op.slot then op.event ag.clock (ag.slot s) else ag.slot s) ∧
    (ag.applyOp op).clock = ag.clock := by
  cases op with
  | scheduleAbs s1 cycle id data =>
    by_cases h : s = s1
    · subst h
      simp [Agnus.applyOp, Agnus.scheduleAbs, SchedOp.slot, SchedOp.event]
    · simp [Agnus.applyOp, Agnus.scheduleAbs, SchedOp.slot, h]
  | scheduleRel s1 delta id data =>
    by_cases h : s = s1
    · subst h
      simp [Agnus.applyOp, Agnus.scheduleRel, Agnus.scheduleAbs, SchedOp.slot, SchedOp.event]
    · simp [Agnus.applyOp, Agnus.scheduleRel, Agnus.scheduleAbs, SchedOp.slot, h]
  | cancel s1 =>
    by_cases h : s = s1
    · subst h
      simp [Agnus.applyOp, Agnus.cancel, SchedOp.slot, SchedOp.event]
    · simp [Agnus.applyOp, Agnus.cancel, SchedOp.slot, h]

theorem Agnus.pendingEvents_nodup (ag : Agnus) : (ag.pendingEvents.map Prod.fst).Nodup := by
  unfold Agnus.pendingEvents
  rw [List.map_map]
  have : (Prod.fst ∘ fun s => (s, ag.slot s)) = id := rfl
  rw [this, List.map_id]
  exact EventSlot.all_nodup.filter _

theorem Agnus.mem_pendingEvents (ag : Agnus) (s : EventSlot) (e : Event) :
    (s, e) ∈ ag.pendingEvents ↔ (e = ag.slot s ∧ e.triggerCycle ≠ NEVER) := by
  unfold Agnus.pendingEvents
  simp only [List.mem_map, List.mem_filter, decide_eq_true_eq, Prod.mk.injEq]
  constructor
  · rintro ⟨s1, ⟨_, h1⟩, rfl, rfl⟩
    exact ⟨rfl, h1⟩
  · rintro ⟨rfl, h1⟩
    exact ⟨s, ⟨EventSlot.mem_all s, h1⟩, rfl, rfl⟩

/-- The dispatch loop: with handlers that satisfy `HandlerContract`, the dispatches are the
slots due at entry, each once, with the events they held at entry, in the dispatch order
of the spec, and no slot is due afterwards. -/
theorem Agnus.serviceDueLoop_spec (handler : EventSlot → Agnus → Agnus) (t : Int)
    (hH : Agnus.HandlerContract handler t) (slots : List EventSlot) (hnd : slots.Nodup)
    (hall : ∀ s, s ∈ slots) :
    ∀ (fuel : Nat) (ag : Agnus),
      (slots.filter fun s => decide ((ag.slot s).triggerCycle ≤ t)).length < fuel →
      ∃ log ag1, Agnus.serviceDueLoop handler t slots fuel ag = some (log, ag1) ∧
        (∀ s, s ∈ log.map (fun e => e.2.1) ↔ (ag.slot s).triggerCycle ≤ t) ∧
        (log.map (fun e => e.2.1)).Nodup ∧
        (∀ e ∈ log, e = ((ag.slot e.2.1).triggerCycle, e.2.1, (ag.slot e.2.1).id)) ∧
        (log.map (fun e => e.2.1)).Pairwise ag.dispatchedBefore ∧
        (∀ s, t < (ag1.slot s).triggerCycle) := by
  intro fuel
  induction fuel with
  | zero => intro ag h; omega
  | succ fuel ih =>
    intro ag hlen
    obtain ⟨hn1, hn2⟩ := Agnus.nextDue_spec ag t slots
    cases hnext : ag.nextDue t slots with
    | none =>
      have hnone := hn1 hnext
      have hrun : Agnus.serviceDueLoop handler t slots (fuel + 1) ag = some ([], ag) := by
        unfold Agnus.serviceDueLoop
        rw [hnext]
      refine ⟨[], ag, hrun, ?_, List.nodup_nil, (fun e he => nomatch he),
        List.Pairwise.nil, ?_⟩
      · intro s
        simp only [List.map_nil, List.not_mem_nil, false_iff]
        exact hnone s (hall s)
      · intro s
        exact not_le.mp (hnone s (hall s))
    | some m =>
      obtain ⟨_, hdm, hmin⟩ := hn2 m hnext
      obtain ⟨hself, hothers⟩ := hH m ag hdm
      have hsame : ∀ s, s ≠ m → (ag.slot s).triggerCycle ≤ t →
          (handler m ag).slot s = ag.slot s := by
        intro s hs hd
        rcases hothers s hs with h | h
        · exact h
        · omega
      have hdue : ∀ s, ((handler m ag).slot s).triggerCycle ≤ t ↔
          ((ag.slot s).triggerCycle ≤ t ∧ s ≠ m) := by
        intro s
        constructor
        · intro hd
          have hsm : s ≠ m := by
            intro e
            subst e
            omega
          rcases hothers s hsm with h | h
          · rw [h] at hd
            exact ⟨hd, hsm⟩
          · omega
        · rintro ⟨hd, hsm⟩
          rw [hsame s hsm hd]
          exact hd
      have hcount := filter_length_remove
        (fun s => decide ((ag.slot s).triggerCycle ≤ t))
        (fun s => decide (((handler m ag).slot s).triggerCycle ≤ t)) m slots
        hnd (hall m) (by simpa using hdm)
        (by
          intro s
          simp only [decide_eq_true_eq]
          exact hdue s)
      obtain ⟨log1, ag1, g1, g2, g3, g4, g5, g6⟩ := ih (handler m ag) (by omega)
      refine ⟨((ag.slot m).triggerCycle, m, (ag.slot m).id) :: log1, ag1, ?_, ?_, ?_, ?_, ?_,
        g6⟩
      · unfold Agnus.serviceDueLoop
        rw [hnext]
        simp only [g1, Option.map_some']
      · intro s
        simp only [List.map_cons, List.mem_cons]
        rw [g2 s, hdue s]
        constructor
        · rintro (rfl | ⟨h, _⟩)
          · exact hdm
          · exact h
        · intro h
          by_cases e : s = m
          · exact Or.inl e
          · exact Or.inr ⟨h, e⟩
      · simp only [List.map_cons]
        refine List.nodup_cons.mpr ⟨?_, g3⟩
        intro hmem
        have := ((hdue m).mp ((g2 m).mp hmem)).2
        exact this rfl
      · intro e he
        rcases List.mem_cons.mp he with rfl | he1
        · rfl
        · have h1 := g4 e he1
          have hmem : e.2.1 ∈ log1.map (fun e => e.2.1) := List.mem_map.mpr ⟨e, he1, rfl⟩
          obtain ⟨hd, hsm⟩ := (hdue e.2.1).mp ((g2 e.2.1).mp hmem)
          rw [hsame e.2.1 hsm hd] at h1
          exact h1
      · simp only [List.map_cons]
        refine List.pairwise_cons.mpr ⟨?_, ?_⟩
        · intro s hs
          obtain ⟨hd, hsm⟩ := (hdue s).mp ((g2 s).mp hs)
          exact hmin s (hall s) hd hsm
        · refine List.Pairwise.imp_of_mem ?_ g5
          intro a b ha hb hab
          obtain ⟨hda, hsa⟩ := (hdue a).mp ((g2 a).mp ha)
          obtain ⟨hdb, hsb⟩ := (hdue b).mp ((g2 b).mp hb)
          unfold Agnus.dispatchedBefore at hab ⊢
          rw [hsame a hsa hda, hsame b hsb hdb] at hab
          exact hab

theorem GET_BIT_eq_testBit (v n : Nat) : GET_BIT v n = v.testBit n := by
  unfold GET_BIT
  cases hb : v.testBit n
  · simp only [bne_eq_false_iff_eq]
    by_contra hne
    obtain ⟨i, h1, h2⟩ := (and_ne_zero_iff v (1 <<< n)).mp hne
    rw [testBit_one_shiftLeft] at h2
    simp only [decide_eq_true_eq] at h2
    subst h2
    rw [hb] at h1
    exact Bool.false_ne_true h1
  · simp only [bne_iff_ne]
    exact (and_ne_zero_iff v (1 <<< n)).mpr ⟨n, hb, by rw [testBit_one_shiftLeft]; simp⟩

theorem StateMachine.execute_state3_nodma (x : External) (a : Amiga) (sm : StateMachine)
    (c : Int) (h : sm.state = 3) (hnr : sm.nr < 4) (hw : ¬ sm.audper - c > 1)
    (hd : x.audDMA (x.doAudioDMA a.agnus sm.nr).2 sm.nr = false) :
    ∃ a1 r, sm.execute x a c = some (a1,
        { sm with audper := sm.audper - c + sm.audperLatch, audvol := sm.audvolLatch,
                  auddat := LO_BYTE sm.auddatLatch,
                  auddatLatch := u16 (x.doAudioDMA a.agnus sm.nr).1,
                  state := 0 }, r) ∧
      (Amiga.mk (x.doAudioDMA a.agnus sm.nr).2 a.paula a.ciaaIrqPin a.ciabIrqPin
        a.cpuIPL).pokeINTREQ x (0x8000 ||| (0x80 <<< sm.nr)) = some a1 ∧
      a1.paula.intreq.testBit (7 + sm.nr) = true := by
  obtain ⟨a1, h1, h2, _⟩ := Amiga.pokeINTREQ_irqWord x
    (Amiga.mk (x.doAudioDMA a.agnus sm.nr).2 a.paula a.ciaaIrqPin a.ciabIrqPin a.cpuIPL) sm hnr
  have hpend : GET_BIT a1.paula.intreq (7 + sm.nr) = true := by
    rw [GET_BIT_eq_testBit]; exact h2
  have hex : sm.execute x a c = some (a1,
        { sm with audper := sm.audper - c + sm.audperLatch, audvol := sm.audvolLatch,
                  auddat := LO_BYTE sm.auddatLatch,
                  auddatLatch := u16 (x.doAudioDMA a.agnus sm.nr).1,
                  state := 0 },
        toInt16 (toInt8 (LO_BYTE sm.auddatLatch) * (sm.audvolLatch : Int))) := by
    unfold StateMachine.execute
    simp only [h, hw, if_false, StateMachine.dmaMode, hd, Bool.false_eq_true]
    simp only [StateMachine.irqWord] at h1 ⊢
    rw [h1]
    simp only [Option.map_some', StateMachine.irqIsPending, hpend, if_true]
  exact ⟨a1, _, hex, h1, h2⟩

theorem StateMachine.pokeAUDxDAT_state (x : External) (a : Amiga) (sm : StateMachine)
    (v : Nat) :
    ∃ a1 sm1, sm.pokeAUDxDAT x a v = some (a1, sm1) ∧ sm1.state = sm.state ∧
      sm1.auddatLatch = u16 v := by
  unfold StateMachine.pokeAUDxDAT
  dsimp only
  split
  · generalize hp : Amiga.pokeINTREQ x _ _ = o
    obtain ⟨a1, rfl, _⟩ := Amiga.pokeINTREQ_eq _ _ _ _ hp
    exact ⟨_, _, rfl, rfl, rfl⟩
  · exact ⟨_, _, rfl, rfl, rfl⟩

/-- Claim C31: in state 2 `execute` subtracts the cycles from the period counter.  If the
result is not negative nothing else changes and the state stays 2; if it is negative the
period latch is added to the counter, `audvol` is loaded from `audvolLatch`, `auddat`
becomes the high byte of the data latch and the state becomes 3.  In both cases the
machine outside the channel is unchanged (no interrupt is requested) and `audlen`, the
latches and the channel number keep their values. -/
theorem execute_state2_step (x : External) (a : Amiga) (sm : StateMachine) (c : Int)
    (h : sm.state = 2) :
    ∃ sm1 r, sm.execute x a c = some (a, sm1, r) ∧
      (0 ≤ sm.audper - c →
        sm1 = { sm with audper := sm.audper - c } ∧ sm1.state = 2) ∧
      (sm.audper - c < 0 →
        sm1.audper = sm.audper - c + sm.audperLatch ∧ sm1.audvol = sm.audvolLatch ∧
        sm1.auddat = HI_BYTE sm.auddatLatch ∧ sm1.state = 3) ∧
      sm1.audlen = sm.audlen ∧
      sm1.audlenLatch = sm.audlenLatch ∧ sm1.audperLatch = sm.audperLatch ∧
      sm1.audvolLatch = sm.audvolLatch ∧ sm1.auddatLatch = sm.auddatLatch ∧
      sm1.audlcLatch = sm.audlcLatch ∧ sm1.nr = sm.nr := by
  obtain ⟨r, h1⟩ := StateMachine.execute_state2 x a sm c h
  by_cases hn : sm.audper - c < 0
  · rw [if_pos hn] at h1
    exact ⟨_, r, h1, fun h' => by omega, fun _ => ⟨rfl, rfl, rfl, rfl⟩, rfl, rfl, rfl, rfl,
      rfl, rfl, rfl⟩
  · rw [if_neg hn] at h1
    exact ⟨_, r, h1, fun _ => ⟨rfl, h⟩, fun h' => absurd h' hn, rfl, rfl, rfl, rfl,
      rfl, rfl, rfl⟩

/-- Claim C32: in state 3 `execute` subtracts the cycles from the period counter.  While
the result is above 1 nothing else changes: the state stays 3, `auddat` and the returned
sample are as before and the machine outside the channel is untouched (no DMA fetch).
Otherwise, with audio DMA enabled for the channel, the period latch is added to the
counter, `auddat` becomes the low byte of the data latch, the latch is refilled with the
word `doAudioDMA(nr)` returns, the state becomes 2, and `audlen` is decremented if it is
above 1 (no interrupt being requested) or else reloaded from `audlenLatch`, together
with `audlc[nr]` from `audlcLatch`, and the interrupt word of the channel is written to
INTREQ, which sets bit `7 + nr`. -/
theorem execute_state3_dma_step (x : External) (a : Amiga) (sm : StateMachine) (c : Int)
    (h : sm.state = 3) (hnr : sm.nr < 4) :
    (sm.audper - c > 1 →
      sm.execute x a c = some (a, { sm with audper := sm.audper - c },
        toInt16 (toInt8 sm.auddat * (sm.audvolLatch : Int)))) ∧
    (¬ sm.audper - c > 1 → x.audDMA (x.doAudioDMA a.agnus sm.nr).2 sm.nr = true →
      ∃ a1 sm1 r, sm.execute x a c = some (a1, sm1, r) ∧
        sm1.audper = sm.audper - c + sm.audperLatch ∧
        sm1.auddat = LO_BYTE sm.auddatLatch ∧
        sm1.auddatLatch = u16 (x.doAudioDMA a.agnus sm.nr).1 ∧
        sm1.state = 2 ∧
        (sm.audlen > 1 →
          sm1.audlen = sm.audlen - 1 ∧ a1.paula = a.paula ∧
          a1.agnus = (x.doAudioDMA a.agnus sm.nr).2) ∧
        (sm.audlen ≤ 1 →
          sm1.audlen = sm.audlenLatch ∧ a1.agnus.audlc sm.nr = sm.audlcLatch ∧
          a1.paula.intreq.testBit (7 + sm.nr) = true ∧
          (Amiga.mk (Agnus.mk (x.doAudioDMA a.agnus sm.nr).2.clock
              (x.doAudioDMA a.agnus sm.nr).2.slot
              (Function.update (x.doAudioDMA a.agnus sm.nr).2.audlc sm.nr sm.audlcLatch))
            a.paula a.ciaaIrqPin a.ciabIrqPin a.cpuIPL).pokeINTREQ x
              (0x8000 ||| (0x80 <<< sm.nr)) = some a1) ∧
        sm1.audlenLatch = sm.audlenLatch ∧ sm1.audperLatch = sm.audperLatch ∧
        sm1.audvolLatch = sm.audvolLatch ∧ sm1.audlcLatch = sm.audlcLatch ∧
        sm1.nr = sm.nr) := by
  constructor
  · intro hw
    unfold StateMachine.execute
    simp only [h, hw, if_true]
    rfl
  · intro hw hd
    by_cases hl : sm.audlen > 1
    · have hex : sm.execute x a c = some
          (Amiga.mk (x.doAudioDMA a.agnus sm.nr).2 a.paula a.ciaaIrqPin a.ciabIrqPin a.cpuIPL,
           { sm with audper := sm.audper - c + sm.audperLatch, audvol := sm.audvolLatch,
                     auddat := LO_BYTE sm.auddatLatch,
                     auddatLatch := u16 (x.doAudioDMA a.agnus sm.nr).1,
                     state := 2, audlen := sm.audlen - 1 },
           toInt16 (toInt8 (LO_BYTE sm.auddatLatch) * (sm.audvolLatch : Int))) := by
        unfold StateMachine.execute
        simp only [h, hw, if_false, StateMachine.dmaMode, hd, if_true, hl]
        rfl
      exact ⟨_, _, _, hex, rfl, rfl, rfl, rfl, fun _ => ⟨rfl, rfl, rfl⟩,
        fun h' => by omega, rfl, rfl, rfl, rfl, rfl⟩
    · obtain ⟨a1, h1, h2, _, _, h5, _⟩ := Amiga.pokeINTREQ_irqWord x
        (Amiga.mk (Agnus.mk (x.doAudioDMA a.agnus sm.nr).2.clock
              (x.doAudioDMA a.agnus sm.nr).2.slot
              (Function.update (x.doAudioDMA a.agnus sm.nr).2.audlc sm.nr sm.audlcLatch))
            a.paula a.ciaaIrqPin a.ciabIrqPin a.cpuIPL) sm hnr
      have hex : sm.execute x a c = some (a1,
           { sm with audper := sm.audper - c + sm.audperLatch, audvol := sm.audvolLatch,
                     auddat := LO_BYTE sm.auddatLatch,
                     auddatLatch := u16 (x.doAudioDMA a.agnus sm.nr).1,
                     state := 2, audlen := sm.audlenLatch },
           toInt16 (toInt8 (LO_BYTE sm.auddatLatch) * (sm.audvolLatch : Int))) := by
        unfold StateMachine.execute
        simp only [h, hw, if_false, StateMachine.dmaMode, hd, if_true, hl]
        simp only [StateMachine.irqWord] at h1 ⊢
        rw [h1]
        rfl
      refine ⟨a1, _, _, hex, rfl, rfl, rfl, rfl, fun h' => absurd h' hl,
        fun _ => ⟨rfl, ?_, h2, h1⟩, rfl, rfl, rfl, rfl, rfl⟩
      rw [h5]
      simp

/-- Claim C33, failing input: channel 0 in state 3 with audio DMA disabled and no
interrupt pending (`intreq = 0`, so bit 7 is clear before the step); the period counter
expires.  The step requests the interrupt (bit 7 is set afterwards), leaves `audlen` at
4, and ends in state 0, although the previous interrupt was acknowledged: the pending
test is made after the request and therefore always succeeds. -/
theorem execute_state3_nodma_always_idles :
    lowByteChannel.state = 3 ∧
    lowByteChannel.dmaMode quietExternal exampleAmiga = false ∧
    lowByteChannel.irqIsPending exampleAmiga = false ∧
    (lowByteChannel.execute quietExternal exampleAmiga 1).map
      (fun p => (p.2.1.state, p.2.1.audlen, p.1.paula.intreq)) = some (0, 4, 0x80) := by
  decide

/-- Claim C34, failing input: channel 0 in state 0 (Idle) with audio DMA disabled and no
interrupt pending; `pokeAUDxDAT(0x1234)` stores the word in the data latch, loads the
volume, adds the period latch to the period counter and requests the interrupt (bit 7 of
`intreq`), but the state is still 0 afterwards, not one of the main-loop states 2 and
3. -/
theorem pokeAUDxDAT_leaves_state :
    (idleChannel 4).state = 0 ∧
    (idleChannel 4).dmaMode quietExternal exampleAmiga = false ∧
    (idleChannel 4).irqIsPending exampleAmiga = false ∧
    ((idleChannel 4).pokeAUDxDAT quietExternal exampleAmiga 0x1234).map
      (fun p => (p.2.state, p.2.auddatLatch, p.1.paula.intreq)) = some (0, 0x1234, 0x80) := by
  decide

/-! ## Interrupt scheduling -/

theorem bit15_of_mask (v : Nat) (h : v &&& 0x8000 = 0) : v.testBit 15 = false := by
  cases hb : v.testBit 15
  · rfl
  · exact absurd h ((and_ne_zero_iff v 0x8000).mpr ⟨15, hb, by decide⟩)

theorem pins_bit15 (pa pb : Nat) :
    ((if pa = 0 then 0b1000 else 0) ||| (if pb = 0 then 0b0010000000000000 else 0) :
      Nat).testBit 15 = false := by
  by_cases h1 : pa = 0 <;> by_cases h2 : pb = 0 <;> simp [h1, h2] <;> decide

theorem Amiga.setINTREQ_bit15 (x : External) (a : Amiga) (setclr : Bool) (value : Nat)
    (h : u16 value &&& 0x8000 = 0) (hq : a.paula.intreq.testBit 15 = false) :
    ∃ a1, a.setINTREQ x setclr value = some a1 ∧
      a1.paula.intreq.testBit 15 = false ∧
      a1.paula.intena = a.paula.intena ∧
      a1.paula.setIntreq = a.paula.setIntreq ∧
      a1.agnus.clock = a.agnus.clock ∧
      a1.agnus.slot EventSlot.IRQ_SLOT = a.agnus.slot EventSlot.IRQ_SLOT ∧
      a1.agnus.slot EventSlot.IPL_SLOT =
        ⟨a.agnus.clock + x.DMA_CYCLES 4, EventID.IPL_CHANGE,
          VAmiga.interruptLevel a1.paula.intreq a1.paula.intena⟩ ∧
      a1.cpuIPL = a.cpuIPL := by
  obtain ⟨a1, h1, h2, h3, h4, h5, _, _, h8⟩ := Amiga.setINTREQ_some x a setclr value h
  obtain ⟨s1, s2, _, s4⟩ := Agnus.scheduleRel_slot a.agnus EventSlot.IPL_SLOT
    (x.DMA_CYCLES 4) EventID.IPL_CHANGE a1.interruptLevel
  refine ⟨a1, h1, ?_, h3, h4, by rw [h5, s2], by rw [h5]; exact s4 _ (by decide),
    by rw [h5, s1]; rfl, h8⟩
  rw [h2, pinned_eq, testBit_u16 _ _ (by norm_num), Nat.testBit_or, pins_bit15,
    Bool.or_false]
  cases setclr
  · simp only [Bool.false_eq_true, if_false, Nat.testBit_and, hq, Bool.false_and]
  · simp only [if_true, Nat.testBit_or, hq, bit15_of_mask _ h, Bool.or_false]

theorem Amiga.setINTENA_bit15 (x : External) (a : Amiga) (setclr : Bool) (value : Nat)
    (h : u16 value &&& 0x8000 = 0) (he : a.paula.intena.testBit 15 = false) :
    ∃ a1, a.setINTENA x setclr value = some a1 ∧
      a1.paula.intena.testBit 15 = false ∧
      a1.paula.intreq = a.paula.intreq ∧
      a1.paula.setIntreq = a.paula.setIntreq ∧
      a1.agnus.clock = a.agnus.clock ∧
      a1.agnus.slot EventSlot.IRQ_SLOT = a.agnus.slot EventSlot.IRQ_SLOT ∧
      a1.agnus.slot EventSlot.IPL_SLOT =
        ⟨a.agnus.clock + x.DMA_CYCLES 4, EventID.IPL_CHANGE,
          VAmiga.interruptLevel a1.paula.intreq a1.paula.intena⟩ ∧
      a1.cpuIPL = a.cpuIPL := by
  obtain ⟨a1, h1, h2, h3, h4, h5, _, _, h8⟩ := Amiga.setINTENA_some x a setclr value h
  obtain ⟨s1, s2, _, s4⟩ := Agnus.scheduleRel_slot a.agnus EventSlot.IPL_SLOT
    (x.DMA_CYCLES 4) EventID.IPL_CHANGE a1.interruptLevel
  refine ⟨a1, h1, ?_, h3, h4, by rw [h5, s2], by rw [h5]; exact s4 _ (by decide),
    by rw [h5, s1]; rfl, h8⟩
  rw [h2, testBit_u16 _ _ (by norm_num)]
  cases setclr
  · simp only [Bool.false_eq_true, if_false, Nat.testBit_and, he, Bool.false_and]
  · simp only [if_true, Nat.testBit_or, he, bit15_of_mask _ h, Bool.or_false]

/-- The service routine of the IRQ slot, entered with slot id `IRQ_CHECK` and source 15
not due: it returns, the due sources are reset to `NEVER` and their bits are set, and the
slot is rescheduled to the minimum of `NEVER` and the pending times that are not due. -/
theorem Amiga.serviceIrqEvent_spec (x : External) (a : Amiga)
    (hid : (a.agnus.slot EventSlot.IRQ_SLOT).id = EventID.IRQ_CHECK)
    (h15 : a.agnus.clock < a.paula.setIntreq 15) :
    ∃ a1 t, a.serviceIrqEvent x = some a1 ∧
      a1.agnus.slot EventSlot.IRQ_SLOT = ⟨t, EventID.IRQ_CHECK, 0⟩ ∧
      (∀ s, s < 16 → a1.paula.setIntreq s =
        if a.agnus.clock ≥ a.paula.setIntreq s then NEVER else a.paula.setIntreq s) ∧
      (∀ i, i < 16 → (a1.paula.intreq.testBit i = true ↔
        (a.paula.intreq.testBit i = true ∨ a.agnus.clock ≥ a.paula.setIntreq i ∨
          ((∃ s, s < 16 ∧ a.agnus.clock ≥ a.paula.setIntreq s) ∧
            ((i = 3 ∧ a.ciaaIrqPin = 0) ∨ (i = 13 ∧ a.ciabIrqPin = 0)))))) ∧
      t ≤ NEVER ∧
      (∀ s, s < 16 → a.agnus.clock < a.paula.setIntreq s → t ≤ a.paula.setIntreq s) ∧
      (t = NEVER ∨
        ∃ s, s < 16 ∧ a.agnus.clock < a.paula.setIntreq s ∧ t = a.paula.setIntreq s) ∧
      a1.paula.intena = a.paula.intena ∧ a1.agnus.clock = a.agnus.clock ∧
      a1.cpuIPL = a.cpuIPL := by
  have hnd : (List.range 16).Nodup := List.nodup_range 16
  have hlt : ∀ s ∈ List.range 16, s < 16 := fun s hs => List.mem_range.mp hs
  obtain ⟨a1, next1, e1, s1, b1, n1, _, _, c1, _, i1, l1⟩ :=
    Amiga.serviceIrqLoop_spec x a.agnus.clock (List.range 16) a NEVER hnd hlt
      (by
        intro s hs hd
        have := hlt s hs
        by_contra hc
        have e : s = 15 := by omega
        subst e
        omega)
  obtain ⟨m1, m2, m3⟩ := foldl_MINCycle (fun s => a.paula.setIntreq s)
    ((List.range 16).filter (fun s => decide (a.agnus.clock < a.paula.setIntreq s))) NEVER
  rw [← n1] at m1 m2 m3
  have e2 : a.serviceIrqEvent x = some (Amiga.mk
      (a1.agnus.scheduleAbs0 EventSlot.IRQ_SLOT next1 EventID.IRQ_CHECK)
      a1.paula a1.ciaaIrqPin a1.ciabIrqPin a1.cpuIPL) := by
    simp only [Amiga.serviceIrqEvent, hid, ne_eq, not_true_eq_false, if_false, e1]
  have hev : ∃ a2, a.serviceIrqEvent x = some a2 ∧ a2.paula = a1.paula ∧
      a2.agnus.slot EventSlot.IRQ_SLOT = ⟨next1, EventID.IRQ_CHECK, 0⟩ ∧
      a2.agnus.clock = a1.agnus.clock ∧ a2.cpuIPL = a1.cpuIPL :=
    ⟨_, e2, rfl, by simp [Agnus.scheduleAbs0, Agnus.scheduleAbs], rfl, rfl⟩
  clear e2
  obtain ⟨a2, e2, hp2, hslot, hc2, hl2⟩ := hev
  refine ⟨a2, next1, e2, hslot, ?_, ?_, m1, ?_, ?_, by rw [hp2, i1], by rw [hc2, c1],
    by rw [hl2, l1]⟩
  · intro s hs
    rw [hp2, s1]
    simp [hs]
  · intro i hi
    rw [hp2, b1 i hi]
    constructor
    · rintro (h | ⟨_, hd⟩ | ⟨⟨s, hm, hd⟩, hp⟩)
      · exact Or.inl h
      · exact Or.inr (Or.inl hd)
      · exact Or.inr (Or.inr ⟨⟨s, List.mem_range.mp hm, hd⟩, hp⟩)
    · rintro (h | hd | ⟨⟨s, hm, hd⟩, hp⟩)
      · exact Or.inl h
      · exact Or.inr (Or.inl ⟨List.mem_range.mpr hi, hd⟩)
      · exact Or.inr (Or.inr ⟨⟨s, List.mem_range.mpr hm, hd⟩, hp⟩)
  · intro s hs hd
    exact m2 s (List.mem_filter.mpr ⟨List.mem_range.mpr hs, by simpa using hd⟩)
  · rcases m3 with h | ⟨s, hs, h⟩
    · exact Or.inl h
    · obtain ⟨hm, hd⟩ := List.mem_filter.mp hs
      exact Or.inr ⟨s, List.mem_range.mp hm, by simpa using hd, h⟩

/-- Claim C35: bit 15 of the request and enable registers stays zero.  From a machine
whose `intreq` and `intena` have bit 15 clear, with `setIntreq[15] = NEVER` and the clock
below `NEVER`, every sequence of `setINTREQ` / `setINTENA` calls with a mask whose bit 15
is clear, `raiseIrq` calls with a source of at most 14 and `serviceIrqEvent` calls (the
slot holding `IRQ_CHECK` if the routine is called at all) runs without tripping an
assertion, and both registers have bit 15 clear afterwards. -/
theorem bit15_stays_clear (x : External) (ops : List IrqOp) (a : Amiga)
    (hq : a.paula.intreq.testBit 15 = false) (he : a.paula.intena.testBit 15 = false)
    (hops : ∀ op ∈ ops, op.Admissible)
    (h15 : a.paula.setIntreq 15 = NEVER) (hc : a.agnus.clock < NEVER)
    (hid : IrqOp.serviceIrqEvent ∈ ops →
      (a.agnus.slot EventSlot.IRQ_SLOT).id = EventID.IRQ_CHECK) :
    ∃ a1, Amiga.applyIrqOps x ops a = some a1 ∧
      a1.paula.intreq.testBit 15 = false ∧ a1.paula.intena.testBit 15 = false ∧
      a1.paula.setIntreq 15 = NEVER ∧ a1.agnus.clock = a.agnus.clock := by
  induction ops generalizing a with
  | nil => exact ⟨a, rfl, hq, he, h15, rfl⟩
  | cons op rest ih =>
    have hadm := hops op (List.mem_cons_self _ _)
    have hrest : ∀ o ∈ rest, o.Admissible := fun o ho => hops o (List.mem_cons_of_mem _ ho)
    have step : ∃ a1, a.applyIrqOp x op = some a1 ∧
        a1.paula.intreq.testBit 15 = false ∧ a1.paula.intena.testBit 15 = false ∧
        a1.paula.setIntreq 15 = NEVER ∧ a1.agnus.clock = a.agnus.clock ∧
        ((a.agnus.slot EventSlot.IRQ_SLOT).id = EventID.IRQ_CHECK →
          (a1.agnus.slot EventSlot.IRQ_SLOT).id = EventID.IRQ_CHECK) := by
      cases op with
      | setINTREQ setclr value =>
        obtain ⟨a1, g1, g2, g3, g4, g5, g6, _⟩ :=
          Amiga.setINTREQ_bit15 x a setclr value hadm hq
        exact ⟨a1, g1, g2, by rw [g3]; exact he, by rw [g4]; exact h15, g5,
          fun h => by rw [g6]; exact h⟩
      | setINTENA setclr value =>
        obtain ⟨a1, g1, g2, g3, g4, g5, g6, _⟩ :=
          Amiga.setINTENA_bit15 x a setclr value hadm he
        exact ⟨a1, g1, by rw [g3]; exact hq, g2, by rw [g4]; exact h15, g5,
          fun h => by rw [g6]; exact h⟩
      | raiseIrq src =>
        have hs : src < 15 := by
          have : src ≤ 14 := hadm
          omega
        obtain ⟨a1, g1, g2, g3, g4, g5, g6, _⟩ :=
          Amiga.setINTREQ_bit15 x a true (1 <<< src) (shift_bit15 src hs) hq
        exact ⟨a1, g1, g2, by rw [g3]; exact he, by rw [g4]; exact h15, g5,
          fun h => by rw [g6]; exact h⟩
      | serviceIrqEvent =>
        have hid0 := hid (List.mem_cons_self _ _)
        obtain ⟨a1, t, g1, g2, g3, g4, _, _, _, g8, g9, _⟩ :=
          Amiga.serviceIrqEvent_spec x a hid0 (by rw [h15]; exact hc)
        refine ⟨a1, g1, ?_, by rw [g8]; exact he, ?_, g9, fun _ => by rw [g2]⟩
        · cases hb : a1.paula.intreq.testBit 15
          · rfl
          · rcases (g4 15 (by norm_num)).mp hb with h | h | ⟨_, h | h⟩
            · rw [hq] at h; exact absurd h (by simp)
            · rw [h15] at h; omega
            · omega
            · omega
        · rw [g3 15 (by norm_num), h15]
          simp
    obtain ⟨a1, g1, g2, g3, g4, g5, g6⟩ := step
    obtain ⟨a2, k1, k2, k3, k4, k5⟩ := ih a1 g2 g3 hrest g4 (by rw [g5]; exact hc)
      (fun hm => g6 (hid (List.mem_cons_of_mem _ hm)))
    refine ⟨a2, ?_, k2, k3, k4, by rw [k5, g5]⟩
    simp only [Amiga.applyIrqOps, g1]
    exact k1

theorem Amiga.applyIrqOps_append (x : External) (ops1 ops2 : List IrqOp) (a : Amiga) :
    Amiga.applyIrqOps x (ops1 ++ ops2) a =
      (Amiga.applyIrqOps x ops1 a).bind (Amiga.applyIrqOps x ops2) := by
  induction ops1 generalizing a with
  | nil => rfl
  | cons op rest ih =>
    simp only [List.cons_append, Amiga.applyIrqOps]
    cases a.applyIrqOp x op with
    | none => rfl
    | some a1 => exact ih a1

/-- Register writes with admissible masks never fail and leave clock and CPU input
alone. -/
theorem Amiga.applyIrqOps_writes (x : External) (ops : List IrqOp) (a : Amiga)
    (hw : ∀ op ∈ ops, op.isRegisterWrite = true ∧ op.Admissible) :
    ∃ a1, Amiga.applyIrqOps x ops a = some a1 ∧ a1.agnus.clock = a.agnus.clock ∧
      a1.cpuIPL = a.cpuIPL := by
  induction ops generalizing a with
  | nil => exact ⟨a, rfl, rfl, rfl⟩
  | cons op rest ih =>
    obtain ⟨hw1, hadm⟩ := hw op (List.mem_cons_self _ _)
    have step : ∃ a1, a.applyIrqOp x op = some a1 ∧ a1.agnus.clock = a.agnus.clock ∧
        a1.cpuIPL = a.cpuIPL := by
      cases op with
      | setINTREQ setclr value =>
        obtain ⟨a1, g1, _, _, _, g5, _, _, g8⟩ := Amiga.setINTREQ_some x a setclr value hadm
        obtain ⟨_, s2, _, _⟩ := Agnus.scheduleRel_slot a.agnus EventSlot.IPL_SLOT
          (x.DMA_CYCLES 4) EventID.IPL_CHANGE a1.interruptLevel
        exact ⟨a1, g1, by rw [g5, s2], g8⟩
      | setINTENA setclr value =>
        obtain ⟨a1, g1, _, _, _, g5, _, _, g8⟩ := Amiga.setINTENA_some x a setclr value hadm
        obtain ⟨_, s2, _, _⟩ := Agnus.scheduleRel_slot a.agnus EventSlot.IPL_SLOT
          (x.DMA_CYCLES 4) EventID.IPL_CHANGE a1.interruptLevel
        exact ⟨a1, g1, by rw [g5, s2], g8⟩
      | raiseIrq src => simp [IrqOp.isRegisterWrite] at hw1
      | serviceIrqEvent => simp [IrqOp.isRegisterWrite] at hw1
    obtain ⟨a1, g1, g2, g3⟩ := step
    obtain ⟨a2, k1, k2, k3⟩ := ih a1 (fun o ho => hw o (List.mem_cons_of_mem _ ho))
    refine ⟨a2, ?_, by rw [k2, g2], by rw [k3, g3]⟩
    simp only [Amiga.applyIrqOps, g1]
    exact k1

theorem Amiga.applyIrqOp_write (x : External) (a : Amiga) (op : IrqOp)
    (hw : op.isRegisterWrite = true) (hadm : op.Admissible) :
    ∃ a1, a.applyIrqOp x op = some a1 ∧
      a1.agnus.slot EventSlot.IPL_SLOT =
        ⟨a.agnus.clock + x.DMA_CYCLES 4, EventID.IPL_CHANGE,
          VAmiga.interruptLevel a1.paula.intreq a1.paula.intena⟩ ∧
      a1.agnus.clock = a.agnus.clock ∧ a1.cpuIPL = a.cpuIPL := by
  cases op with
  | setINTREQ setclr value =>
    obtain ⟨a1, g1, _, _, _, g5, _, _, g8⟩ := Amiga.setINTREQ_some x a setclr value hadm
    obtain ⟨s1, s2, _, _⟩ := Agnus.scheduleRel_slot a.agnus EventSlot.IPL_SLOT
      (x.DMA_CYCLES 4) EventID.IPL_CHANGE a1.interruptLevel
    exact ⟨a1, g1, by rw [g5, s1]; rfl, by rw [g5, s2], g8⟩
  | setINTENA setclr value =>
    obtain ⟨a1, g1, _, _, _, g5, _, _, g8⟩ := Amiga.setINTENA_some x a setclr value hadm
    obtain ⟨s1, s2, _, _⟩ := Agnus.scheduleRel_slot a.agnus EventSlot.IPL_SLOT
      (x.DMA_CYCLES 4) EventID.IPL_CHANGE a1.interruptLevel
    exact ⟨a1, g1, by rw [g5, s1]; rfl, by rw [g5, s2], g8⟩
  | raiseIrq src => simp [IrqOp.isRegisterWrite] at hw
  | serviceIrqEvent => simp [IrqOp.isRegisterWrite] at hw

/-- Claim C36: `serviceIplEvent` passes the data field of the IPL slot to the CPU and
cancels the slot (trigger `NEVER`).  After a sequence of `setINTREQ` / `setINTENA` calls
(masks with bit 15 clear) made at one clock value, the IPL slot holds one single event,
the `IPL_CHANGE` event of the last call whose data is the interrupt level of the
registers as that call left them; servicing it gives the CPU this level, and no IPL
event is pending afterwards. -/
theorem serviceIplEvent_applies_last_level (x : External) (a : Amiga) (ops : List IrqOp)
    (last : IrqOp)
    (hw : ∀ op ∈ ops ++ [last], op.isRegisterWrite = true ∧ op.Admissible) :
    (∀ b : Amiga, (b.agnus.slot EventSlot.IPL_SLOT).id = EventID.IPL_CHANGE →
      ∃ b1, b.serviceIplEvent = some b1 ∧
        b1.cpuIPL = (b.agnus.slot EventSlot.IPL_SLOT).data ∧
        (b1.agnus.slot EventSlot.IPL_SLOT).triggerCycle = NEVER ∧
        (∀ s, s ≠ EventSlot.IPL_SLOT → b1.agnus.slot s = b.agnus.slot s) ∧
        b1.paula = b.paula ∧ b1.agnus.clock = b.agnus.clock) ∧
    ∃ a0 a1, Amiga.applyIrqOps x ops a = some a0 ∧ a0.applyIrqOp x last = some a1 ∧
      Amiga.applyIrqOps x (ops ++ [last]) a = some a1 ∧
      a1.agnus.slot EventSlot.IPL_SLOT =
        ⟨a.agnus.clock + x.DMA_CYCLES 4, EventID.IPL_CHANGE,
          interruptLevel a1.paula.intreq a1.paula.intena⟩ ∧
      (∀ e, (EventSlot.IPL_SLOT, e) ∈ a1.agnus.pendingEvents →
        e = ⟨a.agnus.clock + x.DMA_CYCLES 4, EventID.IPL_CHANGE,
          interruptLevel a1.paula.intreq a1.paula.intena⟩) ∧
      a1.cpuIPL = a.cpuIPL ∧
      ∃ a2, a1.serviceIplEvent = some a2 ∧
        a2.cpuIPL = interruptLevel a1.paula.intreq a1.paula.intena ∧
        (a2.agnus.slot EventSlot.IPL_SLOT).triggerCycle = NEVER ∧
        (∀ e, (EventSlot.IPL_SLOT, e) ∉ a2.agnus.pendingEvents) ∧
        a2.paula = a1.paula := by
  have hsvc : ∀ b : Amiga, (b.agnus.slot EventSlot.IPL_SLOT).id = EventID.IPL_CHANGE →
      ∃ b1, b.serviceIplEvent = some b1 ∧
        b1.cpuIPL = (b.agnus.slot EventSlot.IPL_SLOT).data ∧
        (b1.agnus.slot EventSlot.IPL_SLOT).triggerCycle = NEVER ∧
        (∀ s, s ≠ EventSlot.IPL_SLOT → b1.agnus.slot s = b.agnus.slot s) ∧
        b1.paula = b.paula ∧ b1.agnus.clock = b.agnus.clock := by
    intro b hb
    refine ⟨Amiga.mk (b.agnus.cancel EventSlot.IPL_SLOT) b.paula b.ciaaIrqPin b.ciabIrqPin
        (b.agnus.slot EventSlot.IPL_SLOT).data,
      by simp only [Amiga.serviceIplEvent, hb, ne_eq, not_true_eq_false, if_false],
      rfl, by simp [Agnus.cancel], ?_, rfl, rfl⟩
    intro s hs
    simp [Agnus.cancel, Function.update_noteq hs]
  refine ⟨hsvc, ?_⟩
  obtain ⟨a0, g1, g2, g3⟩ := Amiga.applyIrqOps_writes x ops a
    (fun o ho => hw o (List.mem_append_left _ ho))
  obtain ⟨hl1, hl2⟩ := hw last (List.mem_append_right _ (List.mem_singleton_self _))
  obtain ⟨a1, k1, k2, k3, k4⟩ := Amiga.applyIrqOp_write x a0 last hl1 hl2
  rw [g2] at k2
  obtain ⟨a2, m1, m2, m3, _, m5, _⟩ := hsvc a1 (by rw [k2])
  refine ⟨a0, a1, g1, k1, ?_, k2, ?_, by rw [k4, g3], a2, m1, by rw [m2, k2], m3, ?_, m5⟩
  · rw [Amiga.applyIrqOps_append, g1]
    simp only [Option.bind, Amiga.applyIrqOps, k1]
  · intro e he
    rw [((Agnus.mem_pendingEvents _ _ _).mp he).1, k2]
  · intro e he
    obtain ⟨h1, h2⟩ := (Agnus.mem_pendingEvents _ _ _).mp he
    rw [h1] at h2
    exact h2 m3

theorem Paula._reset_setIntreq (l : List Nat) (p : Paula) (s : Nat) :
    (l.foldl (fun q i => { q with setIntreq := Function.update q.setIntreq i NEVER })
      p).setIntreq s = if s ∈ l then NEVER else p.setIntreq s := by
  induction l generalizing p with
  | nil => simp
  | cons i rest ih =>
    rw [List.foldl_cons, ih]
    by_cases hs : s ∈ rest
    · simp [hs]
    · by_cases e : s = i
      · subst e
        simp [hs]
      · simp [hs, e, Function.update_noteq e]

theorem Amiga.scheduleIrqAbs_spec (isIrqSource : Nat → Bool) (a : Amiga) (src : Nat)
    (t : Int) (hsrc : isIrqSource src = true) (ht : t ≠ 0)
    (hid : (a.agnus.slot EventSlot.IRQ_SLOT).id = EventID.IRQ_CHECK) :
    ∃ a1, a.scheduleIrqAbs isIrqSource src t = some a1 ∧
      a1.paula.setIntreq src = MINCycle t (a.paula.setIntreq src) ∧
      (∀ s, s ≠ src → a1.paula.setIntreq s = a.paula.setIntreq s) ∧
      (a1.agnus.slot EventSlot.IRQ_SLOT).triggerCycle =
        MINCycle t (a.agnus.slot EventSlot.IRQ_SLOT).triggerCycle ∧
      (a1.agnus.slot EventSlot.IRQ_SLOT).id = EventID.IRQ_CHECK ∧
      (∀ s, s ≠ EventSlot.IRQ_SLOT → a1.agnus.slot s = a.agnus.slot s) ∧
      a1.agnus.clock = a.agnus.clock ∧
      a1.paula.intreq = a.paula.intreq ∧ a1.paula.intena = a.paula.intena ∧
      a1.cpuIPL = a.cpuIPL := by
  unfold Amiga.scheduleIrqAbs
  simp only [hsrc, Bool.not_true, Bool.false_eq_true, if_false, ht, hid, ne_eq,
    not_true_eq_false]
  refine ⟨_, rfl, ?_, ?_, ?_, ?_, ?_, ?_, ?_, ?_, ?_⟩
  · unfold MINCycle
    by_cases h1 : t < a.paula.setIntreq src <;>
      by_cases h2 : t < (a.agnus.slot EventSlot.IRQ_SLOT).triggerCycle <;>
      simp [h1, h2]
  · intro s hs
    by_cases h1 : t < a.paula.setIntreq src <;>
      by_cases h2 : t < (a.agnus.slot EventSlot.IRQ_SLOT).triggerCycle <;>
      simp [h1, h2, Function.update_noteq hs]
  · unfold MINCycle
    by_cases h1 : t < a.paula.setIntreq src <;>
      by_cases h2 : t < (a.agnus.slot EventSlot.IRQ_SLOT).triggerCycle <;>
      simp [h1, h2, Agnus.scheduleAbs0, Agnus.scheduleAbs]
  · by_cases h1 : t < a.paula.setIntreq src <;>
      by_cases h2 : t < (a.agnus.slot EventSlot.IRQ_SLOT).triggerCycle <;>
      simp [h1, h2, Agnus.scheduleAbs0, Agnus.scheduleAbs, hid]
  · intro s hs
    by_cases h1 : t < a.paula.setIntreq src <;>
      by_cases h2 : t < (a.agnus.slot EventSlot.IRQ_SLOT).triggerCycle <;>
      simp [h1, h2, Agnus.scheduleAbs0, Agnus.scheduleAbs, Function.update_noteq hs]
  all_goals
    by_cases h1 : t < a.paula.setIntreq src <;>
      by_cases h2 : t < (a.agnus.slot EventSlot.IRQ_SLOT).triggerCycle <;>
      simp [h1, h2, Agnus.scheduleAbs0, Agnus.scheduleAbs]

/-- Recording a request keeps the slot at the minimum of the pending times. -/
theorem Amiga.scheduleIrqAbs_min (isIrqSource : Nat → Bool) (a : Amiga) (src : Nat)
    (t : Int) (hinv : a.IrqSlotMin) (hsrc : isIrqSource src = true) (h16 : src < 16)
    (ht : t ≠ 0) (hid : (a.agnus.slot EventSlot.IRQ_SLOT).id = EventID.IRQ_CHECK) :
    ∃ a1, a.scheduleIrqAbs isIrqSource src t = some a1 ∧ a1.IrqSlotMin ∧
      a1.paula.setIntreq src = min (a.paula.setIntreq src) t ∧
      (∀ s, a1.paula.setIntreq s ≤ a.paula.setIntreq s) ∧
      (∀ s, s ≠ src → a1.paula.setIntreq s = a.paula.setIntreq s) ∧
      (a1.agnus.slot EventSlot.IRQ_SLOT).triggerCycle ≤
        (a.agnus.slot EventSlot.IRQ_SLOT).triggerCycle ∧
      (a1.agnus.slot EventSlot.IRQ_SLOT).id = EventID.IRQ_CHECK := by
  obtain ⟨a1, g1, g2, g3, g4, g5, _⟩ := Amiga.scheduleIrqAbs_spec isIrqSource a src t hsrc ht hid
  obtain ⟨i1, i2, i3⟩ := hinv
  have hmin : ∀ u : Int, MINCycle t u = min u t := by
    intro u
    unfold MINCycle
    split
    · rw [min_eq_right (by omega)]
    · rw [min_eq_left (by omega)]
  rw [hmin] at g2 g4
  have hle : ∀ s, a1.paula.setIntreq s ≤ a.paula.setIntreq s := by
    intro s
    by_cases e : s = src
    · subst e; rw [g2]; exact min_le_left _ _
    · rw [g3 s e]
  refine ⟨a1, g1, ⟨?_, ?_, ?_⟩, g2, hle, g3, by rw [g4]; exact min_le_left _ _, g5⟩
  · rw [g4]
    exact le_trans (min_le_left _ _) i1
  · intro s hs
    rw [g4]
    by_cases e : s = src
    · subst e
      rw [g2]
      exact min_le_min (i2 s hs) le_rfl
    · rw [g3 s e]
      exact le_trans (min_le_left _ _) (i2 s hs)
  · rw [g4]
    by_cases hlt : t < (a.agnus.slot EventSlot.IRQ_SLOT).triggerCycle
    · right
      refine ⟨src, h16, ?_⟩
      have := i2 src h16
      rw [g2, min_eq_right (by omega), min_eq_right (by omega)]
    · rw [min_eq_left (by omega)]
      rcases i3 with h | ⟨s, hs, h⟩
      · exact Or.inl h
      · right
        refine ⟨s, hs, ?_⟩
        by_cases e : s = src
        · subst e
          rw [g2, min_eq_left (by omega)]
          exact h
        · rw [g3 s e]
          exact h

/-- Claim C37: the predicate "the trigger cycle of the IRQ slot is the minimum of the 16
pending times (and of `NEVER`)" holds after `_reset` when the IRQ slot is at `NEVER`, and
on a machine where it holds it is preserved by `scheduleIrqAbs`, `scheduleIrqRel` and
`serviceIrqEvent`, each of which returns when its assertions hold (a source accepted by
`isIrqSource` and below 16, a non-zero trigger, slot id `IRQ_CHECK`, source 15 not due).
`scheduleIrqAbs(src, t)` sets `setIntreq[src]` to `min(old, t)`, leaves the other pending
times alone and moves neither a pending time nor the slot trigger later. -/
theorem irqSlot_tracks_earliest_request (isIrqSource : Nat → Bool) (x : External)
    (a : Amiga) (hinv : a.IrqSlotMin)
    (hid : (a.agnus.slot EventSlot.IRQ_SLOT).id = EventID.IRQ_CHECK) :
    (∀ (resetItems : Paula → Paula) (b : Amiga),
      (b.agnus.slot EventSlot.IRQ_SLOT).triggerCycle = NEVER →
      (∀ s, s < 16 → (Paula._reset resetItems b.paula).setIntreq s = NEVER) ∧
      (Amiga.mk b.agnus (Paula._reset resetItems b.paula) b.ciaaIrqPin b.ciabIrqPin
        b.cpuIPL).IrqSlotMin) ∧
    (∀ src t, isIrqSource src = true → src < 16 → t ≠ 0 →
      ∃ a1, a.scheduleIrqAbs isIrqSource src t = some a1 ∧ a1.IrqSlotMin ∧
        a1.paula.setIntreq src = min (a.paula.setIntreq src) t ∧
        (∀ s, a1.paula.setIntreq s ≤ a.paula.setIntreq s) ∧
        (∀ s, s ≠ src → a1.paula.setIntreq s = a.paula.setIntreq s) ∧
        (a1.agnus.slot EventSlot.IRQ_SLOT).triggerCycle ≤
          (a.agnus.slot EventSlot.IRQ_SLOT).triggerCycle ∧
        (a1.agnus.slot EventSlot.IRQ_SLOT).id = EventID.IRQ_CHECK) ∧
    (∀ src d, isIrqSource src = true → src < 16 → d ≠ 0 → a.agnus.clock + d ≠ 0 →
      ∃ a1, a.scheduleIrqRel isIrqSource src d = some a1 ∧ a1.IrqSlotMin ∧
        a1.paula.setIntreq src = min (a.paula.setIntreq src) (a.agnus.clock + d) ∧
        (a1.agnus.slot EventSlot.IRQ_SLOT).id = EventID.IRQ_CHECK) ∧
    (a.agnus.clock < a.paula.setIntreq 15 →
      ∃ a1, a.serviceIrqEvent x = some a1 ∧ a1.IrqSlotMin ∧
        (∀ s, s < 16 → a.agnus.clock < a.paula.setIntreq s →
          a1.paula.setIntreq s = a.paula.setIntreq s ∧
          (a1.agnus.slot EventSlot.IRQ_SLOT).triggerCycle ≤ a.paula.setIntreq s) ∧
        (a1.agnus.slot EventSlot.IRQ_SLOT).id = EventID.IRQ_CHECK) := by
  refine ⟨?_, ?_, ?_, ?_⟩
  · intro resetItems b hb
    have hr : ∀ s, s < 16 → (Paula._reset resetItems b.paula).setIntreq s = NEVER := by
      intro s hs
      unfold Paula._reset
      rw [Paula._reset_setIntreq]
      simp [hs]
    refine ⟨hr, ?_, ?_, Or.inl hb⟩
    · show (b.agnus.slot EventSlot.IRQ_SLOT).triggerCycle ≤ NEVER
      rw [hb]
    · intro s hs
      show (b.agnus.slot EventSlot.IRQ_SLOT).triggerCycle ≤
        (Paula._reset resetItems b.paula).setIntreq s
      rw [hb, hr s hs]
  · intro src t hsrc h16 ht
    exact Amiga.scheduleIrqAbs_min isIrqSource a src t hinv hsrc h16 ht hid
  · intro src d hsrc h16 hd hcd
    obtain ⟨a1, g1, g2, g3, _, _, _, g7⟩ :=
      Amiga.scheduleIrqAbs_min isIrqSource a src (a.agnus.clock + d) hinv hsrc h16 hcd hid
    refine ⟨a1, ?_, g2, g3, g7⟩
    unfold Amiga.scheduleIrqRel
    rw [if_neg hd]
    exact g1
  · intro h15
    obtain ⟨a1, t, g1, g2, g3, _, g5, g6, g7, _⟩ := Amiga.serviceIrqEvent_spec x a hid h15
    have hkeep : ∀ s, s < 16 → a.agnus.clock < a.paula.setIntreq s →
        a1.paula.setIntreq s = a.paula.setIntreq s := by
      intro s hs hd
      rw [g3 s hs, if_neg (by omega)]
    refine ⟨a1, g1, ⟨by rw [g2]; exact g5, ?_, ?_⟩, ?_, by rw [g2]⟩
    · intro s hs
      rw [g2, g3 s hs]
      show t ≤ _
      split
      · exact g5
      · exact g6 s hs (by omega)
    · rw [g2]
      rcases g7 with h | ⟨s, hs, hd, h⟩
      · exact Or.inl h
      · exact Or.inr ⟨s, hs, by rw [hkeep s hs hd]; exact h⟩
    · intro s hs hd
      refine ⟨hkeep s hs hd, ?_⟩
      rw [g2]
      exact g6 s hs hd

/-! ## Corrupted blocks and traversal bounds -/

theorem toBlock_of_nonneg (j : Int) (h0 : 0 ≤ j) (h1 : j < 4294967296) :
    toBlock j = j.toNat := by
  unfold toBlock
  rw [Int.emod_eq_of_lt h0 h1]

theorem FSDevice.prevCorruptedLoop_spec (d : FSDevice) :
    ∀ (fuel : Nat) (i : Int), -1 ≤ i → i + 1 < fuel →
      ∃ r, FSDevice.prevCorruptedLoop d fuel i = some r ∧
        ∀ v, r = some v → ∃ j : Int, -1 ≤ j ∧ j < i ∧ v = toBlock j := by
  intro fuel
  induction fuel with
  | zero => intro i h1 h2; omega
  | succ fuel ih =>
    intro i h1 h2
    unfold FSDevice.prevCorruptedLoop
    by_cases hi : i ≥ 0
    · rw [if_pos hi]
      by_cases hc : d.isCorrupted (toBlock (i - 1)) = true
      · rw [if_pos hc]
        refine ⟨_, rfl, ?_⟩
        intro v hv
        simp only [Option.some.injEq] at hv
        exact ⟨i - 1, by omega, by omega, hv.symm⟩
      · rw [if_neg hc]
        obtain ⟨r, g1, g2⟩ := ih (i - 1) (by omega) (by omega)
        refine ⟨r, g1, ?_⟩
        intro v hv
        obtain ⟨j, j1, j2, j3⟩ := g2 v hv
        exact ⟨j, j1, by omega, j3⟩
    · rw [if_neg hi]
      exact ⟨none, rfl, fun v hv => nomatch hv⟩

/-- The backward search returns for every block number, and never returns the number
just below its argument: the first block it looks at is `nr - 2`. -/
theorem FSDevice.prevCorrupted_never_predecessor (d : FSDevice) (nr : Nat)
    (h0 : 0 < nr) (h32 : nr < 4294967296) :
    ∃ v, d.prevCorrupted nr = some v ∧ v ≠ nr - 1 := by
  obtain ⟨r, g1, g2⟩ := FSDevice.prevCorruptedLoop_spec d (nr + 1) ((nr : Int) - 1)
    (by omega) (by push_cast; omega)
  unfold FSDevice.prevCorrupted
  rw [g1]
  cases r with
  | none => exact ⟨nr, rfl, by omega⟩
  | some v =>
    refine ⟨v, rfl, ?_⟩
    obtain ⟨j, j1, j2, j3⟩ := g2 v rfl
    by_cases hj : 0 ≤ j
    · rw [toBlock_of_nonneg j hj (by omega)] at j3
      omega
    · have e : j = -1 := by omega
      subst e
      have : toBlock (-1) = 4294967295 := by decide
      omega

/-- Claim C38, failing input: a device of four blocks with only block 1 marked
corrupted.  `prevCorrupted(2)` returns 2 although block 1, the block just below, is
corrupted: the loop test `i-- >= 0` decrements the index before the body looks at it, so
the search starts at block `nr - 2` (`prevCorrupted(3)` does find block 1).  The forward
search has no such gap: `nextCorrupted(0)` returns 1. -/
theorem prevCorrupted_skips_block_below :
    corruptedDevice.isCorrupted 1 = true ∧
    corruptedDevice.prevCorrupted 2 = some 2 ∧
    corruptedDevice.prevCorrupted 3 = some 1 ∧
    corruptedDevice.nextCorrupted 0 = 1 := by
  decide

theorem FSDevice.collectHashedRefs_indices (d : FSDevice) (nr : Nat)
    (result visited : List Nat) :
    d.collectHashedRefs nr result visited =
      match d.blockPtr nr with
      | some b =>
        (FSDevice.collectBuckets d b (FSDevice.hashIndices b) result visited).map
          fun r => (ErrorCode.ERROR_OK, r.1, r.2)
      | none => some (ErrorCode.ERROR_OK, result, visited) :=
  rfl

/-- Claim C40, failing input: for a block with hash table size `n` the loop of
`collectHashedRefs` passes the `n + 1` indices `n, n-1, .., 0` to `getHashRef`, the
first of them, `n`, lying outside the table.  In a directory with three empty buckets
whose `getHashRef(3)` yields the reference of the file header block 2, `collect`
reports block 2 although no bucket of the table refers to it. -/
theorem collectHashedRefs_reads_past_table :
    (∀ b : FSBlock, (FSDevice.hashIndices b).head? = some b.hashTableSize ∧
      (FSDevice.hashIndices b).length = b.hashTableSize + 1 ∧
      ∀ i, i ∈ FSDevice.hashIndices b ↔ i ≤ b.hashTableSize) ∧
    (∀ (d : FSDevice) (nr : Nat) (result visited : List Nat),
      d.collectHashedRefs nr result visited =
        match d.blockPtr nr with
        | some b =>
          (FSDevice.collectBuckets d b (FSDevice.hashIndices b) result visited).map
            fun r => (ErrorCode.ERROR_OK, r.1, r.2)
        | none => some (ErrorCode.ERROR_OK, result, visited)) ∧
    (overrunDevice.blockPtr 1).map (fun b => (b.hashTableSize, FSDevice.hashIndices b,
      b.getHashRef 0, b.getHashRef 1, b.getHashRef 2)) = some (3, [3, 2, 1, 0], 0, 0, 0) ∧
    overrunDevice.collect 1 [] false = some (ErrorCode.ERROR_OK, [2]) := by
  refine ⟨?_, ?_, by decide, by decide⟩
  · intro b
    unfold FSDevice.hashIndices
    refine ⟨?_, by simp, ?_⟩
    · rw [List.range_succ, List.reverse_append]
      rfl
    · intro i
      rw [List.mem_reverse, List.mem_range]
      omega
  · intro d nr result visited
    rfl

theorem countP_lt_of_mem {α : Type} (l : List α) (P Q : α → Bool)
    (hPQ : ∀ y, P y = true → Q y = true) (y : α) (hy : y ∈ l) (hq : Q y = true)
    (hp : P y = false) : l.countP P + 1 ≤ l.countP Q := by
  induction l with
  | nil => cases hy
  | cons a rest ih =>
    rw [List.countP_cons, List.countP_cons]
    rcases List.mem_cons.mp hy with e | hm
    · rw [e] at hq hp
      have hle : rest.countP P ≤ rest.countP Q :=
        List.countP_mono_left (fun z _ hz => hPQ z hz)
      rw [if_pos hq, if_neg (by rw [hp]; exact Bool.false_ne_true)]
      omega
    · have := ih hm
      by_cases hpa : P a = true
      · rw [if_pos hpa, if_pos (hPQ a hpa)]
        omega
      · rw [if_neg hpa]
        by_cases hqa : Q a = true
        · rw [if_pos hqa]; omega
        · rw [if_neg hqa]; omega

theorem FSDevice.unvisited_le (d : FSDevice) (visited : List Nat) :
    d.unvisited visited ≤ d.numBlocks :=
  List.countP_le_length _

theorem FSDevice.unvisited_mono (d : FSDevice) (v v1 : List Nat)
    (h : ∀ q ∈ v, q ∈ v1) : d.unvisited v1 ≤ d.unvisited v := by
  unfold FSDevice.unvisited
  apply List.countP_mono_left
  intro b _ hb
  simp only [decide_eq_true_eq] at hb ⊢
  exact fun hm => hb (h _ hm)

theorem FSDevice.unvisited_cons (d : FSDevice) (visited : List Nat) (p : Nat) (b : FSBlock)
    (hb : d.blocks[p]? = some b) (hv : b.nr ∉ visited) :
    d.unvisited (b.nr :: visited) + 1 ≤ d.unvisited visited := by
  unfold FSDevice.unvisited
  apply countP_lt_of_mem _ _ _ _ b (List.getElem?_mem hb)
  · simpa using hv
  · simp
  · intro y hy
    simp only [decide_eq_true_eq, List.mem_cons, not_or] at hy ⊢
    exact hy.2

theorem FSDevice.Pushed.refl (d : FSDevice) (result visited : List Nat) :
    d.Pushed result visited result visited :=
  ⟨[], rfl, List.nodup_nil, (fun _ h => nomatch h), (fun _ h => nomatch h),
    (fun _ h => h), (fun _ h => nomatch h), by simp⟩

theorem FSDevice.Pushed.trans (d : FSDevice) (r v r1 v1 r2 v2 : List Nat)
    (h1 : d.Pushed r v r1 v1) (h2 : d.Pushed r1 v1 r2 v2) : d.Pushed r v r2 v2 := by
  obtain ⟨n1, a1, a2, a3, a4, a5, a6, a7⟩ := h1
  obtain ⟨n2, b1, b2, b3, b4, b5, b6, b7⟩ := h2
  refine ⟨n2 ++ n1, by rw [b1, a1, List.append_assoc], ?_, ?_, ?_, ?_, ?_, ?_⟩
  · rw [List.nodup_append]
    exact ⟨b2, a2, fun q hq2 hq1 => b3 q hq2 (a4 q hq1)⟩
  · intro q hq
    rcases List.mem_append.mp hq with h | h
    · exact fun hm => b3 q h (a5 q hm)
    · exact a3 q h
  · intro q hq
    rcases List.mem_append.mp hq with h | h
    · exact b4 q h
    · exact b5 q (a4 q h)
  · exact fun q hq => b5 q (a5 q hq)
  · intro q hq
    rcases List.mem_append.mp hq with h | h
    · exact b6 q h
    · exact a6 q h
  · rw [List.length_append]
    omega

theorem FSDevice.getNextHashBlock_hashable (d : FSDevice) (b : FSBlock) (q : Nat)
    (h : d.getNextHashBlock b = some q) : ∃ b1, d.hashableBlockPtr q = some b1 := by
  unfold FSDevice.getNextHashBlock at h
  split at h
  · cases h
  · cases hb : d.hashableBlockPtr b.nextHashRef with
    | none => simp [hb] at h
    | some b1 =>
      simp only [hb, Option.map_some', Option.some.injEq] at h
      subst h
      exact ⟨b1, hb⟩

/-- The chain walk returns within `unvisited + 1` iterations. -/
theorem FSDevice.collectChainLoop_pushed (d : FSDevice) :
    ∀ (fuel : Nat) (p : Option Nat) (refs visited : List Nat),
      d.unvisited visited < fuel →
      (∀ q, p = some q → ∃ b, d.hashableBlockPtr q = some b) →
      ∃ e refs1 visited1,
        FSDevice.collectChainLoop d fuel p refs visited = some (e, refs1, visited1) ∧
        d.Pushed refs visited refs1 visited1 := by
  intro fuel
  induction fuel with
  | zero => intro p refs visited h _; omega
  | succ fuel ih =>
    intro p refs visited hf hp
    cases p with
    | none => exact ⟨_, _, _, rfl, FSDevice.Pushed.refl d refs visited⟩
    | some q =>
      obtain ⟨b, hb⟩ := hp q rfl
      obtain ⟨_, hbq, _⟩ := FSDevice.hashableBlockPtr_lt d q b hb
      by_cases hv : b.nr ∈ visited
      · refine ⟨ErrorCode.ERROR_FS_HAS_CYCLES, refs, visited, ?_,
          FSDevice.Pushed.refl d refs visited⟩
        simp only [FSDevice.collectChainLoop, hbq, hv, if_true]
      · have hdrop := FSDevice.unvisited_cons d visited q b hbq hv
        obtain ⟨e, refs1, visited1, g1, g2⟩ :=
          ih (d.getNextHashBlock b) (b.nr :: refs) (b.nr :: visited) (by omega)
            (fun q1 hq1 => FSDevice.getNextHashBlock_hashable d b q1 hq1)
        refine ⟨e, refs1, visited1, ?_, ?_⟩
        · simp only [FSDevice.collectChainLoop, hbq, hv, if_false]
          exact g1
        · refine FSDevice.Pushed.trans d refs visited (b.nr :: refs) (b.nr :: visited)
            refs1 visited1 ?_ g2
          refine ⟨[b.nr], rfl, List.nodup_singleton _, ?_, ?_, ?_, ?_, ?_⟩
          · intro v hm
            rw [List.mem_singleton.mp hm]
            exact hv
          · intro v hm
            rw [List.mem_singleton.mp hm]
            exact List.mem_cons_self _ _
          · exact fun v hm => List.mem_cons_of_mem _ hm
          · intro v hm
            rw [List.mem_singleton.mp hm]
            exact ⟨q, b, hb, rfl⟩
          · simpa using hdrop

theorem FSDevice.collectRefs_pushed (d : FSDevice) (nr : Nat) (result visited : List Nat) :
    ∃ e result1 visited1,
      d.collectRefsWithSameHashValue nr result visited = some (e, result1, visited1) ∧
      d.Pushed result visited result1 visited1 := by
  obtain ⟨e, refs1, visited1, g1, new, n1, n2, n3, n4, n5, n6, n7⟩ :=
    FSDevice.collectChainLoop_pushed d (d.numBlocks + 1)
      ((d.hashableBlockPtr nr).map fun _ => nr) [] visited
      (by have := FSDevice.unvisited_le d visited; omega)
      (by
        intro q hq
        cases hb : d.hashableBlockPtr nr with
        | none => simp [hb] at hq
        | some b =>
          simp only [hb, Option.map_some', Option.some.injEq] at hq
          subst hq
          exact ⟨b, hb⟩)
  unfold FSDevice.collectRefsWithSameHashValue
  simp only [g1]
  by_cases he : e = ErrorCode.ERROR_OK
  · subst he
    refine ⟨_, _, _, rfl, new.reverse, ?_, List.nodup_reverse.mpr n2, ?_, ?_, n5, ?_, ?_⟩
    · rw [n1, List.append_nil]
    · exact fun v hv => n3 v (List.mem_reverse.mp hv)
    · exact fun v hv => n4 v (List.mem_reverse.mp hv)
    · exact fun v hv => n6 v (List.mem_reverse.mp hv)
    · rw [List.length_reverse]
      exact n7
  · refine ⟨e, result, visited1, ?_, [], rfl, List.nodup_nil, (fun _ h => nomatch h),
      (fun _ h => nomatch h), n5, (fun _ h => nomatch h), ?_⟩
    · cases e <;> first | rfl | exact absurd rfl he
    · simp only [List.length_nil, Nat.add_zero]
      omega

theorem FSDevice.collectBuckets_pushed (d : FSDevice) (b : FSBlock) :
    ∀ (idx result visited : List Nat),
      ∃ result1 visited1,
        FSDevice.collectBuckets d b idx result visited = some (result1, visited1) ∧
        d.Pushed result visited result1 visited1 := by
  intro idx
  induction idx with
  | nil => intro result visited; exact ⟨_, _, rfl, FSDevice.Pushed.refl d result visited⟩
  | cons i rest ih =>
    intro result visited
    obtain ⟨e, r1, v1, g1, g2⟩ := FSDevice.collectRefs_pushed d (b.getHashRef i) result visited
    obtain ⟨r2, v2, k1, k2⟩ := ih r1 v1
    refine ⟨r2, v2, ?_, FSDevice.Pushed.trans d _ _ _ _ _ _ g2 k2⟩
    simp only [FSDevice.collectBuckets, g1]
    exact k1

theorem FSDevice.collectHashedRefs_pushed (d : FSDevice) (nr : Nat)
    (result visited : List Nat) :
    ∃ result1 visited1,
      d.collectHashedRefs nr result visited = some (ErrorCode.ERROR_OK, result1, visited1) ∧
      d.Pushed result visited result1 visited1 := by
  unfold FSDevice.collectHashedRefs
  cases d.blockPtr nr with
  | none => exact ⟨_, _, rfl, FSDevice.Pushed.refl d result visited⟩
  | some b =>
    obtain ⟨r1, v1, g1, g2⟩ := FSDevice.collectBuckets_pushed d b
      (List.range (b.hashTableSize + 1)).reverse result visited
    refine ⟨r1, v1, ?_, g2⟩
    simp only [g1, Option.map_some']

/-- The loop of `collect` returns within `remaining + unvisited + 1` iterations and
appends pairwise distinct numbers of hashable blocks. -/
theorem FSDevice.collectLoop_total (d : FSDevice) (recursive : Bool) :
    ∀ (fuel : Nat) (remaining visited acc out : List Nat),
      remaining.length + d.unvisited visited < fuel →
      out.Nodup → remaining.Nodup → (∀ v ∈ out, v ∉ remaining) →
      (∀ v ∈ out, v ∈ visited) → (∀ v ∈ remaining, v ∈ visited) →
      (∀ v ∈ out, d.IsHashable v) → (∀ v ∈ remaining, d.IsHashable v) →
      out.length + remaining.length + d.unvisited visited ≤ d.numBlocks →
      ∃ rest, FSDevice.collectLoop d recursive fuel remaining visited acc =
          some (acc ++ rest) ∧
        (out ++ rest).Nodup ∧ (∀ v ∈ out ++ rest, d.IsHashable v) ∧
        (out ++ rest).length ≤ d.numBlocks := by
  intro fuel
  induction fuel with
  | zero => intro remaining visited acc out hf; omega
  | succ fuel ih =>
    intro remaining visited acc out hf ho hr hd hov hrv hoh hrh hlen
    cases remaining with
    | nil =>
      refine ⟨[], by simp [FSDevice.collectLoop], ?_, ?_, ?_⟩
      · rw [List.append_nil]; exact ho
      · rw [List.append_nil]; exact hoh
      · rw [List.append_nil]
        simp only [List.length_nil] at hlen
        omega
    | cons item rem =>
      have hr2 := List.nodup_cons.mp hr
      have hitem_out : item ∉ out := fun h => hd item h (List.mem_cons_self _ _)
      have ho2 : (out ++ [item]).Nodup := by
        rw [List.nodup_append]
        refine ⟨ho, List.nodup_singleton _, ?_⟩
        intro q hq1 hq2
        rw [List.mem_singleton.mp hq2] at hq1
        exact hitem_out hq1
      have hstep : ∀ (rem1 visited1 : List Nat), d.Pushed rem visited rem1 visited1 →
          ∃ rest, FSDevice.collectLoop d recursive fuel rem1 visited1 (acc ++ [item]) =
              some (acc ++ [item] ++ rest) ∧
            (out ++ [item] ++ rest).Nodup ∧ (∀ v ∈ out ++ [item] ++ rest, d.IsHashable v) ∧
            (out ++ [item] ++ rest).length ≤ d.numBlocks := by
        intro rem1 visited1 hpush
        obtain ⟨new, n1, n2, n3, n4, n5, n6, n7⟩ := hpush
        subst n1
        simp only [List.length_cons] at hf hlen
        apply ih (new ++ rem) visited1 (acc ++ [item]) (out ++ [item])
        · rw [List.length_append]; omega
        · exact ho2
        · rw [List.nodup_append]
          exact ⟨n2, hr2.2, fun q hq1 hq2 =>
            n3 q hq1 (hrv q (List.mem_cons_of_mem _ hq2))⟩
        · intro q hq hq2
          rcases List.mem_append.mp hq with h | h
          · rcases List.mem_append.mp hq2 with h2 | h2
            · exact n3 q h2 (hov q h)
            · exact hd q h (List.mem_cons_of_mem _ h2)
          · rw [List.mem_singleton.mp h] at hq2
            rcases List.mem_append.mp hq2 with h2 | h2
            · exact n3 item h2 (hrv item (List.mem_cons_self _ _))
            · exact hr2.1 h2
        · intro q hq
          rcases List.mem_append.mp hq with h | h
          · exact n5 q (hov q h)
          · rw [List.mem_singleton.mp h]
            exact n5 item (hrv item (List.mem_cons_self _ _))
        · intro q hq
          rcases List.mem_append.mp hq with h | h
          · exact n4 q h
          · exact n5 q (hrv q (List.mem_cons_of_mem _ h))
        · intro q hq
          rcases List.mem_append.mp hq with h | h
          · exact hoh q h
          · rw [List.mem_singleton.mp h]
            exact hrh item (List.mem_cons_self _ _)
        · intro q hq
          rcases List.mem_append.mp hq with h | h
          · exact n6 q h
          · exact hrh q (List.mem_cons_of_mem _ h)
        · simp only [List.length_append, List.length_singleton]
          omega
      have hfin : ∀ rest,
          FSDevice.collectLoop d recursive (fuel + 1) (item :: rem) visited acc =
            some (acc ++ [item] ++ rest) →
          (out ++ [item] ++ rest).Nodup → (∀ v ∈ out ++ [item] ++ rest, d.IsHashable v) →
          (out ++ [item] ++ rest).length ≤ d.numBlocks →
          ∃ rest, FSDevice.collectLoop d recursive (fuel + 1) (item :: rem) visited acc =
              some (acc ++ rest) ∧
            (out ++ rest).Nodup ∧ (∀ v ∈ out ++ rest, d.IsHashable v) ∧
            (out ++ rest).length ≤ d.numBlocks := by
        intro rest h1 h2 h3 h4
        refine ⟨item :: rest, ?_, ?_, ?_, ?_⟩
        · rw [h1]; simp
        · simpa using h2
        · simpa using h3
        · simpa using h4
      by_cases hc : (d.userDirBlockPtr item).isSome ∧ recursive
      · obtain ⟨rem1, visited1, g1, g2⟩ := FSDevice.collectHashedRefs_pushed d item rem visited
        obtain ⟨rest, k1, k2, k3, k4⟩ := hstep rem1 visited1 g2
        apply hfin rest _ k2 k3 k4
        simp only [FSDevice.collectLoop]
        rw [if_pos hc]
        simp only [g1]
        exact k1
      · obtain ⟨rest, k1, k2, k3, k4⟩ := hstep rem visited (FSDevice.Pushed.refl d rem visited)
        apply hfin rest _ k2 k3 k4
        simp only [FSDevice.collectLoop]
        rw [if_neg hc]
        exact k1

/-- Claim C39: `collect` returns for every device content, every start block and both
values of the recursive flag (no assumption on the hash chains or on the directories'
references), the returned code being `ERROR_OK`; the numbers it appends to the result
vector are pairwise distinct, each is the number of a hashable (user directory or file
header) block, and there are at most `numBlocks` of them.  When every block carries its
own position as its number, every appended number points to a hashable block. -/
theorem collect_terminates_without_duplicates (d : FSDevice) (nr : Nat) (result : List Nat)
    (recursive : Bool) :
    ∃ appended, d.collect nr result recursive = some (ErrorCode.ERROR_OK, result ++ appended) ∧
      appended.Nodup ∧
      (∀ v ∈ appended, ∃ p b, d.hashableBlockPtr p = some b ∧ b.nr = v ∧
        (b.type = FSBlockType.FS_USERDIR_BLOCK ∨ b.type = FSBlockType.FS_FILEHEADER_BLOCK)) ∧
      appended.length ≤ d.numBlocks ∧
      (d.NumbersOK → ∀ v ∈ appended, (d.hashableBlockPtr v).isSome = true) := by
  obtain ⟨rem, visited, g1, new, n1, n2, n3, n4, n5, n6, n7⟩ :=
    FSDevice.collectHashedRefs_pushed d nr [] []
  rw [List.append_nil] at n1
  subst n1
  have hall : d.unvisited [] = d.numBlocks := by
    unfold FSDevice.unvisited FSDevice.numBlocks
    rw [List.countP_eq_length]
    intro b _
    simp
  rw [hall] at n7
  obtain ⟨rest, k1, k2, k3, k4⟩ :=
    FSDevice.collectLoop_total d recursive (d.numBlocks + 1) rem visited result []
      (by omega) List.nodup_nil n2 (fun _ h => nomatch h) (fun _ h => nomatch h) n4
      (fun _ h => nomatch h) n6 (by simp only [List.length_nil]; omega)
  rw [List.nil_append] at k2 k3 k4
  have hh : ∀ v ∈ rest, ∃ p b, d.hashableBlockPtr p = some b ∧ b.nr = v ∧
      (b.type = FSBlockType.FS_USERDIR_BLOCK ∨ b.type = FSBlockType.FS_FILEHEADER_BLOCK) := by
    intro v hv
    obtain ⟨p, b, hb, hn⟩ := k3 v hv
    exact ⟨p, b, hb, hn, (FSDevice.hashableBlockPtr_lt d p b hb).2.2⟩
  refine ⟨rest, ?_, k2, hh, k4, ?_⟩
  · unfold FSDevice.collect
    simp only [g1, k1, Option.map_some']
  · intro hwf v hv
    obtain ⟨p, b, hb, hn, _⟩ := hh v hv
    have := hwf p b (FSDevice.hashableBlockPtr_lt d p b hb).2.1
    rw [← hn, this, hb]
    rfl

/-! ## Instances of the theorems at concrete inputs -/

theorem interruptLevel_priority_witness :
    interruptLevel 0b0000000000000100 0b0100000000000100 = 1 ∧
    interruptLevel 0b0010000000000000 0b0110000000000000 = 6 :=
  ⟨(interruptLevel_priority 0 0b0100000000000100).2.2.2.1 (by decide) (by decide),
   (interruptLevel_priority 0b0010000000000000 0b0110000000000000).2.2.2.2
     (by decide) (by decide) (by decide)⟩

theorem TOD_increment_ripple_witness :
    (runningTOD ⟨0, 255, 255⟩ ⟨1, 0, 0⟩).tod.wf ∧
    (runningTOD ⟨0, 255, 255⟩ ⟨1, 0, 0⟩).increment.tod.value =
      ((runningTOD ⟨0, 255, 255⟩ ⟨1, 0, 0⟩).tod.value + 1) % 2 ^ 24 :=
  ⟨by decide,
   ((TOD_increment_ripple (runningTOD ⟨0, 255, 255⟩ ⟨1, 0, 0⟩) (by decide)).2.1 rfl).1⟩

theorem TOD_increment_period_witness :
    (runningTOD ⟨0, 0, 0⟩ ⟨0, 0, 5⟩).stopped = false ∧
    (runningTOD ⟨0, 0, 0⟩ ⟨0, 0, 5⟩).tod = ⟨0, 0, 0⟩ ∧
    (TOD.increment^[256 * 256 * 256] (runningTOD ⟨0, 0, 0⟩ ⟨0, 0, 5⟩)).tod = ⟨0, 0, 0⟩ :=
  ⟨rfl, rfl, (TOD_increment_period (runningTOD ⟨0, 0, 0⟩ ⟨0, 0, 5⟩) rfl rfl).1⟩

theorem TOD_alarm_edge_triggered_witness :
    (runningTOD ⟨0, 0, 0⟩ ⟨0, 0, 5⟩).stopped = false ∧
    (TOD.increment^[2 ^ 24] (runningTOD ⟨0, 0, 0⟩ ⟨0, 0, 5⟩)).cia.todInterrupts =
      (runningTOD ⟨0, 0, 0⟩ ⟨0, 0, 5⟩).cia.todInterrupts + 1 :=
  ⟨rfl, (TOD_alarm_edge_triggered (runningTOD ⟨0, 0, 0⟩ ⟨0, 0, 5⟩) rfl).2.2
    (by decide) (by decide) (by decide)⟩

theorem TOD_matching_updated_when_running_witness :
    (runningTOD ⟨0, 0, 4⟩ ⟨0, 0, 5⟩).stopped = false ∧
    (runningTOD ⟨0, 0, 4⟩ ⟨0, 0, 5⟩).increment.matching = true :=
  ⟨rfl, (TOD_matching_updated_when_running (runningTOD ⟨0, 0, 4⟩ ⟨0, 0, 5⟩) rfl).trans
    (by decide)⟩

theorem execute_returns_data_times_volume_latch_witness :
    (playingChannel 64).state = 2 ∧
    ∃ a1 sm1 r, (playingChannel 64).execute exampleExternal exampleAmiga 1 = some (a1, sm1, r) ∧
      r = toInt8 sm1.auddat * 64 ∧ -8192 ≤ r ∧ r ≤ 8128 := by
  refine ⟨rfl, ?_⟩
  obtain ⟨a1, sm1, r, h, _, _, _, h5⟩ :=
    execute_returns_data_times_volume_latch exampleExternal exampleAmiga (playingChannel 64) 1
      (Or.inr (Or.inr (Or.inl rfl)))
  exact ⟨a1, sm1, r, h, h5 ⟨playingChannel 0, 64, by decide⟩⟩

theorem emissions_before_first_reload_witness :
    (∀ ag n, exampleExternal.audDMA ag n = true) ∧ (idleChannel 5).state = 0 ∧
    StateMachine.emissionsUntilReload exampleExternal
      (List.replicate (3 + 2 * (5 - 2)) ((0 : Int) + 1)) exampleAmiga (idleChannel 5)
        = some (5 - 2) :=
  ⟨fun _ _ => rfl, rfl,
   (emissions_before_first_reload exampleExternal (fun _ _ => rfl) exampleAmiga
     (idleChannel 5) rfl).2.2⟩

theorem setINTREQ_forces_pins_witness :
    (0b1000 : Nat) < 65536 ∧ (0b1000 : Nat) &&& 0x8000 = 0 ∧
    exampleAmigaPinsLow.paula.intreq < 65536 ∧
    ∃ a1, exampleAmigaPinsLow.setINTREQ exampleExternal false 0b1000 = some a1 ∧
      a1.paula.intreq.testBit 3 = true ∧ a1.paula.intreq.testBit 13 = true := by
  refine ⟨by decide, by decide, by decide, ?_⟩
  obtain ⟨a1, h, _, _, _, _, h3, h13⟩ :=
    setINTREQ_forces_pins exampleExternal exampleAmigaPinsLow false 0b1000
      (by decide) (by decide) (by decide)
  exact ⟨a1, h, h3 rfl, h13 rfl⟩

theorem setINT_schedules_IPL_change_witness :
    u16 0b0100000000000100 &&& 0x8000 = 0 ∧
    ∃ a1, exampleAmiga.setINTENA exampleExternal true 0b0100000000000100 = some a1 ∧
      (a1.agnus.slot EventSlot.IPL_SLOT).triggerCycle = 32 ∧
      (a1.agnus.slot EventSlot.IPL_SLOT).id = EventID.IPL_CHANGE ∧
      a1.cpuIPL = 0 := by
  refine ⟨by decide, ?_⟩
  obtain ⟨_, a1, h, hs, _, hc⟩ :=
    setINT_schedules_IPL_change exampleExternal exampleAmiga true 0b0100000000000100
      (by decide)
  refine ⟨a1, h, ?_, ?_, hc⟩
  · rw [hs]; rfl
  · rw [hs]

theorem collidingDevice_numbersOK : collidingDevice.NumbersOK :=
  FSDevice.numbersOK_of_range collidingDevice (by decide)

theorem addHashRef_appends_to_tail_witness :
    ∃ d1 d2 d3 cdb3, collidingDevice.addHashRef 2 = some d1 ∧ d1.addHashRef 3 = some d2 ∧
      d2.addHashRef 4 = some d3 ∧ d3.cd = collidingDevice.cd ∧
      d3.blocks[collidingDevice.cd]? = some cdb3 ∧ cdb3.getHashRef 1 = 2 ∧
      d3.IsChain (d3.hashablePtr (cdb3.getHashRef 1)) [2, 3, 4] :=
  (addHashRef_appends_to_tail collidingDevice collidingDevice_numbersOK (emptyRoot 1) rfl
    (Or.inl rfl) (by decide)).2 2 3 4 1
    (plainBlock 2 FSBlockType.FS_FILEHEADER_BLOCK 10 1)
    (plainBlock 3 FSBlockType.FS_FILEHEADER_BLOCK 11 4)
    (plainBlock 4 FSBlockType.FS_FILEHEADER_BLOCK 12 7)
    rfl rfl rfl rfl rfl rfl rfl rfl rfl rfl
    (by decide) (by decide) (by decide) (by decide) (by decide) (by decide)
    (by decide) (by decide) (by decide)

theorem chainedDevice_numbersOK : chainedDevice.NumbersOK :=
  FSDevice.numbersOK_of_range chainedDevice (by decide)

theorem chainedDevice_chains (i : Nat) (hi : i < 3) :
    chainedDevice.IsChain (chainedDevice.hashablePtr ((rootWith 1 2 0 3).getHashRef i))
      ((fun i => if i = 0 then [2, 4] else if i = 2 then [3] else []) i) := by
  interval_cases i
  · exact FSDevice.IsChain.cons 2 (chainedBlock 2 4) [4] rfl
      (FSDevice.IsChain.cons 4 (chainedBlock 4 0) [] rfl FSDevice.IsChain.nil)
  · exact FSDevice.IsChain.nil
  · exact FSDevice.IsChain.cons 3 (chainedBlock 3 0) [] rfl FSDevice.IsChain.nil

theorem serviceIrqEvent_dispatch_witness :
    ∃ a1, irqPendingAmiga.serviceIrqEvent exampleExternal = some a1 ∧
      a1.paula.intreq.testBit 0 = true ∧ a1.paula.setIntreq 0 = NEVER ∧
      a1.paula.setIntreq 1 = irqPendingAmiga.paula.setIntreq 1 ∧
      (a1.agnus.slot EventSlot.IRQ_SLOT).id = EventID.IRQ_CHECK := by
  obtain ⟨a1, h, hdue, hnot, hid, _⟩ :=
    serviceIrqEvent_dispatch exampleExternal irqPendingAmiga rfl (by decide)
  exact ⟨a1, h, (hdue 0 (by decide) (by decide)).1, (hdue 0 (by decide) (by decide)).2,
    (hnot 1 (by decide) (by decide)).1, hid⟩

theorem seekRef_finds_first_match_witness :
    ∃ r, chainedDevice.seekRef (FSName.mk 4 0) = some (chainedDevice, r) := by
  obtain ⟨r, h, _⟩ := seekRef_finds_first_match chainedDevice (FSName.mk 4 0) chainedDevice
    (some (rootWith 1 2 0 3)) rfl
  exact ⟨r, h⟩

theorem collect_forward_table_order_witness :
    chainedDevice.collect 1 [] false = some (ErrorCode.ERROR_OK, [2, 4, 3]) :=
  collect_forward_table_order chainedDevice chainedDevice_numbersOK 1 (rootWith 1 2 0 3) rfl
    (fun i => if i = 0 then [2, 4] else if i = 2 then [3] else []) chainedDevice_chains rfl
    (by decide) []

theorem check_counts_corrupted_blocks_witness :
    ((twoBlockDevice [] [7, 7]).check exampleFS true).1.corruptedBlocks = 1 :=
  (check_counts_corrupted_blocks exampleFS (twoBlockDevice [] [7, 7]) true (by decide)).1

theorem importVolume_validates_first_witness :
    (twoBlockDevice [] []).importVolume exampleFS [1, 2, 3] 3 =
      (false, some ErrorCode.ERROR_FS_WRONG_BSIZE, twoBlockDevice [] []) :=
  (importVolume_validates_first exampleFS (twoBlockDevice [] []) [1, 2, 3] 3 (by decide)).1
    (by decide)

theorem cancellingHandler_contract : Agnus.HandlerContract cancellingHandler 50 := by
  intro s ag _
  constructor
  · simp only [cancellingHandler, Agnus.cancel, Function.update_same]
    unfold NEVER
    norm_num
  · intro s1 hs1
    left
    simp [cancellingHandler, Agnus.cancel, Function.update_noteq hs1]

theorem SortedRingBuffer_insert_keeps_sorted_witness :
    ∃ b1, wrappedSorted.insert 20 200 = some b1 ∧ b1.r = wrappedSorted.r ∧
      b1.count = wrappedSorted.count + 1 ∧
      (b1.entries.map Prod.fst).Pairwise (fun x y => x ≤ y) := by
  obtain ⟨b1, _, _, h1, h2, _, _, _, h6, _, _, _, _, h11, _⟩ :=
    SortedRingBuffer_insert_keeps_sorted wrappedSorted 20 200 ⟨by decide, by decide⟩
      (by decide) (by decide)
  exact ⟨b1, h1, h2, h6, h11⟩

theorem RingBuffer_is_bounded_fifo_witness :
    ((emptyRing 3).clear.run [RingOp.write 5, RingOp.write 6, RingOp.read]).map
        (fun p => (p.1, p.2.contents)) =
      fifoRun (3 - 1) [RingOp.write 5, RingOp.write 6, RingOp.read] [] :=
  (RingBuffer_is_bounded_fifo (emptyRing 3) (by decide)
    [RingOp.write 5, RingOp.write 6, RingOp.read]).1

theorem execute_state1_step_witness :
    ∃ a1 sm1 r, armedChannel.execute exampleExternal exampleAmiga 1 = some (a1, sm1, r) ∧
      sm1.audlen = 3 ∧ sm1.state = 5 ∧ a1.paula.intreq.testBit 7 = true := by
  obtain ⟨a1, sm1, r, h1, h2, _, _, _, h6, h7, _⟩ :=
    execute_state1_step exampleExternal exampleAmiga armedChannel 1 rfl (by decide)
  exact ⟨a1, sm1, r, h1, h2 (by decide), h7, h6⟩

theorem execute_state5_step_witness :
    ∃ a1 sm1 r, fetchingChannel.execute exampleExternal exampleAmiga 1 = some (a1, sm1, r) ∧
      sm1.audvol = 64 ∧ sm1.audper = 0 ∧ sm1.state = 2 ∧ sm1.audlen = 3 := by
  obtain ⟨a1, sm1, r, h1, h2, h3, _, h5, h6, _⟩ :=
    execute_state5_step exampleExternal exampleAmiga fetchingChannel 1 rfl (by decide)
  exact ⟨a1, sm1, r, h1, h2, h3, h5, (h6 (by decide)).1⟩

theorem execute_state5_keeps_auddat_witness :
    ∃ a1 sm1 r, fetchingChannel.execute exampleExternal exampleAmiga 1 = some (a1, sm1, r) ∧
      sm1.auddat = fetchingChannel.auddat ∧ sm1.state = 2 := by
  obtain ⟨a1, sm1, r, h1, h2, _, h4, _⟩ :=
    execute_state5_keeps_auddat exampleExternal exampleAmiga fetchingChannel 1 rfl
  exact ⟨a1, sm1, r, h1, h2, h4⟩

theorem execute_state2_step_witness :
    (playingChannel 64).state = 2 ∧
    ∃ sm1 r, (playingChannel 64).execute exampleExternal exampleAmiga 60 =
        some (exampleAmiga, sm1, r) ∧
      (0 ≤ (playingChannel 64).audper - 60 →
        sm1 = { playingChannel 64 with audper := (playingChannel 64).audper - 60 } ∧
        sm1.state = 2) ∧
      ((playingChannel 64).audper - 60 < 0 →
        sm1.audper = (playingChannel 64).audper - 60 + (playingChannel 64).audperLatch ∧
        sm1.audvol = (playingChannel 64).audvolLatch ∧
        sm1.auddat = HI_BYTE (playingChannel 64).auddatLatch ∧ sm1.state = 3) ∧
      sm1.audlen = (playingChannel 64).audlen ∧
      sm1.audlenLatch = (playingChannel 64).audlenLatch ∧
      sm1.audperLatch = (playingChannel 64).audperLatch ∧
      sm1.audvolLatch = (playingChannel 64).audvolLatch ∧
      sm1.auddatLatch = (playingChannel 64).auddatLatch ∧
      sm1.audlcLatch = (playingChannel 64).audlcLatch ∧ sm1.nr = (playingChannel 64).nr :=
  ⟨rfl, execute_state2_step exampleExternal exampleAmiga (playingChannel 64) 60 rfl⟩

theorem execute_state3_dma_step_witness :
    lowByteChannel.state = 3 ∧ lowByteChannel.nr < 4 ∧
    ¬ lowByteChannel.audper - 1 > 1 ∧
    ∃ a1 sm1 r, lowByteChannel.execute exampleExternal exampleAmiga 1 = some (a1, sm1, r) ∧
      sm1.audper = 100 ∧ sm1.auddat = 0x80 ∧ sm1.auddatLatch = 0 ∧ sm1.state = 2 ∧
      sm1.audlen = 3 ∧ a1.paula = exampleAmiga.paula := by
  have hw : ¬ lowByteChannel.audper - 1 > 1 := by decide
  obtain ⟨a1, sm1, r, h1, h2, h3, h4, h5, h6, _⟩ :=
    (execute_state3_dma_step exampleExternal exampleAmiga lowByteChannel 1 rfl
      (by decide)).2 hw rfl
  obtain ⟨g1, g2, _⟩ := h6 (by decide)
  exact ⟨rfl, by decide, hw, a1, sm1, r, h1, h2, h3, h4, h5, g1, g2⟩

theorem bit15_stays_clear_witness :
    irqScheduledAmiga.paula.intreq.testBit 15 = false ∧
    irqScheduledAmiga.paula.intena.testBit 15 = false ∧
    ∃ a1, Amiga.applyIrqOps exampleExternal
        [IrqOp.setINTREQ true 0x0010, IrqOp.raiseIrq 14, IrqOp.serviceIrqEvent,
          IrqOp.setINTENA true 0x4000, IrqOp.setINTREQ false 0x0010] irqScheduledAmiga =
        some a1 ∧
      a1.paula.intreq.testBit 15 = false ∧ a1.paula.intena.testBit 15 = false ∧
      a1.paula.setIntreq 15 = NEVER ∧ a1.agnus.clock = irqScheduledAmiga.agnus.clock :=
  ⟨by decide, by decide,
    bit15_stays_clear exampleExternal
      [IrqOp.setINTREQ true 0x0010, IrqOp.raiseIrq 14, IrqOp.serviceIrqEvent,
        IrqOp.setINTENA true 0x4000, IrqOp.setINTREQ false 0x0010] irqScheduledAmiga
      (by decide) (by decide) (by decide) rfl (by decide) (fun _ => rfl)⟩

theorem serviceIplEvent_applies_last_level_witness :
    ∃ a0 a1, Amiga.applyIrqOps exampleExternal
        [IrqOp.setINTENA true 0x4008, IrqOp.setINTREQ true 0x0008] exampleAmiga = some a0 ∧
      a0.applyIrqOp exampleExternal (IrqOp.setINTREQ true 0x0800) = some a1 ∧
      a1.agnus.slot EventSlot.IPL_SLOT =
        ⟨exampleAmiga.agnus.clock + exampleExternal.DMA_CYCLES 4, EventID.IPL_CHANGE,
          interruptLevel a1.paula.intreq a1.paula.intena⟩ ∧
      ∃ a2, a1.serviceIplEvent = some a2 ∧
        a2.cpuIPL = interruptLevel a1.paula.intreq a1.paula.intena ∧
        (a2.agnus.slot EventSlot.IPL_SLOT).triggerCycle = NEVER := by
  obtain ⟨a0, a1, h1, h2, _, h4, _, _, a2, h7, h8, h9, _⟩ :=
    (serviceIplEvent_applies_last_level exampleExternal exampleAmiga
      [IrqOp.setINTENA true 0x4008, IrqOp.setINTREQ true 0x0008]
      (IrqOp.setINTREQ true 0x0800) (by decide)).2
  exact ⟨a0, a1, h1, h2, h4, a2, h7, h8, h9⟩

theorem irqSlot_tracks_earliest_request_witness :
    irqScheduledAmiga.IrqSlotMin ∧
    (irqScheduledAmiga.agnus.slot EventSlot.IRQ_SLOT).id = EventID.IRQ_CHECK ∧
    (∃ a1, irqScheduledAmiga.scheduleIrqAbs exampleIsIrqSource 3 20 = some a1 ∧
      a1.IrqSlotMin ∧ a1.paula.setIntreq 3 = min (irqScheduledAmiga.paula.setIntreq 3) 20) ∧
    (∃ a1, irqScheduledAmiga.scheduleIrqRel exampleIsIrqSource 3 20 = some a1 ∧
      a1.IrqSlotMin) ∧
    (∃ a1, irqScheduledAmiga.serviceIrqEvent exampleExternal = some a1 ∧ a1.IrqSlotMin) := by
  have hinv : irqScheduledAmiga.IrqSlotMin :=
    ⟨by decide, by decide, Or.inr ⟨5, by decide, by decide⟩⟩
  obtain ⟨_, h2, h3, h4⟩ :=
    irqSlot_tracks_earliest_request exampleIsIrqSource exampleExternal irqScheduledAmiga
      hinv rfl
  obtain ⟨a1, g1, g2, g3, _⟩ := h2 3 20 rfl (by decide) (by decide)
  obtain ⟨b1, k1, k2, _⟩ := h3 3 20 rfl (by decide) (by decide) (by decide)
  obtain ⟨c1, m1, m2, _⟩ := h4 (by decide)
  exact ⟨hinv, rfl, ⟨a1, g1, g2, g3⟩, ⟨b1, k1, k2⟩, ⟨c1, m1, m2⟩⟩

end VAmiga
